import Mathlib

/-!
# BLox / ijo single-pass compiler (ijolib/src/ijoCompiler.c)

A shallow embedding of the Pratt-parsing bytecode compiler.  The scanner is
represented by the token sequence it yields; the C functions become
state-passing functions over `Ctx`.  Every function on a recursive cycle, and
every loop the C code does not bound, takes a fuel argument: it stops with
`Fault.OutOfFuel` at fuel 0 and hands `fuel - 1` to what it calls, so a run
that returns for some fuel is a run of the C code that returns, and a run that
returns for no fuel is one that does not terminate.  Reads outside an array
and calls through a null handler stop the run with their own fault.
-/

namespace BLox

/-! ## Data model -/

/-- Token kinds used by the compiler and its rule table (the `TokType` enum). -/
inductive TokType
  | TOKEN_COMMA | TOKEN_DOT | TOKEN_LEFT_BRACE | TOKEN_LEFT_PAREN | TOKEN_MINUS
  | TOKEN_PLUS | TOKEN_RIGHT_BRACE | TOKEN_RIGHT_PAREN | TOKEN_SEMICOLON
  | TOKEN_SLASH | TOKEN_STAR | TOKEN_PERCENT
  | TOKEN_BANG | TOKEN_BANG_EQUAL | TOKEN_EQUAL | TOKEN_EQUAL_EQUAL
  | TOKEN_GREATER | TOKEN_GREATER_EQUAL | TOKEN_LESS | TOKEN_LESS_EQUAL
  | TOKEN_IDENTIFIER | TOKEN_NUMBER | TOKEN_STRING
  | TOKEN_AND | TOKEN_ARRAY | TOKEN_ASSERT | TOKEN_STRUCT | TOKEN_ELSE
  | TOKEN_ENUM | TOKEN_FALSE | TOKEN_FOR | TOKEN_FUNC | TOKEN_IF | TOKEN_MAP
  | TOKEN_MODULE | TOKEN_NIL | TOKEN_OR | TOKEN_PRINT | TOKEN_PRINTLN
  | TOKEN_RETURN | TOKEN_SUPER | TOKEN_THIS | TOKEN_TRUE | TOKEN_VAR
  | TOKEN_CONST | TOKEN_WHILE
  | TOKEN_ERROR | TOKEN_EOL | TOKEN_EOF
  deriving DecidableEq, Repr

/-- Token: kind, source span (`start`/`length`, kept as the lexeme text), line,
and the optional identifier sub-span (`identifierStart`/`identifierLength`). -/
structure Token where
  type : TokType
  lexeme : String
  line : Nat
  identifier : String
  deriving DecidableEq, Repr

/-- Heap string object `ijoString`; `addr` stands for the pointer identity. -/
structure ijoString where
  addr : Nat
  chars : String
  deriving DecidableEq, Repr

/-- Tagged values.  `NUMBER_VAL` keeps the literal text that `strtod` is applied
to (the floating value itself is not interpreted). -/
inductive Value
  | NUMBER_VAL (text : String)
  | OBJ_VAL (obj : ijoString)
  | INTERNAL_STR (str : ijoString)
  | NOOP_VAL
  deriving DecidableEq, Repr

/-- Modelled from the spec: the `IS_OBJ` macro (value header, not in the
sources); true for the heap-allocated values. -/
def IS_OBJ : Value → Bool
  | .OBJ_VAL _ => true
  | .INTERNAL_STR _ => true
  | _ => false

/-- Operation codes emitted by the compiler. -/
inductive OpCode
  | OP_CONSTANT | OP_ADD | OP_SUB | OP_DIV | OP_MUL | OP_MOD
  | OP_NEQ | OP_EQ | OP_GT | OP_GE | OP_LT | OP_LE
  | OP_NOT | OP_NEG | OP_TRUE | OP_FALSE | OP_POP
  | OP_PRINT | OP_PRINTLN | OP_GET_LOCAL | OP_SET_LOCAL | OP_RETURN
  deriving DecidableEq, Repr

/-- One bytecode word (`uint32_t` in C): an opcode, or the operand word that
follows a two-word instruction. -/
inductive Word
  | op (code : OpCode)
  | operand (n : Nat)
  deriving DecidableEq, Repr

/-- Modelled from the spec: the `Chunk` storage (chunk header and
implementation are not in the sources): an ordered sequence of bytecode words
with their lines, and the parallel constant pool. -/
structure Chunk where
  code : List Word
  lines : List Nat
  constants : List Value
  deriving DecidableEq, Repr

/-- Modelled from the spec: `ChunkNew` yields an empty chunk. -/
def ChunkNew : Chunk := { code := [], lines := [], constants := [] }

/-- Modelled from the spec: `ChunkWriteCode` appends one word. -/
def ChunkWriteCode (chunk : Chunk) (word : Word) (line : Nat) : Chunk :=
  { chunk with code := chunk.code ++ [word], lines := chunk.lines ++ [line] }

/-- Modelled from the spec: `ChunkAddConstant` appends the value to the pool
and returns its index. -/
def ChunkAddConstant (chunk : Chunk) (value : Value) : Nat × Chunk :=
  (chunk.constants.length, { chunk with constants := chunk.constants ++ [value] })

/-- One table entry: key string object and stored value. -/
structure Entry where
  key : ijoString
  value : Value
  deriving DecidableEq, Repr

/-- Modelled from the spec: the intern/global table (table implementation is
not in the sources): string deduplication by content, reused as the mapping
from a global constant name to its value. -/
structure Table where
  entries : List Entry
  deriving DecidableEq, Repr

/-- Modelled from the spec: `TableFindString`, lookup by content; yields the
stored key object. -/
def TableFindString (table : Table) (chars : String) : Option ijoString :=
  (table.entries.find? (fun e => e.key.chars == chars)).map (fun e => e.key)

/-- Modelled from the spec: `TableFindInternalEntry`, raw entry lookup by key
(by name). -/
def TableFindInternalEntry (table : Table) (key : ijoString) : Option Entry :=
  table.entries.find? (fun e => e.key.chars == key.chars)

/-- Modelled from the spec: `TableInsert`, insert by name; an existing entry of
that name has its value replaced, otherwise a new entry is added. -/
def TableInsert (table : Table) (key : ijoString) (value : Value) : Table :=
  if table.entries.any (fun e => e.key.chars == key.chars) then
    { entries := table.entries.map
        (fun e => if e.key.chars == key.chars then { e with value := value } else e) }
  else
    { entries := table.entries ++ [{ key := key, value := value }] }

/-- Modelled from the spec: `TableInsertInternal`, the same insert by name. -/
def TableInsertInternal (table : Table) (key : ijoString) (value : Value) : Table :=
  TableInsert table key value

/-- Local variable slot: name token, depth (`-1` = declared, not yet
initialised), constant flag. -/
structure Local where
  name : Token
  depth : Int
  constant : Bool
  deriving DecidableEq, Repr

/-- Scope tracker.  `locals` holds the slots `0 .. localCount-1` of the C array
(slots past `localCount` are always rewritten by `addLocal` before being
read), so `localCount` is the length of the list. -/
structure Compiler where
  locals : List Local
  scopeDepth : Int
  deriving DecidableEq, Repr

/-- Number of live local slots (`compiler->localCount`). -/
def Compiler.localCount (compiler : Compiler) : Nat := compiler.locals.length

/-- Modelled from the spec: capacity of the 8-bit-indexed locals array. -/
def UINT8_COUNT : Nat := 256

/-- Largest `uint32_t`. -/
def UINT32_MAX : Nat := 4294967295

/-- Parser state; `scanner` is the sequence of tokens the scanner has yet to
yield. -/
structure Parser where
  current : Token
  previous : Token
  hadError : Bool
  panicMode : Bool
  precedence : Nat
  scanner : List Token
  deriving DecidableEq, Repr

/-- Argument of a console format string. -/
inductive Arg
  | str (s : String)
  | int (n : Nat)
  deriving DecidableEq, Repr

/-- One call of the logging / console interface. -/
inductive Output
  | LogError (fmt : String) (args : List Arg)
  | ConsoleWrite (fmt : String) (args : List Arg)
  deriving DecidableEq, Repr

/-- Everything a compiler routine can touch: its four pointer arguments
(`parser`, `compiler`, `chunk`, `interned`) and the process-wide state (the
collector root list `gc`, the heap allocator, the console). -/
structure Ctx where
  parser : Parser
  compiler : Compiler
  chunk : Chunk
  interned : Table
  gc : List Value
  heapTop : Nat
  console : List Output
  deriving DecidableEq, Repr

/-- Ways a run of the model stops without returning. -/
inductive Fault
  | OutOfFuel
  | OutOfBounds
  | NullCall
  deriving DecidableEq, Repr

/-- Outcome of a routine that may not return. -/
inductive Result (α : Type) where
  | ok (val : α)
  | fault (f : Fault)
  deriving DecidableEq, Repr

/-! ## Console, heap and collector interface -/

/-- Record one `LogError` call on the console. -/
def LogError (s : Ctx) (fmt : String) (args : List Arg) : Ctx :=
  { s with console := s.console ++ [Output.LogError fmt args] }

/-- Record one `ConsoleWrite` call on the console. -/
def ConsoleWrite (s : Ctx) (fmt : String) (args : List Arg) : Ctx :=
  { s with console := s.console ++ [Output.ConsoleWrite fmt args] }

/-- Modelled from the spec: `CStringCopy` allocates a new string object holding
a copy of the characters. -/
def CStringCopy (s : Ctx) (chars : String) : ijoString × Ctx :=
  ({ addr := s.heapTop, chars := chars }, { s with heapTop := s.heapTop + 1 })

/-- Modelled from the spec: `ijoStringDelete` releases a string object; no
state the compiler reads depends on it. -/
def ijoStringDelete (s : Ctx) (_str : ijoString) : Ctx := s

/-- Modelled from the spec: `NaiveGCInsert` registers one value as a root. -/
def NaiveGCInsert (s : Ctx) (value : Value) : Ctx :=
  { s with gc := s.gc ++ [value] }

/-! ## Parser driver -/

/-- Modelled from the spec: the token the scanner yields once its input is
used up (and on every later request). -/
def eofToken : Token :=
  { type := .TOKEN_EOF, lexeme := "", line := 0, identifier := "" }

/-- Modelled from the spec: `ScannerScan` yields the next token of the
sequence, and the end-of-file token when none is left. -/
def ScannerScan : List Token → Token × List Token
  | [] => (eofToken, [])
  | t :: rest => (t, rest)

/-- `errorAt`: suppressed in panic mode, otherwise prints one diagnostic and
sets both flags. -/
def errorAt (s : Ctx) (token : Token) (message : String) : Ctx :=
  if s.parser.panicMode then s
  else
    let s := { s with parser := { s.parser with panicMode := true } }
    let s := LogError s "line %d" [Arg.int token.line]
    let s :=
      if token.type = .TOKEN_EOF then ConsoleWrite s " at end" []
      else if token.type = .TOKEN_ERROR then s
      else ConsoleWrite s " at \x27%.*s\x27" [Arg.str token.lexeme]
    let s := ConsoleWrite s " %s\n" [Arg.str message]
    { s with parser := { s.parser with hadError := true } }

/-- `errorAtCurrent`: logs the message, then reports at the previous token
with the text at the current token as message. -/
def errorAtCurrent (s : Ctx) (message : String) : Ctx :=
  let s := LogError s "%s\n" [Arg.str message]
  errorAt s s.parser.previous s.parser.current.lexeme

/-- The `for (;;)` of `parserAdvance`: request tokens until one is not an
error token, reporting each error token.  The argument is the scanner's
remaining sequence; each step is one `ScannerScan`. -/
def scanLoop (s : Ctx) : List Token → Ctx
  | [] =>
    { s with parser := { s.parser with current := (ScannerScan []).1,
                                        scanner := (ScannerScan []).2 } }
  | t :: rest =>
    let s := { s with parser := { s.parser with current := (ScannerScan (t :: rest)).1,
                                                 scanner := (ScannerScan (t :: rest)).2 } }
    if t.type ≠ .TOKEN_ERROR then s
    else scanLoop (errorAtCurrent s "") rest

/-- `parserAdvance`. -/
def parserAdvance (s : Ctx) : Ctx :=
  let s := { s with parser := { s.parser with previous := s.parser.current } }
  scanLoop s s.parser.scanner

/-- `check`. -/
def check (s : Ctx) (type : TokType) : Bool :=
  s.parser.current.type == type

/-- `match` of the C code: consume the current token when it has the kind. -/
def matchTok (s : Ctx) (type : TokType) : Bool × Ctx :=
  if !check s type then (false, s)
  else (true, parserAdvance s)

/-- `consume`. -/
def consume (s : Ctx) (type : TokType) (message : String) : Ctx :=
  if s.parser.current.type = type then parserAdvance s
  else errorAtCurrent s message

/-- The case labels of the `switch` in `synchronize`: the kinds at which
recovery stops. -/
def syncSwitch : TokType → Bool
  | .TOKEN_STRUCT | .TOKEN_FUNC | .TOKEN_CONST | .TOKEN_FOR | .TOKEN_IF
  | .TOKEN_WHILE | .TOKEN_PRINT | .TOKEN_RETURN => true
  | _ => false

/-- The `while` of `synchronize`, condition and body as written. -/
def synchronizeLoop : Nat → Ctx → Result Ctx
  | 0, _ => .fault .OutOfFuel
  | fuel + 1, s =>
    if s.parser.current.type ≠ .TOKEN_EOF ∨ s.parser.current.type ≠ .TOKEN_EOL then
      if s.parser.previous.type = .TOKEN_EOL then .ok s
      else if syncSwitch s.parser.current.type then .ok s
      else synchronizeLoop fuel (parserAdvance s)
    else .ok s

/-- `synchronize`. -/
def synchronize (fuel : Nat) (s : Ctx) : Result Ctx :=
  synchronizeLoop fuel { s with parser := { s.parser with panicMode := false } }

/-- `ParserInit`: the other fields keep whatever the memory held. -/
def ParserInit (parser : Parser) (scanner : List Token) : Parser :=
  { parser with panicMode := false, hadError := false, scanner := scanner }

/-! ## Emission -/

/-- `makeConstant`.  The index is an `int` compared with `UINT32_MAX` after
conversion to unsigned and returned as `uint32_t`. -/
def makeConstant (s : Ctx) (value : Value) : Nat × Ctx :=
  let r := ChunkAddConstant s.chunk value
  let constant := r.1
  let s := { s with chunk := r.2 }
  if constant % 4294967296 > UINT32_MAX then
    (0, LogError s "Too many constants in one chunk." [])
  else (constant % 4294967296, s)

/-- `emitInstruction`. -/
def emitInstruction (s : Ctx) (instruction : Word) : Ctx :=
  { s with chunk := ChunkWriteCode s.chunk instruction s.parser.previous.line }

/-- `emitInstructions`. -/
def emitInstructions (s : Ctx) (instruction1 instruction2 : Word) : Ctx :=
  let s := { s with chunk := ChunkWriteCode s.chunk instruction1 s.parser.previous.line }
  { s with chunk := ChunkWriteCode s.chunk instruction2 s.parser.previous.line }

/-- `emitConstant`. -/
def emitConstant (s : Ctx) (value : Value) : Ctx :=
  let r := makeConstant s value
  emitInstructions r.2 (.op .OP_CONSTANT) (.operand r.1)

/-- `emitReturn`. -/
def emitReturn (s : Ctx) : Ctx :=
  { s with chunk := ChunkWriteCode s.chunk (.op .OP_RETURN) s.parser.previous.line }

/-- `endCompiler` (the disassembly under `DEBUG_PRINT_CODE` is debugging
output only and is left out). -/
def endCompiler (s : Ctx) : Ctx :=
  emitReturn s

/-! ## Scope and variable resolution -/

/-- `CompilerInit`. -/
def CompilerInit (compiler : Compiler) : Compiler :=
  { compiler with locals := [], scopeDepth := 0 }

/-- `beginScope`. -/
def beginScope (s : Ctx) : Ctx :=
  { s with compiler := { s.compiler with scopeDepth := s.compiler.scopeDepth + 1 } }

/-- The `while` of `endScope`: pop trailing locals deeper than the scope depth,
one `OP_POP` each.  The first argument bounds the iterations by the local
count on entry. -/
def endScopeLoop : Nat → Ctx → Ctx
  | 0, s => s
  | n + 1, s =>
    match s.compiler.locals.getLast? with
    | none => s
    | some last =>
      if last.depth > s.compiler.scopeDepth then
        let s := emitInstruction s (.op .OP_POP)
        endScopeLoop n { s with compiler := { s.compiler with locals := s.compiler.locals.dropLast } }
      else s

/-- `endScope`. -/
def endScope (s : Ctx) : Ctx :=
  let s := { s with compiler := { s.compiler with scopeDepth := s.compiler.scopeDepth - 1 } }
  endScopeLoop s.compiler.localCount s

/-- `addLocal`. -/
def addLocal (s : Ctx) (name : Token) (isConst : Bool) : Ctx :=
  if s.compiler.localCount = UINT8_COUNT then
    LogError s "Too many local variables in function." []
  else
    { s with compiler := { s.compiler with
        locals := s.compiler.locals ++ [{ name := name, depth := -1, constant := isConst }] } }

/-- `identifierEqual`: same length and same bytes. -/
def identifierEqual (a b : Token) : Bool :=
  a.lexeme == b.lexeme

/-- The `for` of `declareVariable`, entered with `i + 1` for index `i`. -/
def declareVariableLoop (name : Token) : Nat → Ctx → Ctx
  | 0, s => s
  | i + 1, s =>
    match s.compiler.locals[i]? with
    | none => s
    | some loc =>
      if loc.depth ≠ -1 ∧ loc.depth < s.compiler.scopeDepth then s
      else
        let s :=
          if identifierEqual name loc.name then
            errorAtCurrent s "A variable with this name already exist in this scope."
          else s
        declareVariableLoop name i s

/-- `declareVariable`. -/
def declareVariable (s : Ctx) (isConst : Bool) : Ctx :=
  if s.compiler.scopeDepth = 0 then s
  else
    let name := s.parser.previous
    let s := declareVariableLoop name s.compiler.localCount s
    addLocal s name isConst

/-- `identifierConstant`. -/
def identifierConstant (s : Ctx) (name : Token) : Nat × Ctx :=
  let r := CStringCopy s name.lexeme
  makeConstant r.2 (.OBJ_VAL r.1)

/-- `parseVariable`. -/
def parseVariable (s : Ctx) (isConst : Bool) (message : String) : Nat × Ctx :=
  let s := consume s .TOKEN_IDENTIFIER message
  let s := declareVariable s isConst
  if s.compiler.scopeDepth > 0 then (0, s)
  else identifierConstant s s.parser.previous

/-- `markInitialized`: writes slot `localCount - 1`. -/
def markInitialized (s : Ctx) : Result Ctx :=
  match s.compiler.locals.getLast? with
  | none => .fault .OutOfBounds
  | some last =>
    .ok { s with compiler := { s.compiler with
            locals := s.compiler.locals.dropLast ++ [{ last with depth := s.compiler.scopeDepth }] } }

/-- `defineVariable`. -/
def defineVariable (s : Ctx) : Result Ctx :=
  if s.compiler.scopeDepth > 0 then markInitialized s
  else .ok s

/-- The `for` of `resolveLocal`, entered with `i + 1` for index `i`; the
result is the slot index, or `-1`. -/
def resolveLocalLoop (name : Token) : Nat → Ctx → Int × Ctx
  | 0, s => (-1, s)
  | i + 1, s =>
    match s.compiler.locals[i]? with
    | none => (-1, s)
    | some loc =>
      if identifierEqual name loc.name then
        if loc.depth = -1 then
          ((i : Int), errorAtCurrent s "Can\x27t read local variable in its own initialization.")
        else ((i : Int), s)
      else resolveLocalLoop name i s

/-- `resolveLocal`. -/
def resolveLocal (s : Ctx) (name : Token) : Int × Ctx :=
  resolveLocalLoop name s.compiler.localCount s

/-! ## Literal handlers -/

/-- `number`. -/
def number (s : Ctx) : Ctx :=
  emitConstant s (.NUMBER_VAL s.parser.previous.lexeme)

/-- `literal`. -/
def literal (s : Ctx) : Ctx :=
  match s.parser.previous.type with
  | .TOKEN_FALSE => emitInstruction s (.op .OP_FALSE)
  | .TOKEN_TRUE => emitInstruction s (.op .OP_TRUE)
  | _ => s

/-- The characters between the two quotation marks of a string token
(`start + 1`, `length - 2`). -/
def trimQuotes (lexeme : String) : String :=
  String.mk ((lexeme.data.drop 1).take (lexeme.data.length - 2))

/-- `string`. -/
def string (s : Ctx) : Ctx :=
  let r := CStringCopy s (trimQuotes s.parser.previous.lexeme)
  let copiedStr := r.1
  let s := r.2
  match TableFindString s.interned copiedStr.chars with
  | some interned =>
    let s := ijoStringDelete s copiedStr
    emitConstant s (.INTERNAL_STR interned)
  | none =>
    let internedStr := Value.INTERNAL_STR copiedStr
    let s := NaiveGCInsert s internedStr
    let s := emitConstant s internedStr
    { s with interned := TableInsert s.interned copiedStr internedStr }

/-- `noop`. -/
def noop (s : Ctx) : Ctx := s

/-! ## Rule table -/

/-- Modelled from the spec: the precedence ladder, low to high (the
`Precedence` enum is declared in a header outside the sources). -/
def PREC_NONE : Nat := 0

/-- Modelled from the spec: assignment level of the ladder. -/
def PREC_ASSIGNMENT : Nat := 1

/-- Modelled from the spec: `or` level of the ladder. -/
def PREC_OR : Nat := 2

/-- Modelled from the spec: `and` level of the ladder. -/
def PREC_AND : Nat := 3

/-- Modelled from the spec: equality level of the ladder. -/
def PREC_EQUALITY : Nat := 4

/-- Modelled from the spec: comparison level of the ladder. -/
def PREC_COMPARISON : Nat := 5

/-- Modelled from the spec: term level of the ladder. -/
def PREC_TERM : Nat := 6

/-- Modelled from the spec: factor level of the ladder. -/
def PREC_FACTOR : Nat := 7

/-- Modelled from the spec: unary level of the ladder. -/
def PREC_UNARY : Nat := 8

/-- Modelled from the spec: call level of the ladder. -/
def PREC_CALL : Nat := 9

/-- Modelled from the spec: primary level of the ladder. -/
def PREC_PRIMARY : Nat := 10

/-- The handlers a rule can point to (`ParseFunc` function pointers). -/
inductive ParseFunc
  | grouping | unary | binary | noop | identifier | number | literal | string
  deriving DecidableEq, Repr

/-- One rule: optional handlers, precedence, and the set of token kinds
accepted right after the anchor token. -/
structure ParseRule where
  prefixRule : Option ParseFunc
  infixRule : Option ParseFunc
  precedence : Nat
  acceptedTokens : TokType → Bool

/-- Modelled from the spec: `TOKEN_ALL`, the follow set holding every kind. -/
def TOKEN_ALL : TokType → Bool := fun _ => true

/-- Modelled from the spec: the follow set holding only the listed kinds
(`TOKEN_NUMBER`, `TOKEN_NUMBER | TOKEN_STRING` in the table). -/
def tokenSet (kinds : List TokType) : TokType → Bool := fun t => kinds.contains t

/-- Modelled from the spec: `HAS_ENUM`, membership of a kind in a follow set
(the macro is declared in a header outside the sources). -/
def HAS_ENUM (type : TokType) (accepted : TokType → Bool) : Bool := accepted type

/-- `getRule`: the `rules` array.  `TOKEN_CONST` and `TOKEN_PRINTLN` have no
designated initialiser; such elements are zero-filled (no handler, lowest
precedence, empty follow set).  Every kind not listed here has the entry
`{NULL, NULL, PREC_NONE, TOKEN_ALL}` in the array. -/
def getRule : TokType → ParseRule
  | .TOKEN_LEFT_PAREN    => ⟨some .grouping, none, PREC_NONE, TOKEN_ALL⟩
  | .TOKEN_MINUS         => ⟨some .unary, some .binary, PREC_TERM, tokenSet [.TOKEN_NUMBER]⟩
  | .TOKEN_PLUS          => ⟨none, some .binary, PREC_TERM, tokenSet [.TOKEN_NUMBER, .TOKEN_STRING]⟩
  | .TOKEN_SLASH         => ⟨none, some .binary, PREC_FACTOR, tokenSet [.TOKEN_NUMBER]⟩
  | .TOKEN_STAR          => ⟨none, some .binary, PREC_FACTOR, tokenSet [.TOKEN_NUMBER]⟩
  | .TOKEN_BANG          => ⟨some .unary, none, PREC_NONE, TOKEN_ALL⟩
  | .TOKEN_BANG_EQUAL    => ⟨none, some .binary, PREC_EQUALITY, TOKEN_ALL⟩
  | .TOKEN_EQUAL_EQUAL   => ⟨none, some .binary, PREC_EQUALITY, TOKEN_ALL⟩
  | .TOKEN_GREATER       => ⟨none, some .binary, PREC_COMPARISON, TOKEN_ALL⟩
  | .TOKEN_GREATER_EQUAL => ⟨none, some .binary, PREC_COMPARISON, TOKEN_ALL⟩
  | .TOKEN_LESS          => ⟨none, some .binary, PREC_COMPARISON, TOKEN_ALL⟩
  | .TOKEN_LESS_EQUAL    => ⟨none, some .binary, PREC_COMPARISON, TOKEN_ALL⟩
  | .TOKEN_IDENTIFIER    => ⟨some .identifier, none, PREC_NONE, TOKEN_ALL⟩
  | .TOKEN_NUMBER        => ⟨some .number, none, PREC_NONE, TOKEN_ALL⟩
  | .TOKEN_STRING        => ⟨some .string, none, PREC_NONE, TOKEN_ALL⟩
  | .TOKEN_FALSE         => ⟨some .literal, none, PREC_NONE, TOKEN_ALL⟩
  | .TOKEN_TRUE          => ⟨some .literal, none, PREC_NONE, TOKEN_ALL⟩
  | .TOKEN_EOL           => ⟨some .noop, some .noop, PREC_NONE, TOKEN_ALL⟩
  | .TOKEN_EOF           => ⟨some .noop, some .noop, PREC_NONE, TOKEN_ALL⟩
  | .TOKEN_CONST         => ⟨none, none, PREC_NONE, tokenSet []⟩
  | .TOKEN_PRINTLN       => ⟨none, none, PREC_NONE, tokenSet []⟩
  | _                    => ⟨none, none, PREC_NONE, TOKEN_ALL⟩

/-! ## Pratt expression engine -/

mutual

/-- `parsePrecedence`. -/
def parsePrecedence : Nat → Nat → Ctx → Result Ctx
  | 0, _, _ => .fault .OutOfFuel
  | fuel + 1, precedence, s =>
    let s := parserAdvance s
    let rule := getRule s.parser.previous.type
    if !HAS_ENUM s.parser.current.type rule.acceptedTokens then
      .ok (errorAt s s.parser.current "Invalid token")
    else
      match rule.prefixRule with
      | none => .ok (LogError s "Expected expression" [])
      | some prefixRule =>
        let s := { s with parser := { s.parser with precedence := rule.precedence } }
        match callParseFunc fuel prefixRule s with
        | .fault e => .fault e
        | .ok s => parsePrecedenceLoop fuel precedence s

/-- The `while` of `parsePrecedence`: consume operators of at least the given
precedence and call their infix handler. -/
def parsePrecedenceLoop : Nat → Nat → Ctx → Result Ctx
  | 0, _, _ => .fault .OutOfFuel
  | fuel + 1, precedence, s =>
    if precedence ≤ (getRule s.parser.current.type).precedence then
      let s := parserAdvance s
      match (getRule s.parser.previous.type).infixRule with
      | none => .fault .NullCall
      | some infixRule =>
        match callParseFunc fuel infixRule s with
        | .fault e => .fault e
        | .ok s => parsePrecedenceLoop fuel precedence s
    else .ok s

/-- Call through a `ParseFunc` pointer. -/
def callParseFunc : Nat → ParseFunc → Ctx → Result Ctx
  | 0, _, _ => .fault .OutOfFuel
  | fuel + 1, f, s =>
    match f with
    | .grouping => grouping fuel s
    | .unary => unary fuel s
    | .binary => binary fuel s
    | .noop => .ok (noop s)
    | .identifier => identifier fuel s
    | .number => .ok (number s)
    | .literal => .ok (literal s)
    | .string => .ok (string s)

/-- `expression`. -/
def expression : Nat → Ctx → Result Ctx
  | 0, _ => .fault .OutOfFuel
  | fuel + 1, s => parsePrecedence fuel PREC_ASSIGNMENT s

/-- `grouping`. -/
def grouping : Nat → Ctx → Result Ctx
  | 0, _ => .fault .OutOfFuel
  | fuel + 1, s =>
    match expression fuel s with
    | .fault e => .fault e
    | .ok s => .ok (consume s .TOKEN_RIGHT_PAREN "Expect \x27)\x27 after expression")

/-- `unary`. -/
def unary : Nat → Ctx → Result Ctx
  | 0, _ => .fault .OutOfFuel
  | fuel + 1, s =>
    let operatorType := s.parser.previous.type
    match parsePrecedence fuel PREC_UNARY s with
    | .fault e => .fault e
    | .ok s =>
      match operatorType with
      | .TOKEN_BANG => .ok (emitInstruction s (.op .OP_NOT))
      | .TOKEN_MINUS => .ok (emitInstruction s (.op .OP_NEG))
      | _ => .ok s

/-- `binary`. -/
def binary : Nat → Ctx → Result Ctx
  | 0, _ => .fault .OutOfFuel
  | fuel + 1, s =>
    let operatorType := s.parser.previous.type
    let rule := getRule operatorType
    match parsePrecedence fuel (rule.precedence + 1) s with
    | .fault e => .fault e
    | .ok s =>
      match operatorType with
      | .TOKEN_PLUS => .ok (emitInstruction s (.op .OP_ADD))
      | .TOKEN_MINUS => .ok (emitInstruction s (.op .OP_SUB))
      | .TOKEN_SLASH => .ok (emitInstruction s (.op .OP_DIV))
      | .TOKEN_STAR => .ok (emitInstruction s (.op .OP_MUL))
      | .TOKEN_PERCENT => .ok (emitInstruction s (.op .OP_MOD))
      | .TOKEN_BANG_EQUAL => .ok (emitInstruction s (.op .OP_NEQ))
      | .TOKEN_EQUAL_EQUAL => .ok (emitInstruction s (.op .OP_EQ))
      | .TOKEN_GREATER => .ok (emitInstruction s (.op .OP_GT))
      | .TOKEN_GREATER_EQUAL => .ok (emitInstruction s (.op .OP_GE))
      | .TOKEN_LESS => .ok (emitInstruction s (.op .OP_LT))
      | .TOKEN_LESS_EQUAL => .ok (emitInstruction s (.op .OP_LE))
      | _ => .ok s

/-- `namedVariable`. -/
def namedVariable : Nat → Ctx → Result Ctx
  | 0, _ => .fault .OutOfFuel
  | fuel + 1, s =>
    let r := resolveLocal s s.parser.previous
    let arg := r.1
    let s := r.2
    let canAssign : Bool := s.parser.precedence ≤ PREC_ASSIGNMENT
    if arg ≠ -1 then
      let m := if canAssign then matchTok s .TOKEN_EQUAL else (false, s)
      if m.1 then
        let s := m.2
        match s.compiler.locals[arg.toNat]? with
        | none => .fault .OutOfBounds
        | some loc =>
          if loc.constant then
            .ok (errorAtCurrent s "Tried to modify value of constant.")
          else
            match expression fuel s with
            | .fault e => .fault e
            | .ok s => .ok (emitInstructions s (.op .OP_SET_LOCAL) (.operand arg.toNat))
      else
        .ok (emitInstructions s (.op .OP_GET_LOCAL) (.operand arg.toNat))
    else
      let m := if canAssign then matchTok s .TOKEN_EQUAL else (false, s)
      if m.1 then
        let s := m.2
        .ok (errorAtCurrent s "Tried to modify value of constant.")
      else
        let r := CStringCopy s s.parser.previous.lexeme
        let key := r.1
        let s := r.2
        let s :=
          match TableFindInternalEntry s.interned key with
          | some entry => emitConstant s entry.value
          | none => s
        .ok (ijoStringDelete s key)

/-- `identifier`. -/
def identifier : Nat → Ctx → Result Ctx
  | 0, _ => .fault .OutOfFuel
  | fuel + 1, s => namedVariable fuel s

end

/-! ## Statements and declarations -/

/-- `expressionStatement`. -/
def expressionStatement (fuel : Nat) (s : Ctx) : Result Ctx :=
  match expression fuel s with
  | .fault e => .fault e
  | .ok s =>
    let s := consume s .TOKEN_EOL "Only one expression per line accepted."
    .ok (emitInstruction s (.op .OP_POP))

/-- `printStatement`. -/
def printStatement (fuel : Nat) (s : Ctx) : Result Ctx :=
  let op := if s.parser.previous.type = .TOKEN_PRINT then OpCode.OP_PRINT else OpCode.OP_PRINTLN
  let m := matchTok s .TOKEN_EOL
  if !m.1 then
    match expression fuel m.2 with
    | .fault e => .fault e
    | .ok s => .ok (emitInstruction s (.op op))
  else
    let s := emitConstant m.2 .NOOP_VAL
    .ok (emitInstruction s (.op op))

/-- `constDeclaration`.  At scope depth 0 the initialiser is compiled into a
temporary chunk (`tempChunk`); the caller's chunk is put back afterwards. -/
def constDeclaration (fuel : Nat) (s : Ctx) : Result Ctx :=
  if s.compiler.scopeDepth = 0 then
    let r := CStringCopy s s.parser.previous.identifier
    let varName := r.1
    let s := r.2
    if (TableFindString s.interned varName.chars).isSome then
      let s := ijoStringDelete s varName
      .ok (errorAtCurrent s "Constant already declared.")
    else
      let chunk := s.chunk
      match expression fuel { s with chunk := ChunkNew } with
      | .fault e => .fault e
      | .ok s =>
        let tempChunk := s.chunk
        let s := { s with chunk := chunk }
        match tempChunk.constants[0]? with
        | none => .fault .OutOfBounds
        | some value =>
          let s := consume s .TOKEN_EOL "Only 1 expression accepted per line."
          let s := { s with interned := TableInsertInternal s.interned varName value }
          let s := if IS_OBJ value then NaiveGCInsert s value else s
          .ok (NaiveGCInsert s (.INTERNAL_STR varName))
  else
    let s := (parseVariable s true "Expected variable name").2
    let m := matchTok s .TOKEN_EQUAL
    if m.1 then expression fuel m.2
    else .ok (errorAtCurrent m.2 "Variable declaration must have a value.")

/-- `varDeclaration`. -/
def varDeclaration (fuel : Nat) (s : Ctx) : Result Ctx :=
  if s.compiler.scopeDepth = 0 then
    .ok (errorAtCurrent s "Variable declaration are not allowed at the global scope")
  else
    let s := (parseVariable s false "Expected variable name").2
    let m := matchTok s .TOKEN_EQUAL
    let r := if m.1 then expression fuel m.2
             else .ok (errorAtCurrent m.2 "Variable declaration must have a value.")
    match r with
    | .fault e => .fault e
    | .ok s =>
      let s := consume s .TOKEN_EOL "Only one expression per line"
      defineVariable s

mutual

/-- `declaration`. -/
def declaration : Nat → Ctx → Result Ctx
  | 0, _ => .fault .OutOfFuel
  | fuel + 1, s =>
    let m := matchTok s .TOKEN_CONST
    let r :=
      if m.1 then constDeclaration fuel m.2
      else
        let m := matchTok m.2 .TOKEN_VAR
        if m.1 then varDeclaration fuel m.2
        else
          let m := matchTok m.2 .TOKEN_EOL
          if m.1 then .ok m.2
          else statement fuel m.2
    match r with
    | .fault e => .fault e
    | .ok s => if s.parser.panicMode then synchronize fuel s else .ok s

/-- `statement`. -/
def statement : Nat → Ctx → Result Ctx
  | 0, _ => .fault .OutOfFuel
  | fuel + 1, s =>
    let m := matchTok s .TOKEN_PRINT
    let m := if m.1 then m else matchTok m.2 .TOKEN_PRINTLN
    if m.1 then printStatement fuel m.2
    else
      let m := matchTok m.2 .TOKEN_LEFT_BRACE
      if m.1 then
        let s := beginScope m.2
        match block fuel s with
        | .fault e => .fault e
        | .ok s => .ok (endScope s)
      else expressionStatement fuel m.2

/-- `block`: the `while` over declarations, then the closing brace. -/
def block : Nat → Ctx → Result Ctx
  | 0, _ => .fault .OutOfFuel
  | fuel + 1, s =>
    if !check s .TOKEN_RIGHT_BRACE && !check s .TOKEN_EOF then
      match declaration fuel s with
      | .fault e => .fault e
      | .ok s => block fuel s
    else .ok (consume s .TOKEN_RIGHT_BRACE "Expected \x27\x7d\x27 after block.")

end

/-- The `while (!match(TOKEN_EOF)) declaration(...)` of `Compile`. -/
def compileLoop : Nat → Ctx → Result Ctx
  | 0, _ => .fault .OutOfFuel
  | fuel + 1, s =>
    let m := matchTok s .TOKEN_EOF
    if !m.1 then
      match declaration fuel m.2 with
      | .fault e => .fault e
      | .ok s => compileLoop fuel s
    else .ok m.2

/-- `Compile`.  `source` is the token sequence the scanner yields for the
source text; `env` carries the caller's chunk and intern table and the
process-wide state, and in its `parser` and `compiler` fields the contents of
the two uninitialised locals before `CompilerInit` and `ParserInit`.  The
result is the returned flag with the final state (the inert `mode` argument is
left out). -/
def Compile (fuel : Nat) (source : List Token) (env : Ctx) : Result (Bool × Ctx) :=
  let s := { env with compiler := CompilerInit env.compiler }
  let s := { s with parser := ParserInit s.parser source }
  let s := parserAdvance s
  match compileLoop fuel s with
  | .fault e => .fault e
  | .ok s =>
    let s := consume s .TOKEN_EOF "Expected end of expression"
    let s := endCompiler s
    .ok (!s.parser.hadError, s)

/-! ## Vocabulary for stating the properties -/

/-- A token of the given kind and text (line 1, no identifier sub-span). -/
def mkToken (type : TokType) (lexeme : String) : Token :=
  { type := type, lexeme := lexeme, line := 1, identifier := "" }

/-- The `const` token that opens a top-level declaration of `name`:
`constDeclaration` reads the declared name from the identifier sub-span of the
token it has just consumed, and the initialiser expression starts at the next
token. -/
def constToken (name : String) : Token :=
  { type := .TOKEN_CONST, lexeme := "const", line := 1, identifier := name }

/-- A caller environment with an empty chunk, an empty table, no roots and an
empty console. -/
def emptyCtx : Ctx :=
  { parser := { current := mkToken .TOKEN_EOF "", previous := mkToken .TOKEN_EOF "",
                hadError := false, panicMode := false, precedence := 0, scanner := [] },
    compiler := { locals := [], scopeDepth := 0 },
    chunk := ChunkNew, interned := { entries := [] }, gc := [], heapTop := 0, console := [] }

/-- The flag `Compile` returned, if it returned. -/
def returned : Result (Bool × Ctx) → Option Bool
  | .ok r => some r.1
  | .fault _ => none

/-- The state `Compile` left behind, if it returned. -/
def finalState : Result (Bool × Ctx) → Option Ctx
  | .ok r => some r.2
  | .fault _ => none

/-- The value of a run that returned (the given default otherwise). -/
def Result.getD {α : Type} (r : Result α) (d : α) : α :=
  match r with
  | .ok a => a
  | .fault _ => d

/-- The two words of a constant load whose pool index is `index`. -/
def loadWords (index : Nat) : List Word :=
  [.op .OP_CONSTANT, .operand (index % 4294967296)]

/-- A one-line program: the number `1` and an end-of-line. -/
def sampleLine : List Token :=
  [mkToken .TOKEN_NUMBER "1", mkToken .TOKEN_EOL "\n"]

/-- The outcome of compiling `sampleLine` in the empty environment. -/
def sampleRun : Bool × Ctx :=
  (Compile 10 sampleLine emptyCtx).getD (false, emptyCtx)

/-- The binary operators wired into the rule table, each with the opcode the
`switch` of `binary` emits for it. -/
def wiredBinary : List (TokType × OpCode) :=
  [(.TOKEN_PLUS, .OP_ADD), (.TOKEN_MINUS, .OP_SUB), (.TOKEN_STAR, .OP_MUL), (.TOKEN_SLASH, .OP_DIV),
   (.TOKEN_EQUAL_EQUAL, .OP_EQ), (.TOKEN_BANG_EQUAL, .OP_NEQ), (.TOKEN_LESS, .OP_LT),
   (.TOKEN_LESS_EQUAL, .OP_LE), (.TOKEN_GREATER, .OP_GT), (.TOKEN_GREATER_EQUAL, .OP_GE)]

/-- The parser primed on the line `1 + 2 * 3`: the first number is the current
token, the rest of the line is still with the scanner. -/
def sumProductState : Ctx :=
  { emptyCtx with parser := { emptyCtx.parser with
      current := mkToken .TOKEN_NUMBER "1",
      scanner := [mkToken .TOKEN_PLUS "+", mkToken .TOKEN_NUMBER "2", mkToken .TOKEN_STAR "*",
                  mkToken .TOKEN_NUMBER "3", mkToken .TOKEN_EOL "\n"] } }

/-- A state whose previous token is the string literal `"abc"`, with an empty
table. -/
def stringState : Ctx :=
  { emptyCtx with parser := { emptyCtx.parser with previous := mkToken .TOKEN_STRING "\"abc\"" } }


/-- What a routine that only drives the parser may change: it leaves the
compiler, the chunk, the table, the roots and the heap alone, it never clears
`hadError`, and it keeps `panicMode` implying `hadError`. -/
def parserStep (a b : Ctx) : Prop :=
  b.compiler = a.compiler ∧ b.chunk = a.chunk ∧ b.interned = a.interned ∧ b.gc = a.gc ∧
    b.heapTop = a.heapTop ∧ (a.parser.hadError = true → b.parser.hadError = true) ∧
    ((a.parser.panicMode = true → a.parser.hadError = true) →
      (b.parser.panicMode = true → b.parser.hadError = true))

/-- An end-of-line token is still with the scanner. -/
def eolAhead (s : Ctx) : Prop := ∃ t ∈ s.parser.scanner, t.type = .TOKEN_EOL

/-- Top level, the table already holds `x`, and the parser is at a further
`const x` declaration whose line reads `2` end-of-line. -/
def dupConstState : Ctx :=
  { emptyCtx with
    parser := { emptyCtx.parser with
      current := constToken "x",
      scanner := [mkToken .TOKEN_NUMBER "2", mkToken .TOKEN_EOL "\n"] },
    interned := { entries := [{ key := { addr := 0, chars := "x" }, value := .NUMBER_VAL "1" }] } }

/-- Top level, empty table, and the parser at the declaration `const x` with
the line `1` end-of-line, followed by the line `x` end-of-line. -/
def constLineState : Ctx :=
  { emptyCtx with parser := { emptyCtx.parser with
      current := constToken "x",
      scanner := [mkToken .TOKEN_NUMBER "1", mkToken .TOKEN_EOL "\n",
                  mkToken .TOKEN_IDENTIFIER "x", mkToken .TOKEN_EOL "\n"] } }

/-- The token stream of `{ var x = v EOL var x = w EOL }`. -/
def sameBlockTwice (x v w : String) : List Token :=
  [mkToken .TOKEN_LEFT_BRACE "\x7b",
   mkToken .TOKEN_VAR "var", mkToken .TOKEN_IDENTIFIER x, mkToken .TOKEN_EQUAL "=",
   mkToken .TOKEN_NUMBER v, mkToken .TOKEN_EOL "\n",
   mkToken .TOKEN_VAR "var", mkToken .TOKEN_IDENTIFIER x, mkToken .TOKEN_EQUAL "=",
   mkToken .TOKEN_NUMBER w, mkToken .TOKEN_EOL "\n",
   mkToken .TOKEN_RIGHT_BRACE "\x7d"]

/-- The token stream of `{ var x = v EOL } EOL { var x = w EOL } EOL`. -/
def siblingBlocks (x v w : String) : List Token :=
  [mkToken .TOKEN_LEFT_BRACE "\x7b",
   mkToken .TOKEN_VAR "var", mkToken .TOKEN_IDENTIFIER x, mkToken .TOKEN_EQUAL "=",
   mkToken .TOKEN_NUMBER v, mkToken .TOKEN_EOL "\n",
   mkToken .TOKEN_RIGHT_BRACE "\x7d", mkToken .TOKEN_EOL "\n",
   mkToken .TOKEN_LEFT_BRACE "\x7b",
   mkToken .TOKEN_VAR "var", mkToken .TOKEN_IDENTIFIER x, mkToken .TOKEN_EQUAL "=",
   mkToken .TOKEN_NUMBER w, mkToken .TOKEN_EOL "\n",
   mkToken .TOKEN_RIGHT_BRACE "\x7d", mkToken .TOKEN_EOL "\n"]

/-- The token stream of `{ var x = v EOL { var x = w EOL } EOL } EOL`. -/
def nestedBlocks (x v w : String) : List Token :=
  [mkToken .TOKEN_LEFT_BRACE "\x7b",
   mkToken .TOKEN_VAR "var", mkToken .TOKEN_IDENTIFIER x, mkToken .TOKEN_EQUAL "=",
   mkToken .TOKEN_NUMBER v, mkToken .TOKEN_EOL "\n",
   mkToken .TOKEN_LEFT_BRACE "\x7b",
   mkToken .TOKEN_VAR "var", mkToken .TOKEN_IDENTIFIER x, mkToken .TOKEN_EQUAL "=",
   mkToken .TOKEN_NUMBER w, mkToken .TOKEN_EOL "\n",
   mkToken .TOKEN_RIGHT_BRACE "\x7d", mkToken .TOKEN_EOL "\n",
   mkToken .TOKEN_RIGHT_BRACE "\x7d", mkToken .TOKEN_EOL "\n"]

/-- The token stream of `{ const x = v EOL x EOL } EOL`: inside a block the
declaration is `const`, an identifier token, `=`, the initialiser. -/
def constThenRead (x v : String) : List Token :=
  [mkToken .TOKEN_LEFT_BRACE "\x7b",
   mkToken .TOKEN_CONST "const", mkToken .TOKEN_IDENTIFIER x, mkToken .TOKEN_EQUAL "=",
   mkToken .TOKEN_NUMBER v, mkToken .TOKEN_EOL "\n",
   mkToken .TOKEN_IDENTIFIER x, mkToken .TOKEN_EOL "\n",
   mkToken .TOKEN_RIGHT_BRACE "\x7d", mkToken .TOKEN_EOL "\n"]

/-- Inside a block, right after `var x =` was parsed: the local `x` is declared
but not yet initialised, and the identifier `x` has just been consumed. -/
def selfReadState : Ctx :=
  { emptyCtx with
    parser := { emptyCtx.parser with previous := mkToken .TOKEN_IDENTIFIER "x",
                                     current := mkToken .TOKEN_EOL "\n" },
    compiler := { locals := [{ name := mkToken .TOKEN_IDENTIFIER "x", depth := -1, constant := false }],
                  scopeDepth := 1 } }

/-- The token stream of `{ var x = v EOL x EOL } EOL`. -/
def varThenRead (x v : String) : List Token :=
  [mkToken .TOKEN_LEFT_BRACE "\x7b",
   mkToken .TOKEN_VAR "var", mkToken .TOKEN_IDENTIFIER x, mkToken .TOKEN_EQUAL "=",
   mkToken .TOKEN_NUMBER v, mkToken .TOKEN_EOL "\n",
   mkToken .TOKEN_IDENTIFIER x, mkToken .TOKEN_EOL "\n",
   mkToken .TOKEN_RIGHT_BRACE "\x7d", mkToken .TOKEN_EOL "\n"]


/-- The token stream of `x = v EOL` at the top level, `x` naming no local. -/
def unknownAssign (x v : String) : List Token :=
  [mkToken .TOKEN_IDENTIFIER x, mkToken .TOKEN_EQUAL "=", mkToken .TOKEN_NUMBER v, mkToken .TOKEN_EOL "\n"]

/-- The token stream of `{ const x = v EOL x = w EOL } EOL`. -/
def constAssign (x v w : String) : List Token :=
  [mkToken .TOKEN_LEFT_BRACE "\x7b",
   mkToken .TOKEN_CONST "const", mkToken .TOKEN_IDENTIFIER x, mkToken .TOKEN_EQUAL "=",
   mkToken .TOKEN_NUMBER v, mkToken .TOKEN_EOL "\n",
   mkToken .TOKEN_IDENTIFIER x, mkToken .TOKEN_EQUAL "=", mkToken .TOKEN_NUMBER w, mkToken .TOKEN_EOL "\n",
   mkToken .TOKEN_RIGHT_BRACE "\x7d", mkToken .TOKEN_EOL "\n"]

/-- Inside a block holding the initialised const local `x`, right after the
identifier `x` was consumed, with `= 2` end-of-line ahead. -/
def assignConstState : Ctx :=
  { emptyCtx with
    parser := { emptyCtx.parser with previous := mkToken .TOKEN_IDENTIFIER "x",
                                     current := mkToken .TOKEN_EQUAL "=",
                                     scanner := [mkToken .TOKEN_NUMBER "2", mkToken .TOKEN_EOL "\n"] },
    compiler := { locals := [{ name := mkToken .TOKEN_IDENTIFIER "x", depth := 1, constant := true }],
                  scopeDepth := 1 } }

/-- The token stream of `{ var a = 0 EOL 1 + a = 2 EOL } EOL`. -/
def addThenAssign (a : String) : List Token :=
  [mkToken .TOKEN_LEFT_BRACE "\x7b",
   mkToken .TOKEN_VAR "var", mkToken .TOKEN_IDENTIFIER a, mkToken .TOKEN_EQUAL "=",
   mkToken .TOKEN_NUMBER "0", mkToken .TOKEN_EOL "\n",
   mkToken .TOKEN_NUMBER "1", mkToken .TOKEN_PLUS "+", mkToken .TOKEN_IDENTIFIER a,
   mkToken .TOKEN_EQUAL "=", mkToken .TOKEN_NUMBER "2", mkToken .TOKEN_EOL "\n",
   mkToken .TOKEN_RIGHT_BRACE "\x7d", mkToken .TOKEN_EOL "\n"]

/-- The token stream of `{ const x = v EOL } EOL`. -/
def constBlock (x v : String) : List Token :=
  [mkToken .TOKEN_LEFT_BRACE "\x7b",
   mkToken .TOKEN_CONST "const", mkToken .TOKEN_IDENTIFIER x, mkToken .TOKEN_EQUAL "=",
   mkToken .TOKEN_NUMBER v, mkToken .TOKEN_EOL "\n",
   mkToken .TOKEN_RIGHT_BRACE "\x7d", mkToken .TOKEN_EOL "\n"]

/-- A parser already in panic mode, as it stands in `x = 1` after the
assignment to the unknown `x` was reported: `=` consumed, `1` current. -/
def panicState : Ctx :=
  { emptyCtx with parser := { emptyCtx.parser with
      hadError := true, panicMode := true,
      previous := mkToken .TOKEN_EQUAL "=", current := mkToken .TOKEN_NUMBER "1" } }

/-- A parser in panic mode about to recover, with an error token between the
current token and the end of the line. -/
def syncErrorState : Ctx :=
  { emptyCtx with parser := { emptyCtx.parser with
      hadError := true, panicMode := true,
      previous := mkToken .TOKEN_NUMBER "1", current := mkToken .TOKEN_NUMBER "2",
      scanner := [mkToken .TOKEN_ERROR "?", mkToken .TOKEN_EOL "\n", mkToken .TOKEN_PRINT "print"] } }

/-- The opcode `printStatement` picks from the kind of the keyword token. -/
def printOpcode (type : TokType) : OpCode :=
  if type = .TOKEN_PRINT then .OP_PRINT else .OP_PRINTLN

/-- The parser at a `print` keyword directly followed by end-of-line. -/
def printLineState : Ctx :=
  { emptyCtx with parser := { emptyCtx.parser with
      current := mkToken .TOKEN_PRINT "print",
      scanner := [mkToken .TOKEN_EOL "\n", mkToken .TOKEN_EOF ""] } }

/-- The token stream `-`, an error token, `1`, end-of-line. -/
def minusErrorNumber : List Token :=
  [mkToken .TOKEN_MINUS "-", mkToken .TOKEN_ERROR "?", mkToken .TOKEN_NUMBER "1", mkToken .TOKEN_EOL "\n"]

/-- The parser at a prefix minus with the identifier `x` next. -/
def minusIdentState : Ctx :=
  { emptyCtx with parser := { emptyCtx.parser with
      current := mkToken .TOKEN_MINUS "-",
      scanner := [mkToken .TOKEN_IDENTIFIER "x", mkToken .TOKEN_EOL "\n"] } }

/-- The parser at the `\x7b` of a block whose only declaration is the
malformed `var 1` and whose closing brace is missing. -/
def openBlockState : Ctx :=
  { emptyCtx with parser := { emptyCtx.parser with
      current := mkToken .TOKEN_LEFT_BRACE "\x7b",
      scanner := [mkToken .TOKEN_VAR "var", mkToken .TOKEN_NUMBER "1", mkToken .TOKEN_EOL "\n"] } }

/-- The number of errors recorded on the console: `errorAt` opens each
diagnostic it prints with `LogError("line %d", ...)`, and nothing else logs
with that format. -/
def errorsRecorded (console : List Output) : Nat :=
  (console.filter fun o =>
    match o with
    | .LogError fmt _ => fmt == "line %d"
    | .ConsoleWrite _ _ => false).length

/-- What a routine may do to the error state: leave both flags and the number
of recorded errors alone, or go from not panicking to panicking with
`hadError` set and exactly one more error recorded. -/
def errStep (a b : Ctx) : Prop :=
  (b.parser.panicMode = a.parser.panicMode ∧ b.parser.hadError = a.parser.hadError ∧
    errorsRecorded b.console = errorsRecorded a.console) ∨
  (a.parser.panicMode = false ∧ b.parser.panicMode = true ∧ b.parser.hadError = true ∧
    errorsRecorded b.console = errorsRecorded a.console + 1)

/-- A token that neither ends a line or the input, nor is an error token, nor
is one of the keywords at which recovery stops. -/
def plainToken (t : Token) : Bool :=
  t.type != .TOKEN_EOL && t.type != .TOKEN_EOF && t.type != .TOKEN_ERROR && !syncSwitch t.type

/-- Where the parser stands on a line that ends with the token `eol` and is
followed by a line starting with `w0` (then `rest`): at position `n + 1` the
current token and the tokens still with the scanner are `n` plain tokens, then
`eol`, `w0`, `rest`; at position `0` the end-of-line has just been consumed
and `w0` is the current token. -/
def linePos (eol w0 : Token) (rest : List Token) : Nat → Ctx → Prop
  | 0, s => s.parser.previous = eol ∧ s.parser.current = w0 ∧ s.parser.scanner = rest
  | n + 1, s => ∃ pre : List Token, pre.length = n ∧ (∀ t ∈ pre, plainToken t = true) ∧
      s.parser.current :: s.parser.scanner = pre ++ eol :: w0 :: rest

/-- A position on the line at which, unless the line is finished, the token
consumed last is not an end-of-line. -/
def linePosS (eol w0 : Token) (rest : List Token) (n : Nat) (s : Ctx) : Prop :=
  linePos eol w0 rest n s ∧ (n ≠ 0 → s.parser.previous.type ≠ .TOKEN_EOL)

/-- The state in which `Compile` enters its loop: compiler and parser
initialised and the first token requested. -/
def primed (source : List Token) (env : Ctx) : Ctx :=
  let s := { env with compiler := CompilerInit env.compiler }
  let s := { s with parser := ParserInit s.parser source }
  parserAdvance s

/-- The token stream of `1 return 2` end-of-line `print 5` end-of-line. -/
def twoErrorLines : List Token :=
  [mkToken .TOKEN_NUMBER "1", mkToken .TOKEN_RETURN "return", mkToken .TOKEN_NUMBER "2",
   mkToken .TOKEN_EOL "\n",
   mkToken .TOKEN_PRINT "print", mkToken .TOKEN_NUMBER "5", mkToken .TOKEN_EOL "\n"]

/-- The token stream of `1 2` end-of-line `print 5` end-of-line. -/
def oneErrorLines : List Token :=
  [mkToken .TOKEN_NUMBER "1", mkToken .TOKEN_NUMBER "2", mkToken .TOKEN_EOL "\n",
   mkToken .TOKEN_PRINT "print", mkToken .TOKEN_NUMBER "5", mkToken .TOKEN_EOL "\n"]

/-- The token sequence of a block that declares `x` with value `v` and holds a
nested block that declares `x` again with value `w` and then reads `x` in an
expression statement. -/
def shadowedRead (x v w : String) : List Token :=
  [mkToken .TOKEN_LEFT_BRACE "\x7b",
   mkToken .TOKEN_VAR "var", mkToken .TOKEN_IDENTIFIER x, mkToken .TOKEN_EQUAL "=",
   mkToken .TOKEN_NUMBER v, mkToken .TOKEN_EOL "\n",
   mkToken .TOKEN_LEFT_BRACE "\x7b",
   mkToken .TOKEN_VAR "var", mkToken .TOKEN_IDENTIFIER x, mkToken .TOKEN_EQUAL "=",
   mkToken .TOKEN_NUMBER w, mkToken .TOKEN_EOL "\n",
   mkToken .TOKEN_IDENTIFIER x, mkToken .TOKEN_EOL "\n",
   mkToken .TOKEN_RIGHT_BRACE "\x7d", mkToken .TOKEN_EOL "\n",
   mkToken .TOKEN_RIGHT_BRACE "\x7d", mkToken .TOKEN_EOL "\n"]

/-- A state inside the inner of two nested blocks: locals `x` and `y` of the
outer block, a second `x` of the inner block, the identifier `x` just consumed
and the end of line ahead. -/
def shadowState : Ctx :=
  { emptyCtx with
    parser := { emptyCtx.parser with previous := mkToken .TOKEN_IDENTIFIER "x",
                                     current := mkToken .TOKEN_EOL "\n" },
    compiler := { locals := [{ name := mkToken .TOKEN_IDENTIFIER "x", depth := 1, constant := false },
                             { name := mkToken .TOKEN_IDENTIFIER "y", depth := 1, constant := false },
                             { name := mkToken .TOKEN_IDENTIFIER "x", depth := 2, constant := false }],
                  scopeDepth := 2 } }

/-- A state inside a block that holds the initialised local `x`, with the
identifier `x` of a second declaration just consumed. -/
def dupState : Ctx :=
  { emptyCtx with
    parser := { emptyCtx.parser with previous := mkToken .TOKEN_IDENTIFIER "x",
                                     current := mkToken .TOKEN_EQUAL "=" },
    compiler := { locals := [{ name := mkToken .TOKEN_IDENTIFIER "x", depth := 1, constant := false }],
                  scopeDepth := 1 } }

/-- A locals array filled to its capacity of 256 entries. -/
def fullLocals : List Local :=
  List.replicate 256 { name := mkToken .TOKEN_IDENTIFIER "a", depth := 1, constant := false }

/-- A state inside a block whose locals array is full, with the identifier `b`
just consumed. -/
def fullState : Ctx :=
  { emptyCtx with
    parser := { emptyCtx.parser with previous := mkToken .TOKEN_IDENTIFIER "b" },
    compiler := { locals := fullLocals, scopeDepth := 1 } }

/-- The name of variable `i` in `manyLocals`: `i + 1` letters `a`, so that the
names are pairwise distinct. -/
def localName (i : Nat) : String := String.mk (List.replicate (i + 1) 'a')

/-- The tokens of the line `var` name `= 0` for variable `i`. -/
def varLine (i : Nat) : List Token :=
  [mkToken .TOKEN_VAR "var", mkToken .TOKEN_IDENTIFIER (localName i), mkToken .TOKEN_EQUAL "=",
   mkToken .TOKEN_NUMBER "0", mkToken .TOKEN_EOL "\n"]

/-- The lines that declare the variables `k`, ..., `k + m - 1`, followed by the
closing brace of the block and its end of line. -/
def varLinesFrom (k : Nat) : Nat → List Token
  | 0 => [mkToken .TOKEN_RIGHT_BRACE "\x7d", mkToken .TOKEN_EOL "\n"]
  | m + 1 => varLine k ++ varLinesFrom (k + 1) m

/-- The token sequence of one block that declares `n` distinct variables, all
of them alive up to the closing brace. -/
def manyLocals (n : Nat) : List Token :=
  mkToken .TOKEN_LEFT_BRACE "\x7b" :: varLinesFrom 0 n

/-- The console line `addLocal` logs when the locals array is full. -/
def tooManyLocals : Output := Output.LogError "Too many local variables in function." []

/-- The state between two lines of `manyLocals`: `k` declarations are compiled
and `m` are ahead, no error flag is set, the block is the only open scope, the
first `min k 256` names are stored, and the console has one more line for each
declaration past the capacity. -/
def blockInv (console : List Output) (k m : Nat) (s : Ctx) : Prop :=
  s.parser.current :: s.parser.scanner = varLinesFrom k m ∧
  s.parser.panicMode = false ∧ s.parser.hadError = false ∧
  s.compiler.scopeDepth = 1 ∧
  (∀ l ∈ s.compiler.locals, ∃ i, i < k ∧ l.name.lexeme = localName i) ∧
  s.compiler.locals.length = min k 256 ∧
  s.console = console ++ List.replicate (k - 256) tooManyLocals

/-- A top-level state with no local and an empty table, the identifier `x`
just consumed and the end of line ahead. -/
def unknownReadState : Ctx :=
  { emptyCtx with parser := { emptyCtx.parser with
      previous := mkToken .TOKEN_IDENTIFIER "x", current := mkToken .TOKEN_EOL "\n" } }

/-- The string-literal token with the given content; the lexeme includes the
quotes. -/
def stringToken (content : String) : Token :=
  mkToken .TOKEN_STRING ("\"" ++ content ++ "\"")

/-- The token sequence of `const s = 1`, then the literal `"s"`, then the
identifier `s`, each on its own line. -/
def constThenLiteral : List Token :=
  [constToken "s", mkToken .TOKEN_NUMBER "1", mkToken .TOKEN_EOL "\n",
   mkToken .TOKEN_STRING "\"s\"", mkToken .TOKEN_EOL "\n",
   mkToken .TOKEN_IDENTIFIER "s", mkToken .TOKEN_EOL "\n"]

/-- The token sequence of a string literal on one line and the identifier
spelled like its content on the next. -/
def literalThenRead (content : String) : List Token :=
  [stringToken content, mkToken .TOKEN_EOL "\n",
   mkToken .TOKEN_IDENTIFIER content, mkToken .TOKEN_EOL "\n"]

/-- The token sequence of a string literal on one line and a top-level `const`
named like its content, with the number `v` as value, on the next. -/
def literalThenConst (content v : String) : List Token :=
  [stringToken content, mkToken .TOKEN_EOL "\n",
   constToken content, mkToken .TOKEN_NUMBER v, mkToken .TOKEN_EOL "\n"]

/-- Every content the table of the first state has a key for, the table of the
second state has a key for. -/
def tableKeeps (a b : Ctx) : Prop :=
  ∀ x : String, (TableFindString a.interned x).isSome = true →
    (TableFindString b.interned x).isSome = true

mutual

/-- `declaration` with a record of the scope depth: the value of `scopeDepth`
when the routine is entered, followed by what the statement it dispatches to
records.  The second component is the result of `declaration`. -/
def declarationDepths : Nat → Ctx → List Int × Result Ctx
  | 0, s => ([s.compiler.scopeDepth], .fault .OutOfFuel)
  | fuel + 1, s =>
    let m := matchTok s .TOKEN_CONST
    let r : List Int × Result Ctx :=
      if m.1 then ([], constDeclaration fuel m.2)
      else
        let m := matchTok m.2 .TOKEN_VAR
        if m.1 then ([], varDeclaration fuel m.2)
        else
          let m := matchTok m.2 .TOKEN_EOL
          if m.1 then ([], .ok m.2)
          else statementDepths fuel m.2
    match r.2 with
    | .fault e => (s.compiler.scopeDepth :: r.1, .fault e)
    | .ok s1 =>
      (s.compiler.scopeDepth :: r.1, if s1.parser.panicMode then synchronize fuel s1 else .ok s1)

/-- `statement` with a record of the scope depth: for a block, the depth right
after `beginScope`, then what the body records, then the depth right after
`endScope`.  The other statements do not write `scopeDepth` and record
nothing. -/
def statementDepths : Nat → Ctx → List Int × Result Ctx
  | 0, _ => ([], .fault .OutOfFuel)
  | fuel + 1, s =>
    let m := matchTok s .TOKEN_PRINT
    let m := if m.1 then m else matchTok m.2 .TOKEN_PRINTLN
    if m.1 then ([], printStatement fuel m.2)
    else
      let m := matchTok m.2 .TOKEN_LEFT_BRACE
      if m.1 then
        let s := beginScope m.2
        let b := blockDepths fuel s
        match b.2 with
        | .fault e => (s.compiler.scopeDepth :: b.1, .fault e)
        | .ok s1 =>
          (s.compiler.scopeDepth :: b.1 ++ [(endScope s1).compiler.scopeDepth], .ok (endScope s1))
      else ([], expressionStatement fuel m.2)

/-- `block` with a record of the scope depth: what its declarations record, in
order. -/
def blockDepths : Nat → Ctx → List Int × Result Ctx
  | 0, _ => ([], .fault .OutOfFuel)
  | fuel + 1, s =>
    if !check s .TOKEN_RIGHT_BRACE && !check s .TOKEN_EOF then
      let d := declarationDepths fuel s
      match d.2 with
      | .fault e => (d.1, .fault e)
      | .ok s1 =>
        let b := blockDepths fuel s1
        (d.1 ++ b.1, b.2)
    else ([], .ok (consume s .TOKEN_RIGHT_BRACE "Expected \x27\x7d\x27 after block."))

end

/-- The loop of `Compile` with one record of the scope depth for each top-level
declaration. -/
def compileLoopDepths : Nat → Ctx → List (List Int) × Result Ctx
  | 0, _ => ([], .fault .OutOfFuel)
  | fuel + 1, s =>
    let m := matchTok s .TOKEN_EOF
    if !m.1 then
      let d := declarationDepths fuel m.2
      match d.2 with
      | .fault e => ([d.1], .fault e)
      | .ok s1 =>
        let l := compileLoopDepths fuel s1
        (d.1 :: l.1, l.2)
    else ([], .ok m.2)

/-- `Compile` with the records of the scope depth: first the depth right after
`CompilerInit`, then one record for each top-level declaration. -/
def CompileDepths (fuel : Nat) (source : List Token) (env : Ctx) :
    List (List Int) × Result (Bool × Ctx) :=
  let s := { env with compiler := CompilerInit env.compiler }
  let s := { s with parser := ParserInit s.parser source }
  let s := parserAdvance s
  let l := compileLoopDepths fuel s
  match l.2 with
  | .fault e => ([s.compiler.scopeDepth] :: l.1, .fault e)
  | .ok s1 =>
    let s1 := consume s1 .TOKEN_EOF "Expected end of expression"
    let s1 := endCompiler s1
    ([s.compiler.scopeDepth] :: l.1, .ok (!s1.parser.hadError, s1))

/-- Whether the interned-string table has a key with the given characters. -/
def hasKey (t : Table) (x : String) : Bool := (TableFindString t x).isSome

/-- A code word moved from a chunk whose pool held `ca` constants to one whose
pool held `cb`: the operand of a constant load becomes `n - ca + cb` in the
32-bit arithmetic of operands, an opcode stays as it is. -/
def shiftOperand (ca cb : Nat) : Word → Word
  | .operand n => .operand ((n + cb + (4294967296 - ca % 4294967296)) % 4294967296)
  | .op c => .op c

/-- Two compilations of the same remaining tokens, `a` in a program that starts
with them and `b` in a program with an earlier line: the parser stands on the
same tokens with the same panic flag, `b` carries in addition the error flag
`h0` of the earlier line, the compiler records agree and hold no local, the
code written so far is `A0` and `B0` followed by the same words up to the shift
of constant operands, the pools have grown by the same number of constants,
`b` has recorded `e0` errors as long as `a` has set no error flag, every name
still to be read is a key of both tables or of neither, and no token still to
be read opens a block or a declaration. -/
def alongside (A0 B0 : List Word) (ca cb e0 : Nat) (h0 : Bool) (a b : Ctx) : Prop :=
  b.parser.current = a.parser.current ∧ b.parser.previous = a.parser.previous ∧
  b.parser.scanner = a.parser.scanner ∧ b.parser.panicMode = a.parser.panicMode ∧
  b.parser.hadError = (a.parser.hadError || h0) ∧
  b.compiler = a.compiler ∧ a.compiler.locals = [] ∧
  (∃ w, a.chunk.code = A0 ++ w ∧ b.chunk.code = B0 ++ w.map (shiftOperand ca cb)) ∧
  (∃ j, a.chunk.constants.length = ca + j ∧ b.chunk.constants.length = cb + j) ∧
  (a.parser.hadError = false → errorsRecorded b.console = e0) ∧
  (∀ t ∈ a.parser.previous :: a.parser.current :: a.parser.scanner,
    t.type = .TOKEN_IDENTIFIER → hasKey b.interned t.lexeme = hasKey a.interned t.lexeme) ∧
  (∀ t ∈ a.parser.current :: a.parser.scanner,
    t.type ≠ .TOKEN_LEFT_BRACE ∧ t.type ≠ .TOKEN_VAR ∧ t.type ≠ .TOKEN_CONST)

/-- Two results that are both states related by `R`, or both the same fault. -/
def bothRun (R : Ctx → Ctx → Prop) : Result Ctx → Result Ctx → Prop
  | .ok a, .ok b => R a b
  | .fault e, .fault f => e = f
  | _, _ => False

/-- Between `s` and `r` the parser has used up the tokens `c` that stood before
what `r` still has to read; and if none of them is a string literal with the
content `x`, the table of `r` has a key `x` exactly when the table of `s` has. -/
def consumes (tail : List Token) (x : String) (s r : Ctx) : Prop :=
  ∀ pre, r.parser.current :: r.parser.scanner = pre ++ tail →
    ∃ c, s.parser.current :: s.parser.scanner = c ++ (pre ++ tail) ∧
      ((∀ t ∈ c, t.type = .TOKEN_STRING → trimQuotes t.lexeme ≠ x) →
        hasKey r.interned x = hasKey s.interned x)

/-- The relation `consumes` with the token consumed last in `s` counted among
the tokens used (the handler of a string literal reads that token). -/
def consumesAt (tail : List Token) (x : String) (s r : Ctx) : Prop :=
  ∀ pre, r.parser.current :: r.parser.scanner = pre ++ tail →
    ∃ c, s.parser.current :: s.parser.scanner = c ++ (pre ++ tail) ∧
      ((∀ t ∈ s.parser.previous :: c, t.type = .TOKEN_STRING → trimQuotes t.lexeme ≠ x) →
        hasKey r.interned x = hasKey s.interned x)

/-- A first token `m0` that cannot open an expression in front of `t`: the kind
`t` is outside the follow set of `m0`, or `m0` has no prefix handler. -/
def malformedStart (m0 t : TokType) : Bool :=
  !HAS_ENUM t (getRule m0).acceptedTokens || (getRule m0).prefixRule == none

/-- The kinds whose prefix handler compiles the token itself and reads no
further token of the expression: number, string, `true`, `false`, identifier. -/
def isOperand (k : TokType) : Bool :=
  k == .TOKEN_NUMBER || k == .TOKEN_STRING || k == .TOKEN_TRUE || k == .TOKEN_FALSE ||
    k == .TOKEN_IDENTIFIER

/-- The kinds the loop of `parsePrecedence` consumes as operators in a top-level
expression: those of precedence `PREC_ASSIGNMENT` or higher. -/
def isBinaryOp (k : TokType) : Bool := decide (PREC_ASSIGNMENT ≤ (getRule k).precedence)

/-- What stands after an operand makes the line malformed: a single last token
(a binary operator without right operand, or something that is no operator),
a token that is no binary operator, or a binary operator and an operand with
something after them that makes the line malformed. -/
def afterOperand : List Token → Bool
  | [] => false
  | [_] => true
  | b :: o :: l => if isBinaryOp b.type then isOperand o.type && afterOperand l else true

/-- The parser has the tokens `l` of the line still to read, then `eol`, `w0`
and `rest`; it is not in panic mode, no local is declared, the tokens of `l`
are plain and `l` is malformed after an operand. -/
def atLine (eol w0 : Token) (rest l : List Token) (s : Ctx) : Prop :=
  s.parser.panicMode = false ∧ s.compiler.locals = [] ∧
  s.parser.current :: s.parser.scanner = l ++ eol :: w0 :: rest ∧
  (∀ t ∈ l, plainToken t = true) ∧ afterOperand l = true

/-- The engine has stopped in panic mode, or inside the line with at most `n`
tokens of it left, or on the first token of the next line. -/
def stoppedShort (eol w0 : Token) (rest : List Token) (n : Nat) (r : Ctx) : Prop :=
  r.parser.panicMode = true ∨ (∃ l, l.length ≤ n ∧ atLine eol w0 rest l r) ∨
    (r.parser.panicMode = false ∧ r.parser.current = w0)

/-- The malformed lines with at least two tokens that are recognised by their
tokens: the first token cannot open an expression in front of the second, or
the line starts with an operand and is malformed after it. -/
def malformedLine : List Token → Bool
  | m0 :: t :: M =>
    malformedStart m0.type t.type || (isOperand m0.type && afterOperand (t :: M))
  | _ => false

/-- The token stream of `"x" 2` end-of-line `print x` end-of-line. -/
def literalLineThenPrint : List Token :=
  [mkToken .TOKEN_STRING "\"x\"", mkToken .TOKEN_NUMBER "2", mkToken .TOKEN_EOL "\n",
   mkToken .TOKEN_PRINT "print", mkToken .TOKEN_IDENTIFIER "x", mkToken .TOKEN_EOL "\n"]

/-- The token stream of `print x` end-of-line. -/
def printName : List Token :=
  [mkToken .TOKEN_PRINT "print", mkToken .TOKEN_IDENTIFIER "x", mkToken .TOKEN_EOL "\n"]

/-- The token stream of `print 5` end-of-line. -/
def printFive : List Token :=
  [mkToken .TOKEN_PRINT "print", mkToken .TOKEN_NUMBER "5", mkToken .TOKEN_EOL "\n"]

/-- The token stream of `)` end-of-line `print 5` end-of-line. -/
def silentLineThenPrint : List Token :=
  [mkToken .TOKEN_RIGHT_PAREN ")", mkToken .TOKEN_EOL "\n",
   mkToken .TOKEN_PRINT "print", mkToken .TOKEN_NUMBER "5", mkToken .TOKEN_EOL "\n"]
/-! ## Unfolding lemmas -/

theorem makeConstant_eq (s : Ctx) (v : Value) :
    makeConstant s v = (s.chunk.constants.length % 4294967296,
      { s with chunk := { s.chunk with constants := s.chunk.constants ++ [v] } }) := by
  have h : ¬ (s.chunk.constants.length % 4294967296 > UINT32_MAX) := by
    unfold UINT32_MAX; omega
  simp [makeConstant, ChunkAddConstant, h]

theorem compileLoop_step (fuel : Nat) (s : Ctx) (_h : s.parser.current.type ≠ .TOKEN_ERROR) :
    compileLoop (fuel + 1) s =
    (if !(matchTok s .TOKEN_EOF).1 then
      match declaration fuel (matchTok s .TOKEN_EOF).2 with
      | .fault e => .fault e
      | .ok s => compileLoop fuel s
    else .ok (matchTok s .TOKEN_EOF).2) := rfl

theorem declaration_step (fuel : Nat) (s : Ctx) (_h : s.parser.current.type ≠ .TOKEN_ERROR) :
    declaration (fuel + 1) s =
    (match (if (matchTok s .TOKEN_CONST).1 then constDeclaration fuel (matchTok s .TOKEN_CONST).2
      else if (matchTok (matchTok s .TOKEN_CONST).2 .TOKEN_VAR).1 then
        varDeclaration fuel (matchTok (matchTok s .TOKEN_CONST).2 .TOKEN_VAR).2
      else if (matchTok (matchTok (matchTok s .TOKEN_CONST).2 .TOKEN_VAR).2 .TOKEN_EOL).1 then
        .ok (matchTok (matchTok (matchTok s .TOKEN_CONST).2 .TOKEN_VAR).2 .TOKEN_EOL).2
      else statement fuel (matchTok (matchTok (matchTok s .TOKEN_CONST).2 .TOKEN_VAR).2 .TOKEN_EOL).2) with
    | .fault e => .fault e
    | .ok s => if s.parser.panicMode then synchronize fuel s else .ok s) := rfl

theorem statement_step (fuel : Nat) (s : Ctx) (_h : s.parser.current.type ≠ .TOKEN_ERROR) :
    statement (fuel + 1) s =
    (let m := matchTok s .TOKEN_PRINT
    let m := if m.1 then m else matchTok m.2 .TOKEN_PRINTLN
    if m.1 then printStatement fuel m.2
    else
      let m := matchTok m.2 .TOKEN_LEFT_BRACE
      if m.1 then
        let s := beginScope m.2
        match block fuel s with
        | .fault e => .fault e
        | .ok s => .ok (endScope s)
      else expressionStatement fuel m.2) := rfl

theorem block_step (fuel : Nat) (s : Ctx) (_h : s.parser.current.type ≠ .TOKEN_ERROR) :
    block (fuel + 1) s =
    (if !check s .TOKEN_RIGHT_BRACE && !check s .TOKEN_EOF then
      match declaration fuel s with
      | .fault e => .fault e
      | .ok s => block fuel s
    else .ok (consume s .TOKEN_RIGHT_BRACE "Expected \x27\x7d\x27 after block.")) := rfl

theorem expression_step (fuel : Nat) (s : Ctx) (_h : s.parser.current.type ≠ .TOKEN_ERROR) :
    expression (fuel + 1) s = parsePrecedence fuel PREC_ASSIGNMENT s := rfl

theorem parsePrecedence_step (fuel precedence : Nat) (s : Ctx) (_h : s.parser.current.type ≠ .TOKEN_ERROR) :
    parsePrecedence (fuel + 1) precedence s =
    (let s := parserAdvance s
    let rule := getRule s.parser.previous.type
    if !HAS_ENUM s.parser.current.type rule.acceptedTokens then
      .ok (errorAt s s.parser.current "Invalid token")
    else
      match rule.prefixRule with
      | none => .ok (LogError s "Expected expression" [])
      | some prefixRule =>
        let s := { s with parser := { s.parser with precedence := rule.precedence } }
        match callParseFunc fuel prefixRule s with
        | .fault e => .fault e
        | .ok s => parsePrecedenceLoop fuel precedence s) := rfl

theorem parsePrecedenceLoop_step (fuel precedence : Nat) (s : Ctx) (_h : s.parser.current.type ≠ .TOKEN_ERROR) :
    parsePrecedenceLoop (fuel + 1) precedence s =
    (if precedence ≤ (getRule s.parser.current.type).precedence then
      let s := parserAdvance s
      match (getRule s.parser.previous.type).infixRule with
      | none => .fault .NullCall
      | some infixRule =>
        match callParseFunc fuel infixRule s with
        | .fault e => .fault e
        | .ok s => parsePrecedenceLoop fuel precedence s
    else .ok s) := rfl

theorem callParseFunc_step (fuel : Nat) (f : ParseFunc) (s : Ctx) (_h : s.parser.current.type ≠ .TOKEN_ERROR) :
    callParseFunc (fuel + 1) f s =
    (match f with
    | .grouping => grouping fuel s
    | .unary => unary fuel s
    | .binary => binary fuel s
    | .noop => .ok (noop s)
    | .identifier => identifier fuel s
    | .number => .ok (number s)
    | .literal => .ok (literal s)
    | .string => .ok (string s)) := rfl

theorem grouping_step (fuel : Nat) (s : Ctx) (_h : s.parser.current.type ≠ .TOKEN_ERROR) :
    grouping (fuel + 1) s =
    (match expression fuel s with
    | .fault e => .fault e
    | .ok s => .ok (consume s .TOKEN_RIGHT_PAREN "Expect \x27)\x27 after expression")) := rfl

theorem unary_step (fuel : Nat) (s : Ctx) (_h : s.parser.current.type ≠ .TOKEN_ERROR) :
    unary (fuel + 1) s =
    (let operatorType := s.parser.previous.type
    match parsePrecedence fuel PREC_UNARY s with
    | .fault e => .fault e
    | .ok s =>
      match operatorType with
      | .TOKEN_BANG => .ok (emitInstruction s (.op .OP_NOT))
      | .TOKEN_MINUS => .ok (emitInstruction s (.op .OP_NEG))
      | _ => .ok s) := rfl

theorem binary_step (fuel : Nat) (s : Ctx) (_h : s.parser.current.type ≠ .TOKEN_ERROR) :
    binary (fuel + 1) s =
    (let operatorType := s.parser.previous.type
    let rule := getRule operatorType
    match parsePrecedence fuel (rule.precedence + 1) s with
    | .fault e => .fault e
    | .ok s =>
      match operatorType with
      | .TOKEN_PLUS => .ok (emitInstruction s (.op .OP_ADD))
      | .TOKEN_MINUS => .ok (emitInstruction s (.op .OP_SUB))
      | .TOKEN_SLASH => .ok (emitInstruction s (.op .OP_DIV))
      | .TOKEN_STAR => .ok (emitInstruction s (.op .OP_MUL))
      | .TOKEN_PERCENT => .ok (emitInstruction s (.op .OP_MOD))
      | .TOKEN_BANG_EQUAL => .ok (emitInstruction s (.op .OP_NEQ))
      | .TOKEN_EQUAL_EQUAL => .ok (emitInstruction s (.op .OP_EQ))
      | .TOKEN_GREATER => .ok (emitInstruction s (.op .OP_GT))
      | .TOKEN_GREATER_EQUAL => .ok (emitInstruction s (.op .OP_GE))
      | .TOKEN_LESS => .ok (emitInstruction s (.op .OP_LT))
      | .TOKEN_LESS_EQUAL => .ok (emitInstruction s (.op .OP_LE))
      | _ => .ok s) := rfl

theorem identifier_step (fuel : Nat) (s : Ctx) (_h : s.parser.current.type ≠ .TOKEN_ERROR) :
    identifier (fuel + 1) s = namedVariable fuel s := rfl

theorem namedVariable_step (fuel : Nat) (s : Ctx) (_h : s.parser.current.type ≠ .TOKEN_ERROR) :
    namedVariable (fuel + 1) s =
    (let r := resolveLocal s s.parser.previous
    let arg := r.1
    let s := r.2
    let canAssign : Bool := s.parser.precedence ≤ PREC_ASSIGNMENT
    if arg ≠ -1 then
      let m := if canAssign then matchTok s .TOKEN_EQUAL else (false, s)
      if m.1 then
        let s := m.2
        match s.compiler.locals[arg.toNat]? with
        | none => .fault .OutOfBounds
        | some loc =>
          if loc.constant then
            .ok (errorAtCurrent s "Tried to modify value of constant.")
          else
            match expression fuel s with
            | .fault e => .fault e
            | .ok s => .ok (emitInstructions s (.op .OP_SET_LOCAL) (.operand arg.toNat))
      else
        .ok (emitInstructions s (.op .OP_GET_LOCAL) (.operand arg.toNat))
    else
      let m := if canAssign then matchTok s .TOKEN_EQUAL else (false, s)
      if m.1 then
        let s := m.2
        .ok (errorAtCurrent s "Tried to modify value of constant.")
      else
        let r := CStringCopy s s.parser.previous.lexeme
        let key := r.1
        let s := r.2
        let s :=
          match TableFindInternalEntry s.interned key with
          | some entry => emitConstant s entry.value
          | none => s
        .ok (ijoStringDelete s key)) := rfl

theorem synchronizeLoop_step (fuel : Nat) (s : Ctx) (_h : s.parser.current.type ≠ .TOKEN_ERROR) :
    synchronizeLoop (fuel + 1) s =
    (if s.parser.current.type ≠ .TOKEN_EOF ∨ s.parser.current.type ≠ .TOKEN_EOL then
      if s.parser.previous.type = .TOKEN_EOL then .ok s
      else if syncSwitch s.parser.current.type then .ok s
      else synchronizeLoop fuel (parserAdvance s)
    else .ok s) := rfl



/-! ## Frame of the parser driver -/

theorem parserStep_refl (a : Ctx) : parserStep a a :=
  ⟨rfl, rfl, rfl, rfl, rfl, id, id⟩

theorem parserStep_trans {a b c : Ctx} (h1 : parserStep a b) (h2 : parserStep b c) :
    parserStep a c := by
  obtain ⟨a1, a2, a3, a4, a5, a6, a7⟩ := h1
  obtain ⟨b1, b2, b3, b4, b5, b6, b7⟩ := h2
  exact ⟨b1.trans a1, b2.trans a2, b3.trans a3, b4.trans a4, b5.trans a5,
    fun h => b6 (a6 h), fun h => b7 (a7 h)⟩

theorem errorAt_parserStep (s : Ctx) (token : Token) (message : String) :
    parserStep s (errorAt s token message) := by
  cases hp : s.parser.panicMode with
  | true => simp [errorAt, hp, parserStep]
  | false =>
    by_cases h1 : token.type = .TOKEN_EOF
    · simp [errorAt, hp, h1, LogError, ConsoleWrite, parserStep]
    · by_cases h2 : token.type = .TOKEN_ERROR <;>
        simp [errorAt, hp, h1, h2, LogError, ConsoleWrite, parserStep]

theorem errorAt_flags (s : Ctx) (token : Token) (message : String)
    (hinv : s.parser.panicMode = true → s.parser.hadError = true) :
    (errorAt s token message).parser.hadError = true ∧
      (errorAt s token message).parser.panicMode = true := by
  cases hp : s.parser.panicMode with
  | true => simp [errorAt, hp, hinv hp]
  | false =>
    by_cases h1 : token.type = .TOKEN_EOF
    · simp [errorAt, hp, h1, LogError, ConsoleWrite]
    · by_cases h2 : token.type = .TOKEN_ERROR <;>
        simp [errorAt, hp, h1, h2, LogError, ConsoleWrite]

theorem errorAt_tokens (s : Ctx) (token : Token) (message : String) :
    (errorAt s token message).parser.previous = s.parser.previous ∧
      (errorAt s token message).parser.current = s.parser.current ∧
      (errorAt s token message).parser.scanner = s.parser.scanner := by
  cases hp : s.parser.panicMode with
  | true => simp [errorAt, hp]
  | false =>
    by_cases h1 : token.type = .TOKEN_EOF
    · simp [errorAt, hp, h1, LogError, ConsoleWrite]
    · by_cases h2 : token.type = .TOKEN_ERROR <;>
        simp [errorAt, hp, h1, h2, LogError, ConsoleWrite]

theorem errorAtCurrent_parserStep (s : Ctx) (message : String) :
    parserStep s (errorAtCurrent s message) := by
  unfold errorAtCurrent
  exact parserStep_trans (by simp [parserStep, LogError]) (errorAt_parserStep _ _ _)

theorem errorAtCurrent_flags (s : Ctx) (message : String)
    (hinv : s.parser.panicMode = true → s.parser.hadError = true) :
    (errorAtCurrent s message).parser.hadError = true ∧
      (errorAtCurrent s message).parser.panicMode = true := by
  unfold errorAtCurrent
  exact errorAt_flags _ _ _ (by simpa [LogError] using hinv)

theorem errorAtCurrent_tokens (s : Ctx) (message : String) :
    (errorAtCurrent s message).parser.previous = s.parser.previous ∧
      (errorAtCurrent s message).parser.current = s.parser.current ∧
      (errorAtCurrent s message).parser.scanner = s.parser.scanner := by
  unfold errorAtCurrent
  simpa [LogError] using errorAt_tokens (LogError s "%s\n" [Arg.str message]) _ _

theorem scanLoop_parserStep (l : List Token) : ∀ s : Ctx, parserStep s (scanLoop s l) := by
  induction l with
  | nil => intro s; simp [scanLoop, parserStep]
  | cons t rest ih =>
    intro s
    rw [scanLoop]
    by_cases ht : t.type = .TOKEN_ERROR
    · simp only [ht, ne_eq, not_true_eq_false, ↓reduceIte]
      exact parserStep_trans (parserStep_trans (by simp [parserStep]) (errorAtCurrent_parserStep _ _)) (ih _)
    · simp [ht, parserStep]

theorem scanLoop_previous (l : List Token) : ∀ s : Ctx,
    (scanLoop s l).parser.previous = s.parser.previous := by
  induction l with
  | nil => intro s; simp [scanLoop]
  | cons t rest ih =>
    intro s
    rw [scanLoop]
    by_cases ht : t.type = .TOKEN_ERROR
    · simp only [ht, ne_eq, not_true_eq_false, ↓reduceIte]
      rw [ih, (errorAtCurrent_tokens _ _).1]
    · simp [ht]

theorem scanLoop_current_ne_error (l : List Token) : ∀ s : Ctx,
    (scanLoop s l).parser.current.type ≠ .TOKEN_ERROR := by
  induction l with
  | nil => intro s; simp [scanLoop, ScannerScan, eofToken]
  | cons t rest ih =>
    intro s
    rw [scanLoop]
    by_cases ht : t.type = .TOKEN_ERROR
    · simp only [ht, ne_eq, not_true_eq_false, ↓reduceIte]
      exact ih _
    · simp [ht, ScannerScan]

theorem scanLoop_eol (l : List Token) : ∀ s : Ctx, (∃ t ∈ l, t.type = .TOKEN_EOL) →
    (scanLoop s l).parser.current.type = .TOKEN_EOL ∨
      ((∃ t ∈ (scanLoop s l).parser.scanner, t.type = .TOKEN_EOL) ∧
        (scanLoop s l).parser.scanner.length < l.length) := by
  induction l with
  | nil => intro s h; simp at h
  | cons t rest ih =>
    intro s h
    rw [scanLoop]
    by_cases ht : t.type = .TOKEN_ERROR
    · simp only [ht, ne_eq, not_true_eq_false, ↓reduceIte]
      have hr : ∃ t ∈ rest, t.type = .TOKEN_EOL := by
        obtain ⟨u, hu, hue⟩ := h
        rcases List.mem_cons.1 hu with rfl | hu
        · rw [ht] at hue; exact absurd hue (by decide)
        · exact ⟨u, hu, hue⟩
      rcases ih (errorAtCurrent _ "") hr with h1 | ⟨h1, h2⟩
      · exact Or.inl h1
      · exact Or.inr ⟨h1, by simp; omega⟩
    · simp only [ne_eq, ht, not_false_eq_true, ↓reduceIte, ScannerScan]
      obtain ⟨u, hu, hue⟩ := h
      rcases List.mem_cons.1 hu with rfl | hu
      · exact Or.inl hue
      · exact Or.inr ⟨⟨u, hu, hue⟩, by simp⟩

theorem parserAdvance_parserStep (s : Ctx) : parserStep s (parserAdvance s) := by
  unfold parserAdvance
  exact parserStep_trans (by simp [parserStep]) (scanLoop_parserStep _ _)

theorem parserAdvance_previous (s : Ctx) : (parserAdvance s).parser.previous = s.parser.current := by
  unfold parserAdvance
  rw [scanLoop_previous]

theorem parserAdvance_current_ne_error (s : Ctx) :
    (parserAdvance s).parser.current.type ≠ .TOKEN_ERROR := by
  unfold parserAdvance
  exact scanLoop_current_ne_error _ _

theorem parserAdvance_eol (s : Ctx) (h : eolAhead s) :
    (parserAdvance s).parser.current.type = .TOKEN_EOL ∨
      (eolAhead (parserAdvance s) ∧
        (parserAdvance s).parser.scanner.length < s.parser.scanner.length) := by
  unfold parserAdvance eolAhead
  exact scanLoop_eol _ _ h

theorem synchronizeLoop_parserStep (fuel : Nat) : ∀ s r : Ctx,
    synchronizeLoop fuel s = .ok r → parserStep s r := by
  induction fuel with
  | zero => intro s r h; simp [synchronizeLoop] at h
  | succ n ih =>
    intro s r h
    rw [synchronizeLoop] at h
    split_ifs at h
    · injection h with h; subst h; exact parserStep_refl _
    · injection h with h; subst h; exact parserStep_refl _
    · exact parserStep_trans (parserAdvance_parserStep s) (ih _ _ h)
    · injection h with h; subst h; exact parserStep_refl _

theorem synchronizeLoop_previous_eol (fuel : Nat) (s : Ctx)
    (h : s.parser.previous.type = .TOKEN_EOL) : synchronizeLoop (fuel + 1) s = .ok s := by
  rw [synchronizeLoop]
  simp [h]

theorem synchronizeLoop_current_eol (fuel : Nat) (s : Ctx)
    (h : s.parser.current.type = .TOKEN_EOL) : ∃ r, synchronizeLoop (fuel + 2) s = .ok r := by
  rw [synchronizeLoop]
  by_cases hp : s.parser.previous.type = .TOKEN_EOL
  · exact ⟨s, by simp [hp]⟩
  · refine ⟨parserAdvance s, ?_⟩
    simp only [h, hp, syncSwitch]
    simp
    exact synchronizeLoop_previous_eol fuel _ (by rw [parserAdvance_previous]; exact h)

theorem synchronizeLoop_returns (n : Nat) : ∀ s : Ctx, s.parser.scanner.length ≤ n → eolAhead s →
    ∃ r, synchronizeLoop (n + 2) s = .ok r := by
  induction n with
  | zero =>
    intro s hl h
    obtain ⟨t, ht, _⟩ := h
    have : s.parser.scanner = [] := List.length_eq_zero.1 (by omega)
    rw [this] at ht
    simp at ht
  | succ n ih =>
    intro s hl h
    rw [synchronizeLoop]
    by_cases hp : s.parser.previous.type = .TOKEN_EOL
    · exact ⟨s, by simp [hp]⟩
    · by_cases hs : syncSwitch s.parser.current.type = true
      · refine ⟨s, ?_⟩
        simp only [hp, hs]
        split_ifs <;> rfl
      · have hcond : s.parser.current.type ≠ .TOKEN_EOF ∨ s.parser.current.type ≠ .TOKEN_EOL := by
          by_cases he : s.parser.current.type = .TOKEN_EOF
          · right; rw [he]; decide
          · left; exact he
        simp only [hcond, hp, hs, if_true, if_false]
        rcases parserAdvance_eol s h with h1 | ⟨h1, h2⟩
        · exact synchronizeLoop_current_eol n _ h1
        · exact ih _ (by omega) h1

/-! ## Termination of the parser driver -/

/-- C1: whenever `Compile` returns, with or without reported errors, the last
word of the chunk it wrote to is the return opcode. -/
theorem Compile_last_word_is_return (fuel : Nat) (source : List Token) (env : Ctx)
    (b : Bool) (s : Ctx) (h : Compile fuel source env = .ok (b, s)) :
    s.chunk.code.getLast? = some (.op .OP_RETURN) := by
  unfold Compile at h
  simp only at h
  split at h
  · exact absurd h (by simp)
  · injection h with h
    injection h with _ h
    subst h
    simp [endCompiler, emitReturn, ChunkWriteCode]

/-- Witness for C1: `Compile` returns on `sampleLine`, and its chunk ends with
the return opcode. -/
theorem Compile_last_word_is_return_witness :
    Compile 10 sampleLine emptyCtx = .ok (sampleRun.1, sampleRun.2) ∧
      sampleRun.2.chunk.code.getLast? = some (.op .OP_RETURN) :=
  ⟨by decide, Compile_last_word_is_return 10 sampleLine emptyCtx sampleRun.1 sampleRun.2 (by decide)⟩

theorem synchronizeLoop_stuck (fuel : Nat) : ∀ s : Ctx, s.parser.current.type = .TOKEN_EOF →
    s.parser.previous.type ≠ .TOKEN_EOL → s.parser.scanner = [] →
    synchronizeLoop fuel s = .fault .OutOfFuel := by
  induction fuel with
  | zero => intro s _ _ _; rfl
  | succ n ih =>
    intro s hc hp hs
    rw [synchronizeLoop_step n s (by simp [hc])]
    simp only [hc, hp, syncSwitch]
    simp
    apply ih
    · simp [parserAdvance, hs, scanLoop, ScannerScan, eofToken]
    · simp [parserAdvance, hs, scanLoop, ScannerScan, eofToken, hc]
    · simp [parserAdvance, hs, scanLoop, ScannerScan, eofToken]

/-- C2 (fails on the code): on the token stream of the source text `1` with no
end-of-line before end-of-file, `Compile` returns for no amount of fuel: the
missing end-of-line is reported, `synchronize` is entered with only
end-of-file left, and its loop never exits. -/
theorem Compile_never_returns_without_final_eol (fuel : Nat) (env : Ctx) :
    Compile fuel [mkToken .TOKEN_NUMBER "1"] env = .fault .OutOfFuel := by
  rcases fuel with _ | _ | _ | _ | _ | _ | fuel <;>
  simp [Compile, CompilerInit, ParserInit, mkToken, compileLoop_step, declaration_step, statement_step,
    expression_step, parsePrecedence_step, parsePrecedenceLoop_step, callParseFunc_step,
    compileLoop.eq_1, declaration.eq_1, statement.eq_1, expression.eq_1, parsePrecedence.eq_1,
    parsePrecedenceLoop.eq_1, callParseFunc.eq_1,
    synchronize, synchronizeLoop_stuck,
    parserAdvance, scanLoop, ScannerScan, matchTok, check, consume, errorAt, errorAtCurrent, LogError, ConsoleWrite,
    emitInstruction, emitInstructions, emitConstant, makeConstant_eq, ChunkWriteCode,
    number, getRule, HAS_ENUM, TOKEN_ALL, PREC_NONE, PREC_ASSIGNMENT,
    expressionStatement, eofToken]

/-- C3 (fails on the code): for the token stream `)` end-of-line, whose first
token has no prefix handler, `Compile` returns true: `parsePrecedence` only
logs "Expected expression" and leaves `hadError` clear. -/
theorem Compile_accepts_missing_prefix_handler (fuel : Nat) (env : Ctx) :
    returned (Compile (fuel + 5)
      [mkToken .TOKEN_RIGHT_PAREN ")", mkToken .TOKEN_EOL "\n"] env) = some true := by
  simp [Compile, CompilerInit, ParserInit, mkToken, compileLoop_step, declaration_step, statement_step,
    expression_step, parsePrecedence_step, parsePrecedenceLoop_step, callParseFunc_step,
    parserAdvance, scanLoop, ScannerScan, matchTok, check, consume, errorAt, errorAtCurrent, LogError, ConsoleWrite,
    emitInstruction, emitInstructions, emitConstant, makeConstant_eq, ChunkWriteCode, endCompiler, emitReturn,
    number, getRule, HAS_ENUM, TOKEN_ALL, PREC_NONE, PREC_ASSIGNMENT,
    expressionStatement, eofToken, returned]


/-! ## Precedence climbing -/

theorem getRule_number :
    getRule .TOKEN_NUMBER = ⟨some .number, none, PREC_NONE, TOKEN_ALL⟩ := rfl

theorem wiredBinary_rule (o : TokType) (c : OpCode) (h : (o, c) ∈ wiredBinary) :
    (getRule o).infixRule = some .binary ∧ 1 ≤ (getRule o).precedence ∧
      (getRule o).precedence ≤ 7 ∧ o ≠ .TOKEN_ERROR := by
  simp [wiredBinary] at h
  rcases h with h | h | h | h | h | h | h | h | h | h <;> (obtain ⟨rfl, rfl⟩ := h; decide)

theorem binary_wired (fuel : Nat) (s : Ctx) (o : TokType) (c : OpCode) (hw : (o, c) ∈ wiredBinary)
    (hprev : s.parser.previous.type = o) :
    binary (fuel + 1) s =
      (match parsePrecedence fuel ((getRule o).precedence + 1) s with
       | .fault e => .fault e
       | .ok s => .ok (emitInstruction s (.op c))) := by
  simp [wiredBinary] at hw
  rw [binary.eq_2]
  rcases hw with h | h | h | h | h | h | h | h | h | h <;>
    (obtain ⟨rfl, rfl⟩ := h; simp only [hprev])

set_option maxHeartbeats 1000000 in
/-- C4: for number tokens `na nb nc` and wired binary operator tokens `t1 t2`
(opcodes `c1 c2`), compiling `na t1 nb t2 nc` followed by a token of no
precedence returns and appends load a, load b, `c1`, load c, `c2` when the
precedence of `t1` is at least that of `t2`, and load a, load b, load c, `c2`,
`c1` otherwise, with the three numbers added to the pool in order and no error
reported; in the rule table term is below factor and equality below
comparison below term. -/
theorem expression_two_operators_postorder (fuel : Nat) (na nb nc t1 t2 t : Token)
    (c1 c2 : OpCode) (rest : List Token) (s : Ctx)
    (hcur : s.parser.current = na)
    (hsc : s.parser.scanner = t1 :: nb :: t2 :: nc :: t :: rest)
    (ha : na.type = .TOKEN_NUMBER) (hb : nb.type = .TOKEN_NUMBER) (hc : nc.type = .TOKEN_NUMBER)
    (h1 : (t1.type, c1) ∈ wiredBinary) (h2 : (t2.type, c2) ∈ wiredBinary)
    (ht : t.type ≠ .TOKEN_ERROR) (hp : (getRule t.type).precedence = PREC_NONE) :
    (∃ s', expression (fuel + 12) s = .ok s' ∧
      s'.chunk.constants = s.chunk.constants ++
        [.NUMBER_VAL na.lexeme, .NUMBER_VAL nb.lexeme, .NUMBER_VAL nc.lexeme] ∧
      s'.chunk.code = s.chunk.code ++
        (if (getRule t1.type).precedence ≥ (getRule t2.type).precedence then
          loadWords s.chunk.constants.length ++ loadWords (s.chunk.constants.length + 1) ++ [.op c1] ++
            loadWords (s.chunk.constants.length + 2) ++ [.op c2]
        else
          loadWords s.chunk.constants.length ++ loadWords (s.chunk.constants.length + 1) ++
            loadWords (s.chunk.constants.length + 2) ++ [.op c2, .op c1]) ∧
      s'.parser.hadError = s.parser.hadError ∧ s'.parser.current = t) ∧
    ((getRule .TOKEN_PLUS).precedence = (getRule .TOKEN_MINUS).precedence ∧
      (getRule .TOKEN_STAR).precedence = (getRule .TOKEN_SLASH).precedence ∧
      (getRule .TOKEN_PLUS).precedence < (getRule .TOKEN_STAR).precedence ∧
      (getRule .TOKEN_EQUAL_EQUAL).precedence = (getRule .TOKEN_BANG_EQUAL).precedence ∧
      (getRule .TOKEN_EQUAL_EQUAL).precedence < (getRule .TOKEN_LESS).precedence ∧
      (getRule .TOKEN_LESS).precedence = (getRule .TOKEN_LESS_EQUAL).precedence ∧
      (getRule .TOKEN_LESS).precedence = (getRule .TOKEN_GREATER).precedence ∧
      (getRule .TOKEN_LESS).precedence = (getRule .TOKEN_GREATER_EQUAL).precedence ∧
      (getRule .TOKEN_LESS).precedence < (getRule .TOKEN_PLUS).precedence) := by
  refine ⟨?_, by decide⟩
  obtain ⟨p, cm, ch, tb, g, h, con⟩ := s
  obtain ⟨cur, prev, he, pm, prec, sc⟩ := p
  obtain ⟨tt, tl, tln, tid⟩ := t
  obtain ⟨ta, la, lna, ida⟩ := na
  obtain ⟨tb', lb, lnb, idb⟩ := nb
  obtain ⟨tc, lc, lnc, idc⟩ := nc
  obtain ⟨o1, l1, ln1, id1⟩ := t1
  obtain ⟨o2, l2, ln2, id2⟩ := t2
  simp only at hcur hsc ht hp ha hb hc h1 h2
  subst hcur hsc ha hb hc
  obtain ⟨r1, p1lo, p1hi, ne1⟩ := wiredBinary_rule o1 c1 h1
  obtain ⟨r2, p2lo, p2hi, ne2⟩ := wiredBinary_rule o2 c2 h2
  by_cases hcmp : (getRule o1).precedence ≥ (getRule o2).precedence
  · have hn : ¬ ((getRule o1).precedence + 1 ≤ (getRule o2).precedence) := by omega
    simp [expression_step, parsePrecedence_step, parsePrecedenceLoop_step, callParseFunc_step,
      binary_wired _ _ _ _ h1, binary_wired _ _ _ _ h2,
      parserAdvance, scanLoop, ScannerScan,
      emitInstruction, emitInstructions, emitConstant, makeConstant_eq, ChunkWriteCode,
      number, getRule_number, HAS_ENUM, TOKEN_ALL, PREC_NONE, PREC_ASSIGNMENT,
      ht, hp, r1, r2, p1lo, p2lo, ne1, ne2, hcmp, hn, loadWords]
  · have hn : (getRule o1).precedence + 1 ≤ (getRule o2).precedence := by omega
    have hn' : ¬ ((getRule o2).precedence ≤ (getRule o1).precedence) := by omega
    simp [expression_step, parsePrecedence_step, parsePrecedenceLoop_step, callParseFunc_step,
      binary_wired _ _ _ _ h1, binary_wired _ _ _ _ h2,
      parserAdvance, scanLoop, ScannerScan,
      emitInstruction, emitInstructions, emitConstant, makeConstant_eq, ChunkWriteCode,
      number, getRule_number, HAS_ENUM, TOKEN_ALL, PREC_NONE, PREC_ASSIGNMENT,
      ht, hp, r1, r2, p1lo, p2lo, ne1, ne2, hn, hn', loadWords]

/-- Witness for C4: the line `1 + 2 * 3`. -/
theorem expression_two_operators_postorder_witness :
    (sumProductState.parser.current = mkToken .TOKEN_NUMBER "1" ∧
     sumProductState.parser.scanner =
       mkToken .TOKEN_PLUS "+" :: mkToken .TOKEN_NUMBER "2" :: mkToken .TOKEN_STAR "*" ::
         mkToken .TOKEN_NUMBER "3" :: mkToken .TOKEN_EOL "\n" :: [] ∧
     ((mkToken .TOKEN_PLUS "+").type, OpCode.OP_ADD) ∈ wiredBinary ∧
     ((mkToken .TOKEN_STAR "*").type, OpCode.OP_MUL) ∈ wiredBinary) ∧
    ∃ s', expression 12 sumProductState = .ok s' ∧
      s'.chunk.constants = [.NUMBER_VAL "1", .NUMBER_VAL "2", .NUMBER_VAL "3"] ∧
      s'.chunk.code = [.op .OP_CONSTANT, .operand 0, .op .OP_CONSTANT, .operand 1,
        .op .OP_CONSTANT, .operand 2, .op .OP_MUL, .op .OP_ADD] :=
  ⟨⟨rfl, rfl, by decide, by decide⟩,
   (expression_two_operators_postorder 0 (mkToken .TOKEN_NUMBER "1") (mkToken .TOKEN_NUMBER "2")
      (mkToken .TOKEN_NUMBER "3") (mkToken .TOKEN_PLUS "+") (mkToken .TOKEN_STAR "*")
      (mkToken .TOKEN_EOL "\n") .OP_ADD .OP_MUL [] sumProductState rfl rfl rfl rfl rfl
      (by decide) (by decide) (by decide) rfl).1.imp
     (fun _ h => ⟨h.1, h.2.1, h.2.2.1⟩)⟩

/-! ## String interning -/

theorem TableFindString_none_any (t : Table) (x : String) (h : TableFindString t x = none) :
    t.entries.any (fun e => e.key.chars == x) = false := by
  simp [TableFindString] at h
  simpa using h

theorem TableInsert_new (t : Table) (k : ijoString) (v : Value)
    (h : TableFindString t k.chars = none) :
    TableInsert t k v = { entries := t.entries ++ [{ key := k, value := v }] } := by
  have := TableFindString_none_any t k.chars h
  simp [TableInsert, this]

theorem TableFindString_append_new (t : Table) (k : ijoString) (v : Value)
    (h : TableFindString t k.chars = none) :
    TableFindString { entries := t.entries ++ [{ key := k, value := v }] } k.chars = some k := by
  have hn : t.entries.find? (fun e => e.key.chars == k.chars) = none := by
    simpa [TableFindString] using h
  simp [TableFindString, List.find?_append, hn]

theorem string_miss (s : Ctx)
    (h : TableFindString s.interned (trimQuotes s.parser.previous.lexeme) = none) :
    string s = { s with
      heapTop := s.heapTop + 1,
      gc := s.gc ++ [.INTERNAL_STR { addr := s.heapTop, chars := trimQuotes s.parser.previous.lexeme }],
      chunk := { code := s.chunk.code ++ loadWords s.chunk.constants.length,
                 lines := s.chunk.lines ++ [s.parser.previous.line, s.parser.previous.line],
                 constants := s.chunk.constants ++
                   [.INTERNAL_STR { addr := s.heapTop, chars := trimQuotes s.parser.previous.lexeme }] },
      interned := { entries := s.interned.entries ++
        [{ key := { addr := s.heapTop, chars := trimQuotes s.parser.previous.lexeme },
           value := .INTERNAL_STR { addr := s.heapTop, chars := trimQuotes s.parser.previous.lexeme } }] } } := by
  have h' := TableInsert_new s.interned { addr := s.heapTop, chars := trimQuotes s.parser.previous.lexeme }
    (.INTERNAL_STR { addr := s.heapTop, chars := trimQuotes s.parser.previous.lexeme }) h
  simp [string, CStringCopy, h, NaiveGCInsert, emitConstant, makeConstant_eq, emitInstructions,
    ChunkWriteCode, h', loadWords]

theorem string_hit (s : Ctx) (o : ijoString)
    (h : TableFindString s.interned (trimQuotes s.parser.previous.lexeme) = some o) :
    string s = { s with
      heapTop := s.heapTop + 1,
      chunk := { code := s.chunk.code ++ loadWords s.chunk.constants.length,
                 lines := s.chunk.lines ++ [s.parser.previous.line, s.parser.previous.line],
                 constants := s.chunk.constants ++ [.INTERNAL_STR o] } } := by
  simp [string, CStringCopy, h, ijoStringDelete, emitConstant, makeConstant_eq, emitInstructions,
    ChunkWriteCode, loadWords]

/-- C5: `string` on a content the table does not hold adds exactly one entry
for it, registers exactly one root and emits a load of the new string object;
on a content the table holds it leaves table and roots unchanged and emits a
load of the stored object; hence compiling the same literal twice yields two
pool entries that are the same string object. -/
theorem string_interns_by_content (s : Ctx) :
    (TableFindString s.interned (trimQuotes s.parser.previous.lexeme) = none →
      (string s).interned.entries = s.interned.entries ++
        [{ key := { addr := s.heapTop, chars := trimQuotes s.parser.previous.lexeme },
           value := .INTERNAL_STR { addr := s.heapTop, chars := trimQuotes s.parser.previous.lexeme } }] ∧
      (string s).gc = s.gc ++
        [.INTERNAL_STR { addr := s.heapTop, chars := trimQuotes s.parser.previous.lexeme }] ∧
      (string s).chunk.constants = s.chunk.constants ++
        [.INTERNAL_STR { addr := s.heapTop, chars := trimQuotes s.parser.previous.lexeme }] ∧
      (string s).chunk.code = s.chunk.code ++ loadWords s.chunk.constants.length) ∧
    (∀ o, TableFindString s.interned (trimQuotes s.parser.previous.lexeme) = some o →
      (string s).interned = s.interned ∧ (string s).gc = s.gc ∧
      (string s).chunk.constants = s.chunk.constants ++ [.INTERNAL_STR o] ∧
      (string s).chunk.code = s.chunk.code ++ loadWords s.chunk.constants.length) ∧
    (∃ o, (string (string s)).chunk.constants = s.chunk.constants ++
      [.INTERNAL_STR o, .INTERNAL_STR o]) := by
  refine ⟨fun h => ?_, fun o h => ?_, ?_⟩
  · rw [string_miss s h]; simp
  · rw [string_hit s o h]; simp
  · cases h : TableFindString s.interned (trimQuotes s.parser.previous.lexeme) with
    | none =>
      refine ⟨{ addr := s.heapTop, chars := trimQuotes s.parser.previous.lexeme }, ?_⟩
      rw [string_miss s h]
      rw [string_hit _ { addr := s.heapTop, chars := trimQuotes s.parser.previous.lexeme }
        (TableFindString_append_new s.interned
          { addr := s.heapTop, chars := trimQuotes s.parser.previous.lexeme } _ h)]
      simp
    | some o =>
      refine ⟨o, ?_⟩
      rw [string_hit s o h]
      rw [string_hit _ o]
      · simp
      · exact h

/-- Witness for C5: the literal `"abc"` against an empty table. -/
theorem string_interns_by_content_witness :
    TableFindString stringState.interned (trimQuotes stringState.parser.previous.lexeme) = none ∧
      (string stringState).interned.entries =
        [{ key := { addr := 0, chars := "abc" }, value := .INTERNAL_STR { addr := 0, chars := "abc" } }] ∧
      (string stringState).gc = [.INTERNAL_STR { addr := 0, chars := "abc" }] :=
  ⟨by decide, ((string_interns_by_content stringState).1 (by decide)).1,
    ((string_interns_by_content stringState).1 (by decide)).2.1⟩

/-! ## Global constants -/

theorem declaration_duplicate_const_eq (fuel : Nat) (s : Ctx)
    (hd : s.compiler.scopeDepth = 0) (hc : s.parser.current.type = .TOKEN_CONST)
    (hf : (TableFindString s.interned s.parser.current.identifier).isSome = true)
    (hinv : s.parser.panicMode = true → s.parser.hadError = true) :
    declaration (fuel + 1) s =
      synchronize fuel (errorAtCurrent { parserAdvance s with heapTop := (parserAdvance s).heapTop + 1 }
        "Constant already declared.") := by
  obtain ⟨h1, h2, h3, h4, h5, h6, h7⟩ := parserAdvance_parserStep s
  have hprev := parserAdvance_previous s
  have hfl := errorAtCurrent_flags { parserAdvance s with heapTop := (parserAdvance s).heapTop + 1 }
    "Constant already declared." (h7 hinv)
  have hd1 : (parserAdvance s).compiler.scopeDepth = 0 := by rw [h1]; exact hd
  have hf1 : (TableFindString (parserAdvance s).interned
      (parserAdvance s).parser.previous.identifier).isSome = true := by
    rw [h3, hprev]; exact hf
  rw [declaration_step fuel s (by rw [hc]; decide)]
  simp [matchTok, check, hc]
  generalize parserAdvance s = s1 at hfl hd1 hf1 ⊢
  simp [constDeclaration, hd1, hf1, CStringCopy, ijoStringDelete]
  intro hpm
  exact absurd (hfl.2.symm.trans hpm) (by decide)

/-- C6: at top level, a `const` declaration whose name the table already holds
sets `hadError`, leaves the table unchanged and writes nothing to the chunk,
whatever the rest of the line is, and it returns whenever an end-of-line is
still to come; on `const x = v EOL const x = w EOL` `Compile` returns false,
the table holds only `x` with value `v`, and the chunk receives only the final
return. -/
theorem duplicate_top_level_const_rejected :
    (∀ s : Ctx, s.compiler.scopeDepth = 0 → s.parser.current.type = .TOKEN_CONST →
      (TableFindString s.interned s.parser.current.identifier).isSome = true →
      (s.parser.panicMode = true → s.parser.hadError = true) →
      (∀ fuel r, declaration fuel s = .ok r →
        r.parser.hadError = true ∧ r.interned = s.interned ∧ r.chunk = s.chunk) ∧
      ((∃ t ∈ s.parser.scanner, t.type = .TOKEN_EOL) → ∃ fuel r, declaration fuel s = .ok r)) ∧
    (∀ (fuel : Nat) (x v w : String) (env : Ctx),
      returned (Compile (fuel + 8)
        [constToken x, mkToken .TOKEN_NUMBER v, mkToken .TOKEN_EOL "\n",
         constToken x, mkToken .TOKEN_NUMBER w, mkToken .TOKEN_EOL "\n"]
        { env with interned := { entries := [] } }) = some false ∧
      (finalState (Compile (fuel + 8)
        [constToken x, mkToken .TOKEN_NUMBER v, mkToken .TOKEN_EOL "\n",
         constToken x, mkToken .TOKEN_NUMBER w, mkToken .TOKEN_EOL "\n"]
        { env with interned := { entries := [] } })).map (fun s => (s.interned, s.chunk.code)) =
        some ({ entries := [{ key := { addr := env.heapTop, chars := x }, value := .NUMBER_VAL v }] },
              env.chunk.code ++ [.op .OP_RETURN])) := by
  refine ⟨fun s hd hc hf hinv => ⟨fun fuel r h => ?_, fun he => ?_⟩, fun fuel x v w env => ?_⟩
  · cases fuel with
    | zero => simp [declaration.eq_1] at h
    | succ n =>
      rw [declaration_duplicate_const_eq n s hd hc hf hinv] at h
      have hps := synchronizeLoop_parserStep _ _ _ h
      obtain ⟨h1, h2, h3, h4, h5, h6, h7⟩ := parserAdvance_parserStep s
      have hfl := errorAtCurrent_flags { parserAdvance s with heapTop := (parserAdvance s).heapTop + 1 }
        "Constant already declared." (h7 hinv)
      obtain ⟨e1, e2, e3, e4, e5, e6, e7⟩ := errorAtCurrent_parserStep
        { parserAdvance s with heapTop := (parserAdvance s).heapTop + 1 } "Constant already declared."
      obtain ⟨g1, g2, g3, g4, g5, g6, g7⟩ := hps
      simp only at g2 g3 g6
      refine ⟨g6 hfl.1, ?_, ?_⟩
      · rw [g3, e3]; exact h3
      · rw [g2, e2]; exact h2
  · obtain ⟨t1, t2, t3⟩ := errorAtCurrent_tokens
      { parserAdvance s with heapTop := (parserAdvance s).heapTop + 1 } "Constant already declared."
    rcases parserAdvance_eol s he with h1 | ⟨h1, _⟩
    · obtain ⟨r, hr⟩ := synchronizeLoop_current_eol 0
        { errorAtCurrent { parserAdvance s with heapTop := (parserAdvance s).heapTop + 1 }
            "Constant already declared." with
          parser := { (errorAtCurrent { parserAdvance s with heapTop := (parserAdvance s).heapTop + 1 }
            "Constant already declared.").parser with panicMode := false } }
        (by simp only [t2]; exact h1)
      exact ⟨3, r, by rw [declaration_duplicate_const_eq 2 s hd hc hf hinv]; exact hr⟩
    · obtain ⟨r, hr⟩ := synchronizeLoop_returns (parserAdvance s).parser.scanner.length
        { errorAtCurrent { parserAdvance s with heapTop := (parserAdvance s).heapTop + 1 }
            "Constant already declared." with
          parser := { (errorAtCurrent { parserAdvance s with heapTop := (parserAdvance s).heapTop + 1 }
            "Constant already declared.").parser with panicMode := false } }
        (by simp only [t3]; exact le_refl _)
        (by unfold eolAhead at h1 ⊢; simp only [t3]; exact h1)
      exact ⟨_, r, by rw [declaration_duplicate_const_eq _ s hd hc hf hinv]; exact hr⟩
  · simp [Compile, CompilerInit, ParserInit, mkToken, constToken, compileLoop_step, declaration_step,
      statement_step, expression_step, parsePrecedence_step, parsePrecedenceLoop_step, callParseFunc_step,
      synchronizeLoop_step, synchronize, syncSwitch,
      parserAdvance, scanLoop, ScannerScan, matchTok, check, consume, errorAt, errorAtCurrent, LogError,
      ConsoleWrite, emitInstruction, emitInstructions, emitConstant, makeConstant_eq, ChunkWriteCode,
      endCompiler, emitReturn, ChunkNew,
      number, getRule, HAS_ENUM, TOKEN_ALL, PREC_NONE, PREC_ASSIGNMENT,
      constDeclaration, CStringCopy, ijoStringDelete, TableFindString, TableInsertInternal, TableInsert,
      IS_OBJ, NaiveGCInsert, eofToken, returned, finalState]

/-- Witness for C6: the table holds `x` and the parser is at `const x` with
the line `2` end-of-line. -/
theorem duplicate_top_level_const_rejected_witness :
    (dupConstState.compiler.scopeDepth = 0 ∧ dupConstState.parser.current.type = .TOKEN_CONST ∧
      (TableFindString dupConstState.interned dupConstState.parser.current.identifier).isSome = true) ∧
    ((declaration 5 dupConstState).getD emptyCtx).parser.hadError = true ∧
    ((declaration 5 dupConstState).getD emptyCtx).interned = dupConstState.interned ∧
    ((declaration 5 dupConstState).getD emptyCtx).chunk = dupConstState.chunk :=
  ⟨⟨rfl, rfl, by decide⟩,
   (duplicate_top_level_const_rejected.1 dupConstState rfl rfl (by decide) (by decide)).1 5
      ((declaration 5 dupConstState).getD emptyCtx) (by decide)⟩

theorem getRule_identifier :
    getRule .TOKEN_IDENTIFIER = ⟨some .identifier, none, PREC_NONE, TOKEN_ALL⟩ := rfl

theorem resolveLocalLoop_not_found (name : Token) (s : Ctx)
    (h : ∀ l ∈ s.compiler.locals, l.name.lexeme ≠ name.lexeme) :
    ∀ n, resolveLocalLoop name n s = (-1, s) := by
  intro n
  induction n with
  | zero => rfl
  | succ i ih =>
    rw [resolveLocalLoop]
    cases hl : s.compiler.locals[i]? with
    | none => rfl
    | some loc =>
      have hm : loc ∈ s.compiler.locals := List.getElem?_mem hl
      have hne : identifierEqual name loc.name = false := by
        simp [identifierEqual]
        exact fun e => h loc hm e.symm
      simp [hne, ih]

theorem resolveLocal_not_found (name : Token) (s : Ctx)
    (h : ∀ l ∈ s.compiler.locals, l.name.lexeme ≠ name.lexeme) :
    resolveLocal s name = (-1, s) :=
  resolveLocalLoop_not_found name s h _

set_option maxHeartbeats 1000000 in
/-- C7: at top level, `const x` with a number `v` and an end-of-line, for a
name the table does not hold, returns without error and stores `v` under `x`;
in any state whose table yields an entry for `x` and that has no local named
`x`, the expression `x` appends a constant load whose pool entry is that
entry's value and reports nothing; and on `const x = v EOL x EOL` `Compile`
returns true with the load of `v`, a pop and the return. -/
theorem global_const_read_loads_value :
    (∀ (fuel : Nat) (s : Ctx) (tc nv eol t : Token) (rest : List Token),
      s.parser.current = tc → s.parser.scanner = nv :: eol :: t :: rest →
      tc.type = .TOKEN_CONST → nv.type = .TOKEN_NUMBER → eol.type = .TOKEN_EOL →
      t.type ≠ .TOKEN_ERROR →
      s.compiler.scopeDepth = 0 → s.parser.panicMode = false →
      TableFindString s.interned tc.identifier = none →
      ∃ s', declaration (fuel + 6) s = .ok s' ∧
        (∀ addr, TableFindInternalEntry s'.interned { addr := addr, chars := tc.identifier } =
          some { key := { addr := s.heapTop, chars := tc.identifier },
                 value := .NUMBER_VAL nv.lexeme }) ∧
        s'.chunk = s.chunk ∧ s'.compiler = s.compiler ∧
        s'.parser.hadError = s.parser.hadError ∧ s'.parser.panicMode = false) ∧
    (∀ (fuel : Nat) (s : Ctx) (ti t : Token) (rest : List Token) (e : Entry),
      s.parser.current = ti → s.parser.scanner = t :: rest →
      ti.type = .TOKEN_IDENTIFIER → t.type ≠ .TOKEN_ERROR → t.type ≠ .TOKEN_EQUAL →
      (getRule t.type).precedence = PREC_NONE →
      (∀ l ∈ s.compiler.locals, l.name.lexeme ≠ ti.lexeme) →
      (∀ addr, TableFindInternalEntry s.interned { addr := addr, chars := ti.lexeme } = some e) →
      ∃ s', expression (fuel + 6) s = .ok s' ∧
        s'.chunk.code = s.chunk.code ++ loadWords s.chunk.constants.length ∧
        s'.chunk.constants = s.chunk.constants ++ [e.value] ∧
        s'.parser.hadError = s.parser.hadError ∧ s'.console = s.console) ∧
    (∀ (fuel : Nat) (x v : String) (env : Ctx),
      returned (Compile (fuel + 9)
        [constToken x, mkToken .TOKEN_NUMBER v, mkToken .TOKEN_EOL "\n",
         mkToken .TOKEN_IDENTIFIER x, mkToken .TOKEN_EOL "\n"]
        { env with interned := { entries := [] } }) = some true ∧
      (finalState (Compile (fuel + 9)
        [constToken x, mkToken .TOKEN_NUMBER v, mkToken .TOKEN_EOL "\n",
         mkToken .TOKEN_IDENTIFIER x, mkToken .TOKEN_EOL "\n"]
        { env with interned := { entries := [] } })).map (fun s => (s.chunk.code, s.chunk.constants)) =
        some (env.chunk.code ++ loadWords env.chunk.constants.length ++ [.op .OP_POP, .op .OP_RETURN],
              env.chunk.constants ++ [.NUMBER_VAL v])) := by
  refine ⟨?_, ?_, ?_⟩
  · intro fuel s tc nv eol t rest hcur hsc htc hnv heol ht hd hpm hfind
    obtain ⟨p, cm, ch, tb, g, h, con⟩ := s
    obtain ⟨cur, prev, he, pm, prec, sc⟩ := p
    obtain ⟨ctt, ctl, ctln, ctid⟩ := tc
    obtain ⟨nt, nl, nln, nid⟩ := nv
    obtain ⟨et, el, eln, eid⟩ := eol
    obtain ⟨tt, tl, tln, tid⟩ := t
    obtain ⟨locs, depth⟩ := cm
    simp only at hcur hsc htc hnv heol ht hd hpm hfind
    subst hcur hsc htc hnv heol hd hpm
    have hins := TableInsert_new tb { addr := h, chars := ctid } (.NUMBER_VAL nl) hfind
    have hnone : tb.entries.find? (fun e => e.key.chars == ctid) = none := by
      simpa [TableFindString] using hfind
    simp [declaration_step, expression_step, parsePrecedence_step, parsePrecedenceLoop_step,
      callParseFunc_step, parserAdvance, scanLoop, ScannerScan, matchTok, check, consume,
      emitInstructions, emitConstant, makeConstant_eq, ChunkWriteCode, ChunkNew,
      number, getRule, HAS_ENUM, TOKEN_ALL, PREC_NONE, PREC_ASSIGNMENT,
      constDeclaration, CStringCopy, hfind, TableInsertInternal, hins,
      IS_OBJ, NaiveGCInsert, ht, TableFindInternalEntry, List.find?_append, hnone]
  · intro fuel s ti t rest e hcur hsc hti ht hteq hp hnl hfind
    obtain ⟨p, cm, ch, tb, g, h, con⟩ := s
    obtain ⟨cur, prev, he, pm, prec, sc⟩ := p
    obtain ⟨it, il, iln, iid⟩ := ti
    obtain ⟨tt, tl, tln, tid⟩ := t
    simp only at hcur hsc hti ht hteq hp hnl hfind
    subst hcur hsc hti
    have hres : ∀ (par : Parser) (c2 : Chunk) (t2 : Table) (g2 : List Value) (h2 : Nat) (con2 : List Output)
        (nm : Token), nm.lexeme = il →
        resolveLocal ⟨par, cm, c2, t2, g2, h2, con2⟩ nm = (-1, ⟨par, cm, c2, t2, g2, h2, con2⟩) := by
      intro par c2 t2 g2 h2 con2 nm hnm
      exact resolveLocal_not_found _ _ (by simpa [hnm] using hnl)
    simp [expression_step, parsePrecedence_step, parsePrecedenceLoop_step,
      callParseFunc_step, identifier_step, namedVariable_step, parserAdvance, scanLoop, ScannerScan,
      matchTok, check, emitInstructions, emitConstant, makeConstant_eq, ChunkWriteCode,
      getRule_identifier, HAS_ENUM, TOKEN_ALL, PREC_NONE, PREC_ASSIGNMENT, hp,
      CStringCopy, ijoStringDelete, ht, hteq, hres, hfind, loadWords]
  · intro fuel x v env
    simp [Compile, CompilerInit, ParserInit, mkToken, constToken, compileLoop_step, declaration_step,
      statement_step, expression_step, parsePrecedence_step, parsePrecedenceLoop_step, callParseFunc_step,
      identifier_step, namedVariable_step, expressionStatement,
      parserAdvance, scanLoop, ScannerScan, matchTok, check, consume, errorAt, errorAtCurrent, LogError,
      ConsoleWrite, emitInstruction, emitInstructions, emitConstant, makeConstant_eq, ChunkWriteCode,
      endCompiler, emitReturn, ChunkNew, resolveLocal, resolveLocalLoop, Compiler.localCount,
      number, getRule, HAS_ENUM, TOKEN_ALL, PREC_NONE, PREC_ASSIGNMENT,
      constDeclaration, CStringCopy, ijoStringDelete, TableFindString, TableInsertInternal, TableInsert,
      TableFindInternalEntry, IS_OBJ, NaiveGCInsert, eofToken, returned, finalState, loadWords]

/-- Witness for C7: the declaration `const x = 1` against an empty table. -/
theorem global_const_read_loads_value_witness :
    (constLineState.compiler.scopeDepth = 0 ∧ constLineState.parser.panicMode = false ∧
      TableFindString constLineState.interned (constToken "x").identifier = none) ∧
    TableFindInternalEntry ((declaration 6 constLineState).getD emptyCtx).interned
        { addr := 7, chars := "x" } =
      some { key := { addr := 0, chars := "x" }, value := .NUMBER_VAL "1" } := by
  obtain ⟨s', h, htab, _⟩ := global_const_read_loads_value.1 0 constLineState (constToken "x")
    (mkToken .TOKEN_NUMBER "1") (mkToken .TOKEN_EOL "\n") (mkToken .TOKEN_IDENTIFIER "x")
    [mkToken .TOKEN_EOL "\n"] rfl rfl rfl rfl rfl (by decide) rfl rfl (by decide)
  have h' : declaration 6 constLineState = .ok s' := h
  refine ⟨⟨rfl, rfl, by decide⟩, ?_⟩
  rw [h']
  exact htab 7

/-! ## Block-scoped locals -/

theorem resolveLocal_uninitialised (s : Ctx) (name : Token) (loc : Local) (earlier : List Local)
    (hl : s.compiler.locals = earlier ++ [loc]) (hn : loc.name.lexeme = name.lexeme)
    (hd : loc.depth = -1) :
    resolveLocal s name = ((earlier.length : Int),
      errorAtCurrent s "Can\x27t read local variable in its own initialization.") := by
  unfold resolveLocal Compiler.localCount
  rw [hl, List.length_append, List.length_singleton, resolveLocalLoop, hl]
  simp [identifierEqual, hn, hd]

set_option maxHeartbeats 2000000 in
/-- C8: when the last local is the one named by the identifier and still has
depth `-1`, `resolveLocal` returns its slot and `hadError` is set; and on
`{ var x = x EOL } EOL` `Compile` returns false, its only diagnostic being the
read-in-own-initialisation one. -/
theorem self_initialiser_rejected :
    (∀ (s : Ctx) (name : Token) (loc : Local) (earlier : List Local),
      s.compiler.locals = earlier ++ [loc] → loc.name.lexeme = name.lexeme → loc.depth = -1 →
      (s.parser.panicMode = true → s.parser.hadError = true) →
      (resolveLocal s name).1 = (earlier.length : Int) ∧
        (resolveLocal s name).2.parser.hadError = true) ∧
    (∀ (fuel : Nat) (x : String) (env : Ctx),
      returned (Compile (fuel + 12)
        [mkToken .TOKEN_LEFT_BRACE "\x7b", mkToken .TOKEN_VAR "var", mkToken .TOKEN_IDENTIFIER x,
         mkToken .TOKEN_EQUAL "=", mkToken .TOKEN_IDENTIFIER x, mkToken .TOKEN_EOL "\n",
         mkToken .TOKEN_RIGHT_BRACE "\x7d", mkToken .TOKEN_EOL "\n"] env) = some false ∧
      (finalState (Compile (fuel + 12)
        [mkToken .TOKEN_LEFT_BRACE "\x7b", mkToken .TOKEN_VAR "var", mkToken .TOKEN_IDENTIFIER x,
         mkToken .TOKEN_EQUAL "=", mkToken .TOKEN_IDENTIFIER x, mkToken .TOKEN_EOL "\n",
         mkToken .TOKEN_RIGHT_BRACE "\x7d", mkToken .TOKEN_EOL "\n"] env)).map (fun s => s.console) =
        some (env.console ++
          [.LogError "%s\n" [.str "Can\x27t read local variable in its own initialization."],
           .LogError "line %d" [.int 1], .ConsoleWrite " at \x27%.*s\x27" [.str x],
           .ConsoleWrite " %s\n" [.str "\n"]])) := by
  refine ⟨?_, ?_⟩
  · intro s name loc earlier hl hn hd hinv
    rw [resolveLocal_uninitialised s name loc earlier hl hn hd]
    exact ⟨rfl, (errorAtCurrent_flags _ _ hinv).1⟩
  · intro fuel x env
    simp [Compile, CompilerInit, ParserInit, mkToken, compileLoop_step, declaration_step,
      statement_step, block_step, expression_step, parsePrecedence_step, parsePrecedenceLoop_step,
      callParseFunc_step, identifier_step, namedVariable_step, synchronizeLoop_step, synchronize, syncSwitch,
      expressionStatement, varDeclaration, parseVariable, declareVariable, declareVariableLoop, addLocal,
      defineVariable, markInitialized, beginScope, endScope, endScopeLoop, UINT8_COUNT,
      parserAdvance, scanLoop, ScannerScan, matchTok, check, consume, errorAt, errorAtCurrent, LogError,
      ConsoleWrite, emitInstruction, emitInstructions, emitConstant, makeConstant_eq, ChunkWriteCode,
      endCompiler, emitReturn, resolveLocal, resolveLocalLoop, Compiler.localCount, identifierEqual,
      number, getRule, HAS_ENUM, TOKEN_ALL, PREC_NONE, PREC_ASSIGNMENT,
      eofToken, returned, finalState]

/-- Witness for C8: the read of `x` while `x` is the uninitialised last
local. -/
theorem self_initialiser_rejected_witness :
    (selfReadState.compiler.locals =
        [] ++ [{ name := mkToken .TOKEN_IDENTIFIER "x", depth := -1, constant := false }] ∧
      (selfReadState.parser.panicMode = true → selfReadState.parser.hadError = true)) ∧
    (resolveLocal selfReadState (mkToken .TOKEN_IDENTIFIER "x")).1 = 0 ∧
    (resolveLocal selfReadState (mkToken .TOKEN_IDENTIFIER "x")).2.parser.hadError = true :=
  ⟨⟨rfl, by decide⟩,
   self_initialiser_rejected.1 selfReadState (mkToken .TOKEN_IDENTIFIER "x")
     { name := mkToken .TOKEN_IDENTIFIER "x", depth := -1, constant := false } [] rfl rfl rfl
     (by decide)⟩

set_option maxHeartbeats 4000000 in
/-- C9: declaring `var x` twice in one block makes `Compile` return false;
declaring it once in each of two sibling blocks, or once in a block and once
in a block nested inside it, makes `Compile` return true. -/
theorem redeclaration_only_within_same_block (fuel : Nat) (x v w : String) (env : Ctx) :
    returned (Compile (fuel + 14) (sameBlockTwice x v w) env) = some false ∧
    returned (Compile (fuel + 14) (siblingBlocks x v w) env) = some true ∧
    returned (Compile (fuel + 14) (nestedBlocks x v w) env) = some true := by
  refine ⟨?_, ?_, ?_⟩ <;>
  simp [sameBlockTwice, siblingBlocks, nestedBlocks,
      Compile, CompilerInit, ParserInit, mkToken, compileLoop_step, declaration_step,
      statement_step, block_step, expression_step, parsePrecedence_step, parsePrecedenceLoop_step,
      callParseFunc_step, synchronizeLoop_step, synchronize, syncSwitch,
      expressionStatement, varDeclaration, parseVariable, declareVariable, declareVariableLoop, addLocal,
      defineVariable, markInitialized, beginScope, endScope, endScopeLoop, UINT8_COUNT,
      parserAdvance, scanLoop, ScannerScan, matchTok, check, consume, errorAt, errorAtCurrent, LogError,
      ConsoleWrite, emitInstruction, emitInstructions, emitConstant, makeConstant_eq, ChunkWriteCode,
      endCompiler, emitReturn, Compiler.localCount, identifierEqual,
      number, getRule, HAS_ENUM, TOKEN_ALL, PREC_NONE, PREC_ASSIGNMENT,
      eofToken, returned]

set_option maxHeartbeats 4000000 in
/-- C10 (fails on the code for `const`): on `{ const x = v EOL x EOL } EOL`
the read of `x` is reported as a read in its own initialisation and `Compile`
returns false, the local of `x` still having depth `-1` at the end (the block
branch of `constDeclaration` never marks it initialised, and `endScope` never
pops it); the same program with `var` returns true. -/
theorem block_const_never_initialised (fuel : Nat) (x v : String) (env : Ctx) :
    returned (Compile (fuel + 14) (constThenRead x v) env) = some false ∧
    (finalState (Compile (fuel + 14) (constThenRead x v) env)).map (fun s => s.compiler.locals) =
      some [{ name := mkToken .TOKEN_IDENTIFIER x, depth := -1, constant := true }] ∧
    returned (Compile (fuel + 14) (varThenRead x v) env) = some true := by
  refine ⟨?_, ?_, ?_⟩ <;>
  simp [constThenRead, varThenRead,
      Compile, CompilerInit, ParserInit, mkToken, compileLoop_step, declaration_step,
      statement_step, block_step, expression_step, parsePrecedence_step, parsePrecedenceLoop_step,
      callParseFunc_step, identifier_step, namedVariable_step, synchronizeLoop_step, synchronize, syncSwitch,
      expressionStatement, constDeclaration, varDeclaration, parseVariable, declareVariable,
      declareVariableLoop, addLocal,
      defineVariable, markInitialized, beginScope, endScope, endScopeLoop, UINT8_COUNT,
      parserAdvance, scanLoop, ScannerScan, matchTok, check, consume, errorAt, errorAtCurrent, LogError,
      ConsoleWrite, emitInstruction, emitInstructions, emitConstant, makeConstant_eq, ChunkWriteCode,
      endCompiler, emitReturn, resolveLocal, resolveLocalLoop, Compiler.localCount, identifierEqual,
      number, getRule, HAS_ENUM, TOKEN_ALL, PREC_NONE, PREC_ASSIGNMENT,
      eofToken, returned, finalState]

/-! ## Assignment through the identifier handler -/

theorem errorAt_precedence (s : Ctx) (token : Token) (message : String) :
    (errorAt s token message).parser.precedence = s.parser.precedence := by
  cases hp : s.parser.panicMode with
  | true => simp [errorAt, hp]
  | false =>
    by_cases h1 : token.type = .TOKEN_EOF
    · simp [errorAt, hp, h1, LogError, ConsoleWrite]
    · by_cases h2 : token.type = .TOKEN_ERROR <;>
        simp [errorAt, hp, h1, h2, LogError, ConsoleWrite]

theorem errorAtCurrent_precedence (s : Ctx) (message : String) :
    (errorAtCurrent s message).parser.precedence = s.parser.precedence := by
  unfold errorAtCurrent
  simpa [LogError] using errorAt_precedence (LogError s "%s\n" [Arg.str message]) _ _

theorem resolveLocalLoop_snd (name : Token) (s : Ctx) : ∀ n,
    (resolveLocalLoop name n s).2 = s ∨
      (resolveLocalLoop name n s).2 =
        errorAtCurrent s "Can\x27t read local variable in its own initialization." := by
  intro n
  induction n with
  | zero => left; rfl
  | succ i ih =>
    rw [resolveLocalLoop]
    cases hl : s.compiler.locals[i]? with
    | none => left; rfl
    | some loc =>
      by_cases hn : identifierEqual name loc.name = true
      · by_cases hd : loc.depth = -1
        · right; simp [hn, hd]
        · left; simp [hn, hd]
      · simpa [hn] using ih

theorem resolveLocal_snd (name : Token) (s : Ctx) :
    (resolveLocal s name).2 = s ∨
      (resolveLocal s name).2 =
        errorAtCurrent s "Can\x27t read local variable in its own initialization." :=
  resolveLocalLoop_snd name s _

theorem resolveLocal_parserStep (name : Token) (s : Ctx) :
    parserStep s (resolveLocal s name).2 := by
  rcases resolveLocal_snd name s with h | h <;> rw [h]
  · exact parserStep_refl _
  · exact errorAtCurrent_parserStep _ _

theorem resolveLocal_tokens (name : Token) (s : Ctx) :
    (resolveLocal s name).2.parser.current = s.parser.current ∧
      (resolveLocal s name).2.parser.precedence = s.parser.precedence := by
  rcases resolveLocal_snd name s with h | h <;> rw [h]
  · exact ⟨rfl, rfl⟩
  · exact ⟨(errorAtCurrent_tokens _ _).2.1, errorAtCurrent_precedence _ _⟩
set_option maxHeartbeats 4000000 in
/-- C11: when the identifier handler runs in assignment context with `=` as the
current token and the name resolves to no local or to a const local, it
returns with `hadError` set, the chunk untouched (no `OP_SET_LOCAL`, no other
instruction, the right-hand side not compiled) and only the `=` consumed; the
precedence the identifier rule installs is within assignment context; and end
to end `x = v` with `x` unknown, and `x = w` after `const x = v` in a block,
make `Compile` return false with no set instruction in the code. -/
theorem assignment_to_const_or_unknown_rejected :
    (∀ (fuel : Nat) (s : Ctx), s.parser.precedence ≤ PREC_ASSIGNMENT →
      s.parser.current.type = .TOKEN_EQUAL →
      (s.parser.panicMode = true → s.parser.hadError = true) →
      ((resolveLocal s s.parser.previous).1 = -1 ∨
        ∃ loc, s.compiler.locals[(resolveLocal s s.parser.previous).1.toNat]? = some loc ∧
          loc.constant = true) →
      ∃ r, namedVariable (fuel + 1) s = .ok r ∧ r.parser.hadError = true ∧
        r.chunk = s.chunk ∧ r.parser.previous = s.parser.current) ∧
    (getRule .TOKEN_IDENTIFIER).precedence ≤ PREC_ASSIGNMENT ∧
    (∀ (fuel : Nat) (x v : String) (env : Ctx),
      returned (Compile (fuel + 12) (unknownAssign x v) env) = some false ∧
      (finalState (Compile (fuel + 12) (unknownAssign x v) env)).map (fun s => s.chunk.code) =
        some (env.chunk.code ++ [.op .OP_POP, .op .OP_RETURN])) ∧
    (∀ (fuel : Nat) (x v w : String) (env : Ctx),
      returned (Compile (fuel + 24) (constAssign x v w) env) = some false ∧
      (finalState (Compile (fuel + 24) (constAssign x v w) env)).map (fun s => s.chunk.code) =
        some (env.chunk.code ++ loadWords env.chunk.constants.length ++
          [.op .OP_POP, .op .OP_RETURN])) := by
  refine ⟨?_, by decide, ?_, ?_⟩
  · intro fuel s hprec hcur hinv harg
    obtain ⟨c1, c2, c3, c4, c5, c6, c7⟩ := resolveLocal_parserStep s.parser.previous s
    obtain ⟨t1, t2⟩ := resolveLocal_tokens s.parser.previous s
    generalize hs1 : (resolveLocal s s.parser.previous).2 = s1 at c1 c2 c3 c4 c5 c6 c7 t1 t2
    obtain ⟨a1, a2, a3, a4, a5, a6, a7⟩ := parserAdvance_parserStep s1
    have hprev := parserAdvance_previous s1
    have hfl := errorAtCurrent_flags (parserAdvance s1) "Tried to modify value of constant."
      (a7 (c7 hinv))
    obtain ⟨e1, e2, e3, e4, e5, e6, e7⟩ := errorAtCurrent_parserStep (parserAdvance s1)
      "Tried to modify value of constant."
    have etok := errorAtCurrent_tokens (parserAdvance s1) "Tried to modify value of constant."
    have hcur1 : s1.parser.current.type = .TOKEN_EQUAL := by rw [t1]; exact hcur
    have hprec1 : s1.parser.precedence ≤ PREC_ASSIGNMENT := by rw [t2]; exact hprec
    refine ⟨errorAtCurrent (parserAdvance s1) "Tried to modify value of constant.", ?_, hfl.1, ?_, ?_⟩
    · rw [namedVariable.eq_2]
      simp only [hs1]
      rcases harg with h | ⟨loc, hloc, hconst⟩
      · simp [h, hprec1, matchTok, check, hcur1]
      · have hloc' : (parserAdvance s1).compiler.locals[(resolveLocal s s.parser.previous).1.toNat]? =
            some loc := by rw [a1, c1]; exact hloc
        by_cases hneg : (resolveLocal s s.parser.previous).1 = -1
        · simp [hneg, hprec1, matchTok, check, hcur1]
        · simp [hneg, hprec1, matchTok, check, hcur1, hloc', hconst]
    · rw [e2, a2, c2]
    · rw [etok.1, hprev, t1]
  · intro fuel x v env
    simp [unknownAssign,
      Compile, CompilerInit, ParserInit, mkToken, compileLoop_step, declaration_step,
      statement_step, expression_step, parsePrecedence_step, parsePrecedenceLoop_step,
      callParseFunc_step, identifier_step, namedVariable_step, synchronizeLoop_step, synchronize, syncSwitch,
      expressionStatement,
      parserAdvance, scanLoop, ScannerScan, matchTok, check, consume, errorAt, errorAtCurrent, LogError,
      ConsoleWrite, emitInstruction, emitInstructions, emitConstant, makeConstant_eq, ChunkWriteCode,
      endCompiler, emitReturn, resolveLocal, resolveLocalLoop, Compiler.localCount, identifierEqual,
      number, getRule, HAS_ENUM, TOKEN_ALL, PREC_NONE, PREC_ASSIGNMENT,
      eofToken, returned, finalState]
  · intro fuel x v w env
    simp [constAssign,
      Compile, CompilerInit, ParserInit, mkToken, compileLoop_step, declaration_step,
      statement_step, block_step, expression_step, parsePrecedence_step, parsePrecedenceLoop_step,
      callParseFunc_step, identifier_step, namedVariable_step, synchronizeLoop_step, synchronize, syncSwitch,
      expressionStatement, constDeclaration, parseVariable, declareVariable,
      declareVariableLoop, addLocal,
      beginScope, endScope, endScopeLoop, UINT8_COUNT,
      parserAdvance, scanLoop, ScannerScan, matchTok, check, consume, errorAt, errorAtCurrent, LogError,
      ConsoleWrite, emitInstruction, emitInstructions, emitConstant, makeConstant_eq, ChunkWriteCode,
      endCompiler, emitReturn, resolveLocal, resolveLocalLoop, Compiler.localCount, identifierEqual,
      number, getRule, HAS_ENUM, TOKEN_ALL, PREC_NONE, PREC_ASSIGNMENT,
      eofToken, returned, finalState, loadWords]

/-- The rejection of `x = 2` for the const local `x`. -/
theorem assignment_to_const_or_unknown_rejected_witness :
    (assignConstState.parser.precedence ≤ PREC_ASSIGNMENT ∧
      assignConstState.parser.current.type = .TOKEN_EQUAL) ∧
    ∃ r, namedVariable 1 assignConstState = .ok r ∧ r.parser.hadError = true ∧
      r.chunk = assignConstState.chunk ∧ r.parser.previous = assignConstState.parser.current :=
  ⟨⟨by decide, rfl⟩,
   assignment_to_const_or_unknown_rejected.1 0 assignConstState (by decide) rfl (by decide)
     (Or.inr ⟨{ name := mkToken .TOKEN_IDENTIFIER "x", depth := 1, constant := true },
       by decide, rfl⟩)⟩

set_option maxHeartbeats 4000000 in
/-- C12 (fails on the code): in `{ var a = 0 EOL 1 + a = 2 EOL } EOL` the
identifier `a` is the right operand of `+`, yet the `=` after it is consumed as
an assignment: `Compile` returns true and the code holds `OP_SET_LOCAL 0`
before the `OP_ADD`.  The handler tests the precedence of the rule of its own
token, which is the lowest one, never the minimum precedence being parsed. -/
theorem assignment_inside_operand_accepted (fuel : Nat) (a : String) (env : Ctx) :
    returned (Compile (fuel + 24) (addThenAssign a) env) = some true ∧
    (finalState (Compile (fuel + 24) (addThenAssign a) env)).map (fun s => s.chunk.code) =
      some (env.chunk.code ++ loadWords env.chunk.constants.length ++
        loadWords (env.chunk.constants.length + 1) ++ loadWords (env.chunk.constants.length + 2) ++
        [.op .OP_SET_LOCAL, .operand 0, .op .OP_ADD, .op .OP_POP, .op .OP_POP, .op .OP_RETURN]) := by
  simp [addThenAssign,
      Compile, CompilerInit, ParserInit, mkToken, compileLoop_step, declaration_step,
      statement_step, block_step, expression_step, parsePrecedence_step, parsePrecedenceLoop_step,
      callParseFunc_step, identifier_step, namedVariable_step, binary_step,
      expressionStatement, varDeclaration, parseVariable, declareVariable,
      declareVariableLoop, addLocal,
      defineVariable, markInitialized, beginScope, endScope, endScopeLoop, UINT8_COUNT,
      parserAdvance, scanLoop, ScannerScan, matchTok, check, consume,
      emitInstruction, emitInstructions, emitConstant, makeConstant_eq, ChunkWriteCode,
      endCompiler, emitReturn, resolveLocal, resolveLocalLoop, Compiler.localCount, identifierEqual,
      number, getRule, HAS_ENUM, TOKEN_ALL, PREC_NONE, PREC_ASSIGNMENT, PREC_TERM,
      eofToken, returned, finalState, loadWords]

set_option maxHeartbeats 4000000 in
/-- C13 (fails on the code for `const`): compiling `{ const x = v EOL } EOL`
appends one local and leaving the block emits no `OP_POP` for it; the local
count is 1 after the block, not the 0 it was before (the local of a block
`const` keeps depth `-1`, which `endScope` never takes as deeper than the
scope). -/
theorem block_const_never_popped (fuel : Nat) (x v : String) (env : Ctx) :
    returned (Compile (fuel + 12) (constBlock x v) env) = some true ∧
    (finalState (Compile (fuel + 12) (constBlock x v) env)).map
        (fun s => (s.chunk.code, s.compiler.localCount)) =
      some (env.chunk.code ++ loadWords env.chunk.constants.length ++ [.op .OP_RETURN], 1) := by
  simp [constBlock,
      Compile, CompilerInit, ParserInit, mkToken, compileLoop_step, declaration_step,
      statement_step, block_step, expression_step, parsePrecedence_step, parsePrecedenceLoop_step,
      callParseFunc_step,
      constDeclaration, parseVariable, declareVariable,
      declareVariableLoop, addLocal,
      beginScope, endScope, endScopeLoop, UINT8_COUNT,
      parserAdvance, scanLoop, ScannerScan, matchTok, check, consume,
      emitInstruction, emitInstructions, emitConstant, makeConstant_eq, ChunkWriteCode,
      endCompiler, emitReturn, Compiler.localCount, identifierEqual,
      number, getRule, HAS_ENUM, TOKEN_ALL, PREC_NONE, PREC_ASSIGNMENT,
      eofToken, returned, finalState, loadWords]

/-! ## Scope depth -/

theorem consume_compiler (s : Ctx) (type : TokType) (message : String) :
    (consume s type message).compiler = s.compiler := by
  unfold consume
  split
  · exact (parserAdvance_parserStep s).1
  · exact (errorAtCurrent_parserStep s message).1

theorem matchTok_compiler (s : Ctx) (type : TokType) :
    (matchTok s type).2.compiler = s.compiler := by
  unfold matchTok
  split
  · rfl
  · exact (parserAdvance_parserStep s).1

theorem emitConstant_compiler (s : Ctx) (v : Value) : (emitConstant s v).compiler = s.compiler := by
  simp [emitConstant, emitInstructions, makeConstant_eq]

theorem string_compiler (s : Ctx) : (string s).compiler = s.compiler := by
  unfold string
  simp only
  split <;> simp [emitConstant_compiler, ijoStringDelete, NaiveGCInsert, CStringCopy]

theorem literal_compiler (s : Ctx) : (literal s).compiler = s.compiler := by
  unfold literal
  split <;> rfl

/-- No routine of the expression engine touches the compiler record. -/
theorem expression_family_compiler (fuel : Nat) :
    (∀ p s r, parsePrecedence fuel p s = .ok r → r.compiler = s.compiler) ∧
    (∀ p s r, parsePrecedenceLoop fuel p s = .ok r → r.compiler = s.compiler) ∧
    (∀ f s r, callParseFunc fuel f s = .ok r → r.compiler = s.compiler) ∧
    (∀ s r, expression fuel s = .ok r → r.compiler = s.compiler) ∧
    (∀ s r, grouping fuel s = .ok r → r.compiler = s.compiler) ∧
    (∀ s r, unary fuel s = .ok r → r.compiler = s.compiler) ∧
    (∀ s r, binary fuel s = .ok r → r.compiler = s.compiler) ∧
    (∀ s r, namedVariable fuel s = .ok r → r.compiler = s.compiler) ∧
    (∀ s r, identifier fuel s = .ok r → r.compiler = s.compiler) := by
  induction fuel with
  | zero =>
    refine ⟨?_, ?_, ?_, ?_, ?_, ?_, ?_, ?_, ?_⟩ <;> intros <;> rename_i h
    · rw [parsePrecedence.eq_1] at h; cases h
    · rw [parsePrecedenceLoop.eq_1] at h; cases h
    · rw [callParseFunc.eq_1] at h; cases h
    · rw [expression.eq_1] at h; cases h
    · rw [grouping.eq_1] at h; cases h
    · rw [unary.eq_1] at h; cases h
    · rw [binary.eq_1] at h; cases h
    · rw [namedVariable.eq_1] at h; cases h
    · rw [identifier.eq_1] at h; cases h
  | succ n ih =>
    obtain ⟨ihP, ihL, ihC, ihE, ihG, ihU, ihB, ihN, ihI⟩ := ih
    refine ⟨?_, ?_, ?_, ?_, ?_, ?_, ?_, ?_, ?_⟩
    · intro p s r h
      rw [parsePrecedence.eq_2] at h
      simp only at h
      have ha := (parserAdvance_parserStep s).1
      split at h
      · injection h with h; subst h
        rw [(errorAt_parserStep _ _ _).1, ha]
      · split at h
        · injection h with h; subst h
          simpa [LogError] using ha
        · split at h
          · cases h
          · rename_i s2 hs2
            rw [ihL _ _ _ h, ihC _ _ _ hs2]
            exact ha
    · intro p s r h
      rw [parsePrecedenceLoop.eq_2] at h
      have ha := (parserAdvance_parserStep s).1
      split at h
      · simp only at h
        split at h
        · cases h
        · split at h
          · cases h
          · rename_i s2 hs2
            rw [ihL _ _ _ h, ihC _ _ _ hs2]
            exact ha
      · injection h with h; subst h; rfl
    · intro f s r h
      cases f <;> rw [callParseFunc] at h
      · exact ihG _ _ h
      · exact ihU _ _ h
      · exact ihB _ _ h
      · injection h with h; subst h; rfl
      · exact ihI _ _ h
      · injection h with h; subst h; exact emitConstant_compiler _ _
      · injection h with h; subst h; exact literal_compiler _
      · injection h with h; subst h; exact string_compiler _
    · intro s r h
      rw [expression.eq_2] at h
      exact ihP _ _ _ h
    · intro s r h
      rw [grouping.eq_2] at h
      split at h
      · cases h
      · rename_i s2 hs2
        injection h with h; subst h
        rw [consume_compiler, ihE _ _ hs2]
    · intro s r h
      rw [unary.eq_2] at h
      split at h
      · cases h
      · rename_i s2 hs2
        have := ihP _ _ _ hs2
        split at h <;> (injection h with h; subst h; simpa [emitInstruction] using this)
    · intro s r h
      rw [binary.eq_2] at h
      split at h
      · cases h
      · rename_i s2 hs2
        have := ihP _ _ _ hs2
        split at h <;> (injection h with h; subst h; simpa [emitInstruction] using this)
    · intro s r h
      rw [namedVariable.eq_2] at h
      simp only at h
      have hr := (resolveLocal_parserStep s.parser.previous s).1
      generalize (resolveLocal s s.parser.previous).2 = s1 at h hr
      generalize (resolveLocal s s.parser.previous).1 = arg at h
      have hm : ∀ b : Bool, (if b = true then matchTok s1 .TOKEN_EQUAL else (false, s1)).2.compiler
          = s.compiler := by
        intro b; cases b
        · simpa using hr
        · simpa [matchTok_compiler] using hr
      have hm := hm (decide (s1.parser.precedence ≤ PREC_ASSIGNMENT))
      simp only [decide_eq_true_eq] at hm h
      generalize (if s1.parser.precedence ≤ PREC_ASSIGNMENT then matchTok s1 .TOKEN_EQUAL
        else (false, s1)) = m at h hm
      split at h
      · split at h
        · split at h
          · cases h
          · split at h
            · injection h with h; subst h
              rw [(errorAtCurrent_parserStep _ _).1, hm]
            · split at h
              · cases h
              · rename_i s2 hs2
                injection h with h; subst h
                have := ihE _ _ hs2
                simpa [emitInstructions, hm] using this
        · injection h with h; subst h
          simpa [emitInstructions] using hr
      · split at h
        · injection h with h; subst h
          rw [(errorAtCurrent_parserStep _ _).1, hm]
        · injection h with h; subst h
          simp only [ijoStringDelete, CStringCopy]
          split <;> simp [emitConstant_compiler, hr]
    · intro s r h
      rw [identifier.eq_2] at h
      exact ihN _ _ h

theorem declareVariableLoop_compiler (name : Token) : ∀ (n : Nat) (s : Ctx),
    (declareVariableLoop name n s).compiler = s.compiler := by
  intro n
  induction n with
  | zero => intro s; rfl
  | succ i ih =>
    intro s
    rw [declareVariableLoop]
    split
    · rfl
    · split
      · rfl
      · rw [ih]
        split
        · exact (errorAtCurrent_parserStep _ _).1
        · rfl

theorem declareVariable_scopeDepth (s : Ctx) (isConst : Bool) :
    (declareVariable s isConst).compiler.scopeDepth = s.compiler.scopeDepth := by
  unfold declareVariable
  split
  · rfl
  · simp only [addLocal]
    split <;> simp [LogError, declareVariableLoop_compiler]

theorem parseVariable_scopeDepth (s : Ctx) (isConst : Bool) (message : String) :
    (parseVariable s isConst message).2.compiler.scopeDepth = s.compiler.scopeDepth := by
  unfold parseVariable
  simp only
  split
  · simp [declareVariable_scopeDepth, consume_compiler]
  · simp [identifierConstant, makeConstant_eq, CStringCopy, declareVariable_scopeDepth,
      consume_compiler]

theorem defineVariable_scopeDepth (s r : Ctx) (h : defineVariable s = .ok r) :
    r.compiler.scopeDepth = s.compiler.scopeDepth := by
  unfold defineVariable at h
  split at h
  · unfold markInitialized at h
    split at h
    · cases h
    · injection h with h; subst h; rfl
  · injection h with h; subst h; rfl

theorem endScopeLoop_scopeDepth : ∀ (n : Nat) (s : Ctx),
    (endScopeLoop n s).compiler.scopeDepth = s.compiler.scopeDepth := by
  intro n
  induction n with
  | zero => intro s; rfl
  | succ i ih =>
    intro s
    rw [endScopeLoop]
    split
    · rfl
    · split
      · rw [ih]; rfl
      · rfl

theorem endScope_scopeDepth (s : Ctx) :
    (endScope s).compiler.scopeDepth = s.compiler.scopeDepth - 1 := by
  unfold endScope
  rw [endScopeLoop_scopeDepth]

theorem synchronize_compiler (fuel : Nat) (s r : Ctx) (h : synchronize fuel s = .ok r) :
    r.compiler = s.compiler := by
  unfold synchronize at h
  exact (synchronizeLoop_parserStep fuel _ r h).1

theorem expressionStatement_compiler (fuel : Nat) (s r : Ctx)
    (h : expressionStatement fuel s = .ok r) : r.compiler = s.compiler := by
  unfold expressionStatement at h
  split at h
  · cases h
  · rename_i s2 hs2
    injection h with h; subst h
    simp [emitInstruction, consume_compiler, (expression_family_compiler fuel).2.2.2.1 _ _ hs2]

theorem printStatement_compiler (fuel : Nat) (s r : Ctx)
    (h : printStatement fuel s = .ok r) : r.compiler = s.compiler := by
  unfold printStatement at h
  simp only at h
  split at h
  · split at h
    · cases h
    · rename_i s2 hs2
      injection h with h; subst h
      simp [emitInstruction, (expression_family_compiler fuel).2.2.2.1 _ _ hs2, matchTok_compiler]
  · injection h with h; subst h
    simp [emitInstruction, emitConstant_compiler, matchTok_compiler]

theorem constDeclaration_scopeDepth (fuel : Nat) (s r : Ctx)
    (h : constDeclaration fuel s = .ok r) :
    r.compiler.scopeDepth = s.compiler.scopeDepth := by
  unfold constDeclaration at h
  split at h
  · simp only at h
    split at h
    · injection h with h; subst h
      simp [(errorAtCurrent_parserStep _ _).1, ijoStringDelete, CStringCopy]
    · split at h
      · cases h
      · rename_i s2 hs2
        have he := (expression_family_compiler fuel).2.2.2.1 _ _ hs2
        split at h
        · cases h
        · injection h with h; subst h
          simp only [NaiveGCInsert]
          split <;> simp [consume_compiler, he, CStringCopy]
  · simp only at h
    split at h
    · rw [(expression_family_compiler fuel).2.2.2.1 _ _ h, matchTok_compiler,
        parseVariable_scopeDepth]
    · injection h with h; subst h
      rw [(errorAtCurrent_parserStep _ _).1, matchTok_compiler, parseVariable_scopeDepth]

theorem varDeclaration_scopeDepth (fuel : Nat) (s r : Ctx)
    (h : varDeclaration fuel s = .ok r) :
    r.compiler.scopeDepth = s.compiler.scopeDepth := by
  unfold varDeclaration at h
  split at h
  · injection h with h; subst h
    rw [(errorAtCurrent_parserStep _ _).1]
  · simp only at h
    split at h
    · cases h
    · rename_i s2 hs2
      rw [defineVariable_scopeDepth _ _ h, consume_compiler]
      split at hs2
      · rw [(expression_family_compiler fuel).2.2.2.1 _ _ hs2, matchTok_compiler,
          parseVariable_scopeDepth]
      · injection hs2 with hs2; subst hs2
        rw [(errorAtCurrent_parserStep _ _).1, matchTok_compiler, parseVariable_scopeDepth]

/-- Declarations, statements and block bodies return at the scope depth they
were entered with. -/
theorem declaration_family_scopeDepth (fuel : Nat) :
    (∀ s r, declaration fuel s = .ok r → r.compiler.scopeDepth = s.compiler.scopeDepth) ∧
    (∀ s r, statement fuel s = .ok r → r.compiler.scopeDepth = s.compiler.scopeDepth) ∧
    (∀ s r, block fuel s = .ok r → r.compiler.scopeDepth = s.compiler.scopeDepth) := by
  induction fuel with
  | zero =>
    refine ⟨?_, ?_, ?_⟩ <;> intros <;> rename_i h
    · rw [declaration.eq_1] at h; cases h
    · rw [statement.eq_1] at h; cases h
    · rw [block.eq_1] at h; cases h
  | succ n ih =>
    obtain ⟨ihD, ihS, ihB⟩ := ih
    refine ⟨?_, ?_, ?_⟩
    · intro s r h
      rw [declaration.eq_2] at h
      simp only at h
      split at h
      · cases h
      · rename_i s2 hs2
        have h2 : s2.compiler.scopeDepth = s.compiler.scopeDepth := by
          split at hs2
          · rw [constDeclaration_scopeDepth _ _ _ hs2, matchTok_compiler]
          · split at hs2
            · rw [varDeclaration_scopeDepth _ _ _ hs2, matchTok_compiler, matchTok_compiler]
            · split at hs2
              · injection hs2 with hs2; subst hs2
                rw [matchTok_compiler, matchTok_compiler, matchTok_compiler]
              · rw [ihS _ _ hs2, matchTok_compiler, matchTok_compiler, matchTok_compiler]
        split at h
        · rw [synchronize_compiler _ _ _ h, h2]
        · injection h with h; subst h; exact h2
    · intro s r h
      rw [statement.eq_2] at h
      simp only at h
      have hm : (if (matchTok s .TOKEN_PRINT).1 = true then matchTok s .TOKEN_PRINT
          else matchTok (matchTok s .TOKEN_PRINT).2 .TOKEN_PRINTLN).2.compiler = s.compiler := by
        split
        · exact matchTok_compiler _ _
        · rw [matchTok_compiler, matchTok_compiler]
      generalize (if (matchTok s .TOKEN_PRINT).1 = true then matchTok s .TOKEN_PRINT
          else matchTok (matchTok s .TOKEN_PRINT).2 .TOKEN_PRINTLN) = m at h hm
      split at h
      · rw [printStatement_compiler _ _ _ h, hm]
      · split at h
        · split at h
          · cases h
          · rename_i s2 hs2
            injection h with h; subst h
            rw [endScope_scopeDepth, ihB _ _ hs2]
            simp [beginScope, matchTok_compiler, hm]
        · rw [expressionStatement_compiler _ _ _ h, matchTok_compiler, hm]
    · intro s r h
      rw [block.eq_2] at h
      split at h
      · split at h
        · cases h
        · rename_i s2 hs2
          rw [ihB _ _ h, ihD _ _ hs2]
      · injection h with h; subst h
        rw [consume_compiler]

theorem compileLoop_scopeDepth (fuel : Nat) : ∀ s r : Ctx, compileLoop fuel s = .ok r →
    r.compiler.scopeDepth = s.compiler.scopeDepth := by
  induction fuel with
  | zero => intro s r h; rw [compileLoop] at h; cases h
  | succ n ih =>
    intro s r h
    rw [compileLoop] at h
    split at h
    · split at h
      · cases h
      · rename_i s2 hs2
        rw [ih _ _ h, (declaration_family_scopeDepth n).1 _ _ hs2, matchTok_compiler]
    · injection h with h; subst h
      rw [matchTok_compiler]

/-! ## Error reporting and recovery -/

/-- C15 (fails on the code for `errorAtCurrent`): in panic mode `errorAt`
changes nothing, and out of panic mode it sets both flags and writes a
diagnostic starting with the line; but `errorAtCurrent` in panic mode still
writes its message to the console (its `LogError` comes before the guarded
`errorAt`), the parser being left unchanged; so compiling `x = 1` records one
error and then still prints the message of the second, suppressed one. -/
theorem errorAtCurrent_logs_in_panic_mode :
    (∀ (s : Ctx) (token : Token) (message : String), s.parser.panicMode = true →
      errorAt s token message = s) ∧
    (∀ (s : Ctx) (token : Token) (message : String), s.parser.panicMode = false →
      (errorAt s token message).parser.panicMode = true ∧
      (errorAt s token message).parser.hadError = true ∧
      ∃ out, (errorAt s token message).console =
        s.console ++ Output.LogError "line %d" [Arg.int token.line] :: out) ∧
    (∀ (s : Ctx) (message : String), s.parser.panicMode = true →
      (errorAtCurrent s message).console =
        s.console ++ [Output.LogError "%s\n" [Arg.str message]] ∧
      (errorAtCurrent s message).parser = s.parser) ∧
    (finalState (Compile 12 (unknownAssign "x" "1") emptyCtx)).map
        (fun s => (errorsRecorded s.console, s.console.getLast?)) =
      some (1, some (Output.LogError "%s\n"
        [Arg.str "Only one expression per line accepted."])) := by
  refine ⟨?_, ?_, ?_, by decide⟩
  · intro s token message hp
    simp [errorAt, hp]
  · intro s token message hp
    by_cases h1 : token.type = .TOKEN_EOF
    · simp [errorAt, hp, h1, LogError, ConsoleWrite]
    · by_cases h2 : token.type = .TOKEN_ERROR <;>
        simp [errorAt, hp, h1, h2, LogError, ConsoleWrite]
  · intro s message hp
    simp [errorAtCurrent, errorAt, LogError, hp]

/-- In `x = 1`, after the assignment was reported, the missing end-of-line is
still written out. -/
theorem errorAtCurrent_logs_in_panic_mode_witness :
    panicState.parser.panicMode = true ∧
    (errorAtCurrent panicState "Only one expression per line accepted.").console =
      [Output.LogError "%s\n" [Arg.str "Only one expression per line accepted."]] ∧
    (errorAtCurrent panicState "Only one expression per line accepted.").parser = panicState.parser :=
  ⟨rfl, errorAtCurrent_logs_in_panic_mode.2.2.1 panicState _ rfl⟩

theorem errorAt_panicMode (s : Ctx) (token : Token) (message : String) :
    (errorAt s token message).parser.panicMode = true := by
  cases hp : s.parser.panicMode with
  | true => simp [errorAt, hp]
  | false =>
    by_cases h1 : token.type = .TOKEN_EOF
    · simp [errorAt, hp, h1, LogError, ConsoleWrite]
    · by_cases h2 : token.type = .TOKEN_ERROR <;>
        simp [errorAt, hp, h1, h2, LogError, ConsoleWrite]

theorem errorAtCurrent_panicMode (s : Ctx) (message : String) :
    (errorAtCurrent s message).parser.panicMode = true := by
  unfold errorAtCurrent
  exact errorAt_panicMode _ _ _

theorem scanLoop_consumed (l : List Token) : ∀ s : Ctx, ∃ consumed : List Token,
    l = consumed ++ (scanLoop s l).parser.scanner ∧
    ((scanLoop s l).parser.panicMode = true ↔
      s.parser.panicMode = true ∨ ∃ t ∈ consumed, t.type = .TOKEN_ERROR) := by
  induction l with
  | nil => intro s; exact ⟨[], by simp [scanLoop, ScannerScan]⟩
  | cons t rest ih =>
    intro s
    rw [scanLoop]
    by_cases ht : t.type = .TOKEN_ERROR
    · simp only [ht, ne_eq, not_true_eq_false, ↓reduceIte]
      obtain ⟨c, hc, hpm⟩ := ih (errorAtCurrent
        { s with parser := { s.parser with current := (ScannerScan (t :: rest)).1,
                                           scanner := (ScannerScan (t :: rest)).2 } } "")
      refine ⟨t :: c, by rw [List.cons_append, ← hc], ?_⟩
      rw [hpm]
      simp [errorAtCurrent_panicMode, ht]
    · refine ⟨[t], by simp [ht, ScannerScan], ?_⟩
      simp [ht]

theorem parserAdvance_consumed (s : Ctx) : ∃ consumed : List Token,
    s.parser.scanner = consumed ++ (parserAdvance s).parser.scanner ∧
    ((parserAdvance s).parser.panicMode = true ↔
      s.parser.panicMode = true ∨ ∃ t ∈ consumed, t.type = .TOKEN_ERROR) := by
  unfold parserAdvance
  exact scanLoop_consumed _ _

theorem syncSwitch_kinds (k : TokType) (h : syncSwitch k = true) :
    k ∈ [TokType.TOKEN_STRUCT, .TOKEN_FUNC, .TOKEN_CONST, .TOKEN_FOR, .TOKEN_IF, .TOKEN_WHILE,
      .TOKEN_PRINT, .TOKEN_RETURN] := by
  cases k <;> simp [syncSwitch] at h ⊢

theorem synchronizeLoop_result (fuel : Nat) : ∀ s r : Ctx, synchronizeLoop fuel s = .ok r →
    (r.parser.previous.type = .TOKEN_EOL ∨ syncSwitch r.parser.current.type = true) ∧
    ∃ consumed : List Token, s.parser.scanner = consumed ++ r.parser.scanner ∧
      (r.parser.panicMode = true ↔
        s.parser.panicMode = true ∨ ∃ t ∈ consumed, t.type = .TOKEN_ERROR) := by
  induction fuel with
  | zero => intro s r h; simp [synchronizeLoop] at h
  | succ n ih =>
    intro s r h
    rw [synchronizeLoop] at h
    split_ifs at h with hc hp hs
    · injection h with h; subst h
      exact ⟨Or.inl hp, [], by simp⟩
    · injection h with h; subst h
      exact ⟨Or.inr hs, [], by simp⟩
    · obtain ⟨hend, c2, hc2, hpm2⟩ := ih _ _ h
      obtain ⟨c1, hc1, hpm1⟩ := parserAdvance_consumed s
      refine ⟨hend, c1 ++ c2, by rw [List.append_assoc, ← hc2, ← hc1], ?_⟩
      rw [hpm2, hpm1]
      simp only [List.mem_append]
      constructor
      · rintro ((h | ⟨t, ht, he⟩) | ⟨t, ht, he⟩)
        · exact Or.inl h
        · exact Or.inr ⟨t, Or.inl ht, he⟩
        · exact Or.inr ⟨t, Or.inr ht, he⟩
      · rintro (h | ⟨t, ht | ht, he⟩)
        · exact Or.inl (Or.inl h)
        · exact Or.inl (Or.inr ⟨t, ht, he⟩)
        · exact Or.inr ⟨t, ht, he⟩
    · exfalso
      apply hc
      by_cases he : s.parser.current.type = .TOKEN_EOF
      · right; rw [he]; decide
      · left; exact he

/-- C16 as stated fails: from a state with an error token between the current
token and the end of the line, `synchronize` returns with `panicMode` set. -/
theorem synchronize_returns_panicking_after_error_token :
    synchronize 5 syncErrorState = .ok ((synchronize 5 syncErrorState).getD emptyCtx) ∧
    ((synchronize 5 syncErrorState).getD emptyCtx).parser.panicMode = true := by
  decide

/-- C16, amended: whenever `synchronize` returns, either the previous token is
an end-of-line or the current token is one of `struct`, `func`, `const`,
`for`, `if`, `while`, `print`, `return`; and `panicMode` is set on return
exactly when an error token was among the tokens taken from the scanner during
the recovery (so it is clear when none was). -/
theorem synchronize_result (fuel : Nat) (s r : Ctx) (h : synchronize fuel s = .ok r) :
    (r.parser.previous.type = .TOKEN_EOL ∨
      r.parser.current.type ∈ [TokType.TOKEN_STRUCT, .TOKEN_FUNC, .TOKEN_CONST, .TOKEN_FOR,
        .TOKEN_IF, .TOKEN_WHILE, .TOKEN_PRINT, .TOKEN_RETURN]) ∧
    ∃ consumed : List Token, s.parser.scanner = consumed ++ r.parser.scanner ∧
      (r.parser.panicMode = true ↔ ∃ t ∈ consumed, t.type = .TOKEN_ERROR) := by
  unfold synchronize at h
  obtain ⟨hend, c, hc, hpm⟩ := synchronizeLoop_result fuel _ r h
  refine ⟨hend.imp id (syncSwitch_kinds _), c, hc, ?_⟩
  rw [hpm]
  simp

/-- The recovery that skips `2`, an error token and the end-of-line. -/
theorem synchronize_result_witness :
    synchronize 5 syncErrorState = .ok ((synchronize 5 syncErrorState).getD emptyCtx) ∧
    (((synchronize 5 syncErrorState).getD emptyCtx).parser.previous.type = .TOKEN_EOL ∨
      ((synchronize 5 syncErrorState).getD emptyCtx).parser.current.type ∈
        [TokType.TOKEN_STRUCT, .TOKEN_FUNC, .TOKEN_CONST, .TOKEN_FOR,
          .TOKEN_IF, .TOKEN_WHILE, .TOKEN_PRINT, .TOKEN_RETURN]) :=
  ⟨by decide, (synchronize_result 5 syncErrorState _ (by decide)).1⟩

/-! ## One error per line -/


theorem errStep_refl (a : Ctx) : errStep a a := Or.inl ⟨rfl, rfl, rfl⟩

theorem errStep_trans {a b c : Ctx} (h1 : errStep a b) (h2 : errStep b c) : errStep a c := by
  rcases h1 with ⟨p1, e1, c1⟩ | ⟨p1, q1, e1, c1⟩ <;> rcases h2 with ⟨p2, e2, c2⟩ | ⟨p2, q2, e2, c2⟩
  · exact Or.inl ⟨p2.trans p1, e2.trans e1, c2.trans c1⟩
  · exact Or.inr ⟨p1 ▸ p2, q2, e2, c1 ▸ c2⟩
  · exact Or.inr ⟨p1, p2.trans q1, e2.trans e1, c2.trans c1⟩
  · rw [q1] at p2; cases p2

theorem errStep_of_eq {a b : Ctx} (hp : b.parser.panicMode = a.parser.panicMode)
    (he : b.parser.hadError = a.parser.hadError) (hc : b.console = a.console) : errStep a b :=
  Or.inl ⟨hp, he, by rw [hc]⟩

theorem errorsRecorded_append (a b : List Output) :
    errorsRecorded (a ++ b) = errorsRecorded a + errorsRecorded b := by
  simp [errorsRecorded, List.filter_append]

theorem errorAt_errStep (s : Ctx) (token : Token) (message : String) :
    errStep s (errorAt s token message) := by
  cases hp : s.parser.panicMode with
  | true => simp [errorAt, hp, errStep_refl]
  | false =>
    right
    by_cases h1 : token.type = .TOKEN_EOF
    · simp [errorAt, hp, h1, LogError, ConsoleWrite, errorsRecorded_append, errorsRecorded]
    · by_cases h2 : token.type = .TOKEN_ERROR <;>
        simp [errorAt, hp, h1, h2, LogError, ConsoleWrite, errorsRecorded_append, errorsRecorded]

theorem errorAtCurrent_errStep (s : Ctx) (message : String) :
    errStep s (errorAtCurrent s message) := by
  unfold errorAtCurrent
  refine errStep_trans ?_ (errorAt_errStep _ _ _)
  left
  simp [LogError, errorsRecorded_append, errorsRecorded]

theorem scanLoop_errStep (l : List Token) : ∀ s : Ctx, errStep s (scanLoop s l) := by
  induction l with
  | nil => intro s; exact errStep_of_eq rfl rfl rfl
  | cons t rest ih =>
    intro s
    rw [scanLoop]
    by_cases ht : t.type = .TOKEN_ERROR
    · simp only [ht, ne_eq, not_true_eq_false, ↓reduceIte]
      refine errStep_trans ?_ (ih _)
      refine errStep_trans ?_ (errorAtCurrent_errStep _ _)
      exact errStep_of_eq rfl rfl rfl
    · simp only [ne_eq, ht, not_false_eq_true, ↓reduceIte]
      exact errStep_of_eq rfl rfl rfl

theorem parserAdvance_errStep (s : Ctx) : errStep s (parserAdvance s) := by
  unfold parserAdvance
  exact errStep_trans (errStep_of_eq rfl rfl rfl) (scanLoop_errStep _ _)

theorem consume_errStep (s : Ctx) (type : TokType) (message : String) :
    errStep s (consume s type message) := by
  unfold consume
  split
  · exact parserAdvance_errStep s
  · exact errorAtCurrent_errStep s message

theorem matchTok_errStep (s : Ctx) (type : TokType) : errStep s (matchTok s type).2 := by
  unfold matchTok
  split
  · exact errStep_refl _
  · exact parserAdvance_errStep s

theorem resolveLocal_errStep (name : Token) (s : Ctx) : errStep s (resolveLocal s name).2 := by
  rcases resolveLocal_snd name s with h | h <;> rw [h]
  · exact errStep_refl _
  · exact errorAtCurrent_errStep _ _

theorem emitInstruction_errStep (s : Ctx) (w : Word) : errStep s (emitInstruction s w) :=
  errStep_of_eq rfl rfl rfl

theorem emitInstructions_errStep (s : Ctx) (w1 w2 : Word) :
    errStep s (emitInstructions s w1 w2) :=
  errStep_of_eq rfl rfl rfl

theorem emitConstant_errStep (s : Ctx) (v : Value) : errStep s (emitConstant s v) := by
  apply errStep_of_eq <;> simp [emitConstant, emitInstructions, makeConstant_eq]

theorem string_errStep (s : Ctx) : errStep s (string s) := by
  unfold string
  simp only
  split <;> apply errStep_of_eq <;>
    simp [emitConstant, emitInstructions, makeConstant_eq, ijoStringDelete, NaiveGCInsert,
      CStringCopy]

theorem literal_errStep (s : Ctx) : errStep s (literal s) := by
  unfold literal
  split <;> exact errStep_of_eq rfl rfl rfl

/-- Every routine of the expression engine records at most one error, and
only on entering panic mode. -/
theorem expression_family_errStep (fuel : Nat) :
    (∀ p s r, parsePrecedence fuel p s = .ok r → errStep s r) ∧
    (∀ p s r, parsePrecedenceLoop fuel p s = .ok r → errStep s r) ∧
    (∀ f s r, callParseFunc fuel f s = .ok r → errStep s r) ∧
    (∀ s r, expression fuel s = .ok r → errStep s r) ∧
    (∀ s r, grouping fuel s = .ok r → errStep s r) ∧
    (∀ s r, unary fuel s = .ok r → errStep s r) ∧
    (∀ s r, binary fuel s = .ok r → errStep s r) ∧
    (∀ s r, namedVariable fuel s = .ok r → errStep s r) ∧
    (∀ s r, identifier fuel s = .ok r → errStep s r) := by
  induction fuel with
  | zero =>
    refine ⟨?_, ?_, ?_, ?_, ?_, ?_, ?_, ?_, ?_⟩ <;> intros <;> rename_i h
    · rw [parsePrecedence.eq_1] at h; cases h
    · rw [parsePrecedenceLoop.eq_1] at h; cases h
    · rw [callParseFunc.eq_1] at h; cases h
    · rw [expression.eq_1] at h; cases h
    · rw [grouping.eq_1] at h; cases h
    · rw [unary.eq_1] at h; cases h
    · rw [binary.eq_1] at h; cases h
    · rw [namedVariable.eq_1] at h; cases h
    · rw [identifier.eq_1] at h; cases h
  | succ n ih =>
    obtain ⟨ihP, ihL, ihC, ihE, ihG, ihU, ihB, ihN, ihI⟩ := ih
    refine ⟨?_, ?_, ?_, ?_, ?_, ?_, ?_, ?_, ?_⟩
    · intro p s r h
      rw [parsePrecedence.eq_2] at h
      simp only at h
      have ha := parserAdvance_errStep s
      split at h
      · injection h with h; subst h
        exact errStep_trans ha (errorAt_errStep _ _ _)
      · split at h
        · injection h with h; subst h
          refine errStep_trans ha ?_
          left; simp [LogError, errorsRecorded_append, errorsRecorded]
        · split at h
          · cases h
          · rename_i s2 hs2
            refine errStep_trans (errStep_trans ha ?_) (errStep_trans (ihC _ _ _ hs2) (ihL _ _ _ h))
            exact errStep_of_eq rfl rfl rfl
    · intro p s r h
      rw [parsePrecedenceLoop.eq_2] at h
      have ha := parserAdvance_errStep s
      split at h
      · simp only at h
        split at h
        · cases h
        · split at h
          · cases h
          · rename_i s2 hs2
            exact errStep_trans ha (errStep_trans (ihC _ _ _ hs2) (ihL _ _ _ h))
      · injection h with h; subst h; exact errStep_refl _
    · intro f s r h
      cases f <;> rw [callParseFunc] at h
      · exact ihG _ _ h
      · exact ihU _ _ h
      · exact ihB _ _ h
      · injection h with h; subst h; exact errStep_refl _
      · exact ihI _ _ h
      · injection h with h; subst h; exact emitConstant_errStep _ _
      · injection h with h; subst h; exact literal_errStep _
      · injection h with h; subst h; exact string_errStep _
    · intro s r h
      rw [expression.eq_2] at h
      exact ihP _ _ _ h
    · intro s r h
      rw [grouping.eq_2] at h
      split at h
      · cases h
      · rename_i s2 hs2
        injection h with h; subst h
        exact errStep_trans (ihE _ _ hs2) (consume_errStep _ _ _)
    · intro s r h
      rw [unary.eq_2] at h
      split at h
      · cases h
      · rename_i s2 hs2
        have := ihP _ _ _ hs2
        split at h <;> (injection h with h; subst h) <;> exact this
    · intro s r h
      rw [binary.eq_2] at h
      split at h
      · cases h
      · rename_i s2 hs2
        have := ihP _ _ _ hs2
        split at h <;> (injection h with h; subst h) <;> exact this
    · intro s r h
      rw [namedVariable.eq_2] at h
      simp only at h
      have hr := resolveLocal_errStep s.parser.previous s
      generalize (resolveLocal s s.parser.previous).2 = s1 at h hr
      generalize (resolveLocal s s.parser.previous).1 = arg at h
      have hm : ∀ b : Bool, errStep s
          (if b = true then matchTok s1 .TOKEN_EQUAL else (false, s1)).2 := by
        intro b; cases b
        · simpa using hr
        · simpa using errStep_trans hr (matchTok_errStep _ _)
      have hm := hm (decide (s1.parser.precedence ≤ PREC_ASSIGNMENT))
      simp only [decide_eq_true_eq] at hm h
      generalize (if s1.parser.precedence ≤ PREC_ASSIGNMENT then matchTok s1 .TOKEN_EQUAL
        else (false, s1)) = m at h hm
      split at h
      · split at h
        · split at h
          · cases h
          · split at h
            · injection h with h; subst h
              exact errStep_trans hm (errorAtCurrent_errStep _ _)
            · split at h
              · cases h
              · rename_i s2 hs2
                injection h with h; subst h
                exact errStep_trans hm (errStep_trans (ihE _ _ hs2) (emitInstructions_errStep _ _ _))
        · injection h with h; subst h
          exact errStep_trans hr (emitInstructions_errStep _ _ _)
      · split at h
        · injection h with h; subst h
          exact errStep_trans hm (errorAtCurrent_errStep _ _)
        · injection h with h; subst h
          refine errStep_trans hr ?_
          simp only [ijoStringDelete, CStringCopy]
          split
          · refine errStep_trans ?_ (emitConstant_errStep _ _)
            exact errStep_of_eq rfl rfl rfl
          · exact errStep_of_eq rfl rfl rfl
    · intro s r h
      rw [identifier.eq_2] at h
      exact ihN _ _ h

theorem linePos_of_tokens {eol w0 : Token} {rest : List Token} {n : Nat} {s r : Ctx}
    (h : linePos eol w0 rest n s)
    (hp : r.parser.previous = s.parser.previous) (hc : r.parser.current = s.parser.current)
    (hs : r.parser.scanner = s.parser.scanner) :
    linePos eol w0 rest n r := by
  cases n with
  | zero => simpa [linePos, hp, hc, hs] using h
  | succ k => simpa [linePos, hp, hc, hs] using h

theorem linePosS_of_tokens {eol w0 : Token} {rest : List Token} {n : Nat} {s r : Ctx}
    (h : linePosS eol w0 rest n s)
    (hp : r.parser.previous = s.parser.previous) (hc : r.parser.current = s.parser.current)
    (hs : r.parser.scanner = s.parser.scanner) :
    linePosS eol w0 rest n r :=
  ⟨linePos_of_tokens h.1 hp hc hs, by rw [hp]; exact h.2⟩

theorem plainToken_kind {t : Token} (h : plainToken t = true) :
    t.type ≠ .TOKEN_EOL ∧ t.type ≠ .TOKEN_EOF ∧ t.type ≠ .TOKEN_ERROR ∧
      syncSwitch t.type = false := by
  have h' : ((t.type ≠ .TOKEN_EOL ∧ t.type ≠ .TOKEN_EOF) ∧ t.type ≠ .TOKEN_ERROR) ∧
      syncSwitch t.type = false := by simpa [plainToken] using h
  exact ⟨h'.1.1.1, h'.1.1.2, h'.1.2, h'.2⟩

theorem linePos_current {eol w0 : Token} {rest : List Token} {n : Nat} {s : Ctx}
    (h : linePos eol w0 rest n s) :
    (n = 0 → s.parser.current = w0) ∧ (n = 1 → s.parser.current = eol) ∧
      (2 ≤ n → plainToken s.parser.current = true) := by
  match n, h with
  | 0, h => exact ⟨fun _ => h.2.1, by omega, by omega⟩
  | 1, ⟨pre, hl, _, hcs⟩ =>
    have : pre = [] := List.length_eq_zero.mp hl
    subst this
    simp only [List.nil_append, List.cons.injEq] at hcs
    exact ⟨by omega, fun _ => hcs.1, by omega⟩
  | k + 2, ⟨pre, hl, hpl, hcs⟩ =>
    refine ⟨by omega, by omega, fun _ => ?_⟩
    cases pre with
    | nil => simp at hl
    | cons c pre' =>
      simp only [List.cons_append, List.cons.injEq] at hcs
      rw [hcs.1]
      exact hpl c (List.mem_cons_self _ _)

theorem parserAdvance_linePos {eol w0 : Token} {rest : List Token} {n : Nat} {s : Ctx}
    (he : eol.type = .TOKEN_EOL) (hw : w0.type ≠ .TOKEN_ERROR)
    (h : linePos eol w0 rest (n + 1) s) :
    linePosS eol w0 rest n (parserAdvance s) ∧
    ∃ c sc, parserAdvance s =
      { s with parser := { s.parser with previous := s.parser.current, current := c,
                                         scanner := sc } } := by
  obtain ⟨pre, hl, hpl, hcs⟩ := h
  cases pre with
  | nil =>
    simp only [List.nil_append, List.cons.injEq] at hcs
    simp only [List.length_nil] at hl
    subst hl
    obtain ⟨h1, h2⟩ := hcs
    refine ⟨⟨?_, by simp⟩, w0, rest, ?_⟩
    · simp [linePos, parserAdvance, h2, scanLoop, ScannerScan, hw, h1]
    · simp [parserAdvance, h2, scanLoop, ScannerScan, hw]
  | cons c pre' =>
    simp only [List.cons_append, List.cons.injEq] at hcs
    simp only [List.length_cons] at hl
    obtain ⟨h1, h2⟩ := hcs
    have hc := plainToken_kind (hpl c (List.mem_cons_self _ _))
    cases pre' with
    | nil =>
      simp only [List.nil_append] at h2
      simp only [List.length_nil, zero_add] at hl
      subst hl
      have hee : eol.type ≠ .TOKEN_ERROR := by rw [he]; decide
      refine ⟨⟨⟨[], rfl, by simp, ?_⟩, fun _ => ?_⟩, eol, w0 :: rest, ?_⟩
      · simp [parserAdvance, h2, scanLoop, ScannerScan, hee]
      · simp [parserAdvance, h2, scanLoop, ScannerScan, hee, h1, hc.1]
      · simp [parserAdvance, h2, scanLoop, ScannerScan, hee]
    | cons d pre'' =>
      simp only [List.cons_append] at h2
      have hd := plainToken_kind (hpl d (List.mem_cons_of_mem _ (List.mem_cons_self _ _)))
      subst hl
      refine ⟨⟨⟨d :: pre'', by simp, ?_, ?_⟩, fun _ => ?_⟩, d, pre'' ++ eol :: w0 :: rest, ?_⟩
      · intro t ht
        exact hpl t (List.mem_cons_of_mem _ ht)
      · simp [parserAdvance, h2, scanLoop, ScannerScan, hd.2.2.1]
      · simp [parserAdvance, h2, scanLoop, ScannerScan, hd.2.2.1, h1, hc.1]
      · simp [parserAdvance, h2, scanLoop, ScannerScan, hd.2.2.1]

theorem getRule_infix_of_precedence (k : TokType) (h : 1 ≤ (getRule k).precedence) :
    (getRule k).infixRule = some .binary := by
  cases k <;> first | rfl | (exfalso; revert h; decide)

theorem matchTok_cases (s : Ctx) (type : TokType) :
    (s.parser.current.type ≠ type ∧ matchTok s type = (false, s)) ∨
      (s.parser.current.type = type ∧ matchTok s type = (true, parserAdvance s)) := by
  by_cases h : s.parser.current.type = type
  · right; exact ⟨h, by simp [matchTok, check, h]⟩
  · left; exact ⟨h, by simp [matchTok, check, h]⟩

theorem resolveLocalLoop_index (name : Token) (s : Ctx) : ∀ n,
    (resolveLocalLoop name n s).1 = -1 ∨
      ∃ loc, s.compiler.locals[(resolveLocalLoop name n s).1.toNat]? = some loc := by
  intro n
  induction n with
  | zero => left; rfl
  | succ i ih =>
    rw [resolveLocalLoop]
    cases hl : s.compiler.locals[i]? with
    | none => left; rfl
    | some loc =>
      by_cases hn : identifierEqual name loc.name = true
      · right
        by_cases hd : loc.depth = -1
        · exact ⟨loc, by simpa [hn, hd] using hl⟩
        · exact ⟨loc, by simpa [hn, hd] using hl⟩
      · simpa [hn] using ih

theorem resolveLocal_index (name : Token) (s : Ctx) :
    (resolveLocal s name).1 = -1 ∨
      ∃ loc, s.compiler.locals[(resolveLocal s name).1.toNat]? = some loc :=
  resolveLocalLoop_index name s _

theorem resolveLocal_position (name : Token) (s : Ctx) :
    (resolveLocal s name).2.parser.previous = s.parser.previous ∧
    (resolveLocal s name).2.parser.current = s.parser.current ∧
    (resolveLocal s name).2.parser.scanner = s.parser.scanner := by
  rcases resolveLocal_snd name s with h | h <;> rw [h]
  · exact ⟨rfl, rfl, rfl⟩
  · exact errorAtCurrent_tokens _ _

theorem consume_linePos {eol w0 : Token} {rest : List Token} {n : Nat} {s : Ctx}
    (he : eol.type = .TOKEN_EOL) (hw : w0.type = .TOKEN_PRINT ∨ w0.type = .TOKEN_PRINTLN)
    (type : TokType) (message : String) (ht : type ≠ .TOKEN_PRINT ∧ type ≠ .TOKEN_PRINTLN)
    (h : linePosS eol w0 rest n s) :
    ∃ m, m ≤ n ∧ linePosS eol w0 rest m (consume s type message) := by
  unfold consume
  split
  · rename_i hc
    cases n with
    | zero =>
      exfalso
      have := (linePos_current h.1).1 rfl
      rw [this] at hc
      rcases hw with hw | hw <;> rw [hw] at hc
      · exact ht.1 hc.symm
      · exact ht.2 hc.symm
    | succ k =>
      have hwe : w0.type ≠ .TOKEN_ERROR := by rcases hw with hw | hw <;> rw [hw] <;> decide
      exact ⟨k, by omega, (parserAdvance_linePos he hwe h.1).1⟩
  · obtain ⟨k1, k2, k3⟩ := errorAtCurrent_tokens s message
    exact ⟨n, le_refl _, linePosS_of_tokens h k1 k2 k3⟩

theorem linePos_no_operator {eol w0 : Token} {rest : List Token} {n : Nat} {s : Ctx}
    (he : eol.type = .TOKEN_EOL) (hw : w0.type = .TOKEN_PRINT ∨ w0.type = .TOKEN_PRINTLN)
    (h : linePos eol w0 rest n s) (hn : n ≤ 1) :
    (getRule s.parser.current.type).precedence = 0 ∧
      s.parser.current.type ≠ .TOKEN_EQUAL := by
  have hc := linePos_current h
  rcases Nat.le_one_iff_eq_zero_or_eq_one.mp hn with h0 | h1
  · rw [hc.1 h0]
    rcases hw with hw | hw <;> rw [hw] <;> exact ⟨rfl, by decide⟩
  · rw [hc.2.1 h1, he]; exact ⟨rfl, by decide⟩

set_option maxHeartbeats 1000000 in
/-- With four units of fuel per token left on the line, every routine of the
expression engine returns, and it returns on the same line: at the latest
with the end-of-line consumed and the first token of the next line current.
The handlers are entered after their token was consumed, the engine itself
with at least one token of the line still to come. -/
theorem expression_family_returns (eol w0 : Token) (rest : List Token)
    (he : eol.type = .TOKEN_EOL) (hw : w0.type = .TOKEN_PRINT ∨ w0.type = .TOKEN_PRINTLN)
    (fuel : Nat) :
    (∀ p n s, 1 ≤ p → linePos eol w0 rest (n + 1) s → 4 * n + 5 ≤ fuel →
      ∃ r m, parsePrecedence fuel p s = .ok r ∧ linePosS eol w0 rest m r ∧ m ≤ n) ∧
    (∀ p n s, 1 ≤ p → linePosS eol w0 rest n s → 4 * n + 1 ≤ fuel →
      ∃ r m, parsePrecedenceLoop fuel p s = .ok r ∧ linePosS eol w0 rest m r ∧ m ≤ n) ∧
    (∀ f n s, linePosS eol w0 rest n s →
      ((getRule s.parser.previous.type).prefixRule = some f ∨
        (getRule s.parser.previous.type).infixRule = some f) → 4 * n + 4 ≤ fuel →
      ∃ r m, callParseFunc fuel f s = .ok r ∧ linePosS eol w0 rest m r ∧ m ≤ n) ∧
    (∀ n s, linePos eol w0 rest (n + 1) s → 4 * n + 6 ≤ fuel →
      ∃ r m, expression fuel s = .ok r ∧ linePosS eol w0 rest m r ∧ m ≤ n) ∧
    (∀ n s, linePosS eol w0 rest (n + 1) s → 4 * n + 7 ≤ fuel →
      ∃ r m, grouping fuel s = .ok r ∧ linePosS eol w0 rest m r ∧ m ≤ n + 1) ∧
    (∀ n s, linePosS eol w0 rest (n + 1) s → 4 * n + 6 ≤ fuel →
      ∃ r m, unary fuel s = .ok r ∧ linePosS eol w0 rest m r ∧ m ≤ n + 1) ∧
    (∀ n s, linePosS eol w0 rest (n + 1) s → 4 * n + 6 ≤ fuel →
      ∃ r m, binary fuel s = .ok r ∧ linePosS eol w0 rest m r ∧ m ≤ n + 1) ∧
    (∀ n s, linePosS eol w0 rest (n + 1) s → 4 * n + 4 ≤ fuel →
      ∃ r m, namedVariable fuel s = .ok r ∧ linePosS eol w0 rest m r ∧ m ≤ n + 1) ∧
    (∀ n s, linePosS eol w0 rest (n + 1) s → 4 * n + 5 ≤ fuel →
      ∃ r m, identifier fuel s = .ok r ∧ linePosS eol w0 rest m r ∧ m ≤ n + 1) := by
  have hwe : w0.type ≠ .TOKEN_ERROR := by rcases hw with hw | hw <;> rw [hw] <;> decide
  induction fuel with
  | zero =>
    refine ⟨?_, ?_, ?_, ?_, ?_, ?_, ?_, ?_, ?_⟩ <;> intros <;> omega
  | succ fuel ih =>
    obtain ⟨ihP, ihL, ihC, ihE, ihG, ihU, ihB, ihN, ihI⟩ := ih
    refine ⟨?_, ?_, ?_, ?_, ?_, ?_, ?_, ?_, ?_⟩
    · -- parsePrecedence
      intro p n s hp hz hf
      obtain ⟨hz1, -⟩ := parserAdvance_linePos he hwe hz
      rw [parsePrecedence.eq_2]
      simp only
      generalize parserAdvance s = s1 at hz1 ⊢
      by_cases hE : HAS_ENUM s1.parser.current.type
          (getRule s1.parser.previous.type).acceptedTokens = true
      · simp only [hE, Bool.not_true, Bool.false_eq_true, ↓reduceIte]
        cases hpre : (getRule s1.parser.previous.type).prefixRule with
        | none =>
          exact ⟨_, n, rfl, linePosS_of_tokens hz1 rfl rfl rfl, le_refl _⟩
        | some f =>
          simp only
          obtain ⟨r1, m1, h1, hz3, hm1⟩ := ihC f n
            { s1 with parser := { s1.parser with
                precedence := (getRule s1.parser.previous.type).precedence } }
            (linePosS_of_tokens hz1 rfl rfl rfl) (Or.inl hpre) (by omega)
          obtain ⟨r2, m2, h2, hz4, hm2⟩ := ihL p m1 r1 hp hz3 (by omega)
          refine ⟨r2, m2, ?_, hz4, by omega⟩
          rw [h1]
          exact h2
      · simp only [hE, Bool.not_false, ↓reduceIte]
        obtain ⟨k1, k2, k3⟩ := errorAt_tokens s1 s1.parser.current "Invalid token"
        exact ⟨_, n, rfl, linePosS_of_tokens hz1 k1 k2 k3, le_refl _⟩
    · -- parsePrecedenceLoop
      intro p n s hp hz hf
      rw [parsePrecedenceLoop.eq_2]
      by_cases hc : p ≤ (getRule s.parser.current.type).precedence
      · simp only [hc, ↓reduceIte]
        have hn : 2 ≤ n := by
          by_contra hlt
          have := (linePos_no_operator he hw hz.1 (by omega)).1
          omega
        obtain ⟨k, rfl⟩ : ∃ k, n = k + 2 := ⟨n - 2, by omega⟩
        obtain ⟨hz1, c, sc, hadv⟩ := parserAdvance_linePos he hwe hz.1
        have hprev : (parserAdvance s).parser.previous = s.parser.current := by rw [hadv]
        have hinf : (getRule (parserAdvance s).parser.previous.type).infixRule = some .binary := by
          rw [hprev]; exact getRule_infix_of_precedence _ (by omega)
        generalize parserAdvance s = s1 at hz1 hinf ⊢
        simp only [hinf]
        obtain ⟨r1, m1, h1, hz3, hm1⟩ := ihC .binary (k + 1) s1 hz1 (Or.inr hinf) (by omega)
        obtain ⟨r2, m2, h2, hz4, hm2⟩ := ihL p m1 r1 hp hz3 (by omega)
        refine ⟨r2, m2, ?_, hz4, by omega⟩
        rw [h1]
        exact h2
      · simp only [hc, ↓reduceIte]
        exact ⟨s, n, rfl, hz, le_refl _⟩
    · -- callParseFunc
      intro f n s hz hf hfuel
      cases n with
      | zero =>
        have hprev : s.parser.previous = eol := hz.1.1
        rw [hprev, he] at hf
        have : f = .noop := by
          rcases hf with hf | hf <;> (injection hf with hf; exact hf.symm)
        subst this
        rw [callParseFunc]
        exact ⟨s, 0, rfl, hz, le_refl _⟩
      | succ k =>
        cases f <;> rw [callParseFunc]
        · exact ihG k s hz (by omega)
        · exact ihU k s hz (by omega)
        · exact ihB k s hz (by omega)
        · exact ⟨s, k + 1, rfl, hz, le_refl _⟩
        · exact ihI k s hz (by omega)
        · refine ⟨_, k + 1, rfl, linePosS_of_tokens hz ?_ ?_ ?_, le_refl _⟩ <;>
            simp [number, emitConstant, emitInstructions, makeConstant_eq]
        · refine ⟨_, k + 1, rfl, linePosS_of_tokens hz ?_ ?_ ?_, le_refl _⟩ <;>
            (unfold literal; split <;> rfl)
        · refine ⟨_, k + 1, rfl, linePosS_of_tokens hz ?_ ?_ ?_, le_refl _⟩ <;>
            (unfold string; simp only; split <;>
              simp [emitConstant, emitInstructions, makeConstant_eq, ijoStringDelete,
                NaiveGCInsert, CStringCopy])
    · -- expression
      intro n s hz hf
      rw [expression.eq_2]
      exact ihP PREC_ASSIGNMENT n s (by decide) hz (by omega)
    · -- grouping
      intro n s hz hf
      rw [grouping.eq_2]
      obtain ⟨r, m, h, hzr, hm⟩ := ihE n s hz.1 (by omega)
      rw [h]
      simp only
      obtain ⟨m', hm', hz'⟩ := consume_linePos he hw .TOKEN_RIGHT_PAREN
        "Expect \x27)\x27 after expression" (by decide) hzr
      exact ⟨_, m', rfl, hz', by omega⟩
    · -- unary
      intro n s hz hf
      rw [unary.eq_2]
      obtain ⟨r, m, h, hzr, hm⟩ := ihP PREC_UNARY n s (by decide) hz.1 (by omega)
      simp only [h]
      split <;> exact ⟨_, m, rfl, linePosS_of_tokens hzr rfl rfl rfl, by omega⟩
    · -- binary
      intro n s hz hf
      rw [binary.eq_2]
      obtain ⟨r, m, h, hzr, hm⟩ := ihP ((getRule s.parser.previous.type).precedence + 1) n s
        (by omega) hz.1 (by omega)
      simp only [h]
      split <;> exact ⟨_, m, rfl, linePosS_of_tokens hzr rfl rfl rfl, by omega⟩
    · -- namedVariable
      intro n s hz hf
      rw [namedVariable.eq_2]
      simp only
      obtain ⟨q1, q2, q3⟩ := resolveLocal_position s.parser.previous s
      have hz1 : linePosS eol w0 rest (n + 1) (resolveLocal s s.parser.previous).2 :=
        linePosS_of_tokens hz q1 q2 q3
      have hcomp := (resolveLocal_parserStep s.parser.previous s).1
      have hidx := resolveLocal_index s.parser.previous s
      generalize (resolveLocal s s.parser.previous).2 = s1 at hz1 hcomp ⊢
      generalize (resolveLocal s s.parser.previous).1 = arg at hidx ⊢
      -- the outcome of the optional match on `=`
      have hm : ((if s1.parser.precedence ≤ PREC_ASSIGNMENT then matchTok s1 .TOKEN_EQUAL
            else (false, s1)) = (false, s1)) ∨
          (1 ≤ n ∧ (if s1.parser.precedence ≤ PREC_ASSIGNMENT then matchTok s1 .TOKEN_EQUAL
            else (false, s1)) = (true, parserAdvance s1)) := by
        by_cases hca : s1.parser.precedence ≤ PREC_ASSIGNMENT
        · simp only [hca, ↓reduceIte]
          rcases matchTok_cases s1 .TOKEN_EQUAL with ⟨_, h⟩ | ⟨hc, h⟩
          · left; exact h
          · right
            refine ⟨?_, h⟩
            by_contra hlt
            exact (linePos_no_operator he hw hz1.1 (by omega)).2 hc
        · left; simp only [hca, ↓reduceIte]
      have hdec : (decide (s1.parser.precedence ≤ PREC_ASSIGNMENT) = true) =
          (s1.parser.precedence ≤ PREC_ASSIGNMENT) := by simp
      simp only [hdec]
      rcases hm with hm | ⟨hn, hm⟩
      · rw [hm]
        by_cases ha : arg = -1
        · simp only [ha, ne_eq, not_true_eq_false, ↓reduceIte, Bool.false_eq_true]
          refine ⟨_, n + 1, rfl, linePosS_of_tokens hz1 ?_ ?_ ?_, le_refl _⟩ <;>
            (simp only [ijoStringDelete, CStringCopy]; split <;>
              simp [emitConstant, emitInstructions, makeConstant_eq])
        · simp only [ne_eq, ha, not_false_eq_true, ↓reduceIte, Bool.false_eq_true]
          exact ⟨_, n + 1, rfl, linePosS_of_tokens hz1 rfl rfl rfl, le_refl _⟩
      · rw [hm]
        obtain ⟨k, rfl⟩ : ∃ k, n = k + 1 := ⟨n - 1, by omega⟩
        obtain ⟨hz2, c, sc, hadv⟩ := parserAdvance_linePos he hwe hz1.1
        have hcomp2 : (parserAdvance s1).compiler = s.compiler := by rw [hadv]; exact hcomp
        generalize parserAdvance s1 = s2 at hz2 hcomp2 ⊢
        by_cases ha : arg = -1
        · simp only [ha, ne_eq, not_true_eq_false, ↓reduceIte]
          obtain ⟨k1, k2, k3⟩ := errorAtCurrent_tokens s2 "Tried to modify value of constant."
          exact ⟨_, k + 1, rfl, linePosS_of_tokens hz2 k1 k2 k3, by omega⟩
        · simp only [ne_eq, ha, not_false_eq_true, ↓reduceIte]
          rcases hidx with hidx | ⟨loc, hloc⟩
          · exact absurd hidx ha
          · rw [hcomp2, hloc]
            simp only
            by_cases hconst : loc.constant = true
            · simp only [hconst, ↓reduceIte]
              obtain ⟨k1, k2, k3⟩ := errorAtCurrent_tokens s2 "Tried to modify value of constant."
              exact ⟨_, k + 1, rfl, linePosS_of_tokens hz2 k1 k2 k3, by omega⟩
            · simp only [hconst, Bool.false_eq_true, ↓reduceIte]
              obtain ⟨r, m, h, hzr, hmr⟩ := ihE k s2 hz2.1 (by omega)
              rw [h]
              exact ⟨_, m, rfl, linePosS_of_tokens hzr rfl rfl rfl, by omega⟩
    · -- identifier
      intro n s hz hf
      rw [identifier.eq_2]
      exact ihN n s hz (by omega)

/-- From any position on the line, recovery returns at the start of the next
line, changing nothing but the position. -/
theorem synchronizeLoop_linePos (eol w0 : Token) (rest : List Token)
    (he : eol.type = .TOKEN_EOL) (hw : w0.type = .TOKEN_PRINT ∨ w0.type = .TOKEN_PRINTLN) :
    ∀ (m : Nat) (s : Ctx) (fuel : Nat), linePosS eol w0 rest m s → m + 1 ≤ fuel →
      ∃ r, synchronizeLoop fuel s = .ok r ∧ linePosS eol w0 rest 0 r ∧
        r.parser.panicMode = s.parser.panicMode ∧ r.parser.hadError = s.parser.hadError ∧
        r.console = s.console ∧ r.chunk = s.chunk := by
  have hwe : w0.type ≠ .TOKEN_ERROR := by rcases hw with hw | hw <;> rw [hw] <;> decide
  intro m
  induction m with
  | zero =>
    intro s fuel hz hf
    obtain ⟨f, rfl⟩ : ∃ f, fuel = f + 1 := ⟨fuel - 1, by omega⟩
    have hprev : s.parser.previous.type = .TOKEN_EOL := by rw [hz.1.1]; exact he
    have hcur : s.parser.current.type ≠ .TOKEN_EOL := by
      rw [(linePos_current hz.1).1 rfl]
      rcases hw with hw | hw <;> rw [hw] <;> decide
    refine ⟨s, ?_, hz, rfl, rfl, rfl, rfl⟩
    rw [synchronizeLoop]
    simp [hprev, hcur]
  | succ k ih =>
    intro s fuel hz hf
    obtain ⟨f, rfl⟩ : ∃ f, fuel = f + 1 := ⟨fuel - 1, by omega⟩
    have hprev : s.parser.previous.type ≠ .TOKEN_EOL := hz.2 (by omega)
    have hcur : s.parser.current.type ≠ .TOKEN_EOF ∧ syncSwitch s.parser.current.type = false := by
      rcases Nat.eq_zero_or_pos k with h0 | hpos
      · rw [(linePos_current hz.1).2.1 (by omega), he]; exact ⟨by decide, rfl⟩
      · have := plainToken_kind ((linePos_current hz.1).2.2 (by omega))
        exact ⟨this.2.1, this.2.2.2⟩
    obtain ⟨hz1, c, sc, hadv⟩ := parserAdvance_linePos he hwe hz.1
    obtain ⟨r, hr, hzr, h1, h2, h3, h4⟩ := ih (parserAdvance s) f hz1 (by omega)
    refine ⟨r, ?_, hzr, ?_, ?_, ?_, ?_⟩
    · rw [synchronizeLoop]
      simp [hprev, hcur.1, hcur.2, hr]
    · rw [h1, hadv]
    · rw [h2, hadv]
    · rw [h3, hadv]
    · rw [h4, hadv]

set_option maxHeartbeats 1000000 in
/-- One expression-statement line: `declaration` returns at the start of the
next line, out of panic mode, with at most one error recorded. -/
theorem declaration_line_recovers (eol w0 : Token) (rest : List Token)
    (he : eol.type = .TOKEN_EOL) (hw : w0.type = .TOKEN_PRINT ∨ w0.type = .TOKEN_PRINTLN)
    (n : Nat) (s : Ctx) (fuel : Nat)
    (hz : linePos eol w0 rest (n + 2) s)
    (hstart : s.parser.current.type ≠ .TOKEN_VAR ∧ s.parser.current.type ≠ .TOKEN_PRINTLN ∧
      s.parser.current.type ≠ .TOKEN_LEFT_BRACE)
    (hp : s.parser.panicMode = false) (hf : 4 * n + 12 ≤ fuel) :
    ∃ r, declaration fuel s = .ok r ∧ linePosS eol w0 rest 0 r ∧ r.parser.panicMode = false ∧
      ((r.parser.hadError = s.parser.hadError ∧
          errorsRecorded r.console = errorsRecorded s.console) ∨
        (r.parser.hadError = true ∧
          errorsRecorded r.console = errorsRecorded s.console + 1)) := by
  obtain ⟨f, rfl⟩ : ∃ f, fuel = f + 2 := ⟨fuel - 2, by omega⟩
  have hpl := plainToken_kind ((linePos_current hz).2.2 (by omega))
  have hsw := hpl.2.2.2
  have hk : s.parser.current.type ≠ .TOKEN_CONST ∧ s.parser.current.type ≠ .TOKEN_PRINT := by
    refine ⟨?_, ?_⟩ <;> (intro h; rw [h] at hsw; cases hsw)
  -- the expression
  obtain ⟨r1, m1, h1, hz1, hm1⟩ :=
    (expression_family_returns eol w0 rest he hw f).2.2.2.1 (n + 1) s hz (by omega)
  have e1 := (expression_family_errStep f).2.2.2.1 s r1 h1
  -- the end-of-line check
  obtain ⟨m2, hm2, hz2⟩ := consume_linePos he hw .TOKEN_EOL
    "Only one expression per line accepted." (by decide) hz1
  have e2 := consume_errStep r1 .TOKEN_EOL "Only one expression per line accepted."
  have hpan : (consume r1 .TOKEN_EOL "Only one expression per line accepted.").parser.panicMode
      = false → m2 = 0 := by
    intro hpf
    by_contra hne
    unfold consume at hpf hz2
    split at hpf
    · rename_i hc
      -- the end-of-line was consumed, so it was current
      have hm1' : m1 = 1 := by
        by_contra h1'
        rcases Nat.lt_or_ge m1 1 with hlt | hge
        · have : m1 = 0 := by omega
          have hc0 := (linePos_current hz1.1).1 this
          rw [hc0] at hc
          rcases hw with hw | hw <;> rw [hw] at hc <;> cases hc
        · have := plainToken_kind ((linePos_current hz1.1).2.2 (by omega))
          exact this.1 hc
      subst hm1'
      have hwe : w0.type ≠ .TOKEN_ERROR := by rcases hw with hw | hw <;> rw [hw] <;> decide
      have hz3 := (parserAdvance_linePos he hwe hz1.1).1
      -- position 0 and position m2 ≠ 0 disagree on the previous token
      have hp0 : (parserAdvance r1).parser.previous.type = .TOKEN_EOL := by
        rw [hz3.1.1]; exact he
      rw [if_pos hc] at hz2
      exact hz2.2 hne hp0
    · rw [errorAtCurrent_panicMode] at hpf
      cases hpf
  generalize hcs : consume r1 .TOKEN_EOL "Only one expression per line accepted." = t
    at hz2 e2 hpan
  have est : errStep s (emitInstruction t (.op .OP_POP)) :=
    errStep_trans e1 (errStep_trans e2 (emitInstruction_errStep _ _))
  have hzt : linePosS eol w0 rest m2 (emitInstruction t (.op .OP_POP)) :=
    linePosS_of_tokens hz2 rfl rfl rfl
  have hdecl : declaration (f + 2) s =
      (if (emitInstruction t (.op .OP_POP)).parser.panicMode = true then
        synchronize (f + 1) (emitInstruction t (.op .OP_POP))
      else .ok (emitInstruction t (.op .OP_POP))) := by
    rw [declaration.eq_2]
    simp [matchTok, check, hk.1, hk.2, hstart.1, hstart.2.1, hstart.2.2, hpl.1, statement.eq_2,
      expressionStatement, h1, hcs]
  rw [hdecl]
  cases hpt : (emitInstruction t (.op .OP_POP)).parser.panicMode with
  | false =>
    simp only [Bool.false_eq_true, ↓reduceIte]
    have hm0 : m2 = 0 := hpan hpt
    subst hm0
    refine ⟨_, rfl, hzt, hpt, ?_⟩
    rcases est with ⟨_, a2, a3⟩ | ⟨_, b2, _, _⟩
    · exact Or.inl ⟨a2, a3⟩
    · rw [hpt] at b2; cases b2
  | true =>
    simp only [↓reduceIte]
    obtain ⟨r, hr, hzr, g1, g2, g3, g4⟩ := synchronizeLoop_linePos eol w0 rest he hw m2
      { emitInstruction t (.op .OP_POP) with
        parser := { (emitInstruction t (.op .OP_POP)).parser with panicMode := false } }
      (f + 1) (linePosS_of_tokens hzt rfl rfl rfl) (by omega)
    refine ⟨r, hr, hzr, g1, ?_⟩
    rcases est with ⟨a1, _, _⟩ | ⟨_, _, b3, b4⟩
    · rw [hp] at a1; rw [hpt] at a1; cases a1
    · right
      exact ⟨by rw [g2]; exact b3, by rw [g3]; exact b4⟩

set_option maxHeartbeats 2000000 in
/-- The last line `print n` end-of-line, compiled by the top-level loop. -/
theorem compileLoop_print_number (fuel : Nat) (s : Ctx) (pk num eol2 : Token)
    (hcur : s.parser.current = pk) (hsc : s.parser.scanner = [num, eol2])
    (hpk : pk.type = .TOKEN_PRINT ∨ pk.type = .TOKEN_PRINTLN) (hnum : num.type = .TOKEN_NUMBER)
    (he2 : eol2.type = .TOKEN_EOL) (hp : s.parser.panicMode = false) :
    ∃ r, compileLoop (fuel + 9) s = .ok r ∧
      r.chunk.code = s.chunk.code ++ loadWords s.chunk.constants.length ++
        [.op (printOpcode pk.type)] ∧
      r.parser.hadError = s.parser.hadError ∧ r.console = s.console ∧
      r.parser.current.type = .TOKEN_EOF ∧ r.parser.scanner = [] := by
  obtain ⟨p, cm, ch, tb, g, h, con⟩ := s
  obtain ⟨cur, prev, he, pm, prec, sc⟩ := p
  obtain ⟨pkt, pkl, pkln, pkid⟩ := pk
  obtain ⟨nt, nl, nln, nid⟩ := num
  obtain ⟨et, el, eln, eid⟩ := eol2
  simp only at hcur hsc hpk hnum he2 hp
  subst hcur hsc hnum he2 hp
  rcases hpk with rfl | rfl <;>
  simp [compileLoop_step, declaration_step, statement_step, printStatement, printOpcode,
    expression_step, parsePrecedence_step, parsePrecedenceLoop_step, callParseFunc_step,
    parserAdvance, scanLoop, ScannerScan, matchTok, check, eofToken,
    getRule, HAS_ENUM, TOKEN_ALL, PREC_NONE, PREC_ASSIGNMENT, number,
    emitInstruction, emitInstructions, emitConstant, makeConstant_eq, ChunkWriteCode, loadWords]

theorem compileLoop_declaration (fuel : Nat) (s r1 r2 : Ctx)
    (hne : s.parser.current.type ≠ .TOKEN_EOF) (hd : declaration fuel s = .ok r1)
    (hl : compileLoop fuel r1 = .ok r2) : compileLoop (fuel + 1) s = .ok r2 := by
  rw [compileLoop]
  simp [matchTok, check, hne, hd, hl]

set_option maxHeartbeats 4000000 in
/-- C17 as stated fails: in `1 return 2` end-of-line `print 5` end-of-line the
recovery stops at the keyword `return`, the rest of the first line is compiled
as a statement of its own and is reported too, so two errors are recorded;
after the line `1 2` the load of `print 5` carries operand 1, not the 0 it
carries when the print line is compiled on its own; after the line `"x" 2`
the statement `print x` compiles a load of the string the first line interned,
whereas on its own it compiles no load and `Compile` returns `true`; and the
line `)` is not reported at all: with `print 5` after it `Compile` returns
`true` and no error is recorded. -/
theorem second_error_after_recovery_at_keyword :
    (returned (Compile 20 twoErrorLines emptyCtx) = some false ∧
      (finalState (Compile 20 twoErrorLines emptyCtx)).map
        (fun s => errorsRecorded s.console) = some 2) ∧
    ((finalState (Compile 20 oneErrorLines emptyCtx)).map (fun s => s.chunk.code) =
        some [.op .OP_CONSTANT, .operand 0, .op .OP_POP,
          .op .OP_CONSTANT, .operand 1, .op .OP_PRINT, .op .OP_RETURN] ∧
      (finalState (Compile 20 [mkToken .TOKEN_PRINT "print", mkToken .TOKEN_NUMBER "5",
          mkToken .TOKEN_EOL "\n"] emptyCtx)).map (fun s => s.chunk.code) =
        some [.op .OP_CONSTANT, .operand 0, .op .OP_PRINT, .op .OP_RETURN]) ∧
    ((finalState (Compile 20 literalLineThenPrint emptyCtx)).map (fun s => s.chunk.code) =
        some [.op .OP_CONSTANT, .operand 0, .op .OP_POP,
          .op .OP_CONSTANT, .operand 1, .op .OP_PRINT, .op .OP_RETURN] ∧
      (finalState (Compile 20 printName emptyCtx)).map (fun s => s.chunk.code) =
        some [.op .OP_PRINT, .op .OP_RETURN] ∧
      returned (Compile 20 printName emptyCtx) = some true) ∧
    (returned (Compile 20 silentLineThenPrint emptyCtx) = some true ∧
      (finalState (Compile 20 silentLineThenPrint emptyCtx)).map
        (fun s => errorsRecorded s.console) = some 0) := by
  refine ⟨by decide, by decide, ⟨?_, by decide, by decide⟩, by decide⟩
  simp [literalLineThenPrint, emptyCtx, trimQuotes,
    Compile, CompilerInit, ParserInit, mkToken, compileLoop_step, declaration_step,
    statement_step, expression_step, parsePrecedence_step, parsePrecedenceLoop_step,
    callParseFunc_step, identifier_step, namedVariable_step, expressionStatement, printStatement,
    parserAdvance, scanLoop, ScannerScan, matchTok, check, consume,
    emitInstruction, emitInstructions, emitConstant, makeConstant_eq, ChunkWriteCode,
    endCompiler, emitReturn, ChunkNew, resolveLocal, resolveLocalLoop, Compiler.localCount,
    number, string, getRule, HAS_ENUM, TOKEN_ALL, PREC_NONE, PREC_ASSIGNMENT,
    CStringCopy, ijoStringDelete, TableFindString, TableInsertInternal,
    TableInsert, TableFindInternalEntry, IS_OBJ, NaiveGCInsert, eofToken, finalState,
    errorAt, errorAtCurrent, LogError, ConsoleWrite, synchronize, synchronizeLoop_step,
    syncSwitch]

theorem primed_line (m0 : Token) (M : List Token) (eol pk : Token) (rest : List Token)
    (env : Ctx) (hm0 : plainToken m0 = true) (hM : ∀ t ∈ M, plainToken t = true) :
    linePos eol pk rest (M.length + 2) (primed (m0 :: M ++ eol :: pk :: rest) env) ∧
    (primed (m0 :: M ++ eol :: pk :: rest) env).parser.current = m0 ∧
    (primed (m0 :: M ++ eol :: pk :: rest) env).parser.panicMode = false ∧
    (primed (m0 :: M ++ eol :: pk :: rest) env).parser.hadError = false ∧
    (primed (m0 :: M ++ eol :: pk :: rest) env).console = env.console := by
  have hk0 := plainToken_kind hm0
  have hprimed : primed (m0 :: M ++ eol :: pk :: rest) env =
      { env with
        compiler := CompilerInit env.compiler,
        parser := { env.parser with panicMode := false, hadError := false,
                                    previous := env.parser.current, current := m0,
                                    scanner := M ++ eol :: pk :: rest } } := by
    simp [primed, ParserInit, parserAdvance, scanLoop, ScannerScan, hk0.2.2.1]
  rw [hprimed]
  refine ⟨⟨m0 :: M, by simp, ?_, by simp⟩, rfl, rfl, rfl, rfl⟩
  intro t ht
  rcases List.mem_cons.mp ht with rfl | ht
  · exact hm0
  · exact hM t ht

/-! ## Print statements -/

set_option maxHeartbeats 1000000 in
/-- C18: a `print` (or `println`) token directly followed by end-of-line
compiles, with no error and no output, to exactly `OP_CONSTANT`, the index of
a new pool entry holding `NOOP_VAL`, then `OP_PRINT` (or `OP_PRINTLN`); when
the token after the keyword is not an end-of-line, `printStatement` is the
expression followed by that same opcode and nothing else (no marker). -/
theorem print_statement_code :
    (∀ (fuel : Nat) (s : Ctx) (pt eol t : Token) (rest : List Token),
      s.parser.current = pt → s.parser.scanner = eol :: t :: rest →
      (pt.type = .TOKEN_PRINT ∨ pt.type = .TOKEN_PRINTLN) → eol.type = .TOKEN_EOL →
      t.type ≠ .TOKEN_ERROR →
      ∃ r, statement (fuel + 1) s = .ok r ∧
        r.chunk.code = s.chunk.code ++ loadWords s.chunk.constants.length ++
          [.op (printOpcode pt.type)] ∧
        r.chunk.constants = s.chunk.constants ++ [.NOOP_VAL] ∧
        r.parser.hadError = s.parser.hadError ∧ r.console = s.console) ∧
    (∀ (fuel : Nat) (s : Ctx), s.parser.current.type ≠ .TOKEN_EOL →
      printStatement fuel s =
        match expression fuel s with
        | .fault e => .fault e
        | .ok r => .ok { r with chunk :=
            { r.chunk with code := r.chunk.code ++ [.op (printOpcode s.parser.previous.type)],
                           lines := r.chunk.lines ++ [r.parser.previous.line] } }) := by
  refine ⟨?_, ?_⟩
  · intro fuel s pt eol t rest hcur hsc hpt heol ht
    obtain ⟨p, cm, ch, tb, g, h, con⟩ := s
    obtain ⟨cur, prev, he, pm, prec, sc⟩ := p
    obtain ⟨ptt, ptl, ptln, ptid⟩ := pt
    obtain ⟨et, el, eln, eid⟩ := eol
    obtain ⟨tt, tl, tln, tid⟩ := t
    simp only at hcur hsc hpt heol ht
    subst hcur hsc heol
    rcases hpt with rfl | rfl <;>
    simp [statement_step, printStatement, printOpcode,
      parserAdvance, scanLoop, ScannerScan, matchTok, check,
      emitInstruction, emitInstructions, emitConstant, makeConstant_eq, ChunkWriteCode, ht, loadWords]
  · intro fuel s hne
    cases h : expression fuel s <;>
      simp [printStatement, matchTok, check, hne, emitInstruction, ChunkWriteCode, printOpcode, h]

/-- The three words of `print` end-of-line. -/
theorem print_statement_code_witness :
    (printLineState.parser.current = mkToken .TOKEN_PRINT "print" ∧
      printLineState.parser.scanner = [mkToken .TOKEN_EOL "\n", mkToken .TOKEN_EOF ""]) ∧
    ((statement 1 printLineState).getD emptyCtx).chunk.code =
      [.op .OP_CONSTANT, .operand 0, .op .OP_PRINT] ∧
    ((statement 1 printLineState).getD emptyCtx).chunk.constants = [.NOOP_VAL] := by
  obtain ⟨r, h, hc, hk, _⟩ := print_statement_code.1 0 printLineState (mkToken .TOKEN_PRINT "print")
    (mkToken .TOKEN_EOL "\n") (mkToken .TOKEN_EOF "") [] rfl rfl (Or.inl rfl) rfl (by decide)
  have h' : statement 1 printLineState = .ok r := h
  refine ⟨⟨rfl, rfl⟩, ?_, ?_⟩
  · rw [h']; exact hc
  · rw [h']; exact hk

/-! ## Follow set of prefix minus -/

theorem getRule_minus :
    getRule .TOKEN_MINUS = ⟨some .unary, some .binary, PREC_TERM, tokenSet [.TOKEN_NUMBER]⟩ := rfl

theorem getRule_precedence_le (k : TokType) : (getRule k).precedence ≤ 7 := by
  cases k <;> decide

/-- C19 as stated fails for the error kind: in `-`, error token, `1`,
end-of-line the token right after the minus is not a number, yet the operand
is compiled and `OP_NEG` is emitted (the error token is reported and skipped
before the follow set is tested). -/
theorem minus_before_error_token_still_negates :
    returned (Compile 20 minusErrorNumber emptyCtx) = some false ∧
    (finalState (Compile 20 minusErrorNumber emptyCtx)).map (fun s => s.chunk.code) =
      some [.op .OP_CONSTANT, .operand 0, .op .OP_NEG, .op .OP_POP, .op .OP_RETURN] := by
  decide

set_option maxHeartbeats 1000000 in
/-- C19, amended: for every token kind other than a number literal and other
than the error kind, `parsePrecedence` at a prefix minus directly followed by
a token of that kind returns with `hadError` set, the chunk unchanged (no
handler run, no `OP_NEG`) and only the minus consumed; with a number literal
following (and then a token that ends the operand), the literal's constant
load is followed by `OP_NEG`, with no error and no output. -/
theorem prefix_minus_follow_set :
    (∀ (fuel precedence : Nat) (s : Ctx) (mt t : Token) (rest : List Token),
      s.parser.current = mt → s.parser.scanner = t :: rest → mt.type = .TOKEN_MINUS →
      t.type ≠ .TOKEN_NUMBER → t.type ≠ .TOKEN_ERROR →
      (s.parser.panicMode = true → s.parser.hadError = true) →
      ∃ r, parsePrecedence (fuel + 1) precedence s = .ok r ∧ r.parser.hadError = true ∧
        r.chunk = s.chunk ∧ r.parser.previous = mt ∧ r.parser.current = t ∧
        r.parser.scanner = rest) ∧
    (∀ (fuel precedence : Nat) (s : Ctx) (mt n t : Token) (rest : List Token),
      s.parser.current = mt → s.parser.scanner = n :: t :: rest → mt.type = .TOKEN_MINUS →
      n.type = .TOKEN_NUMBER → t.type ≠ .TOKEN_ERROR →
      (getRule t.type).precedence < precedence →
      ∃ r, parsePrecedence (fuel + 6) precedence s = .ok r ∧
        r.chunk.code = s.chunk.code ++ loadWords s.chunk.constants.length ++ [.op .OP_NEG] ∧
        r.chunk.constants = s.chunk.constants ++ [.NUMBER_VAL n.lexeme] ∧
        r.parser.hadError = s.parser.hadError ∧ r.console = s.console ∧
        r.parser.current = t) := by
  refine ⟨?_, ?_⟩
  · intro fuel precedence s mt t rest hcur hsc hmt htn hte hinv
    obtain ⟨p, cm, ch, tb, g, h, con⟩ := s
    obtain ⟨cur, prev, he, pm, prec, sc⟩ := p
    obtain ⟨mtt, mtl, mtln, mtid⟩ := mt
    obtain ⟨tt, tl, tln, tid⟩ := t
    simp only at hcur hsc hmt htn hte hinv
    subst hcur hsc hmt
    have hfl := errorAt_flags
      ⟨⟨⟨tt, tl, tln, tid⟩, ⟨.TOKEN_MINUS, mtl, mtln, mtid⟩, he, pm, prec, rest⟩, cm, ch, tb, g, h, con⟩
      ⟨tt, tl, tln, tid⟩ "Invalid token" hinv
    obtain ⟨e1, e2, e3, e4, e5, e6, e7⟩ := errorAt_parserStep
      ⟨⟨⟨tt, tl, tln, tid⟩, ⟨.TOKEN_MINUS, mtl, mtln, mtid⟩, he, pm, prec, rest⟩, cm, ch, tb, g, h, con⟩
      ⟨tt, tl, tln, tid⟩ "Invalid token"
    obtain ⟨k1, k2, k3⟩ := errorAt_tokens
      ⟨⟨⟨tt, tl, tln, tid⟩, ⟨.TOKEN_MINUS, mtl, mtln, mtid⟩, he, pm, prec, rest⟩, cm, ch, tb, g, h, con⟩
      ⟨tt, tl, tln, tid⟩ "Invalid token"
    refine ⟨_, ?_, hfl.1, e2, k1, k2, k3⟩
    rw [parsePrecedence.eq_2]
    simp [parserAdvance, scanLoop, ScannerScan, hte, getRule_minus, HAS_ENUM, tokenSet, htn]
  · intro fuel precedence s mt n t rest hcur hsc hmt hn hte hp
    obtain ⟨p, cm, ch, tb, g, h, con⟩ := s
    obtain ⟨cur, prev, he, pm, prec, sc⟩ := p
    obtain ⟨mtt, mtl, mtln, mtid⟩ := mt
    obtain ⟨nt, nl, nln, nid⟩ := n
    obtain ⟨tt, tl, tln, tid⟩ := t
    simp only at hcur hsc hmt hn hte hp
    subst hcur hsc hmt hn
    have h7 := getRule_precedence_le tt
    have h8 : ¬ (PREC_UNARY ≤ (getRule tt).precedence) := by unfold PREC_UNARY; omega
    have hp' : ¬ (precedence ≤ (getRule tt).precedence) := by omega
    simp [parsePrecedence_step, parsePrecedenceLoop_step, callParseFunc_step, unary_step,
      parserAdvance, scanLoop, ScannerScan, hte, getRule_minus, getRule_number, HAS_ENUM, tokenSet,
      TOKEN_ALL, number, emitInstruction, emitInstructions, emitConstant, makeConstant_eq,
      ChunkWriteCode, h8, hp', loadWords]

/-- The rejection of `-x`. -/
theorem prefix_minus_follow_set_witness :
    (minusIdentState.parser.current = mkToken .TOKEN_MINUS "-" ∧
      minusIdentState.parser.scanner = [mkToken .TOKEN_IDENTIFIER "x", mkToken .TOKEN_EOL "\n"]) ∧
    ((parsePrecedence 1 PREC_ASSIGNMENT minusIdentState).getD emptyCtx).parser.hadError = true ∧
    ((parsePrecedence 1 PREC_ASSIGNMENT minusIdentState).getD emptyCtx).chunk = minusIdentState.chunk := by
  obtain ⟨r, h, he, hc, _⟩ := prefix_minus_follow_set.1 0 PREC_ASSIGNMENT minusIdentState
    (mkToken .TOKEN_MINUS "-") (mkToken .TOKEN_IDENTIFIER "x") [mkToken .TOKEN_EOL "\n"]
    rfl rfl rfl (by decide) (by decide) (by decide)
  have h' : parsePrecedence 1 PREC_ASSIGNMENT minusIdentState = .ok r := h
  refine ⟨⟨rfl, rfl⟩, ?_, ?_⟩
  · rw [h']; exact he
  · rw [h']; exact hc

/-! ## Top-level const initialisers -/

set_option maxHeartbeats 4000000 in
/-- C20 (fails on the code): for `const x = true` end-of-line at the top level,
with `x` not yet declared, the initialiser compiles without an error to
`OP_TRUE` alone, the temporary chunk's pool stays empty, and the read of its
entry 0 is out of bounds. -/
theorem const_boolean_initialiser_out_of_bounds (fuel : Nat) (x : String) (env : Ctx) :
    Compile (fuel + 7)
      [constToken x, mkToken .TOKEN_TRUE "true", mkToken .TOKEN_EOL "\n"]
      { env with interned := { entries := [] } } = .fault .OutOfBounds := by
  simp [Compile, CompilerInit, ParserInit, mkToken, constToken, compileLoop_step, declaration_step,
      expression_step, parsePrecedence_step, parsePrecedenceLoop_step, callParseFunc_step,
      constDeclaration, CStringCopy, TableFindString, ChunkNew, literal,
      parserAdvance, scanLoop, ScannerScan, matchTok, check, consume,
      emitInstruction, ChunkWriteCode,
      getRule, HAS_ENUM, TOKEN_ALL, PREC_NONE, PREC_ASSIGNMENT, eofToken]

/-- The scan below index `n`: either no slot below `n` has the name and the
result is `-1`, or the result is the greatest index below `n` whose slot has
the name. -/
theorem resolveLocalLoop_spec (name : Token) (s : Ctx) : ∀ n, n ≤ s.compiler.locals.length →
    ((resolveLocalLoop name n s).1 = -1 ∧
      ∀ j loc, j < n → s.compiler.locals[j]? = some loc → identifierEqual name loc.name = false) ∨
    ∃ i loc, i < n ∧ (resolveLocalLoop name n s).1 = (i : Int) ∧
      s.compiler.locals[i]? = some loc ∧ identifierEqual name loc.name = true ∧
      ∀ j loc', i < j → j < n → s.compiler.locals[j]? = some loc' →
        identifierEqual name loc'.name = false := by
  intro n
  induction n with
  | zero => intro _; left; exact ⟨rfl, fun j loc hj => absurd hj (Nat.not_lt_zero _)⟩
  | succ k ih =>
    intro hle
    have ih := ih (Nat.le_of_succ_le hle)
    rw [resolveLocalLoop]
    cases hl : s.compiler.locals[k]? with
    | none =>
      have hk : s.compiler.locals.length ≤ k := List.getElem?_eq_none_iff.mp hl
      omega
    | some lk =>
      by_cases hn : identifierEqual name lk.name = true
      · right
        refine ⟨k, lk, Nat.lt_succ_self _, ?_, hl, hn, fun j loc' h1 h2 => by omega⟩
        by_cases hd : lk.depth = -1 <;> simp [hn, hd]
      · have hn' : identifierEqual name lk.name = false := by simpa using hn
        simp only [hn', Bool.false_eq_true, ↓reduceIte]
        rcases ih with ⟨h1, h2⟩ | ⟨i, loc, hi, h1, h2, h3, h4⟩
        · left
          refine ⟨h1, fun j loc hj hjl => ?_⟩
          rcases Nat.lt_succ_iff_lt_or_eq.mp hj with hlt | rfl
          · exact h2 j loc hlt hjl
          · rw [hl] at hjl; injection hjl with hjl; subst hjl; exact hn'
        · right
          refine ⟨i, loc, Nat.lt_succ_of_lt hi, h1, h2, h3, fun j loc' hij hj hjl => ?_⟩
          rcases Nat.lt_succ_iff_lt_or_eq.mp hj with hlt | rfl
          · exact h4 j loc' hij hlt hjl
          · rw [hl] at hjl; injection hjl with hjl; subst hjl; exact hn'

set_option maxHeartbeats 4000000 in
/-- C21: `resolveLocal` returns the greatest index whose Local has the given
name (it returns `i` when slot `i` has the name and no later slot has it), and
the not-found value `-1` exactly when no Local has the name; and in a block
that declares `x` and holds a nested block that declares `x` again and reads
it, the read is compiled to `OP_GET_LOCAL` with the inner slot index 1 (the
run returns `true`; the code is the two loads of the initialisers, the read,
its pop, the pops of the two locals and the return). -/
theorem resolveLocal_innermost :
    (∀ (s : Ctx) (name : Token) (i : Nat) (loc : Local),
      s.compiler.locals[i]? = some loc → identifierEqual name loc.name = true →
      (∀ j loc', i < j → s.compiler.locals[j]? = some loc' →
        identifierEqual name loc'.name = false) →
      (resolveLocal s name).1 = (i : Int)) ∧
    (∀ (s : Ctx) (name : Token),
      (resolveLocal s name).1 = -1 ↔
        ∀ loc ∈ s.compiler.locals, identifierEqual name loc.name = false) ∧
    (∀ (fuel : Nat) (x v w : String) (env : Ctx),
      returned (Compile (fuel + 24) (shadowedRead x v w) env) = some true ∧
      (finalState (Compile (fuel + 24) (shadowedRead x v w) env)).map (fun s => s.chunk.code) =
        some (env.chunk.code ++ loadWords env.chunk.constants.length ++
          loadWords (env.chunk.constants.length + 1) ++
          [.op .OP_GET_LOCAL, .operand 1, .op .OP_POP, .op .OP_POP, .op .OP_POP,
           .op .OP_RETURN])) := by
  refine ⟨?_, ?_, ?_⟩
  · intro s name i loc hi hm hlater
    have hlen : i < s.compiler.locals.length := (List.getElem?_eq_some_iff.mp hi).1
    rcases resolveLocalLoop_spec name s s.compiler.localCount (le_refl _) with ⟨_, h2⟩ | ⟨k, lk, hk, h1, h2, h3, h4⟩
    · have := h2 i loc hlen hi
      rw [hm] at this; cases this
    · unfold resolveLocal
      rw [h1]
      rcases Nat.lt_trichotomy k i with hlt | heq | hgt
      · have := h4 i loc hlt hlen hi
        rw [hm] at this; cases this
      · rw [heq]
      · have := hlater k lk hgt h2
        rw [h3] at this; cases this
  · intro s name
    constructor
    · intro h loc hloc
      rcases resolveLocalLoop_spec name s s.compiler.localCount (le_refl _) with ⟨_, h2⟩ | ⟨k, lk, hk, h1, _⟩
      · obtain ⟨j, hj⟩ := List.getElem?_of_mem hloc
        exact h2 j loc (List.getElem?_eq_some_iff.mp hj).1 hj
      · unfold resolveLocal at h
        rw [h1] at h
        omega
    · intro h
      rcases resolveLocalLoop_spec name s s.compiler.localCount (le_refl _) with ⟨h1, _⟩ | ⟨k, lk, hk, _, h2, h3, _⟩
      · exact h1
      · have := h lk (List.getElem?_mem h2)
        rw [h3] at this; cases this
  · intro fuel x v w env
    simp [shadowedRead,
      Compile, CompilerInit, ParserInit, mkToken, compileLoop_step, declaration_step,
      statement_step, block_step, expression_step, parsePrecedence_step, parsePrecedenceLoop_step,
      callParseFunc_step, identifier_step, namedVariable_step,
      expressionStatement, varDeclaration, parseVariable, declareVariable,
      declareVariableLoop, addLocal,
      defineVariable, markInitialized, beginScope, endScope, endScopeLoop, UINT8_COUNT,
      parserAdvance, scanLoop, ScannerScan, matchTok, check, consume,
      emitInstruction, emitInstructions, emitConstant, makeConstant_eq, ChunkWriteCode,
      endCompiler, emitReturn, resolveLocal, resolveLocalLoop, Compiler.localCount, identifierEqual,
      number, getRule, HAS_ENUM, TOKEN_ALL, PREC_NONE, PREC_ASSIGNMENT,
      eofToken, returned, finalState, loadWords]

/-- The read of `x` with locals `x`, `y`, `x`: slot 2 is found, not slot 0. -/
theorem resolveLocal_innermost_witness :
    (shadowState.compiler.locals[2]? =
        some { name := mkToken .TOKEN_IDENTIFIER "x", depth := 2, constant := false } ∧
      shadowState.compiler.locals[0]? =
        some { name := mkToken .TOKEN_IDENTIFIER "x", depth := 1, constant := false }) ∧
    (resolveLocal shadowState (mkToken .TOKEN_IDENTIFIER "x")).1 = 2 :=
  ⟨⟨rfl, rfl⟩,
   resolveLocal_innermost.1 shadowState (mkToken .TOKEN_IDENTIFIER "x") 2
     { name := mkToken .TOKEN_IDENTIFIER "x", depth := 2, constant := false } rfl (by decide)
     (by
       intro j loc hj hjl
       have : j < 3 := (List.getElem?_eq_some_iff.mp hjl).1
       omega)⟩

theorem declareVariableLoop_parserStep (name : Token) : ∀ (n : Nat) (s : Ctx),
    parserStep s (declareVariableLoop name n s) := by
  intro n
  induction n with
  | zero => intro s; exact parserStep_refl _
  | succ i ih =>
    intro s
    rw [declareVariableLoop]
    split
    · exact parserStep_refl _
    · split
      · exact parserStep_refl _
      · refine parserStep_trans ?_ (ih _)
        split
        · exact errorAtCurrent_parserStep _ _
        · exact parserStep_refl _

/-- The scan of `declareVariable` below index `n`: when some slot it reaches
(none from it up to `n` belongs to an enclosing scope) has the name, the error
is recorded. -/
theorem declareVariableLoop_reports (name : Token) : ∀ (n : Nat) (s : Ctx) (i : Nat) (loc : Local),
    n ≤ s.compiler.locals.length → i < n → s.compiler.locals[i]? = some loc → identifierEqual name loc.name = true →
    (∀ (j : Nat) (loc' : Local), i ≤ j → j < n → s.compiler.locals[j]? = some loc' →
      ¬ (loc'.depth ≠ -1 ∧ loc'.depth < s.compiler.scopeDepth)) →
    (s.parser.panicMode = true → s.parser.hadError = true) →
    (declareVariableLoop name n s).parser.hadError = true := by
  intro n
  induction n with
  | zero => intro s i loc _ hi; omega
  | succ k ih =>
    intro s i loc hle hi hl hm hscope hinv
    rw [declareVariableLoop]
    have hik : i ≤ k := Nat.lt_succ_iff.mp hi
    cases hk : s.compiler.locals[k]? with
    | none =>
      have := List.getElem?_eq_none_iff.mp hk
      omega
    | some lk =>
      have hnb := hscope k lk hik (Nat.lt_succ_self _) hk
      dsimp only
      rw [if_neg hnb]
      rcases Nat.lt_or_eq_of_le hik with hlt | heq
      · -- the matching slot lies further down
        have hstep : parserStep s (if identifierEqual name lk.name = true then
            errorAtCurrent s "A variable with this name already exist in this scope." else s) := by
          split
          · exact errorAtCurrent_parserStep _ _
          · exact parserStep_refl _
        generalize (if identifierEqual name lk.name = true then
            errorAtCurrent s "A variable with this name already exist in this scope." else s) = s1
          at hstep ⊢
        obtain ⟨c1, -, -, -, -, -, c7⟩ := hstep
        refine ih s1 i loc (by rw [c1]; omega) hlt (by rw [c1]; exact hl) hm ?_ (c7 hinv)
        intro j loc' hij hj hjl
        rw [c1] at hjl ⊢
        exact hscope j loc' hij (Nat.lt_succ_of_lt hj) hjl
      · subst heq
        rw [hl] at hk; injection hk with hk; subst hk
        simp only [hm, ↓reduceIte]
        have hfl := errorAtCurrent_flags s
          "A variable with this name already exist in this scope." hinv
        exact (declareVariableLoop_parserStep name i _).2.2.2.2.2.1 hfl.1

theorem declareVariableLoop_silent (name : Token) (s : Ctx) : ∀ (n : Nat),
    (∀ (i : Nat) (loc : Local), i < n → s.compiler.locals[i]? = some loc →
      (∀ (j : Nat) (loc' : Local), i ≤ j → j < n → s.compiler.locals[j]? = some loc' →
        ¬ (loc'.depth ≠ -1 ∧ loc'.depth < s.compiler.scopeDepth)) →
      identifierEqual name loc.name = false) →
    declareVariableLoop name n s = s := by
  intro n
  induction n with
  | zero => intro _; rfl
  | succ k ih =>
    intro h
    rw [declareVariableLoop]
    cases hk : s.compiler.locals[k]? with
    | none => rfl
    | some lk =>
      by_cases hb : lk.depth ≠ -1 ∧ lk.depth < s.compiler.scopeDepth
      · dsimp only
        rw [if_pos hb]
      · dsimp only
        rw [if_neg hb]
        have hnm : identifierEqual name lk.name = false := by
          apply h k lk (Nat.lt_succ_self _) hk
          intro j loc' hkj hj hjl
          have : j = k := by omega
          subst this
          rw [hk] at hjl; injection hjl with hjl; subst hjl
          exact hb
        simp only [hnm, Bool.false_eq_true, ↓reduceIte]
        apply ih
        intro i loc hi hil hsc
        apply h i loc (Nat.lt_succ_of_lt hi) hil
        intro j loc' hij hj hjl
        rcases Nat.lt_succ_iff_lt_or_eq.mp hj with hlt | heq
        · exact hsc j loc' hij hlt hjl
        · subst heq
          rw [hk] at hjl; injection hjl with hjl; subst hjl
          exact hb

/-- C22 as stated fails: in a block that holds the local `x`, `declareVariable`
for a second `x` reports the error and still appends a new Local with depth
`-1`, so the locals array grows from one entry to two. -/
theorem duplicate_local_still_appended :
    (declareVariable dupState false).parser.hadError = true ∧
    (declareVariable dupState false).compiler.locals =
      [{ name := mkToken .TOKEN_IDENTIFIER "x", depth := 1, constant := false },
       { name := mkToken .TOKEN_IDENTIFIER "x", depth := -1, constant := false }] := by
  decide

/-- C22, amended: inside a block, `declareVariable` appends a new Local with
depth `-1` for the name at hand whenever the array is not full, whether or not
a same-named Local was found in the current scope; when one was found the
error flag is set on return (a parser in panic mode has it set already), when
none was found the parser state is unchanged; and on a full array the locals
and the scope depth are unchanged. -/
theorem declareVariable_appends :
    (∀ (s : Ctx) (isConst : Bool), s.compiler.scopeDepth ≠ 0 →
      s.compiler.localCount ≠ UINT8_COUNT →
      (declareVariable s isConst).compiler.locals =
        s.compiler.locals ++ [{ name := s.parser.previous, depth := -1, constant := isConst }]) ∧
    (∀ (s : Ctx) (isConst : Bool) (i : Nat) (loc : Local), s.compiler.scopeDepth ≠ 0 →
      s.compiler.locals[i]? = some loc → identifierEqual s.parser.previous loc.name = true →
      (∀ (j : Nat) (loc' : Local), i ≤ j → s.compiler.locals[j]? = some loc' →
        ¬ (loc'.depth ≠ -1 ∧ loc'.depth < s.compiler.scopeDepth)) →
      (s.parser.panicMode = true → s.parser.hadError = true) →
      (declareVariable s isConst).parser.hadError = true) ∧
    (∀ (s : Ctx) (isConst : Bool),
      (∀ (i : Nat) (loc : Local), s.compiler.locals[i]? = some loc →
        (∀ (j : Nat) (loc' : Local), i ≤ j → s.compiler.locals[j]? = some loc' →
          ¬ (loc'.depth ≠ -1 ∧ loc'.depth < s.compiler.scopeDepth)) →
        identifierEqual s.parser.previous loc.name = false) →
      (declareVariable s isConst).parser = s.parser) ∧
    (∀ (s : Ctx) (isConst : Bool), s.compiler.localCount = UINT8_COUNT →
      (declareVariable s isConst).compiler = s.compiler) := by
  refine ⟨?_, ?_, ?_, ?_⟩
  · intro s isConst hd hc
    have hc' : (declareVariableLoop s.parser.previous s.compiler.localCount s).compiler.localCount
        ≠ UINT8_COUNT := by rw [declareVariableLoop_compiler]; exact hc
    simp [declareVariable, hd, addLocal, hc', hc, declareVariableLoop_compiler]
  · intro s isConst i loc hd hl hm hscope hinv
    have hi : i < s.compiler.localCount := (List.getElem?_eq_some_iff.mp hl).1
    have hrep := declareVariableLoop_reports s.parser.previous s.compiler.localCount s i loc
      (le_refl _) hi hl
      hm (fun j loc' hij _ hjl => hscope j loc' hij hjl) hinv
    unfold declareVariable
    simp only [hd, ↓reduceIte]
    unfold addLocal
    split
    · simpa [LogError] using hrep
    · exact hrep
  · intro s isConst h
    have hs := declareVariableLoop_silent s.parser.previous s s.compiler.localCount
      (fun i loc _ hil hsc => h i loc hil (fun j loc' hij hjl =>
        hsc j loc' hij (List.getElem?_eq_some_iff.mp hjl).1 hjl))
    unfold declareVariable
    split
    · rfl
    · simp only [hs]
      unfold addLocal
      split <;> rfl
  · intro s isConst hc
    unfold declareVariable
    split
    · rfl
    · have hc' : (declareVariableLoop s.parser.previous s.compiler.localCount s).compiler.localCount
          = UINT8_COUNT := by rw [declareVariableLoop_compiler]; exact hc
      simp [addLocal, hc', hc, LogError, declareVariableLoop_compiler]

/-- The second declaration of `x` in a block that holds `x`: the array is not
full and the new Local is appended. -/
theorem declareVariable_appends_witness :
    (dupState.compiler.scopeDepth ≠ 0 ∧ dupState.compiler.localCount ≠ UINT8_COUNT) ∧
    (declareVariable dupState true).compiler.locals =
      dupState.compiler.locals ++
        [{ name := dupState.parser.previous, depth := -1, constant := true }] :=
  ⟨⟨by decide, by decide⟩, declareVariable_appends.1 dupState true (by decide) (by decide)⟩

theorem addLocal_localCount (s : Ctx) (name : Token) (isConst : Bool)
    (h : s.compiler.localCount ≤ UINT8_COUNT) :
    (addLocal s name isConst).compiler.localCount ≤ UINT8_COUNT := by
  unfold addLocal
  split
  · exact h
  · rename_i hne
    simp only [Compiler.localCount, List.length_append, List.length_singleton] at *
    omega

theorem declareVariable_localCount (s : Ctx) (isConst : Bool)
    (h : s.compiler.localCount ≤ UINT8_COUNT) :
    (declareVariable s isConst).compiler.localCount ≤ UINT8_COUNT := by
  unfold declareVariable
  split
  · exact h
  · apply addLocal_localCount
    rw [declareVariableLoop_compiler]
    exact h

theorem markInitialized_localCount (s r : Ctx) (h : markInitialized s = .ok r) :
    r.compiler.localCount = s.compiler.localCount := by
  unfold markInitialized at h
  split at h
  · cases h
  · rename_i last hl
    injection h with h; subst h
    have hne : s.compiler.locals ≠ [] := by
      intro he; rw [he] at hl; cases hl
    simp only [Compiler.localCount, List.length_append, List.length_dropLast,
      List.length_singleton]
    have : 0 < s.compiler.locals.length := List.length_pos.mpr hne
    omega

theorem markInitialized_returns (s : Ctx) (h : 0 < s.compiler.localCount) :
    ∃ r, markInitialized s = .ok r := by
  unfold markInitialized
  cases hl : s.compiler.locals.getLast? with
  | none =>
    have he : s.compiler.locals = [] := List.getLast?_eq_none_iff.mp hl
    rw [Compiler.localCount, he] at h
    exact absurd h (Nat.lt_irrefl 0)
  | some last => exact ⟨_, rfl⟩

theorem endScopeLoop_localCount : ∀ (n : Nat) (s : Ctx),
    (endScopeLoop n s).compiler.localCount ≤ s.compiler.localCount := by
  intro n
  induction n with
  | zero => intro s; exact le_refl _
  | succ i ih =>
    intro s
    rw [endScopeLoop]
    split
    · exact le_refl _
    · split
      · refine le_trans (ih _) ?_
        simp [Compiler.localCount, emitInstruction]
      · exact le_refl _

theorem endScope_localCount (s : Ctx) :
    (endScope s).compiler.localCount ≤ s.compiler.localCount := by
  unfold endScope
  exact endScopeLoop_localCount _ _

theorem parseVariable_localCount (s : Ctx) (isConst : Bool) (message : String)
    (h : s.compiler.localCount ≤ UINT8_COUNT) :
    (parseVariable s isConst message).2.compiler.localCount ≤ UINT8_COUNT := by
  have hd := declareVariable_localCount (consume s .TOKEN_IDENTIFIER message) isConst
    (by rw [consume_compiler]; exact h)
  unfold parseVariable
  simp only
  split
  · exact hd
  · simpa [identifierConstant, makeConstant_eq, CStringCopy] using hd

theorem constDeclaration_localCount (fuel : Nat) (s r : Ctx)
    (h : constDeclaration fuel s = .ok r) (hb : s.compiler.localCount ≤ UINT8_COUNT) :
    r.compiler.localCount ≤ UINT8_COUNT := by
  unfold constDeclaration at h
  split at h
  · simp only at h
    split at h
    · injection h with h; subst h
      simpa [(errorAtCurrent_parserStep _ _).1, ijoStringDelete, CStringCopy] using hb
    · split at h
      · cases h
      · rename_i s2 hs2
        have he := (expression_family_compiler fuel).2.2.2.1 _ _ hs2
        split at h
        · cases h
        · injection h with h; subst h
          simp only [NaiveGCInsert]
          split <;> simpa [consume_compiler, he, CStringCopy] using hb
  · simp only at h
    have hp := parseVariable_localCount s true "Expected variable name" hb
    split at h
    · rw [(expression_family_compiler fuel).2.2.2.1 _ _ h, matchTok_compiler]
      exact hp
    · injection h with h; subst h
      rw [(errorAtCurrent_parserStep _ _).1, matchTok_compiler]
      exact hp

theorem varDeclaration_localCount (fuel : Nat) (s r : Ctx)
    (h : varDeclaration fuel s = .ok r) (hb : s.compiler.localCount ≤ UINT8_COUNT) :
    r.compiler.localCount ≤ UINT8_COUNT := by
  unfold varDeclaration at h
  split at h
  · injection h with h; subst h
    rw [(errorAtCurrent_parserStep _ _).1]
    exact hb
  · simp only at h
    have hp := parseVariable_localCount s false "Expected variable name" hb
    split at h
    · cases h
    · rename_i s2 hs2
      have h2 : s2.compiler.localCount ≤ UINT8_COUNT := by
        split at hs2
        · rw [(expression_family_compiler fuel).2.2.2.1 _ _ hs2, matchTok_compiler]
          exact hp
        · injection hs2 with hs2; subst hs2
          rw [(errorAtCurrent_parserStep _ _).1, matchTok_compiler]
          exact hp
      unfold defineVariable at h
      split at h
      · rw [markInitialized_localCount _ _ h, consume_compiler]
        exact h2
      · injection h with h; subst h
        rw [consume_compiler]
        exact h2

theorem declaration_family_localCount (fuel : Nat) :
    (∀ s r, declaration fuel s = .ok r → s.compiler.localCount ≤ UINT8_COUNT →
      r.compiler.localCount ≤ UINT8_COUNT) ∧
    (∀ s r, statement fuel s = .ok r → s.compiler.localCount ≤ UINT8_COUNT →
      r.compiler.localCount ≤ UINT8_COUNT) ∧
    (∀ s r, block fuel s = .ok r → s.compiler.localCount ≤ UINT8_COUNT →
      r.compiler.localCount ≤ UINT8_COUNT) := by
  induction fuel with
  | zero =>
    refine ⟨?_, ?_, ?_⟩ <;> intro s r h
    · rw [declaration.eq_1] at h; cases h
    · rw [statement.eq_1] at h; cases h
    · rw [block.eq_1] at h; cases h
  | succ n ih =>
    obtain ⟨ihD, ihS, ihB⟩ := ih
    refine ⟨?_, ?_, ?_⟩
    · intro s r h hb
      rw [declaration.eq_2] at h
      simp only at h
      split at h
      · cases h
      · rename_i s2 hs2
        have h2 : s2.compiler.localCount ≤ UINT8_COUNT := by
          split at hs2
          · exact constDeclaration_localCount _ _ _ hs2 (by rw [matchTok_compiler]; exact hb)
          · split at hs2
            · exact varDeclaration_localCount _ _ _ hs2
                (by rw [matchTok_compiler, matchTok_compiler]; exact hb)
            · split at hs2
              · injection hs2 with hs2; subst hs2
                rw [matchTok_compiler, matchTok_compiler, matchTok_compiler]; exact hb
              · exact ihS _ _ hs2
                  (by rw [matchTok_compiler, matchTok_compiler, matchTok_compiler]; exact hb)
        split at h
        · rw [synchronize_compiler _ _ _ h]; exact h2
        · injection h with h; subst h; exact h2
    · intro s r h hb
      rw [statement.eq_2] at h
      simp only at h
      have hm : (if (matchTok s .TOKEN_PRINT).1 = true then matchTok s .TOKEN_PRINT
          else matchTok (matchTok s .TOKEN_PRINT).2 .TOKEN_PRINTLN).2.compiler = s.compiler := by
        split
        · exact matchTok_compiler _ _
        · rw [matchTok_compiler, matchTok_compiler]
      generalize (if (matchTok s .TOKEN_PRINT).1 = true then matchTok s .TOKEN_PRINT
          else matchTok (matchTok s .TOKEN_PRINT).2 .TOKEN_PRINTLN) = m at h hm
      split at h
      · rw [printStatement_compiler _ _ _ h, hm]; exact hb
      · split at h
        · split at h
          · cases h
          · rename_i s2 hs2
            injection h with h; subst h
            refine le_trans (endScope_localCount _) (ihB _ _ hs2 ?_)
            simp only [beginScope]
            rw [matchTok_compiler, hm]; exact hb
        · rw [expressionStatement_compiler _ _ _ h, matchTok_compiler, hm]; exact hb
    · intro s r h hb
      rw [block.eq_2] at h
      split at h
      · split at h
        · cases h
        · rename_i s2 hs2
          exact ihB _ _ h (ihD _ _ hs2 hb)
      · injection h with h; subst h
        rw [consume_compiler]; exact hb

theorem compileLoop_localCount (fuel : Nat) : ∀ s r : Ctx, compileLoop fuel s = .ok r →
    s.compiler.localCount ≤ UINT8_COUNT → r.compiler.localCount ≤ UINT8_COUNT := by
  induction fuel with
  | zero => intro s r h; rw [compileLoop] at h; cases h
  | succ n ih =>
    intro s r h hb
    rw [compileLoop] at h
    split at h
    · split at h
      · cases h
      · rename_i s2 hs2
        exact ih _ _ h ((declaration_family_localCount n).1 _ _ hs2
          (by rw [matchTok_compiler]; exact hb))
    · injection h with h; subst h
      rw [matchTok_compiler]; exact hb

/-- C23: the local count never exceeds `UINT8_COUNT`.  `CompilerInit` sets it
to 0; `addLocal` and `declareVariable` keep it at most `UINT8_COUNT`,
`markInitialized` (which returns whenever there is a local) and `beginScope`
leave it unchanged, `endScope` does not increase it; `addLocal` on a full
array leaves the locals and the scope depth unchanged; and the state every
run of `Compile` returns has at most `UINT8_COUNT` locals. -/
theorem localCount_bounded :
    (∀ c : Compiler, (CompilerInit c).localCount = 0) ∧
    (∀ (s : Ctx) (name : Token) (isConst : Bool), s.compiler.localCount ≤ UINT8_COUNT →
      (addLocal s name isConst).compiler.localCount ≤ UINT8_COUNT ∧
      (declareVariable s isConst).compiler.localCount ≤ UINT8_COUNT ∧
      (∀ r, markInitialized s = .ok r → r.compiler.localCount = s.compiler.localCount) ∧
      (0 < s.compiler.localCount → ∃ r, markInitialized s = .ok r) ∧
      (beginScope s).compiler.localCount = s.compiler.localCount ∧
      (endScope s).compiler.localCount ≤ s.compiler.localCount) ∧
    (∀ (s : Ctx) (name : Token) (isConst : Bool), s.compiler.localCount = UINT8_COUNT →
      (addLocal s name isConst).compiler = s.compiler) ∧
    (∀ (fuel : Nat) (source : List Token) (env : Ctx) (ok : Bool) (r : Ctx),
      Compile fuel source env = .ok (ok, r) → r.compiler.localCount ≤ UINT8_COUNT) := by
  refine ⟨fun _ => rfl, ?_, ?_, ?_⟩
  · intro s name isConst h
    exact ⟨addLocal_localCount s name isConst h, declareVariable_localCount s isConst h,
      markInitialized_localCount s, markInitialized_returns s, rfl, endScope_localCount s⟩
  · intro s name isConst h
    simp [addLocal, h, LogError]
  · intro fuel source env ok r h
    unfold Compile at h
    simp only at h
    split at h
    · cases h
    · rename_i s2 hs2
      injection h with h
      injection h with h1 h2
      subst h2
      simp only [endCompiler, emitReturn]
      rw [consume_compiler]
      refine compileLoop_localCount _ _ _ hs2 ?_
      rw [(parserAdvance_parserStep _).1]
      simp [CompilerInit, Compiler.localCount, UINT8_COUNT]

/-- `addLocal` on an array of 256 locals changes nothing in the compiler record. -/
theorem localCount_bounded_witness :
    fullState.compiler.localCount = UINT8_COUNT ∧
    (addLocal fullState (mkToken .TOKEN_IDENTIFIER "b") false).compiler = fullState.compiler :=
  ⟨List.length_replicate _ _,
   localCount_bounded.2.2.1 fullState _ false (List.length_replicate _ _)⟩

theorem localName_injective {i j : Nat} (h : localName i = localName j) : i = j := by
  unfold localName at h
  have h2 := congrArg String.length h
  simp [String.length] at h2
  exact h2

theorem varLinesFrom_head (k m : Nat) : ∃ t rest, varLinesFrom k m = t :: rest ∧
    (t.type = .TOKEN_VAR ∨ t.type = .TOKEN_RIGHT_BRACE) := by
  cases m with
  | zero => exact ⟨_, _, rfl, Or.inr rfl⟩
  | succ m => exact ⟨_, _, rfl, Or.inl rfl⟩

set_option maxHeartbeats 4000000 in
theorem declaration_var_line (console : List Output) (k m fuel : Nat) (s : Ctx)
    (h : blockInv console k (m + 1) s) :
    ∃ r, declaration (fuel + 8) s = .ok r ∧ blockInv console (k + 1) m r := by
  obtain ⟨hpos, hpm, hhe, hd, hnames, hlen, hcon⟩ := h
  obtain ⟨t, rest, hrest, ht⟩ := varLinesFrom_head (k + 1) m
  have hte : t.type ≠ .TOKEN_ERROR := by rcases ht with h | h <;> rw [h] <;> decide
  obtain ⟨p, cm, ch, tb, g, hp, con⟩ := s
  obtain ⟨cur, prev, he, pm, prec, sc⟩ := p
  obtain ⟨locs, depth⟩ := cm
  obtain ⟨tt, tl, tln, tid⟩ := t
  simp only [varLinesFrom, varLine, hrest, List.cons_append, List.nil_append, List.cons.injEq]
    at hpos
  obtain ⟨hcur, hsc⟩ := hpos
  simp only at hpm hhe hd hnames hlen hcon hte
  subst hcur hsc hpm hhe hd hcon
  -- the duplicate scan finds nothing
  have hsilent : ∀ (par : Parser) (c2 : Chunk) (t2 : Table) (g2 : List Value) (h2 : Nat)
      (con2 : List Output) (nm : Token), nm.lexeme = localName k →
      declareVariableLoop nm locs.length ⟨par, ⟨locs, 1⟩, c2, t2, g2, h2, con2⟩ =
        ⟨par, ⟨locs, 1⟩, c2, t2, g2, h2, con2⟩ := by
    intro par c2 t2 g2 h2 con2 nm hnm
    apply declareVariableLoop_silent
    intro i loc _ hil _
    obtain ⟨j, hj, hjn⟩ := hnames loc (List.getElem?_mem hil)
    simp only [identifierEqual, hnm, hjn, beq_eq_false_iff_ne, ne_eq]
    intro heq
    have := localName_injective heq
    omega
  by_cases hfull : locs.length = 256
  · -- the array is full: only a log line, no error
    have hk : 256 ≤ k := by
      by_contra hlt
      rw [Nat.min_eq_left (by omega)] at hlen
      omega
    obtain ⟨lastLoc, hlast⟩ : ∃ l, locs.getLast? = some l := by
      cases hl : locs.getLast? with
      | none =>
        have : locs = [] := List.getLast?_eq_none_iff.mp hl
        rw [this] at hfull; simp at hfull
      | some l => exact ⟨l, rfl⟩
    rw [hfull] at hsilent
    simp [declaration_step, expression_step, parsePrecedence_step, parsePrecedenceLoop_step,
        callParseFunc_step, varDeclaration, parseVariable, declareVariable, addLocal,
        defineVariable, markInitialized, UINT8_COUNT, Compiler.localCount, hsilent, hfull, hlast,
        mkToken, parserAdvance, scanLoop, ScannerScan, matchTok, check, consume, LogError,
        emitInstruction, emitInstructions, emitConstant, makeConstant_eq, ChunkWriteCode,
        number, getRule, HAS_ENUM, TOKEN_ALL, PREC_NONE, PREC_ASSIGNMENT, hte]
    unfold blockInv
    · refine ⟨by simp [hrest], rfl, rfl, rfl, ?_, ?_, ?_⟩
      · intro l hl
        simp only [List.mem_append, List.mem_singleton] at hl
        rcases hl with hl | hl
        · obtain ⟨i, hi, hn⟩ := hnames l (List.mem_of_mem_dropLast hl)
          exact ⟨i, by omega, hn⟩
        · obtain ⟨i, hi, hn⟩ := hnames lastLoc (List.mem_of_mem_getLast? hlast)
          subst hl
          exact ⟨i, by omega, hn⟩
      · simp only [List.length_append, List.length_dropLast, List.length_singleton, hfull]
        omega
      · simp only [tooManyLocals, List.append_assoc]
        rw [show k + 1 - 256 = (k - 256) + 1 by omega, List.replicate_succ']
  · have hk : k < 256 := by
      by_contra hge
      rw [Nat.min_eq_right (by omega)] at hlen
      exact hfull hlen
    have hlenk : locs.length = k := by rw [hlen, Nat.min_eq_left (by omega)]
    simp [declaration_step, expression_step, parsePrecedence_step, parsePrecedenceLoop_step,
        callParseFunc_step, varDeclaration, parseVariable, declareVariable, addLocal,
        defineVariable, markInitialized, UINT8_COUNT, Compiler.localCount, hsilent, hfull,
        mkToken, parserAdvance, scanLoop, ScannerScan, matchTok, check, consume, LogError,
        emitInstruction, emitInstructions, emitConstant, makeConstant_eq, ChunkWriteCode,
        number, getRule, HAS_ENUM, TOKEN_ALL, PREC_NONE, PREC_ASSIGNMENT, hte]
    unfold blockInv
    · refine ⟨by simp [hrest], rfl, rfl, rfl, ?_, ?_, ?_⟩
      · intro l hl
        simp only [List.mem_append, List.mem_singleton] at hl
        rcases hl with hl | hl
        · obtain ⟨i, hi, hn⟩ := hnames l hl
          exact ⟨i, by omega, hn⟩
        · subst hl
          exact ⟨k, by omega, rfl⟩
      · simp only [List.length_append, List.length_singleton, hlenk]
        omega
      · simp only
        rw [show k + 1 - 256 = 0 by omega, show k - 256 = 0 by omega]

theorem endScopeLoop_frame : ∀ (n : Nat) (s : Ctx),
    (endScopeLoop n s).parser = s.parser ∧ (endScopeLoop n s).console = s.console := by
  intro n
  induction n with
  | zero => intro s; exact ⟨rfl, rfl⟩
  | succ n ih =>
    intro s
    rw [endScopeLoop]
    split
    · exact ⟨rfl, rfl⟩
    · split
      · exact ih _
      · exact ⟨rfl, rfl⟩

theorem endScope_frame (s : Ctx) :
    (endScope s).parser = s.parser ∧ (endScope s).console = s.console :=
  endScopeLoop_frame _ _

theorem parserAdvance_at_end (s : Ctx) (h : s.parser.scanner = []) :
    parserAdvance s = { s with parser := { s.parser with
      previous := s.parser.current, current := eofToken, scanner := [] } } := by
  simp [parserAdvance, h, scanLoop, ScannerScan]

theorem parserAdvance_at_end_facts (s : Ctx) (h : s.parser.scanner = []) :
    (parserAdvance s).parser.scanner = [] ∧ (parserAdvance s).parser.current = eofToken ∧
    (parserAdvance s).parser.hadError = s.parser.hadError ∧
    (parserAdvance s).console = s.console := by
  rw [parserAdvance_at_end s h]
  exact ⟨rfl, rfl, rfl, rfl⟩

theorem block_var_lines (console : List Output) (fuel : Nat) : ∀ (m k : Nat) (s : Ctx),
    blockInv console k m s →
    ∃ r, block (fuel + m + 9) s = .ok r ∧
      r.parser.current = mkToken .TOKEN_EOL "\n" ∧ r.parser.scanner = [] ∧
      r.parser.panicMode = false ∧ r.parser.hadError = false ∧
      r.console = console ++ List.replicate (k + m - 256) tooManyLocals := by
  intro m
  induction m with
  | zero =>
    intro k s h
    obtain ⟨hpos, hpm, hhe, _, _, _, hcon⟩ := h
    obtain ⟨p, cm, ch, tb, g, hp, con⟩ := s
    obtain ⟨cur, prev, he, pm, prec, sc⟩ := p
    simp only [varLinesFrom, List.cons.injEq] at hpos
    obtain ⟨hcur, hsc⟩ := hpos
    simp only at hpm hhe hcon
    subst hcur hsc hpm hhe hcon
    simp [block_step, check, consume, parserAdvance, scanLoop, ScannerScan, mkToken]
  | succ m ih =>
    intro k s h
    have hcur : s.parser.current.type = .TOKEN_VAR := by
      have hpos := h.1
      simp only [varLinesFrom, varLine, List.cons_append, List.cons.injEq] at hpos
      rw [hpos.1]; rfl
    have hne : s.parser.current.type ≠ .TOKEN_ERROR := by rw [hcur]; decide
    obtain ⟨r1, hd, hinv⟩ := declaration_var_line console k m (fuel + m + 1) s h
    have hd' : declaration (fuel + m + 9) s = .ok r1 := hd
    have e : fuel + (m + 1) + 9 = (fuel + m + 9) + 1 := by omega
    rw [e, block_step _ _ hne]
    simp only [check, hcur, hd']
    have := ih (k + 1) r1 hinv
    rw [show k + 1 + m = k + (m + 1) by omega] at this
    simpa using this

theorem blockInv_start (n : Nat) (env : Ctx) :
    blockInv env.console 0 n (beginScope (parserAdvance (parserAdvance
      { env with compiler := CompilerInit env.compiler,
                 parser := ParserInit env.parser (manyLocals n) }))) := by
  obtain ⟨t, rest, hrest, ht⟩ := varLinesFrom_head 0 n
  have hte : t.type ≠ .TOKEN_ERROR := by rcases ht with h | h <;> rw [h] <;> decide
  unfold blockInv
  simp [beginScope, parserAdvance, ParserInit, CompilerInit, manyLocals, scanLoop, ScannerScan,
    mkToken, hrest, hte]

theorem statement_block_ok (fuel : Nat) (s r : Ctx)
    (h : s.parser.current.type = .TOKEN_LEFT_BRACE)
    (hb : block fuel (beginScope (parserAdvance s)) = .ok r) :
    statement (fuel + 1) s = .ok (endScope r) := by
  rw [statement]
  simp [matchTok, check, h, hb]

theorem declaration_statement_ok (fuel : Nat) (s r : Ctx)
    (h : s.parser.current.type = .TOKEN_LEFT_BRACE)
    (hs : statement fuel s = .ok r) (hp : r.parser.panicMode = false) :
    declaration (fuel + 1) s = .ok r := by
  rw [declaration]
  simp [matchTok, check, h, hs, hp]

theorem declaration_empty_line (fuel : Nat) (s : Ctx)
    (h : s.parser.current.type = .TOKEN_EOL)
    (hp : (parserAdvance s).parser.panicMode = false) :
    declaration (fuel + 1) s = .ok (parserAdvance s) := by
  rw [declaration]
  simp [matchTok, check, h, hp]

theorem compileLoop_at_end (fuel : Nat) (s : Ctx) (h : s.parser.current.type = .TOKEN_EOF) :
    compileLoop (fuel + 1) s = .ok (parserAdvance s) := by
  rw [compileLoop]
  simp [matchTok, check, h]

set_option maxHeartbeats 1000000 in
/-- C24 (fails on the code): `addLocal` never changes the parser record, so it
sets no error flag on a full array either; and for every `n`, also above
`UINT8_COUNT`, compiling one block that declares `n` distinct variables
returns `true`, the only trace of the overflow being one log line
"Too many local variables in function." for each declaration past the
capacity. -/
theorem too_many_locals_not_reported :
    (∀ (s : Ctx) (name : Token) (isConst : Bool), (addLocal s name isConst).parser = s.parser) ∧
    (∀ (n fuel : Nat) (env : Ctx),
      returned (Compile (fuel + n + 12) (manyLocals n) env) = some true ∧
      (finalState (Compile (fuel + n + 12) (manyLocals n) env)).map (fun s => s.console) =
        some (env.console ++ List.replicate (n - 256) tooManyLocals)) := by
  refine ⟨?_, ?_⟩
  · intro s name isConst
    unfold addLocal
    split <;> rfl
  · intro n fuel env
    obtain ⟨r1, hb, hcur, hsc, hpm, hhe, hcon⟩ :=
      block_var_lines env.console fuel n 0 _ (blockInv_start n env)
    rw [Nat.zero_add] at hcon
    have hs0 : (parserAdvance
        { env with compiler := CompilerInit env.compiler,
                   parser := ParserInit env.parser (manyLocals n) }).parser.current.type =
        .TOKEN_LEFT_BRACE := by
      simp [parserAdvance, ParserInit, manyLocals, scanLoop, ScannerScan, mkToken]
    have hst := statement_block_ok (fuel + n + 9) _ r1 hs0 hb
    have hpm2 : (endScope r1).parser.panicMode = false := by rw [(endScope_frame r1).1, hpm]
    have hd1 := declaration_statement_ok (fuel + n + 10) _ _ hs0 hst hpm2
    have hsc2 : (endScope r1).parser.scanner = [] := by rw [(endScope_frame r1).1, hsc]
    have hcur2 : (endScope r1).parser.current.type = .TOKEN_EOL := by
      rw [(endScope_frame r1).1, hcur]; rfl
    have hhe2 : (endScope r1).parser.hadError = false := by rw [(endScope_frame r1).1, hhe]
    have hd2 : declaration (fuel + n + 9 + 1) (endScope r1) = .ok (parserAdvance (endScope r1)) :=
      declaration_empty_line _ _ hcur2 (by rw [parserAdvance_at_end _ hsc2]; exact hpm2)
    have hl3 : compileLoop (fuel + n + 9 + 1) (parserAdvance (endScope r1)) =
        .ok (parserAdvance (parserAdvance (endScope r1))) :=
      compileLoop_at_end _ _ (by rw [parserAdvance_at_end _ hsc2]; rfl)
    have hl2 := compileLoop_declaration (fuel + n + 10) _ _ _
      (by rw [hcur2]; decide) hd2 hl3
    have hl1 := compileLoop_declaration (fuel + n + 11) _ _ _
      (by rw [hs0]; decide) hd1 hl2
    obtain ⟨hsc3, hcur3, hhe3, hcon3⟩ := parserAdvance_at_end_facts _ hsc2
    obtain ⟨hsc4, hcur4, hhe4, hcon4⟩ := parserAdvance_at_end_facts _ hsc3
    have hcons : consume (parserAdvance (parserAdvance (endScope r1))) .TOKEN_EOF
        "Expected end of expression" =
        parserAdvance (parserAdvance (parserAdvance (endScope r1))) := by
      unfold consume
      rw [if_pos (by rw [hcur4]; rfl)]
    obtain ⟨_, _, hhe5, hcon5⟩ := parserAdvance_at_end_facts _ hsc4
    have hC : Compile (fuel + n + 12) (manyLocals n) env =
        .ok (!(parserAdvance (parserAdvance (parserAdvance (endScope r1)))).parser.hadError,
          endCompiler (parserAdvance (parserAdvance (parserAdvance (endScope r1))))) := by
      unfold Compile
      simp only [hl1, hcons]
      rfl
    rw [hC, hhe5, hhe4, hhe3, hhe2]
    refine ⟨rfl, ?_⟩
    show some (parserAdvance (parserAdvance (parserAdvance (endScope r1)))).console = _
    rw [hcon5, hcon4, hcon3, (endScope_frame r1).2, hcon]

theorem synchronizeLoop_fault (fuel : Nat) : ∀ (s : Ctx) (e : Fault),
    synchronizeLoop fuel s = .fault e → e = .OutOfFuel := by
  induction fuel with
  | zero => intro s e h; rw [synchronizeLoop] at h; injection h with h; exact h.symm
  | succ n ih =>
    intro s e h
    rw [synchronizeLoop] at h
    split_ifs at h
    exact ih _ _ h

theorem expression_family_no_null (fuel : Nat) :
    (∀ p s, PREC_ASSIGNMENT ≤ p → parsePrecedence fuel p s ≠ .fault .NullCall) ∧
    (∀ p s, PREC_ASSIGNMENT ≤ p → parsePrecedenceLoop fuel p s ≠ .fault .NullCall) ∧
    (∀ f s, callParseFunc fuel f s ≠ .fault .NullCall) ∧
    (∀ s, expression fuel s ≠ .fault .NullCall) ∧
    (∀ s, grouping fuel s ≠ .fault .NullCall) ∧
    (∀ s, unary fuel s ≠ .fault .NullCall) ∧
    (∀ s, binary fuel s ≠ .fault .NullCall) ∧
    (∀ s, namedVariable fuel s ≠ .fault .NullCall) ∧
    (∀ s, identifier fuel s ≠ .fault .NullCall) := by
  induction fuel with
  | zero =>
    refine ⟨?_, ?_, ?_, ?_, ?_, ?_, ?_, ?_, ?_⟩ <;> intros <;> intro h
    · rw [parsePrecedence.eq_1] at h; cases h
    · rw [parsePrecedenceLoop.eq_1] at h; cases h
    · rw [callParseFunc.eq_1] at h; cases h
    · rw [expression.eq_1] at h; cases h
    · rw [grouping.eq_1] at h; cases h
    · rw [unary.eq_1] at h; cases h
    · rw [binary.eq_1] at h; cases h
    · rw [namedVariable.eq_1] at h; cases h
    · rw [identifier.eq_1] at h; cases h
  | succ n ih =>
    obtain ⟨ihP, ihL, ihC, ihE, ihG, ihU, ihB, ihN, ihI⟩ := ih
    refine ⟨?_, ?_, ?_, ?_, ?_, ?_, ?_, ?_, ?_⟩
    · intro p s hp h
      rw [parsePrecedence.eq_2] at h
      simp only at h
      split at h
      · cases h
      · split at h
        · cases h
        · split at h
          · rename_i e he
            injection h with h; subst h
            exact ihC _ _ he
          · exact ihL _ _ hp h
    · intro p s hp h
      rw [parsePrecedenceLoop.eq_2] at h
      split at h
      · rename_i hc
        simp only at h
        split at h
        · rename_i hnone
          rw [parserAdvance_previous] at hnone
          have := getRule_infix_of_precedence s.parser.current.type
            (by unfold PREC_ASSIGNMENT at hp; omega)
          rw [this] at hnone
          cases hnone
        · split at h
          · rename_i e he
            injection h with h; subst h
            exact ihC _ _ he
          · exact ihL _ _ hp h
      · cases h
    · intro f s h
      cases f <;> rw [callParseFunc] at h
      · exact ihG _ h
      · exact ihU _ h
      · exact ihB _ h
      · cases h
      · exact ihI _ h
      · cases h
      · cases h
      · cases h
    · intro s h
      rw [expression.eq_2] at h
      exact ihP _ _ (le_refl _) h
    · intro s h
      rw [grouping.eq_2] at h
      split at h
      · rename_i e he
        injection h with h; subst h
        exact ihE _ he
      · cases h
    · intro s h
      rw [unary.eq_2] at h
      split at h
      · rename_i e he
        injection h with h; subst h
        exact ihP _ _ (by decide) he
      · split at h <;> cases h
    · intro s h
      rw [binary.eq_2] at h
      split at h
      · rename_i e he
        injection h with h; subst h
        exact ihP _ _ (by unfold PREC_ASSIGNMENT; omega) he
      · split at h <;> cases h
    · intro s h
      rw [namedVariable.eq_2] at h
      simp only at h
      generalize (resolveLocal s s.parser.previous).2 = s1 at h
      generalize (resolveLocal s s.parser.previous).1 = arg at h
      simp only [decide_eq_true_eq] at h
      generalize (if s1.parser.precedence ≤ PREC_ASSIGNMENT then matchTok s1 .TOKEN_EQUAL
        else (false, s1)) = m at h
      split at h
      · split at h
        · split at h
          · cases h
          · split at h
            · cases h
            · split at h
              · rename_i e he
                injection h with h; subst h
                exact ihE _ he
              · cases h
        · cases h
      · split at h <;> cases h
    · intro s h
      rw [identifier.eq_2] at h
      exact ihN _ h

theorem expressionStatement_no_null (fuel : Nat) (s : Ctx) :
    expressionStatement fuel s ≠ .fault .NullCall := by
  intro h
  unfold expressionStatement at h
  split at h
  · rename_i e he
    injection h with h; subst h
    exact (expression_family_no_null fuel).2.2.2.1 _ he
  · cases h

theorem printStatement_no_null (fuel : Nat) (s : Ctx) :
    printStatement fuel s ≠ .fault .NullCall := by
  intro h
  unfold printStatement at h
  simp only at h
  split at h
  · split at h
    · rename_i e he
      injection h with h; subst h
      exact (expression_family_no_null fuel).2.2.2.1 _ he
    · cases h
  · cases h

theorem constDeclaration_no_null (fuel : Nat) (s : Ctx) :
    constDeclaration fuel s ≠ .fault .NullCall := by
  intro h
  unfold constDeclaration at h
  split at h
  · simp only at h
    split at h
    · cases h
    · split at h
      · rename_i e he
        injection h with h; subst h
        exact (expression_family_no_null fuel).2.2.2.1 _ he
      · split at h <;> cases h
  · simp only at h
    split at h
    · exact (expression_family_no_null fuel).2.2.2.1 _ h
    · cases h

theorem varDeclaration_no_null (fuel : Nat) (s : Ctx) :
    varDeclaration fuel s ≠ .fault .NullCall := by
  intro h
  unfold varDeclaration at h
  split at h
  · cases h
  · simp only at h
    split at h
    · rename_i e he
      injection h with h; subst h
      split at he
      · exact (expression_family_no_null fuel).2.2.2.1 _ he
      · cases he
    · unfold defineVariable markInitialized at h
      split at h
      · split at h <;> cases h
      · cases h

theorem declaration_family_no_null (fuel : Nat) :
    (∀ s, declaration fuel s ≠ .fault .NullCall) ∧
    (∀ s, statement fuel s ≠ .fault .NullCall) ∧
    (∀ s, block fuel s ≠ .fault .NullCall) := by
  induction fuel with
  | zero =>
    refine ⟨?_, ?_, ?_⟩ <;> intro s h
    · rw [declaration.eq_1] at h; cases h
    · rw [statement.eq_1] at h; cases h
    · rw [block.eq_1] at h; cases h
  | succ n ih =>
    obtain ⟨ihD, ihS, ihB⟩ := ih
    refine ⟨?_, ?_, ?_⟩
    · intro s h
      rw [declaration.eq_2] at h
      simp only at h
      split at h
      · rename_i e he
        injection h with h; subst h
        split at he
        · exact constDeclaration_no_null _ _ he
        · split at he
          · exact varDeclaration_no_null _ _ he
          · split at he
            · cases he
            · exact ihS _ he
      · split at h
        · unfold synchronize at h
          have := synchronizeLoop_fault _ _ _ h
          cases this
        · cases h
    · intro s h
      rw [statement.eq_2] at h
      simp only at h
      generalize (if (matchTok s .TOKEN_PRINT).1 = true then matchTok s .TOKEN_PRINT
          else matchTok (matchTok s .TOKEN_PRINT).2 .TOKEN_PRINTLN) = m at h
      split at h
      · exact printStatement_no_null _ _ h
      · split at h
        · split at h
          · rename_i e he
            injection h with h; subst h
            exact ihB _ he
          · cases h
        · exact expressionStatement_no_null _ _ h
    · intro s h
      rw [block.eq_2] at h
      split at h
      · split at h
        · rename_i e he
          injection h with h; subst h
          exact ihD _ he
        · exact ihB _ h
      · cases h

theorem compileLoop_no_null (fuel : Nat) : ∀ s, compileLoop fuel s ≠ .fault .NullCall := by
  induction fuel with
  | zero => intro s h; rw [compileLoop] at h; cases h
  | succ n ih =>
    intro s h
    rw [compileLoop] at h
    split at h
    · split at h
      · rename_i e he
        injection h with h; subst h
        exact (declaration_family_no_null n).1 _ he
      · exact ih _ h
    · cases h

/-- C25: every token kind whose rule has precedence at least `PREC_ASSIGNMENT`
has an infix handler; the calls of `parsePrecedence` (from `expression`,
`unary` and `binary`) pass a minimum precedence of at least `PREC_ASSIGNMENT`;
hence no run of `parsePrecedence` with such a minimum, and no run of `Compile`
on any token stream, ends in a call through an absent handler. -/
theorem infix_handler_never_absent :
    (∀ k : TokType, PREC_ASSIGNMENT ≤ (getRule k).precedence → (getRule k).infixRule ≠ none) ∧
    (∀ (fuel : Nat) (s : Ctx),
      expression (fuel + 1) s = parsePrecedence fuel PREC_ASSIGNMENT s ∧
      PREC_ASSIGNMENT ≤ PREC_UNARY ∧
      PREC_ASSIGNMENT ≤ (getRule s.parser.previous.type).precedence + 1) ∧
    (∀ (fuel p : Nat) (s : Ctx), PREC_ASSIGNMENT ≤ p →
      parsePrecedence fuel p s ≠ .fault .NullCall) ∧
    (∀ (fuel : Nat) (source : List Token) (env : Ctx),
      Compile fuel source env ≠ .fault .NullCall) := by
  refine ⟨?_, ?_, ?_, ?_⟩
  · intro k hk
    rw [getRule_infix_of_precedence k (by unfold PREC_ASSIGNMENT at hk; omega)]
    simp
  · intro fuel s
    exact ⟨rfl, by decide, by unfold PREC_ASSIGNMENT; omega⟩
  · intro fuel p s hp
    exact (expression_family_no_null fuel).1 p s hp
  · intro fuel source env h
    unfold Compile at h
    simp only at h
    split at h
    · rename_i e he
      injection h with h; subst h
      exact compileLoop_no_null _ _ he
    · cases h

/-- The rule of `+`: precedence above `PREC_ASSIGNMENT`, infix handler present. -/
theorem infix_handler_never_absent_witness :
    PREC_ASSIGNMENT ≤ (getRule .TOKEN_PLUS).precedence ∧
      (getRule .TOKEN_PLUS).infixRule ≠ none :=
  ⟨by decide, infix_handler_never_absent.1 .TOKEN_PLUS (by decide)⟩

set_option maxHeartbeats 1000000 in
/-- C26: when the identifier just consumed names no local, is not followed by
`=` and the table lookup for it yields no entry, `namedVariable` returns and
leaves the chunk, the parser (with its error flags), the console, the locals
and the table unchanged; and for every name the table has no entry for,
compiling the name followed by end-of-line returns `true`, appends only
`OP_POP` (and the final `OP_RETURN`) and prints nothing. -/
theorem unknown_identifier_emits_nothing :
    (∀ (fuel : Nat) (s : Ctx),
      (∀ l ∈ s.compiler.locals, l.name.lexeme ≠ s.parser.previous.lexeme) →
      s.parser.current.type ≠ .TOKEN_EQUAL →
      TableFindInternalEntry s.interned
        { addr := s.heapTop, chars := s.parser.previous.lexeme } = none →
      ∃ r, namedVariable (fuel + 1) s = .ok r ∧ r.chunk = s.chunk ∧ r.parser = s.parser ∧
        r.console = s.console ∧ r.compiler = s.compiler ∧ r.interned = s.interned) ∧
    (∀ (fuel : Nat) (x : String) (env : Ctx),
      (∀ addr, TableFindInternalEntry env.interned { addr := addr, chars := x } = none) →
      returned (Compile (fuel + 8)
        [mkToken .TOKEN_IDENTIFIER x, mkToken .TOKEN_EOL "\n"] env) = some true ∧
      (finalState (Compile (fuel + 8)
        [mkToken .TOKEN_IDENTIFIER x, mkToken .TOKEN_EOL "\n"] env)).map
          (fun s => (s.chunk.code, s.console)) =
        some (env.chunk.code ++ [.op .OP_POP, .op .OP_RETURN], env.console)) := by
  refine ⟨?_, ?_⟩
  · intro fuel s hnl hne hfind
    have hres := resolveLocal_not_found s.parser.previous s hnl
    refine ⟨{ s with heapTop := s.heapTop + 1 }, ?_, rfl, rfl, rfl, rfl, rfl⟩
    rw [namedVariable.eq_2]
    simp [hres, matchTok, check, hne, CStringCopy, hfind, ijoStringDelete]
  · intro fuel x env hfind
    simp [Compile, CompilerInit, ParserInit, mkToken, compileLoop_step, declaration_step,
      statement_step, expression_step, parsePrecedence_step, parsePrecedenceLoop_step,
      callParseFunc_step, identifier_step, namedVariable_step, expressionStatement,
      parserAdvance, scanLoop, ScannerScan, matchTok, check, consume,
      emitInstruction, ChunkWriteCode,
      endCompiler, emitReturn, resolveLocal, resolveLocalLoop, Compiler.localCount,
      getRule, HAS_ENUM, TOKEN_ALL, PREC_NONE, PREC_ASSIGNMENT,
      CStringCopy, ijoStringDelete, hfind, eofToken, returned, finalState]

/-- The read of `x` at top level with an empty table. -/
theorem unknown_identifier_emits_nothing_witness :
    (unknownReadState.parser.current.type ≠ .TOKEN_EQUAL ∧
      TableFindInternalEntry unknownReadState.interned
        { addr := unknownReadState.heapTop, chars := "x" } = none) ∧
    ∃ r, namedVariable 1 unknownReadState = .ok r ∧ r.chunk = unknownReadState.chunk ∧
      r.parser = unknownReadState.parser ∧ r.console = unknownReadState.console ∧
      r.compiler = unknownReadState.compiler ∧ r.interned = unknownReadState.interned :=
  ⟨⟨by decide, by decide⟩,
   unknown_identifier_emits_nothing.1 0 unknownReadState (by decide) (by decide) (by decide)⟩

theorem trimQuotes_quoted (content : String) :
    trimQuotes ("\"" ++ content ++ "\"") = content := by
  unfold trimQuotes
  have h : ("\"" ++ content ++ "\"").data = '"' :: (content.data ++ ['"']) := by
    simp [String.data_append]
  rw [h]
  simp

set_option maxHeartbeats 4000000 in
/-- C27 as stated fails: after `const s = 1`, the literal `"s"` finds the key
of the constant in the shared table, and the identifier `s` on the next line
loads the value of the constant, the number 1, not the interned string. -/
theorem name_of_earlier_const_loads_its_value :
    (finalState (Compile 20 constThenLiteral emptyCtx)).map (fun s => s.chunk.constants) =
      some [.INTERNAL_STR { addr := 0, chars := "s" }, .NUMBER_VAL "1"] := by
  simp [constThenLiteral, emptyCtx, trimQuotes,
    Compile, CompilerInit, ParserInit, mkToken, constToken, compileLoop_step, declaration_step,
    statement_step, expression_step, parsePrecedence_step, parsePrecedenceLoop_step,
    callParseFunc_step, identifier_step, namedVariable_step, expressionStatement,
    parserAdvance, scanLoop, ScannerScan, matchTok, check, consume,
    emitInstruction, emitInstructions, emitConstant, makeConstant_eq, ChunkWriteCode,
    endCompiler, emitReturn, ChunkNew, resolveLocal, resolveLocalLoop, Compiler.localCount,
    number, string, getRule, HAS_ENUM, TOKEN_ALL, PREC_NONE, PREC_ASSIGNMENT,
    constDeclaration, CStringCopy, ijoStringDelete, TableFindString, TableInsertInternal,
    TableInsert, TableFindInternalEntry, IS_OBJ, NaiveGCInsert, eofToken, finalState]

theorem TableFindString_isSome_iff (t : Table) (x : String) :
    (TableFindString t x).isSome = true ↔ ∃ e ∈ t.entries, e.key.chars = x := by
  simp [TableFindString, List.find?_isSome]

theorem TableInsert_keeps (t : Table) (k : ijoString) (v : Value) (x : String)
    (h : (TableFindString t x).isSome = true) :
    (TableFindString (TableInsert t k v) x).isSome = true := by
  rw [TableFindString_isSome_iff] at h ⊢
  obtain ⟨e, he, hx⟩ := h
  unfold TableInsert
  split
  · by_cases hk : e.key.chars = k.chars
    · exact ⟨{ e with value := v }, List.mem_map.mpr ⟨e, he, by simp [hk]⟩, hx⟩
    · exact ⟨e, List.mem_map.mpr ⟨e, he, by simp [hk]⟩, hx⟩
  · exact ⟨e, List.mem_append_left _ he, hx⟩

theorem string_table_holds (s : Ctx) :
    (TableFindString (string s).interned (trimQuotes s.parser.previous.lexeme)).isSome = true := by
  cases h : TableFindString s.interned (trimQuotes s.parser.previous.lexeme) with
  | none =>
    rw [string_miss s h]
    have := TableFindString_append_new s.interned
      { addr := s.heapTop, chars := trimQuotes s.parser.previous.lexeme }
      (.INTERNAL_STR { addr := s.heapTop, chars := trimQuotes s.parser.previous.lexeme }) h
    simp only at this ⊢
    rw [this]; rfl
  | some o =>
    rw [string_hit s o h]
    simp only
    rw [h]; rfl

theorem declaration_duplicate_const_result (s : Ctx)
    (hd : s.compiler.scopeDepth = 0) (hc : s.parser.current.type = .TOKEN_CONST)
    (hf : (TableFindString s.interned s.parser.current.identifier).isSome = true)
    (hinv : s.parser.panicMode = true → s.parser.hadError = true)
    (fuel : Nat) (r : Ctx) (h : declaration fuel s = .ok r) :
    r.parser.hadError = true ∧ r.interned = s.interned ∧ r.chunk = s.chunk := by
  cases fuel with
  | zero => rw [declaration.eq_1] at h; cases h
  | succ n =>
    rw [declaration_duplicate_const_eq n s hd hc hf hinv] at h
    have hps := synchronizeLoop_parserStep _ _ _ h
    obtain ⟨h1, h2, h3, h4, h5, h6, h7⟩ := parserAdvance_parserStep s
    have hfl := errorAtCurrent_flags { parserAdvance s with heapTop := (parserAdvance s).heapTop + 1 }
      "Constant already declared." (h7 hinv)
    obtain ⟨e1, e2, e3, e4, e5, e6, e7⟩ := errorAtCurrent_parserStep
      { parserAdvance s with heapTop := (parserAdvance s).heapTop + 1 } "Constant already declared."
    obtain ⟨g1, g2, g3, g4, g5, g6, g7⟩ := hps
    simp only at g2 g3 g6
    refine ⟨g6 hfl.1, ?_, ?_⟩
    · rw [g3, e3]; exact h3
    · rw [g2, e2]; exact h2

theorem tableKeeps_refl (a : Ctx) : tableKeeps a a := fun _ h => h

theorem tableKeeps_trans {a b c : Ctx} (h1 : tableKeeps a b) (h2 : tableKeeps b c) :
    tableKeeps a c := fun x h => h2 x (h1 x h)

theorem tableKeeps_of_eq {a b : Ctx} (h : b.interned = a.interned) : tableKeeps a b := by
  intro x hx; rw [h]; exact hx

theorem tableKeeps_of_parserStep {a b : Ctx} (h : parserStep a b) : tableKeeps a b :=
  tableKeeps_of_eq h.2.2.1

theorem emitConstant_interned (s : Ctx) (v : Value) : (emitConstant s v).interned = s.interned := by
  simp [emitConstant, emitInstructions, makeConstant_eq]

theorem string_tableKeeps (s : Ctx) : tableKeeps s (string s) := by
  intro x hx
  unfold string
  simp only
  split
  · simpa [emitConstant_interned, ijoStringDelete, CStringCopy] using hx
  · simp only [emitConstant_interned, NaiveGCInsert, CStringCopy]
    exact TableInsert_keeps _ _ _ _ hx

theorem consume_tableKeeps (s : Ctx) (type : TokType) (message : String) :
    tableKeeps s (consume s type message) := by
  unfold consume
  split
  · exact tableKeeps_of_parserStep (parserAdvance_parserStep s)
  · exact tableKeeps_of_parserStep (errorAtCurrent_parserStep s message)

theorem matchTok_tableKeeps (s : Ctx) (type : TokType) : tableKeeps s (matchTok s type).2 := by
  unfold matchTok
  split
  · exact tableKeeps_refl _
  · exact tableKeeps_of_parserStep (parserAdvance_parserStep s)

theorem expression_family_tableKeeps (fuel : Nat) :
    (∀ p s r, parsePrecedence fuel p s = .ok r → tableKeeps s r) ∧
    (∀ p s r, parsePrecedenceLoop fuel p s = .ok r → tableKeeps s r) ∧
    (∀ f s r, callParseFunc fuel f s = .ok r → tableKeeps s r) ∧
    (∀ s r, expression fuel s = .ok r → tableKeeps s r) ∧
    (∀ s r, grouping fuel s = .ok r → tableKeeps s r) ∧
    (∀ s r, unary fuel s = .ok r → tableKeeps s r) ∧
    (∀ s r, binary fuel s = .ok r → tableKeeps s r) ∧
    (∀ s r, namedVariable fuel s = .ok r → tableKeeps s r) ∧
    (∀ s r, identifier fuel s = .ok r → tableKeeps s r) := by
  induction fuel with
  | zero =>
    refine ⟨?_, ?_, ?_, ?_, ?_, ?_, ?_, ?_, ?_⟩ <;> intros <;> rename_i h
    · rw [parsePrecedence.eq_1] at h; cases h
    · rw [parsePrecedenceLoop.eq_1] at h; cases h
    · rw [callParseFunc.eq_1] at h; cases h
    · rw [expression.eq_1] at h; cases h
    · rw [grouping.eq_1] at h; cases h
    · rw [unary.eq_1] at h; cases h
    · rw [binary.eq_1] at h; cases h
    · rw [namedVariable.eq_1] at h; cases h
    · rw [identifier.eq_1] at h; cases h
  | succ n ih =>
    obtain ⟨ihP, ihL, ihC, ihE, ihG, ihU, ihB, ihN, ihI⟩ := ih
    refine ⟨?_, ?_, ?_, ?_, ?_, ?_, ?_, ?_, ?_⟩
    · intro p s r h
      rw [parsePrecedence.eq_2] at h
      simp only at h
      have ha := tableKeeps_of_parserStep (parserAdvance_parserStep s)
      split at h
      · injection h with h; subst h
        exact tableKeeps_trans ha (tableKeeps_of_parserStep (errorAt_parserStep _ _ _))
      · split at h
        · injection h with h; subst h
          exact tableKeeps_trans ha (tableKeeps_of_eq rfl)
        · split at h
          · cases h
          · rename_i s2 hs2
            refine tableKeeps_trans (tableKeeps_trans ha ?_)
              (tableKeeps_trans (ihC _ _ _ hs2) (ihL _ _ _ h))
            exact tableKeeps_of_eq rfl
    · intro p s r h
      rw [parsePrecedenceLoop.eq_2] at h
      have ha := tableKeeps_of_parserStep (parserAdvance_parserStep s)
      split at h
      · simp only at h
        split at h
        · cases h
        · split at h
          · cases h
          · rename_i s2 hs2
            exact tableKeeps_trans ha (tableKeeps_trans (ihC _ _ _ hs2) (ihL _ _ _ h))
      · injection h with h; subst h; exact tableKeeps_refl _
    · intro f s r h
      cases f <;> rw [callParseFunc] at h
      · exact ihG _ _ h
      · exact ihU _ _ h
      · exact ihB _ _ h
      · injection h with h; subst h; exact tableKeeps_refl _
      · exact ihI _ _ h
      · injection h with h; subst h; exact tableKeeps_of_eq (emitConstant_interned _ _)
      · injection h with h; subst h
        refine tableKeeps_of_eq ?_
        unfold literal; split <;> rfl
      · injection h with h; subst h; exact string_tableKeeps _
    · intro s r h
      rw [expression.eq_2] at h
      exact ihP _ _ _ h
    · intro s r h
      rw [grouping.eq_2] at h
      split at h
      · cases h
      · rename_i s2 hs2
        injection h with h; subst h
        exact tableKeeps_trans (ihE _ _ hs2) (consume_tableKeeps _ _ _)
    · intro s r h
      rw [unary.eq_2] at h
      split at h
      · cases h
      · rename_i s2 hs2
        have := ihP _ _ _ hs2
        split at h <;> (injection h with h; subst h) <;> exact this
    · intro s r h
      rw [binary.eq_2] at h
      split at h
      · cases h
      · rename_i s2 hs2
        have := ihP _ _ _ hs2
        split at h <;> (injection h with h; subst h) <;> exact this
    · intro s r h
      rw [namedVariable.eq_2] at h
      simp only at h
      have hr := tableKeeps_of_parserStep (resolveLocal_parserStep s.parser.previous s)
      generalize (resolveLocal s s.parser.previous).2 = s1 at h hr
      generalize (resolveLocal s s.parser.previous).1 = arg at h
      have hm : ∀ b : Bool, tableKeeps s
          (if b = true then matchTok s1 .TOKEN_EQUAL else (false, s1)).2 := by
        intro b; cases b
        · simpa using hr
        · simpa using tableKeeps_trans hr (matchTok_tableKeeps _ _)
      have hm := hm (decide (s1.parser.precedence ≤ PREC_ASSIGNMENT))
      simp only [decide_eq_true_eq] at hm h
      generalize (if s1.parser.precedence ≤ PREC_ASSIGNMENT then matchTok s1 .TOKEN_EQUAL
        else (false, s1)) = m at h hm
      split at h
      · split at h
        · split at h
          · cases h
          · split at h
            · injection h with h; subst h
              exact tableKeeps_trans hm (tableKeeps_of_parserStep (errorAtCurrent_parserStep _ _))
            · split at h
              · cases h
              · rename_i s2 hs2
                injection h with h; subst h
                exact tableKeeps_trans hm (tableKeeps_trans (ihE _ _ hs2) (tableKeeps_of_eq rfl))
        · injection h with h; subst h
          exact tableKeeps_trans hr (tableKeeps_of_eq rfl)
      · split at h
        · injection h with h; subst h
          exact tableKeeps_trans hm (tableKeeps_of_parserStep (errorAtCurrent_parserStep _ _))
        · injection h with h; subst h
          refine tableKeeps_trans hr (tableKeeps_of_eq ?_)
          simp only [ijoStringDelete, CStringCopy]
          split <;> simp [emitConstant_interned]
    · intro s r h
      rw [identifier.eq_2] at h
      exact ihN _ _ h

theorem declareVariable_interned (s : Ctx) (isConst : Bool) :
    (declareVariable s isConst).interned = s.interned := by
  have hl := (declareVariableLoop_parserStep s.parser.previous s.compiler.localCount s).2.2.1
  unfold declareVariable
  split
  · rfl
  · simp only [addLocal]
    split <;> simpa [LogError] using hl

theorem parseVariable_tableKeeps (s : Ctx) (isConst : Bool) (message : String) :
    tableKeeps s (parseVariable s isConst message).2 := by
  have hc := consume_tableKeeps s .TOKEN_IDENTIFIER message
  have hd : tableKeeps s (declareVariable (consume s .TOKEN_IDENTIFIER message) isConst) :=
    tableKeeps_trans hc (tableKeeps_of_eq (declareVariable_interned _ _))
  unfold parseVariable
  simp only
  split
  · exact hd
  · refine tableKeeps_trans hd (tableKeeps_of_eq ?_)
    simp [identifierConstant, makeConstant_eq, CStringCopy]

theorem expressionStatement_tableKeeps (fuel : Nat) (s r : Ctx)
    (h : expressionStatement fuel s = .ok r) : tableKeeps s r := by
  unfold expressionStatement at h
  split at h
  · cases h
  · rename_i s2 hs2
    injection h with h; subst h
    exact tableKeeps_trans ((expression_family_tableKeeps fuel).2.2.2.1 _ _ hs2)
      (tableKeeps_trans (consume_tableKeeps _ _ _) (tableKeeps_of_eq rfl))

theorem printStatement_tableKeeps (fuel : Nat) (s r : Ctx)
    (h : printStatement fuel s = .ok r) : tableKeeps s r := by
  unfold printStatement at h
  simp only at h
  split at h
  · split at h
    · cases h
    · rename_i s2 hs2
      injection h with h; subst h
      exact tableKeeps_trans (matchTok_tableKeeps _ _)
        (tableKeeps_trans ((expression_family_tableKeeps fuel).2.2.2.1 _ _ hs2)
          (tableKeeps_of_eq rfl))
  · injection h with h; subst h
    refine tableKeeps_trans (matchTok_tableKeeps s .TOKEN_EOL) (tableKeeps_of_eq ?_)
    simp [emitInstruction, emitConstant_interned]

theorem constDeclaration_tableKeeps (fuel : Nat) (s r : Ctx)
    (h : constDeclaration fuel s = .ok r) : tableKeeps s r := by
  unfold constDeclaration at h
  split at h
  · simp only at h
    split at h
    · injection h with h; subst h
      refine tableKeeps_trans (tableKeeps_of_eq ?_)
        (tableKeeps_of_parserStep (errorAtCurrent_parserStep _ _))
      simp [ijoStringDelete, CStringCopy]
    · split at h
      · cases h
      · rename_i s2 hs2
        have he := (expression_family_tableKeeps fuel).2.2.2.1 _ _ hs2
        split at h
        · cases h
        · injection h with h; subst h
          intro x hx
          have h1 : (TableFindString s2.interned x).isSome = true :=
            he x (by simpa [CStringCopy] using hx)
          have h2 := consume_tableKeeps { s2 with chunk := s.chunk } .TOKEN_EOL
            "Only 1 expression accepted per line." x h1
          simp only [NaiveGCInsert, TableInsertInternal, CStringCopy] at h2 ⊢
          split <;> exact TableInsert_keeps _ _ _ _ h2
  · simp only at h
    have hp := parseVariable_tableKeeps s true "Expected variable name"
    split at h
    · exact tableKeeps_trans hp (tableKeeps_trans (matchTok_tableKeeps _ _)
        ((expression_family_tableKeeps fuel).2.2.2.1 _ _ h))
    · injection h with h; subst h
      exact tableKeeps_trans hp (tableKeeps_trans (matchTok_tableKeeps _ _)
        (tableKeeps_of_parserStep (errorAtCurrent_parserStep _ _)))

theorem varDeclaration_tableKeeps (fuel : Nat) (s r : Ctx)
    (h : varDeclaration fuel s = .ok r) : tableKeeps s r := by
  unfold varDeclaration at h
  split at h
  · injection h with h; subst h
    exact tableKeeps_of_parserStep (errorAtCurrent_parserStep _ _)
  · simp only at h
    have hp := parseVariable_tableKeeps s false "Expected variable name"
    split at h
    · cases h
    · rename_i s2 hs2
      have h2 : tableKeeps s s2 := by
        split at hs2
        · exact tableKeeps_trans hp (tableKeeps_trans (matchTok_tableKeeps _ _)
            ((expression_family_tableKeeps fuel).2.2.2.1 _ _ hs2))
        · injection hs2 with hs2; subst hs2
          exact tableKeeps_trans hp (tableKeeps_trans (matchTok_tableKeeps _ _)
            (tableKeeps_of_parserStep (errorAtCurrent_parserStep _ _)))
      refine tableKeeps_trans h2 (tableKeeps_trans
        (consume_tableKeeps s2 .TOKEN_EOL "Only one expression per line") ?_)
      unfold defineVariable at h
      split at h
      · unfold markInitialized at h
        split at h
        · cases h
        · injection h with h; subst h; exact tableKeeps_of_eq rfl
      · injection h with h; subst h; exact tableKeeps_refl _

theorem endScopeLoop_interned : ∀ (n : Nat) (s : Ctx),
    (endScopeLoop n s).interned = s.interned := by
  intro n
  induction n with
  | zero => intro s; rfl
  | succ i ih =>
    intro s
    rw [endScopeLoop]
    split
    · rfl
    · split
      · rw [ih]; rfl
      · rfl

theorem declaration_family_tableKeeps (fuel : Nat) :
    (∀ s r, declaration fuel s = .ok r → tableKeeps s r) ∧
    (∀ s r, statement fuel s = .ok r → tableKeeps s r) ∧
    (∀ s r, block fuel s = .ok r → tableKeeps s r) := by
  induction fuel with
  | zero =>
    refine ⟨?_, ?_, ?_⟩ <;> intro s r h
    · rw [declaration.eq_1] at h; cases h
    · rw [statement.eq_1] at h; cases h
    · rw [block.eq_1] at h; cases h
  | succ n ih =>
    obtain ⟨ihD, ihS, ihB⟩ := ih
    refine ⟨?_, ?_, ?_⟩
    · intro s r h
      rw [declaration.eq_2] at h
      simp only at h
      split at h
      · cases h
      · rename_i s2 hs2
        have h2 : tableKeeps s s2 := by
          split at hs2
          · exact tableKeeps_trans (matchTok_tableKeeps _ _)
              (constDeclaration_tableKeeps _ _ _ hs2)
          · split at hs2
            · exact tableKeeps_trans (matchTok_tableKeeps _ _)
                (tableKeeps_trans (matchTok_tableKeeps _ _)
                  (varDeclaration_tableKeeps _ _ _ hs2))
            · split at hs2
              · injection hs2 with hs2; subst hs2
                exact tableKeeps_trans (matchTok_tableKeeps _ _)
                  (tableKeeps_trans (matchTok_tableKeeps _ _) (matchTok_tableKeeps _ _))
              · exact tableKeeps_trans (matchTok_tableKeeps _ _)
                  (tableKeeps_trans (matchTok_tableKeeps _ _)
                    (tableKeeps_trans (matchTok_tableKeeps _ _) (ihS _ _ hs2)))
        split at h
        · unfold synchronize at h
          have hs := synchronizeLoop_parserStep _ _ _ h
          exact tableKeeps_trans h2 (tableKeeps_of_eq hs.2.2.1)
        · injection h with h; subst h; exact h2
    · intro s r h
      rw [statement.eq_2] at h
      simp only at h
      have hm : tableKeeps s (if (matchTok s .TOKEN_PRINT).1 = true then matchTok s .TOKEN_PRINT
          else matchTok (matchTok s .TOKEN_PRINT).2 .TOKEN_PRINTLN).2 := by
        split
        · exact matchTok_tableKeeps _ _
        · exact tableKeeps_trans (matchTok_tableKeeps _ _) (matchTok_tableKeeps _ _)
      generalize (if (matchTok s .TOKEN_PRINT).1 = true then matchTok s .TOKEN_PRINT
          else matchTok (matchTok s .TOKEN_PRINT).2 .TOKEN_PRINTLN) = m at h hm
      split at h
      · exact tableKeeps_trans hm (printStatement_tableKeeps _ _ _ h)
      · split at h
        · split at h
          · cases h
          · rename_i s2 hs2
            injection h with h; subst h
            have hb : tableKeeps (matchTok m.2 .TOKEN_LEFT_BRACE).2 s2 :=
              ihB (beginScope (matchTok m.2 .TOKEN_LEFT_BRACE).2) s2 hs2
            refine tableKeeps_trans hm (tableKeeps_trans (matchTok_tableKeeps _ _)
              (tableKeeps_trans hb (tableKeeps_of_eq ?_)))
            unfold endScope
            rw [endScopeLoop_interned]
        · exact tableKeeps_trans hm (tableKeeps_trans (matchTok_tableKeeps _ _)
            (expressionStatement_tableKeeps _ _ _ h))
    · intro s r h
      rw [block.eq_2] at h
      split at h
      · split at h
        · cases h
        · rename_i s2 hs2
          exact tableKeeps_trans (ihD _ _ hs2) (ihB _ _ h)
      · injection h with h; subst h
        exact consume_tableKeeps _ _ _

theorem compileLoop_tableKeeps (fuel : Nat) : ∀ s r : Ctx, compileLoop fuel s = .ok r →
    tableKeeps s r := by
  induction fuel with
  | zero => intro s r h; rw [compileLoop] at h; cases h
  | succ n ih =>
    intro s r h
    rw [compileLoop] at h
    split at h
    · split at h
      · cases h
      · rename_i s2 hs2
        exact tableKeeps_trans (matchTok_tableKeeps _ _)
          (tableKeeps_trans ((declaration_family_tableKeeps n).1 _ _ hs2) (ih _ _ h))
    · injection h with h; subst h
      exact matchTok_tableKeeps _ _

set_option maxHeartbeats 4000000 in
/-- C27, amended: after a string literal is compiled the shared table has a
key for its content, and when the table had none before, the entry maps it to
the interned string; a top-level `const` declaration whose name the table has
a key for is rejected (error flag set, table and chunk unchanged) whenever it
returns; an identifier expression that is not a local and not followed by `=`
loads the value of the table entry found for its name.  So for content the
table did not hold before, literal then identifier loads the interned string
twice and the run returns `true`, and literal then `const` returns `false`
with only the literal added to the table.  A key is never removed by a
declaration or a run of `Compile`. -/
theorem literal_then_name_shares_table :
    (∀ s : Ctx,
      (TableFindString (string s).interned (trimQuotes s.parser.previous.lexeme)).isSome = true ∧
      (TableFindString s.interned (trimQuotes s.parser.previous.lexeme) = none →
        ∀ addr, TableFindInternalEntry (string s).interned
            { addr := addr, chars := trimQuotes s.parser.previous.lexeme } =
          some { key := { addr := s.heapTop, chars := trimQuotes s.parser.previous.lexeme },
                 value := .INTERNAL_STR
                   { addr := s.heapTop, chars := trimQuotes s.parser.previous.lexeme } })) ∧
    (∀ (s : Ctx), s.compiler.scopeDepth = 0 → s.parser.current.type = .TOKEN_CONST →
      (TableFindString s.interned s.parser.current.identifier).isSome = true →
      (s.parser.panicMode = true → s.parser.hadError = true) →
      ∀ fuel r, declaration fuel s = .ok r →
        r.parser.hadError = true ∧ r.interned = s.interned ∧ r.chunk = s.chunk) ∧
    (∀ (fuel : Nat) (s : Ctx) (e : Entry),
      (∀ l ∈ s.compiler.locals, l.name.lexeme ≠ s.parser.previous.lexeme) →
      s.parser.current.type ≠ .TOKEN_EQUAL →
      TableFindInternalEntry s.interned
        { addr := s.heapTop, chars := s.parser.previous.lexeme } = some e →
      ∃ r, namedVariable (fuel + 1) s = .ok r ∧
        r.chunk.code = s.chunk.code ++ loadWords s.chunk.constants.length ∧
        r.chunk.constants = s.chunk.constants ++ [e.value] ∧
        r.parser = s.parser ∧ r.console = s.console) ∧
    (∀ (fuel : Nat) (content v : String) (env : Ctx),
      TableFindString env.interned content = none →
      (returned (Compile (fuel + 9) (literalThenRead content) env) = some true ∧
        (finalState (Compile (fuel + 9) (literalThenRead content) env)).map
            (fun s => (s.chunk.code, s.chunk.constants)) =
          some (env.chunk.code ++ loadWords env.chunk.constants.length ++ [.op .OP_POP] ++
              loadWords (env.chunk.constants.length + 1) ++ [.op .OP_POP, .op .OP_RETURN],
            env.chunk.constants ++
              [.INTERNAL_STR { addr := env.heapTop, chars := content },
               .INTERNAL_STR { addr := env.heapTop, chars := content }])) ∧
      (returned (Compile (fuel + 9) (literalThenConst content v) env) = some false ∧
        (finalState (Compile (fuel + 9) (literalThenConst content v) env)).map
            (fun s => s.interned.entries) =
          some (env.interned.entries ++
            [{ key := { addr := env.heapTop, chars := content },
               value := .INTERNAL_STR { addr := env.heapTop, chars := content } }]))) ∧
    ((∀ (fuel : Nat) (s r : Ctx), declaration fuel s = .ok r → tableKeeps s r) ∧
      (∀ (fuel : Nat) (source : List Token) (env : Ctx) (ok : Bool) (r : Ctx),
        Compile fuel source env = .ok (ok, r) → tableKeeps env r)) := by
  refine ⟨?_, ?_, ?_, ?_, fun fuel => (declaration_family_tableKeeps fuel).1, ?_⟩
  · intro s
    refine ⟨string_table_holds s, fun h addr => ?_⟩
    have hnone : s.interned.entries.find? (fun e => e.key.chars ==
        trimQuotes s.parser.previous.lexeme) = none := by
      simpa [TableFindString] using h
    rw [string_miss s h]
    simp [TableFindInternalEntry, List.find?_append, hnone]
  · intro s hd hc hf hinv fuel r h
    exact declaration_duplicate_const_result s hd hc hf hinv fuel r h
  · intro fuel s e hnl hne hfind
    have hres := resolveLocal_not_found s.parser.previous s hnl
    refine ⟨emitConstant { s with heapTop := s.heapTop + 1 } e.value, ?_, ?_, ?_, ?_, ?_⟩
    · rw [namedVariable.eq_2]
      simp [hres, matchTok, check, hne, CStringCopy, hfind, ijoStringDelete]
    · simp [emitConstant, emitInstructions, makeConstant_eq, ChunkWriteCode, loadWords]
    · simp [emitConstant, emitInstructions, makeConstant_eq, ChunkWriteCode]
    · simp [emitConstant, emitInstructions, makeConstant_eq]
    · simp [emitConstant, emitInstructions, makeConstant_eq]
  · intro fuel content v env hfind
    have hnone : env.interned.entries.find? (fun e => e.key.chars == content) = none := by
      simpa [TableFindString] using hfind
    have hany := TableFindString_none_any env.interned content hfind
    have hq := trimQuotes_quoted content
    refine ⟨⟨?_, ?_⟩, ⟨?_, ?_⟩⟩ <;>
    simp [literalThenRead, literalThenConst, stringToken, hq, hfind, hnone, hany,
      List.find?_append,
      Compile, CompilerInit, ParserInit, mkToken, constToken, compileLoop_step, declaration_step,
      statement_step, expression_step, parsePrecedence_step, parsePrecedenceLoop_step,
      callParseFunc_step, identifier_step, namedVariable_step, expressionStatement,
      synchronizeLoop_step, synchronize, syncSwitch,
      parserAdvance, scanLoop, ScannerScan, matchTok, check, consume, errorAt, errorAtCurrent,
      LogError, ConsoleWrite,
      emitInstruction, emitInstructions, emitConstant, makeConstant_eq, ChunkWriteCode,
      endCompiler, emitReturn, ChunkNew, resolveLocal, resolveLocalLoop, Compiler.localCount,
      number, string, getRule, HAS_ENUM, TOKEN_ALL, PREC_NONE, PREC_ASSIGNMENT,
      constDeclaration, CStringCopy, ijoStringDelete, TableFindString, TableInsertInternal,
      TableInsert, TableFindInternalEntry, IS_OBJ, NaiveGCInsert, eofToken, returned, finalState,
      loadWords]
  · intro fuel source env ok r h
    unfold Compile at h
    simp only at h
    split at h
    · cases h
    · rename_i s2 hs2
      injection h with h
      injection h with h1 h2
      subst h2
      have h0 := tableKeeps_of_parserStep (parserAdvance_parserStep
        { env with compiler := CompilerInit env.compiler,
                   parser := ParserInit env.parser source })
      have h1 := compileLoop_tableKeeps _ _ _ hs2
      have h2 := consume_tableKeeps s2 .TOKEN_EOF "Expected end of expression"
      intro x hx
      exact h2 x (h1 x (h0 x hx))

/-- The literal `"abc"` compiled on an empty table: the lookup of `abc` yields
the interned string. -/
theorem literal_then_name_shares_table_witness :
    TableFindString stringState.interned (trimQuotes stringState.parser.previous.lexeme) = none ∧
    TableFindInternalEntry (string stringState).interned { addr := 7, chars := "abc" } =
      some { key := { addr := 0, chars := "abc" },
             value := .INTERNAL_STR { addr := 0, chars := "abc" } } :=
  ⟨by decide, (literal_then_name_shares_table.1 stringState).2 (by decide) 7⟩

theorem depths_erase (fuel : Nat) :
    (∀ s, (declarationDepths fuel s).2 = declaration fuel s) ∧
    (∀ s, (statementDepths fuel s).2 = statement fuel s) ∧
    (∀ s, (blockDepths fuel s).2 = block fuel s) := by
  induction fuel with
  | zero => exact ⟨fun _ => rfl, fun _ => rfl, fun _ => rfl⟩
  | succ n ih =>
    obtain ⟨ihD, ihS, ihB⟩ := ih
    refine ⟨?_, ?_, ?_⟩
    · intro s
      rw [declarationDepths, declaration]
      simp only []
      by_cases h1 : (matchTok s .TOKEN_CONST).1 = true
      · simp only [h1, if_true]
        cases constDeclaration n (matchTok s .TOKEN_CONST).2 <;> rfl
      · simp only [h1, if_false, Bool.false_eq_true]
        by_cases h2 : (matchTok (matchTok s .TOKEN_CONST).2 .TOKEN_VAR).1 = true
        · simp only [h2, if_true]
          cases varDeclaration n (matchTok (matchTok s .TOKEN_CONST).2 .TOKEN_VAR).2 <;> rfl
        · simp only [h2, if_false, Bool.false_eq_true]
          by_cases h3 : (matchTok (matchTok (matchTok s .TOKEN_CONST).2 .TOKEN_VAR).2
              .TOKEN_EOL).1 = true
          · simp only [h3, if_true]
          · simp only [h3, if_false, Bool.false_eq_true]
            rw [← ihS]
            cases (statementDepths n _).2 <;> rfl
    · intro s
      rw [statementDepths, statement]
      simp only []
      generalize (if (matchTok s .TOKEN_PRINT).1 = true then matchTok s .TOKEN_PRINT
        else matchTok (matchTok s .TOKEN_PRINT).2 .TOKEN_PRINTLN) = m
      by_cases h1 : m.1 = true
      · simp only [h1, if_true]
      · simp only [h1, if_false, Bool.false_eq_true]
        by_cases h2 : (matchTok m.2 .TOKEN_LEFT_BRACE).1 = true
        · simp only [h2, if_true]
          rw [← ihB]
          cases (blockDepths n _).2 <;> rfl
        · simp only [h2, if_false, Bool.false_eq_true]
    · intro s
      rw [blockDepths, block]
      split
      · rw [← ihD]
        simp only []
        cases hd : (declarationDepths n s).2 with
        | fault e => rfl
        | ok s1 => exact ihB s1
      · rfl

theorem depths_bound (fuel : Nat) :
    (∀ s, (declarationDepths fuel s).1.head? = some s.compiler.scopeDepth ∧
      ∀ d ∈ (declarationDepths fuel s).1, s.compiler.scopeDepth ≤ d) ∧
    (∀ s, ∀ d ∈ (statementDepths fuel s).1, s.compiler.scopeDepth ≤ d) ∧
    (∀ s, ∀ d ∈ (blockDepths fuel s).1, s.compiler.scopeDepth ≤ d) := by
  induction fuel with
  | zero =>
    refine ⟨fun s => ⟨rfl, ?_⟩, fun s d hd => ?_, fun s d hd => ?_⟩
    · intro d hd
      simp only [declarationDepths, List.mem_singleton] at hd
      omega
    · simp [statementDepths] at hd
    · simp [blockDepths] at hd
  | succ n ih =>
    obtain ⟨ihD, ihS, ihB⟩ := ih
    refine ⟨?_, ?_, ?_⟩
    · intro s
      have key : ∃ l, (declarationDepths (n + 1) s).1 = s.compiler.scopeDepth :: l ∧
          ∀ d ∈ l, s.compiler.scopeDepth ≤ d := by
        rw [declarationDepths]
        simp only []
        by_cases h1 : (matchTok s .TOKEN_CONST).1 = true
        · simp only [h1, if_true]
          refine ⟨[], ?_, by simp⟩
          cases constDeclaration n (matchTok s .TOKEN_CONST).2 <;> rfl
        · simp only [h1, if_false, Bool.false_eq_true]
          by_cases h2 : (matchTok (matchTok s .TOKEN_CONST).2 .TOKEN_VAR).1 = true
          · simp only [h2, if_true]
            refine ⟨[], ?_, by simp⟩
            cases varDeclaration n (matchTok (matchTok s .TOKEN_CONST).2 .TOKEN_VAR).2 <;> rfl
          · simp only [h2, if_false, Bool.false_eq_true]
            by_cases h3 : (matchTok (matchTok (matchTok s .TOKEN_CONST).2 .TOKEN_VAR).2
                .TOKEN_EOL).1 = true
            · simp only [h3, if_true]
              exact ⟨[], rfl, by simp⟩
            · simp only [h3, if_false, Bool.false_eq_true]
              refine ⟨(statementDepths n (matchTok (matchTok (matchTok s .TOKEN_CONST).2
                .TOKEN_VAR).2 .TOKEN_EOL).2).1, ?_, ?_⟩
              · cases (statementDepths n _).2 <;> rfl
              · intro d hd
                have := ihS _ d hd
                rw [matchTok_compiler, matchTok_compiler, matchTok_compiler] at this
                exact this
      obtain ⟨l, hl, hb⟩ := key
      rw [hl]
      refine ⟨rfl, fun d hd => ?_⟩
      rcases List.mem_cons.mp hd with rfl | hd
      · exact le_refl _
      · exact hb d hd
    · intro s d hd
      rw [statementDepths] at hd
      simp only [] at hd
      generalize hm : (if (matchTok s .TOKEN_PRINT).1 = true then matchTok s .TOKEN_PRINT
        else matchTok (matchTok s .TOKEN_PRINT).2 .TOKEN_PRINTLN) = m at hd
      have hmc : m.2.compiler = s.compiler := by
        rw [← hm]
        split
        · exact matchTok_compiler _ _
        · rw [matchTok_compiler, matchTok_compiler]
      by_cases h1 : m.1 = true
      · simp [h1] at hd
      · simp only [h1, if_false, Bool.false_eq_true] at hd
        by_cases h2 : (matchTok m.2 .TOKEN_LEFT_BRACE).1 = true
        · simp only [h2, if_true] at hd
          have hbeg : (beginScope (matchTok m.2 .TOKEN_LEFT_BRACE).2).compiler.scopeDepth =
              s.compiler.scopeDepth + 1 := by
            show (matchTok m.2 .TOKEN_LEFT_BRACE).2.compiler.scopeDepth + 1 = _
            rw [matchTok_compiler, hmc]
          have hin : ∀ d ∈ (blockDepths n (beginScope (matchTok m.2 .TOKEN_LEFT_BRACE).2)).1,
              s.compiler.scopeDepth ≤ d := by
            intro d hd
            have := ihB _ d hd
            omega
          cases hb : (blockDepths n (beginScope (matchTok m.2 .TOKEN_LEFT_BRACE).2)).2 with
          | fault e =>
            rw [hb] at hd
            simp only [List.mem_cons] at hd
            rcases hd with rfl | hd
            · omega
            · exact hin d hd
          | ok s1 =>
            rw [hb] at hd
            simp only [List.mem_cons, List.mem_append, List.mem_singleton, List.not_mem_nil,
              or_false] at hd
            have hblk : block n (beginScope (matchTok m.2 .TOKEN_LEFT_BRACE).2) = .ok s1 := by
              rw [← (depths_erase n).2.2]; exact hb
            have hs1 := (declaration_family_scopeDepth n).2.2 _ _ hblk
            rcases hd with (hd | hd) | hd
            · omega
            · exact hin d hd
            · rw [hd, endScope_scopeDepth, hs1, hbeg]
              omega
        · simp [h2] at hd
    · intro s d hd
      rw [blockDepths] at hd
      split at hd
      · simp only [] at hd
        cases hdd : (declarationDepths n s).2 with
        | fault e =>
          rw [hdd] at hd
          exact (ihD s).2 d hd
        | ok s1 =>
          rw [hdd] at hd
          simp only [List.mem_append] at hd
          have hdecl : declaration n s = .ok s1 := by
            rw [← (depths_erase n).1]; exact hdd
          have hs1 := (declaration_family_scopeDepth n).1 _ _ hdecl
          rcases hd with hd | hd
          · exact (ihD s).2 d hd
          · have := ihB s1 d hd
            omega
      · simp at hd

theorem compileLoopDepths_erase (fuel : Nat) : ∀ s,
    (compileLoopDepths fuel s).2 = compileLoop fuel s := by
  induction fuel with
  | zero => intro s; rfl
  | succ n ih =>
    intro s
    rw [compileLoopDepths, compileLoop]
    simp only []
    split
    · rw [← (depths_erase n).1]
      cases hd : (declarationDepths n (matchTok s .TOKEN_EOF).2).2 with
      | fault e => rfl
      | ok s1 => exact ih s1
    · rfl

theorem compileLoopDepths_bound (fuel : Nat) : ∀ s, ∀ l ∈ (compileLoopDepths fuel s).1,
    l.head? = some s.compiler.scopeDepth ∧ ∀ d ∈ l, s.compiler.scopeDepth ≤ d := by
  induction fuel with
  | zero => intro s l hl; simp [compileLoopDepths] at hl
  | succ n ih =>
    intro s l hl
    rw [compileLoopDepths] at hl
    simp only [] at hl
    split at hl
    · have hb := (depths_bound n).1 (matchTok s .TOKEN_EOF).2
      rw [matchTok_compiler] at hb
      cases hd : (declarationDepths n (matchTok s .TOKEN_EOF).2).2 with
      | fault e =>
        rw [hd] at hl
        simp only [List.mem_singleton] at hl
        rw [hl]; exact hb
      | ok s1 =>
        rw [hd] at hl
        simp only [List.mem_cons] at hl
        rcases hl with rfl | hl
        · exact hb
        · have hdecl : declaration n (matchTok s .TOKEN_EOF).2 = .ok s1 := by
            rw [← (depths_erase n).1]; exact hd
          have hs1 := (declaration_family_scopeDepth n).1 _ _ hdecl
          rw [matchTok_compiler] at hs1
          have := ih s1 l hl
          rw [hs1] at this
          exact this
    · simp at hl

/-- C14: every call of `declaration` that returns leaves `scopeDepth` as it
found it, whatever errors were reported inside and whether or not a closing
brace was found; the same holds for `statement`, for the body of a block and
for the top-level loop, and `Compile` ends with `scopeDepth` 0.  `beginScope`
adds one and `endScope` takes one away, and a block statement is `beginScope`
on the state after the brace, then the body, then `endScope`: the body is
entered one level deeper than the statement.  `scopeDepth` is written by
`CompilerInit`, `beginScope` and `endScope` only; the routines with the
suffix `Depths` are `declaration`, `statement`, `block`, the top-level loop
and `Compile` themselves (the second component is the result of the routine,
on every state and for every fuel) and record the depth at the entry of every
declaration, after every `beginScope` and after every `endScope`.  Every depth
recorded in a call is at least the depth at its entry; in `Compile` every
top-level declaration starts at depth 0 and no recorded depth is negative. -/
theorem scope_depth_balanced :
    (∀ (fuel : Nat) (s r : Ctx), declaration fuel s = .ok r →
      r.compiler.scopeDepth = s.compiler.scopeDepth) ∧
    (∀ (fuel : Nat) (s r : Ctx), statement fuel s = .ok r →
      r.compiler.scopeDepth = s.compiler.scopeDepth) ∧
    (∀ (fuel : Nat) (s r : Ctx), block fuel s = .ok r →
      r.compiler.scopeDepth = s.compiler.scopeDepth) ∧
    (∀ (fuel : Nat) (s r : Ctx), compileLoop fuel s = .ok r →
      r.compiler.scopeDepth = s.compiler.scopeDepth) ∧
    (∀ (fuel : Nat) (source : List Token) (env : Ctx) (ok : Bool) (r : Ctx),
      Compile fuel source env = .ok (ok, r) → r.compiler.scopeDepth = 0) ∧
    (∀ s : Ctx, (beginScope s).compiler.scopeDepth = s.compiler.scopeDepth + 1) ∧
    (∀ s : Ctx, (endScope s).compiler.scopeDepth = s.compiler.scopeDepth - 1) ∧
    (∀ (fuel : Nat) (s : Ctx), s.parser.current.type = .TOKEN_LEFT_BRACE →
      statement (fuel + 1) s =
        (match block fuel (beginScope (parserAdvance s)) with
         | .fault e => .fault e
         | .ok r => .ok (endScope r)) ∧
      (statementDepths (fuel + 1) s).1.head? = some (s.compiler.scopeDepth + 1)) ∧
    (∀ (fuel : Nat) (s : Ctx),
      (declarationDepths fuel s).2 = declaration fuel s ∧
      (statementDepths fuel s).2 = statement fuel s ∧
      (blockDepths fuel s).2 = block fuel s ∧
      (compileLoopDepths fuel s).2 = compileLoop fuel s) ∧
    (∀ (fuel : Nat) (source : List Token) (env : Ctx),
      (CompileDepths fuel source env).2 = Compile fuel source env) ∧
    (∀ (fuel : Nat) (s : Ctx),
      (∀ d ∈ (declarationDepths fuel s).1, s.compiler.scopeDepth ≤ d) ∧
      (∀ d ∈ (statementDepths fuel s).1, s.compiler.scopeDepth ≤ d) ∧
      (∀ d ∈ (blockDepths fuel s).1, s.compiler.scopeDepth ≤ d)) ∧
    (∀ (fuel : Nat) (source : List Token) (env : Ctx),
      ∀ l ∈ (CompileDepths fuel source env).1, l.head? = some 0 ∧ ∀ d ∈ l, 0 ≤ d) := by
  refine ⟨fun fuel => (declaration_family_scopeDepth fuel).1,
    fun fuel => (declaration_family_scopeDepth fuel).2.1,
    fun fuel => (declaration_family_scopeDepth fuel).2.2,
    compileLoop_scopeDepth, ?_, fun _ => rfl, endScope_scopeDepth, ?_, ?_, ?_, ?_, ?_⟩
  · intro fuel source env ok r h
    unfold Compile at h
    simp only at h
    split at h
    · cases h
    · rename_i s2 hs2
      injection h with h
      injection h with h1 h2
      subst h2
      simp only [endCompiler, emitReturn]
      rw [consume_compiler, compileLoop_scopeDepth _ _ _ hs2, (parserAdvance_parserStep _).1]
      rfl
  · intro fuel s h
    constructor
    · cases hb : block fuel (beginScope (parserAdvance s)) <;>
      · rw [statement]
        simp [matchTok, check, h, hb]
    · rw [statementDepths]
      simp [matchTok, check, h]
      split <;> simp [beginScope, (parserAdvance_parserStep s).1]
  · intro fuel s
    exact ⟨(depths_erase fuel).1 s, (depths_erase fuel).2.1 s, (depths_erase fuel).2.2 s,
      compileLoopDepths_erase fuel s⟩
  · intro fuel source env
    unfold CompileDepths Compile
    simp only [compileLoopDepths_erase]
    cases compileLoop fuel _ <;> rfl
  · intro fuel s
    exact ⟨((depths_bound fuel).1 s).2, (depths_bound fuel).2.1 s, (depths_bound fuel).2.2 s⟩
  · intro fuel source env l hl
    have hb := compileLoopDepths_bound fuel (parserAdvance
      { env with compiler := CompilerInit env.compiler,
                 parser := ParserInit env.parser source })
    have h0 : (parserAdvance
      { env with compiler := CompilerInit env.compiler,
                 parser := ParserInit env.parser source }).compiler.scopeDepth = 0 := by
      rw [(parserAdvance_parserStep _).1]; rfl
    rw [h0] at hb
    unfold CompileDepths at hl
    simp only [] at hl
    have hl2 : l = [0] ∨ l ∈ (compileLoopDepths fuel (parserAdvance
      { env with compiler := CompilerInit env.compiler,
                 parser := ParserInit env.parser source })).1 := by
      split at hl <;>
      · simp only [List.mem_cons, h0] at hl
        exact hl
    rcases hl2 with rfl | hl2
    · exact ⟨rfl, by simp⟩
    · exact hb l hl2

set_option maxHeartbeats 4000000 in
set_option maxRecDepth 100000 in
/-- An unclosed block with a malformed declaration inside: the declaration
returns with an error recorded and the depth it started with; and the depths
recorded for two nested blocks: 0 before the first declaration, then 0, 1 at
the outer brace, 2 at the inner brace, back to 1 and to 0. -/
theorem scope_depth_balanced_witness :
    (declaration 12 openBlockState = .ok ((declaration 12 openBlockState).getD emptyCtx) ∧
    ((declaration 12 openBlockState).getD emptyCtx).parser.hadError = true ∧
    ((declaration 12 openBlockState).getD emptyCtx).compiler.scopeDepth =
      openBlockState.compiler.scopeDepth) ∧
    (CompileDepths 20 (nestedBlocks "x" "1" "2") emptyCtx).1 =
      [[0], [0, 1, 1, 1, 2, 2, 1, 1, 0], [0]] :=
  ⟨⟨by decide, by decide, scope_depth_balanced.1 12 openBlockState _ (by decide)⟩, by decide⟩

theorem hasKey_find (t : Table) (x : String) (addr : Nat) :
    (TableFindInternalEntry t { addr := addr, chars := x }).isSome = hasKey t x := by
  simp [TableFindInternalEntry, hasKey, TableFindString]

theorem string_hasKey (s : Ctx) (x : String) :
    hasKey (string s).interned x =
      (hasKey s.interned x || x == trimQuotes s.parser.previous.lexeme) := by
  cases h : TableFindString s.interned (trimQuotes s.parser.previous.lexeme) with
  | none =>
    rw [string_miss s h]
    have hnone : s.interned.entries.find? (fun e => e.key.chars ==
        trimQuotes s.parser.previous.lexeme) = none := by
      simpa [TableFindString] using h
    by_cases hx : x = trimQuotes s.parser.previous.lexeme
    · subst hx
      simp [hasKey, TableFindString, List.find?_append, hnone]
    · have hx' : (trimQuotes s.parser.previous.lexeme == x) = false := by
        simpa using fun h => hx h.symm
      have hx2 : (x == trimQuotes s.parser.previous.lexeme) = false := by simpa using hx
      simp [hasKey, TableFindString, List.find?_append, hx', hx2]
  | some o =>
    rw [string_hit s o h]
    by_cases hx : x = trimQuotes s.parser.previous.lexeme
    · subst hx
      simp [hasKey, h]
    · have hx2 : (x == trimQuotes s.parser.previous.lexeme) = false := by simpa using hx
      simp [hasKey, hx2]

theorem shiftOperand_load (ca cb j : Nat) :
    (loadWords (ca + j)).map (shiftOperand ca cb) = loadWords (cb + j) := by
  simp only [loadWords, List.map_cons, List.map_nil, shiftOperand]
  congr 2
  congr 1
  omega

theorem errorsRecorded_log (c : List Output) (fmt : String) (args : List Arg)
    (h : fmt ≠ "line %d") : errorsRecorded (c ++ [Output.LogError fmt args]) = errorsRecorded c := by
  simp [errorsRecorded, List.filter_append, h]

theorem errorsRecorded_write (c : List Output) (fmt : String) (args : List Arg) :
    errorsRecorded (c ++ [Output.ConsoleWrite fmt args]) = errorsRecorded c := by
  simp [errorsRecorded, List.filter_append]

theorem alongside_errorAt {A0 B0 : List Word} {ca cb e0 : Nat} {h0 : Bool} {a b : Ctx}
    (h : alongside A0 B0 ca cb e0 h0 a b) (ta tb : Token) (ma mb : String) :
    alongside A0 B0 ca cb e0 h0 (errorAt a ta ma) (errorAt b tb mb) := by
  cases hp : a.parser.panicMode with
  | true =>
    have hpb : b.parser.panicMode = true := by rw [h.2.2.2.1, hp]
    have ea : errorAt a ta ma = a := by simp [errorAt, hp]
    have eb : errorAt b tb mb = b := by simp [errorAt, hpb]
    rw [ea, eb]; exact h
  | false =>
    have hpb : b.parser.panicMode = false := by rw [h.2.2.2.1, hp]
    obtain ⟨a1, a2, a3⟩ := errorAt_tokens a ta ma
    obtain ⟨b1, b2, b3⟩ := errorAt_tokens b tb mb
    obtain ⟨pa1, pa2, pa3, _, _, _, _⟩ := errorAt_parserStep a ta ma
    obtain ⟨pb1, pb2, pb3, _, _, _, _⟩ := errorAt_parserStep b tb mb
    have fa := errorAt_flags a ta ma (by rw [hp]; intro hc; cases hc)
    have fb := errorAt_flags b tb mb (by rw [hpb]; intro hc; cases hc)
    obtain ⟨h1, h2, h3, h4, h5, h6, h7, h8, h9, h10, h11, h12⟩ := h
    refine ⟨?_, ?_, ?_, ?_, by rw [fb.1, fa.1]; rfl, ?_, ?_, ?_, ?_, ?_, ?_, ?_⟩
    · rw [a2, b2]; exact h1
    · rw [a1, b1]; exact h2
    · rw [a3, b3]; exact h3
    · rw [fa.2, fb.2]
    · rw [pa1, pb1]; exact h6
    · rw [pa1]; exact h7
    · rw [pa2, pb2]; exact h8
    · rw [pa2, pb2]; exact h9
    · intro hc; rw [fa.1] at hc; cases hc
    · rw [a1, a2, a3, pa3, pb3]; exact h11
    · rw [a2, a3]; exact h12

theorem alongside_log {A0 B0 : List Word} {ca cb e0 : Nat} {h0 : Bool} {a b : Ctx}
    (h : alongside A0 B0 ca cb e0 h0 a b) (fa fb : String) (xa xb : List Arg)
    (hf : fb ≠ "line %d") :
    alongside A0 B0 ca cb e0 h0 (LogError a fa xa) (LogError b fb xb) := by
  obtain ⟨h1, h2, h3, h4, h5, h6, h7, h8, h9, h10, h11, h12⟩ := h
  refine ⟨h1, h2, h3, h4, h5, h6, h7, h8, h9, ?_, h11, h12⟩
  intro he
  simp only [LogError]
  rw [errorsRecorded_log _ _ _ hf]
  exact h10 he

theorem alongside_errorAtCurrent {A0 B0 : List Word} {ca cb e0 : Nat} {h0 : Bool} {a b : Ctx}
    (h : alongside A0 B0 ca cb e0 h0 a b) (ma mb : String) :
    alongside A0 B0 ca cb e0 h0 (errorAtCurrent a ma) (errorAtCurrent b mb) := by
  unfold errorAtCurrent
  exact alongside_errorAt (alongside_log h _ _ _ _ (by decide)) _ _ _ _

theorem alongside_scanLoop {A0 B0 : List Word} {ca cb e0 : Nat} {h0 : Bool} : ∀ (l : List Token) (a b : Ctx),
    alongside A0 B0 ca cb e0 h0 a b → (∀ t ∈ l, t ∈ a.parser.current :: a.parser.scanner) →
    alongside A0 B0 ca cb e0 h0 (scanLoop a l) (scanLoop b l) := by
  intro l
  induction l with
  | nil =>
    intro a b h _
    obtain ⟨h1, h2, h3, h4, h5, h6, h7, h8, h9, h10, h11, h12⟩ := h
    refine ⟨rfl, h2, rfl, h4, h5, h6, h7, h8, h9, h10, ?_, ?_⟩
    · intro t ht hti
      simp only [scanLoop, ScannerScan, List.mem_cons, List.mem_nil_iff, or_false] at ht
      rcases ht with ht | ht
      · exact h11 t (by rw [ht]; exact List.mem_cons_self _ _) hti
      · rw [ht] at hti; cases hti
    · intro t ht
      simp only [scanLoop, ScannerScan, List.mem_cons, List.mem_nil_iff, or_false] at ht
      rw [ht]
      exact ⟨by decide, by decide, by decide⟩
  | cons t rest ih =>
    intro a b h hl
    have hstep : alongside A0 B0 ca cb e0 h0
        { a with parser := { a.parser with current := t, scanner := rest } }
        { b with parser := { b.parser with current := t, scanner := rest } } := by
      obtain ⟨h1, h2, h3, h4, h5, h6, h7, h8, h9, h10, h11, h12⟩ := h
      refine ⟨rfl, h2, rfl, h4, h5, h6, h7, h8, h9, h10, ?_, ?_⟩
      · intro u hu hui
        simp only [List.mem_cons] at hu
        rcases hu with hu | hu | hu
        · exact h11 u (by rw [hu]; exact List.mem_cons_self _ _) hui
        · exact h11 u (List.mem_cons_of_mem _ (hl u (by rw [hu]; exact List.mem_cons_self _ _))) hui
        · exact h11 u (List.mem_cons_of_mem _ (hl u (List.mem_cons_of_mem _ hu))) hui
      · intro u hu
        exact h12 u (hl u hu)
    rw [scanLoop, scanLoop]
    simp only [ScannerScan]
    by_cases ht : t.type = .TOKEN_ERROR
    · simp only [ht, ne_eq, not_true_eq_false, if_false]
      refine ih _ _ (alongside_errorAtCurrent hstep _ _) ?_
      intro u hu
      rw [(errorAtCurrent_tokens _ _).2.1, (errorAtCurrent_tokens _ _).2.2]
      exact List.mem_cons_of_mem _ hu
    · simp only [ne_eq, ht, not_false_eq_true, if_true]
      exact hstep

theorem alongside_parserAdvance {A0 B0 : List Word} {ca cb e0 : Nat} {h0 : Bool} {a b : Ctx}
    (h : alongside A0 B0 ca cb e0 h0 a b) :
    alongside A0 B0 ca cb e0 h0 (parserAdvance a) (parserAdvance b) := by
  unfold parserAdvance
  simp only []
  rw [h.2.2.1]
  refine alongside_scanLoop _ _ _ ?_ (fun t ht => List.mem_cons_of_mem _ ht)
  obtain ⟨h1, h2, h3, h4, h5, h6, h7, h8, h9, h10, h11, h12⟩ := h
  refine ⟨h1, h1, rfl, h4, h5, h6, h7, h8, h9, h10, ?_, h12⟩
  intro u hu hui
  simp only [List.mem_cons] at hu
  rcases hu with hu | hu | hu
  · exact h11 u (by rw [hu]; simp) hui
  · exact h11 u (by rw [hu]; simp) hui
  · exact h11 u (by simp [hu]) hui

theorem alongside_matchTok {A0 B0 : List Word} {ca cb e0 : Nat} {h0 : Bool} {a b : Ctx}
    (h : alongside A0 B0 ca cb e0 h0 a b) (type : TokType) :
    (matchTok b type).1 = (matchTok a type).1 ∧
    alongside A0 B0 ca cb e0 h0 (matchTok a type).2 (matchTok b type).2 := by
  unfold matchTok check
  rw [h.1]
  split
  · exact ⟨rfl, h⟩
  · exact ⟨rfl, alongside_parserAdvance h⟩

theorem alongside_consume {A0 B0 : List Word} {ca cb e0 : Nat} {h0 : Bool} {a b : Ctx}
    (h : alongside A0 B0 ca cb e0 h0 a b) (type : TokType) (message : String) :
    alongside A0 B0 ca cb e0 h0 (consume a type message) (consume b type message) := by
  unfold consume
  rw [h.1]
  split
  · exact alongside_parserAdvance h
  · exact alongside_errorAtCurrent h _ _

theorem alongside_emitInstruction {A0 B0 : List Word} {ca cb e0 : Nat} {h0 : Bool} {a b : Ctx}
    (h : alongside A0 B0 ca cb e0 h0 a b) (c : OpCode) :
    alongside A0 B0 ca cb e0 h0 (emitInstruction a (.op c)) (emitInstruction b (.op c)) := by
  obtain ⟨h1, h2, h3, h4, h5, h6, h7, ⟨w, hw1, hw2⟩, h9, h10, h11, h12⟩ := h
  refine ⟨h1, h2, h3, h4, h5, h6, h7, ⟨w ++ [.op c], ?_, ?_⟩, h9, h10, h11, h12⟩
  · simp [emitInstruction, ChunkWriteCode, hw1]
  · simp [emitInstruction, ChunkWriteCode, hw2, shiftOperand]

theorem alongside_emitConstant {A0 B0 : List Word} {ca cb e0 : Nat} {h0 : Bool} {a b : Ctx}
    (h : alongside A0 B0 ca cb e0 h0 a b) (va vb : Value) :
    alongside A0 B0 ca cb e0 h0 (emitConstant a va) (emitConstant b vb) := by
  obtain ⟨h1, h2, h3, h4, h5, h6, h7, ⟨w, hw1, hw2⟩, ⟨j, hj1, hj2⟩, h10, h11, h12⟩ := h
  refine ⟨?_, ?_, ?_, ?_, ?_, ?_, ?_, ⟨w ++ loadWords (ca + j), ?_, ?_⟩, ⟨j + 1, ?_, ?_⟩,
    ?_, ?_, ?_⟩
  · simpa [emitConstant, emitInstructions, makeConstant_eq] using h1
  · simpa [emitConstant, emitInstructions, makeConstant_eq] using h2
  · simpa [emitConstant, emitInstructions, makeConstant_eq] using h3
  · simpa [emitConstant, emitInstructions, makeConstant_eq] using h4
  · simpa [emitConstant, emitInstructions, makeConstant_eq] using h5
  · simpa [emitConstant, emitInstructions, makeConstant_eq] using h6
  · simpa [emitConstant, emitInstructions, makeConstant_eq] using h7
  · simp [emitConstant, emitInstructions, makeConstant_eq, ChunkWriteCode, hw1, hj1, loadWords]
  · rw [List.map_append, shiftOperand_load]
    simp [emitConstant, emitInstructions, makeConstant_eq, ChunkWriteCode, hw2, hj2, loadWords]
  · simp [emitConstant, emitInstructions, makeConstant_eq, ChunkWriteCode, hj1]; omega
  · simp [emitConstant, emitInstructions, makeConstant_eq, ChunkWriteCode, hj2]; omega
  · simpa [emitConstant, emitInstructions, makeConstant_eq] using h10
  · simpa [emitConstant, emitInstructions, makeConstant_eq] using h11
  · simpa [emitConstant, emitInstructions, makeConstant_eq] using h12

theorem alongside_tables {A0 B0 : List Word} {ca cb e0 : Nat} {h0 : Bool} {a b : Ctx}
    (h : alongside A0 B0 ca cb e0 h0 a b) (ta tb : Table) (ga gb : List Value) (na nb : Nat)
    (hk : ∀ x, hasKey b.interned x = hasKey a.interned x → hasKey tb x = hasKey ta x) :
    alongside A0 B0 ca cb e0 h0 { a with interned := ta, gc := ga, heapTop := na }
      { b with interned := tb, gc := gb, heapTop := nb } := by
  obtain ⟨h1, h2, h3, h4, h5, h6, h7, h8, h9, h10, h11, h12⟩ := h
  exact ⟨h1, h2, h3, h4, h5, h6, h7, h8, h9, h10, fun t ht hti => hk _ (h11 t ht hti), h12⟩

theorem string_shape (s : Ctx) :
    ∃ (v : Value) (t : Table) (g : List Value),
      string s = { emitConstant s v with interned := t, gc := g, heapTop := s.heapTop + 1 } ∧
      ∀ x, hasKey t x = (hasKey s.interned x || x == trimQuotes s.parser.previous.lexeme) := by
  have hk := string_hasKey s
  cases h : TableFindString s.interned (trimQuotes s.parser.previous.lexeme) with
  | none =>
    refine ⟨.INTERNAL_STR { addr := s.heapTop, chars := trimQuotes s.parser.previous.lexeme },
      (string s).interned, (string s).gc, ?_, hk⟩
    rw [string_miss s h]
    simp [emitConstant, emitInstructions, makeConstant_eq, ChunkWriteCode, loadWords]
  | some o =>
    refine ⟨.INTERNAL_STR o, (string s).interned, (string s).gc, ?_, hk⟩
    rw [string_hit s o h]
    simp [emitConstant, emitInstructions, makeConstant_eq, ChunkWriteCode, loadWords]

theorem alongside_string {A0 B0 : List Word} {ca cb e0 : Nat} {h0 : Bool} {a b : Ctx}
    (h : alongside A0 B0 ca cb e0 h0 a b) :
    alongside A0 B0 ca cb e0 h0 (string a) (string b) := by
  obtain ⟨va, ta, ga, ea, hka⟩ := string_shape a
  obtain ⟨vb, tb, gb, eb, hkb⟩ := string_shape b
  rw [ea, eb]
  have h2 := h.2.1
  have hc := alongside_emitConstant h va vb
  have := alongside_tables hc ta tb ga gb (a.heapTop + 1) (b.heapTop + 1) (by
    intro x hx
    have e1 : (emitConstant a va).interned = a.interned := by
      simp [emitConstant, emitInstructions, makeConstant_eq]
    have e2 : (emitConstant b vb).interned = b.interned := by
      simp [emitConstant, emitInstructions, makeConstant_eq]
    rw [e1, e2] at hx
    rw [hka x, hkb x, hx, h2])
  exact this

theorem alongside_number {A0 B0 : List Word} {ca cb e0 : Nat} {h0 : Bool} {a b : Ctx}
    (h : alongside A0 B0 ca cb e0 h0 a b) :
    alongside A0 B0 ca cb e0 h0 (number a) (number b) :=
  alongside_emitConstant h _ _

theorem alongside_literal {A0 B0 : List Word} {ca cb e0 : Nat} {h0 : Bool} {a b : Ctx}
    (h : alongside A0 B0 ca cb e0 h0 a b) :
    alongside A0 B0 ca cb e0 h0 (literal a) (literal b) := by
  unfold literal
  rw [h.2.1]
  split
  · exact alongside_emitInstruction h _
  · exact alongside_emitInstruction h _
  · exact h

theorem bothRun_ok {R : Ctx → Ctx → Prop} {a b : Ctx} (h : R a b) :
    bothRun R (.ok a) (.ok b) := h

theorem alongside_globalRead {A0 B0 : List Word} {ca cb e0 : Nat} {h0 : Bool} {a b : Ctx}
    (h : alongside A0 B0 ca cb e0 h0 a b) (hid : a.parser.previous.type = .TOKEN_IDENTIFIER) :
    alongside A0 B0 ca cb e0 h0
      (ijoStringDelete
        (match TableFindInternalEntry (CStringCopy a a.parser.previous.lexeme).2.interned
            (CStringCopy a a.parser.previous.lexeme).1 with
        | some entry => emitConstant (CStringCopy a a.parser.previous.lexeme).2 entry.value
        | none => (CStringCopy a a.parser.previous.lexeme).2)
        (CStringCopy a a.parser.previous.lexeme).1)
      (ijoStringDelete
        (match TableFindInternalEntry (CStringCopy b b.parser.previous.lexeme).2.interned
            (CStringCopy b b.parser.previous.lexeme).1 with
        | some entry => emitConstant (CStringCopy b b.parser.previous.lexeme).2 entry.value
        | none => (CStringCopy b b.parser.previous.lexeme).2)
        (CStringCopy b b.parser.previous.lexeme).1) := by
  have hk : hasKey b.interned a.parser.previous.lexeme =
      hasKey a.interned a.parser.previous.lexeme :=
    h.2.2.2.2.2.2.2.2.2.2.1 _ (List.mem_cons_self _ _) hid
  have hbase := alongside_tables h a.interned b.interned a.gc b.gc (a.heapTop + 1)
    (b.heapTop + 1) (fun x hx => hx)
  have hk : (TableFindInternalEntry b.interned
        { addr := b.heapTop, chars := a.parser.previous.lexeme }).isSome =
      (TableFindInternalEntry a.interned
        { addr := a.heapTop, chars := a.parser.previous.lexeme }).isSome := by
    rw [hasKey_find, hasKey_find]; exact hk
  simp only [CStringCopy, ijoStringDelete, h.2.1]
  cases ha : TableFindInternalEntry a.interned
      { addr := a.heapTop, chars := a.parser.previous.lexeme } with
  | none =>
    cases hb : TableFindInternalEntry b.interned
        { addr := b.heapTop, chars := a.parser.previous.lexeme } with
    | none => exact hbase
    | some eb => rw [ha, hb] at hk; cases hk
  | some ea =>
    cases hb : TableFindInternalEntry b.interned
        { addr := b.heapTop, chars := a.parser.previous.lexeme } with
    | none => rw [ha, hb] at hk; cases hk
    | some eb => exact alongside_emitConstant hbase _ _

theorem alongside_namedVariable {A0 B0 : List Word} {ca cb e0 : Nat} {h0 : Bool} (fuel : Nat) {a b : Ctx}
    (h : alongside A0 B0 ca cb e0 h0 a b) (hid : a.parser.previous.type = .TOKEN_IDENTIFIER)
    (hprec : b.parser.precedence = a.parser.precedence) :
    bothRun (alongside A0 B0 ca cb e0 h0) (namedVariable fuel a) (namedVariable fuel b) := by
  cases fuel with
  | zero => exact rfl
  | succ n =>
    have hla : a.compiler.locals = [] := h.2.2.2.2.2.2.1
    have hlb : b.compiler.locals = [] := by rw [h.2.2.2.2.2.1]; exact hla
    have ra := resolveLocal_not_found a.parser.previous a (by rw [hla]; simp)
    have rb := resolveLocal_not_found b.parser.previous b (by rw [hlb]; simp)
    have hm := alongside_matchTok h .TOKEN_EQUAL
    rw [namedVariable.eq_2, namedVariable.eq_2]
    simp only [ra, rb, ne_eq, not_true_eq_false, if_false, hprec]
    by_cases hca : a.parser.precedence ≤ PREC_ASSIGNMENT
    · simp only [hca, decide_True, if_true]
      rw [hm.1]
      by_cases hm1 : (matchTok a .TOKEN_EQUAL).1 = true
      · simp only [hm1, if_true]
        exact alongside_errorAtCurrent hm.2 _ _
      · simp only [hm1, if_false, Bool.false_eq_true]
        exact alongside_globalRead h hid
    · simp only [hca, decide_False, if_false, Bool.false_eq_true]
      exact alongside_globalRead h hid

theorem bothRun_cases {R : Ctx → Ctx → Prop} {x y : Result Ctx} (h : bothRun R x y) :
    (∃ a b, x = .ok a ∧ y = .ok b ∧ R a b) ∨ (∃ e, x = .fault e ∧ y = .fault e) := by
  cases x with
  | ok a =>
    cases y with
    | ok b => exact Or.inl ⟨a, b, rfl, rfl, h⟩
    | fault f => exact absurd h id
  | fault e =>
    cases y with
    | ok b => exact absurd h id
    | fault f =>
      have : e = f := h
      subst this
      exact Or.inr ⟨e, rfl, rfl⟩

theorem alongside_precedence {A0 B0 : List Word} {ca cb e0 : Nat} {h0 : Bool} {a b : Ctx}
    (h : alongside A0 B0 ca cb e0 h0 a b) (p q : Nat) :
    alongside A0 B0 ca cb e0 h0 { a with parser := { a.parser with precedence := p } }
      { b with parser := { b.parser with precedence := q } } := h

theorem getRule_prefix_identifier (k : TokType)
    (h : (getRule k).prefixRule = some .identifier) : k = .TOKEN_IDENTIFIER := by
  cases k <;> first | rfl | (exfalso; revert h; decide)

theorem getRule_infix_not_identifier (k : TokType) :
    (getRule k).infixRule ≠ some .identifier := by
  cases k <;> decide

theorem engine_alongside (A0 B0 : List Word) (ca cb e0 : Nat) (h0 : Bool) (fuel : Nat) :
    (∀ p a b, alongside A0 B0 ca cb e0 h0 a b →
      bothRun (alongside A0 B0 ca cb e0 h0) (parsePrecedence fuel p a) (parsePrecedence fuel p b)) ∧
    (∀ p a b, alongside A0 B0 ca cb e0 h0 a b →
      bothRun (alongside A0 B0 ca cb e0 h0) (parsePrecedenceLoop fuel p a)
        (parsePrecedenceLoop fuel p b)) ∧
    (∀ f a b, alongside A0 B0 ca cb e0 h0 a b →
      (f = .identifier → a.parser.previous.type = .TOKEN_IDENTIFIER ∧
        b.parser.precedence = a.parser.precedence) →
      bothRun (alongside A0 B0 ca cb e0 h0) (callParseFunc fuel f a) (callParseFunc fuel f b)) ∧
    (∀ a b, alongside A0 B0 ca cb e0 h0 a b →
      bothRun (alongside A0 B0 ca cb e0 h0) (expression fuel a) (expression fuel b)) ∧
    (∀ a b, alongside A0 B0 ca cb e0 h0 a b →
      bothRun (alongside A0 B0 ca cb e0 h0) (grouping fuel a) (grouping fuel b)) ∧
    (∀ a b, alongside A0 B0 ca cb e0 h0 a b →
      bothRun (alongside A0 B0 ca cb e0 h0) (unary fuel a) (unary fuel b)) ∧
    (∀ a b, alongside A0 B0 ca cb e0 h0 a b →
      bothRun (alongside A0 B0 ca cb e0 h0) (binary fuel a) (binary fuel b)) := by
  induction fuel with
  | zero =>
    refine ⟨?_, ?_, ?_, ?_, ?_, ?_, ?_⟩ <;> intros <;> exact rfl
  | succ n ih =>
    obtain ⟨ihP, ihL, ihC, ihE, ihG, ihU, ihB⟩ := ih
    refine ⟨?_, ?_, ?_, ?_, ?_, ?_, ?_⟩
    · intro p a b h
      have h1 := alongside_parserAdvance h
      have hpt : (parserAdvance b).parser.previous.type = (parserAdvance a).parser.previous.type := by
        rw [h1.2.1]
      have hct : (parserAdvance b).parser.current.type = (parserAdvance a).parser.current.type := by
        rw [h1.1]
      rw [parsePrecedence.eq_2, parsePrecedence.eq_2]
      simp only []
      rw [hpt, hct]
      by_cases hacc : HAS_ENUM (parserAdvance a).parser.current.type
          (getRule (parserAdvance a).parser.previous.type).acceptedTokens = true
      · simp only [hacc, Bool.not_true, Bool.false_eq_true, if_false]
        cases hpre : (getRule (parserAdvance a).parser.previous.type).prefixRule with
        | none =>
          simp only []
          exact alongside_log h1 _ _ _ _ (by decide)
        | some f =>
          simp only []
          generalize hxa : callParseFunc n f _ = xa
          generalize hxb : callParseFunc n f _ = xb
          have hc : bothRun (alongside A0 B0 ca cb e0 h0) xa xb := by
            rw [← hxa, ← hxb]
            exact ihC f _ _
              (alongside_precedence h1
                (getRule (parserAdvance a).parser.previous.type).precedence
                (getRule (parserAdvance a).parser.previous.type).precedence)
              (fun hf => ⟨getRule_prefix_identifier _ (by rw [hpre, hf]), rfl⟩)
          rcases bothRun_cases hc with ⟨a2, b2, rfl, rfl, hR⟩ | ⟨e, rfl, rfl⟩
          · exact ihL p a2 b2 hR
          · exact rfl
      · simp only [hacc, Bool.not_false, if_true]
        exact alongside_errorAt h1 _ _ _ _
    · intro p a b h
      have h1 := alongside_parserAdvance h
      rw [parsePrecedenceLoop.eq_2, parsePrecedenceLoop.eq_2]
      rw [h.1]
      by_cases hle : p ≤ (getRule a.parser.current.type).precedence
      · simp only [hle, if_true]
        rw [h1.2.1]
        cases hin : (getRule (parserAdvance a).parser.previous.type).infixRule with
        | none => exact rfl
        | some f =>
          simp only []
          generalize hxa : callParseFunc n f _ = xa
          generalize hxb : callParseFunc n f _ = xb
          have hc : bothRun (alongside A0 B0 ca cb e0 h0) xa xb := by
            rw [← hxa, ← hxb]
            exact ihC f _ _ h1
              (fun hf => absurd (by rw [hin, hf]) (getRule_infix_not_identifier _))
          rcases bothRun_cases hc with ⟨a2, b2, rfl, rfl, hR⟩ | ⟨e, rfl, rfl⟩
          · exact ihL p a2 b2 hR
          · exact rfl
      · simp only [hle, if_false]
        exact h
    · intro f a b h hf
      cases f <;> rw [callParseFunc, callParseFunc]
      · exact ihG _ _ h
      · exact ihU _ _ h
      · exact ihB _ _ h
      · exact h
      · rw [identifier.eq_def, identifier.eq_def]
        cases n with
        | zero => exact rfl
        | succ m => exact alongside_namedVariable m h (hf rfl).1 (hf rfl).2
      · exact alongside_number h
      · exact alongside_literal h
      · exact alongside_string h
    · intro a b h
      rw [expression.eq_2, expression.eq_2]
      exact ihP _ _ _ h
    · intro a b h
      rw [grouping.eq_2, grouping.eq_2]
      generalize hxa : expression n a = xa
      generalize hxb : expression n b = xb
      have hc : bothRun (alongside A0 B0 ca cb e0 h0) xa xb := by
        rw [← hxa, ← hxb]; exact ihE _ _ h
      rcases bothRun_cases hc with ⟨a2, b2, rfl, rfl, hR⟩ | ⟨e, rfl, rfl⟩
      · exact alongside_consume hR _ _
      · exact rfl
    · intro a b h
      rw [unary.eq_2, unary.eq_2]
      rw [h.2.1]
      generalize hxa : parsePrecedence n PREC_UNARY a = xa
      generalize hxb : parsePrecedence n PREC_UNARY b = xb
      have hc : bothRun (alongside A0 B0 ca cb e0 h0) xa xb := by
        rw [← hxa, ← hxb]; exact ihP _ _ _ h
      rcases bothRun_cases hc with ⟨a2, b2, rfl, rfl, hR⟩ | ⟨e, rfl, rfl⟩
      · dsimp only []
        generalize a.parser.previous.type = k
        cases k <;> first | exact alongside_emitInstruction hR _ | exact hR
      · exact rfl
    · intro a b h
      rw [binary.eq_2, binary.eq_2]
      rw [h.2.1]
      generalize hxa : parsePrecedence n _ a = xa
      generalize hxb : parsePrecedence n _ b = xb
      have hc : bothRun (alongside A0 B0 ca cb e0 h0) xa xb := by
        rw [← hxa, ← hxb]; exact ihP _ _ _ h
      rcases bothRun_cases hc with ⟨a2, b2, rfl, rfl, hR⟩ | ⟨e, rfl, rfl⟩
      · dsimp only []
        generalize a.parser.previous.type = k
        cases k <;> first | exact alongside_emitInstruction hR _ | exact hR
      · exact rfl

theorem alongside_expressionStatement {A0 B0 : List Word} {ca cb e0 : Nat} {h0 : Bool} (fuel : Nat)
    {a b : Ctx} (h : alongside A0 B0 ca cb e0 h0 a b) :
    bothRun (alongside A0 B0 ca cb e0 h0) (expressionStatement fuel a)
      (expressionStatement fuel b) := by
  unfold expressionStatement
  generalize hxa : expression fuel a = xa
  generalize hxb : expression fuel b = xb
  have hc : bothRun (alongside A0 B0 ca cb e0 h0) xa xb := by
    rw [← hxa, ← hxb]; exact (engine_alongside A0 B0 ca cb e0 h0 fuel).2.2.2.1 _ _ h
  rcases bothRun_cases hc with ⟨a2, b2, rfl, rfl, hR⟩ | ⟨e, rfl, rfl⟩
  · exact alongside_emitInstruction (alongside_consume hR _ _) _
  · exact rfl

theorem alongside_printStatement {A0 B0 : List Word} {ca cb e0 : Nat} {h0 : Bool} (fuel : Nat)
    {a b : Ctx} (h : alongside A0 B0 ca cb e0 h0 a b) :
    bothRun (alongside A0 B0 ca cb e0 h0) (printStatement fuel a) (printStatement fuel b) := by
  have hm := alongside_matchTok h .TOKEN_EOL
  unfold printStatement
  simp only []
  rw [hm.1, h.2.1]
  by_cases hm1 : (matchTok a .TOKEN_EOL).1 = true
  · simp only [hm1, Bool.not_true, Bool.false_eq_true, if_false]
    exact alongside_emitInstruction (alongside_emitConstant hm.2 _ _) _
  · simp only [hm1, Bool.not_false, if_true]
    generalize hxa : expression fuel _ = xa
    generalize hxb : expression fuel _ = xb
    have hc : bothRun (alongside A0 B0 ca cb e0 h0) xa xb := by
      rw [← hxa, ← hxb]; exact (engine_alongside A0 B0 ca cb e0 h0 fuel).2.2.2.1 _ _ hm.2
    rcases bothRun_cases hc with ⟨a2, b2, rfl, rfl, hR⟩ | ⟨e, rfl, rfl⟩
    · exact alongside_emitInstruction hR _
    · exact rfl

theorem alongside_synchronizeLoop {A0 B0 : List Word} {ca cb e0 : Nat} {h0 : Bool} (fuel : Nat) :
    ∀ a b, alongside A0 B0 ca cb e0 h0 a b →
    bothRun (alongside A0 B0 ca cb e0 h0) (synchronizeLoop fuel a) (synchronizeLoop fuel b) := by
  induction fuel with
  | zero => intro a b _; exact rfl
  | succ n ih =>
    intro a b h
    rw [synchronizeLoop, synchronizeLoop]
    rw [h.1, h.2.1]
    split
    · split
      · exact h
      · split
        · exact h
        · exact ih _ _ (alongside_parserAdvance h)
    · exact h

theorem alongside_synchronize {A0 B0 : List Word} {ca cb e0 : Nat} {h0 : Bool} (fuel : Nat)
    {a b : Ctx} (h : alongside A0 B0 ca cb e0 h0 a b) :
    bothRun (alongside A0 B0 ca cb e0 h0) (synchronize fuel a) (synchronize fuel b) := by
  unfold synchronize
  refine alongside_synchronizeLoop fuel _ _ ?_
  obtain ⟨h1, h2, h3, h4, h5, h6, h7, h8, h9, h10, h11, h12⟩ := h
  exact ⟨h1, h2, h3, rfl, h5, h6, h7, h8, h9, h10, h11, h12⟩

theorem alongside_kinds {A0 B0 : List Word} {ca cb e0 : Nat} {h0 : Bool} {a b : Ctx}
    (h : alongside A0 B0 ca cb e0 h0 a b) :
    a.parser.current.type ≠ .TOKEN_LEFT_BRACE ∧ a.parser.current.type ≠ .TOKEN_VAR ∧
      a.parser.current.type ≠ .TOKEN_CONST :=
  h.2.2.2.2.2.2.2.2.2.2.2 _ (List.mem_cons_self _ _)

theorem alongside_statement {A0 B0 : List Word} {ca cb e0 : Nat} {h0 : Bool} (fuel : Nat)
    {a b : Ctx} (h : alongside A0 B0 ca cb e0 h0 a b) :
    bothRun (alongside A0 B0 ca cb e0 h0) (statement fuel a) (statement fuel b) := by
  cases fuel with
  | zero => exact rfl
  | succ n =>
    have hk := alongside_kinds h
    have hkb : b.parser.current.type ≠ .TOKEN_LEFT_BRACE := by rw [h.1]; exact hk.1
    rw [statement, statement]
    by_cases hp : a.parser.current.type = .TOKEN_PRINT
    · have hpb : b.parser.current.type = .TOKEN_PRINT := by rw [h.1]; exact hp
      simp only [matchTok, check, hp, hpb, beq_self_eq_true, Bool.not_true, Bool.false_eq_true,
        if_false, if_true]
      exact alongside_printStatement n (alongside_parserAdvance h)
    · have hpb : ¬ b.parser.current.type = .TOKEN_PRINT := by rw [h.1]; exact hp
      by_cases hq : a.parser.current.type = .TOKEN_PRINTLN
      · have hqb : b.parser.current.type = .TOKEN_PRINTLN := by rw [h.1]; exact hq
        simp [matchTok, check, hq, hqb]
        exact alongside_printStatement n (alongside_parserAdvance h)
      · have hqb : ¬ b.parser.current.type = .TOKEN_PRINTLN := by rw [h.1]; exact hq
        simp [matchTok, check, hp, hpb, hq, hqb, hk.1, hkb]
        exact alongside_expressionStatement n h

theorem alongside_declaration {A0 B0 : List Word} {ca cb e0 : Nat} {h0 : Bool} (fuel : Nat)
    {a b : Ctx} (h : alongside A0 B0 ca cb e0 h0 a b) :
    bothRun (alongside A0 B0 ca cb e0 h0) (declaration fuel a) (declaration fuel b) := by
  cases fuel with
  | zero => exact rfl
  | succ n =>
    have hk := alongside_kinds h
    have hkb : b.parser.current.type ≠ .TOKEN_VAR ∧ b.parser.current.type ≠ .TOKEN_CONST := by
      rw [h.1]; exact hk.2
    have hfin : ∀ xa xb, bothRun (alongside A0 B0 ca cb e0 h0) xa xb →
        bothRun (alongside A0 B0 ca cb e0 h0)
          (match xa with
           | .fault e => .fault e
           | .ok s => if s.parser.panicMode = true then synchronize n s else .ok s)
          (match xb with
           | .fault e => .fault e
           | .ok s => if s.parser.panicMode = true then synchronize n s else .ok s) := by
      intro xa xb hc
      rcases bothRun_cases hc with ⟨a2, b2, rfl, rfl, hR⟩ | ⟨e, rfl, rfl⟩
      · dsimp only []
        rw [hR.2.2.2.1]
        split
        · exact alongside_synchronize n hR
        · exact hR
      · exact rfl
    rw [declaration, declaration]
    by_cases he : a.parser.current.type = .TOKEN_EOL
    · have heb : b.parser.current.type = .TOKEN_EOL := by rw [h.1]; exact he
      simp [matchTok, check, he, heb]
      have := hfin (.ok (parserAdvance a)) (.ok (parserAdvance b)) (alongside_parserAdvance h)
      simpa using this
    · have heb : ¬ b.parser.current.type = .TOKEN_EOL := by rw [h.1]; exact he
      simp [matchTok, check, he, heb, hk.2.1, hk.2.2, hkb.1, hkb.2]
      have := hfin _ _ (alongside_statement n h)
      simpa using this

theorem alongside_compileLoop {A0 B0 : List Word} {ca cb e0 : Nat} {h0 : Bool} (fuel : Nat) :
    ∀ a b, alongside A0 B0 ca cb e0 h0 a b →
    bothRun (alongside A0 B0 ca cb e0 h0) (compileLoop fuel a) (compileLoop fuel b) := by
  induction fuel with
  | zero => intro a b _; exact rfl
  | succ n ih =>
    intro a b h
    have hm := alongside_matchTok h .TOKEN_EOF
    rw [compileLoop, compileLoop]
    rw [hm.1]
    by_cases hm1 : (matchTok a .TOKEN_EOF).1 = true
    · simp only [hm1, Bool.not_true, Bool.false_eq_true, if_false]
      exact hm.2
    · simp only [hm1, Bool.not_false, if_true]
      generalize hxa : declaration n _ = xa
      generalize hxb : declaration n _ = xb
      have hc : bothRun (alongside A0 B0 ca cb e0 h0) xa xb := by
        rw [← hxa, ← hxb]; exact alongside_declaration n hm.2
      rcases bothRun_cases hc with ⟨a2, b2, rfl, rfl, hR⟩ | ⟨e, rfl, rfl⟩
      · exact ih _ _ hR
      · exact rfl

theorem consumes_refl (tail : List Token) (x : String) (s : Ctx) : consumes tail x s s :=
  fun _ h => ⟨[], h, fun _ => rfl⟩

theorem consumes_trans {tail : List Token} {x : String} {s s1 r : Ctx}
    (h1 : consumes tail x s s1) (h2 : consumes tail x s1 r) : consumes tail x s r := by
  intro pre hpre
  obtain ⟨c2, e2, k2⟩ := h2 pre hpre
  obtain ⟨c1, e1, k1⟩ := h1 (c2 ++ pre) (by rw [e2, List.append_assoc])
  refine ⟨c1 ++ c2, by rw [e1]; simp, fun hn => ?_⟩
  rw [k2 (fun t ht => hn t (List.mem_append_right _ ht)),
    k1 (fun t ht => hn t (List.mem_append_left _ ht))]

theorem consumes_of_eq {tail : List Token} {x : String} {s r : Ctx}
    (hc : r.parser.current = s.parser.current) (hs : r.parser.scanner = s.parser.scanner)
    (hi : r.interned = s.interned) : consumes tail x s r := by
  intro pre hpre
  exact ⟨[], by rw [← hc, ← hs]; exact hpre, fun _ => by rw [hi]⟩

theorem scanLoop_suffix (tk : Token) (tl : List Token) (htk : tk.type ≠ .TOKEN_EOF) :
    ∀ (l : List Token) (s : Ctx) (pre : List Token),
    (scanLoop s l).parser.current :: (scanLoop s l).parser.scanner = pre ++ tk :: tl →
    ∃ errs, l = errs ++ (pre ++ tk :: tl) := by
  intro l
  induction l with
  | nil =>
    intro s pre h
    exfalso
    simp only [scanLoop, ScannerScan] at h
    cases pre with
    | nil =>
      simp only [List.nil_append, List.cons.injEq] at h
      exact htk (by rw [← h.1]; rfl)
    | cons p pre' =>
      simp only [List.cons_append, List.cons.injEq] at h
      have := h.2
      cases pre' <;> simp at this
  | cons t rest ih =>
    intro s pre h
    rw [scanLoop] at h
    simp only [ScannerScan] at h
    by_cases ht : t.type = .TOKEN_ERROR
    · simp only [ht, ne_eq, not_true_eq_false, if_false] at h
      obtain ⟨errs, he⟩ := ih _ pre h
      exact ⟨t :: errs, by rw [he]; rfl⟩
    · simp only [ne_eq, ht, not_false_eq_true, if_true] at h
      exact ⟨[], by simpa using h⟩

theorem consumes_parserAdvance (tk : Token) (tl : List Token) (htk : tk.type ≠ .TOKEN_EOF)
    (x : String) (s : Ctx) : consumes (tk :: tl) x s (parserAdvance s) := by
  intro pre hpre
  unfold parserAdvance at hpre
  obtain ⟨errs, he⟩ := scanLoop_suffix tk tl htk _ _ pre hpre
  simp only [] at he
  refine ⟨s.parser.current :: errs, by rw [he]; rfl, fun _ => ?_⟩
  rw [(parserAdvance_parserStep s).2.2.1]

theorem consumesAt_of_consumes {tail : List Token} {x : String} {s r : Ctx}
    (h : consumes tail x s r) : consumesAt tail x s r := by
  intro pre hpre
  obtain ⟨c, e, k⟩ := h pre hpre
  exact ⟨c, e, fun hn => k (fun t ht => hn t (List.mem_cons_of_mem _ ht))⟩

/-- The handler entered right after an advance: the token it works on is the
one the advance consumed. -/
theorem consumes_advance_handler (tk : Token) (tl : List Token) (htk : tk.type ≠ .TOKEN_EOF)
    (x : String) (s s1 r : Ctx)
    (hc : s1.parser.current = (parserAdvance s).parser.current)
    (hs : s1.parser.scanner = (parserAdvance s).parser.scanner)
    (hp : s1.parser.previous = (parserAdvance s).parser.previous)
    (hi : s1.interned = s.interned)
    (hH : consumesAt (tk :: tl) x s1 r) :
    consumes (tk :: tl) x s r := by
  intro pre hpre
  obtain ⟨c2, e2, k2⟩ := hH pre hpre
  rw [hc, hs] at e2
  obtain ⟨c1, e1, _⟩ := consumes_parserAdvance tk tl htk x s (c2 ++ pre)
    (by rw [e2, List.append_assoc])
  have hhead : ∃ c1', c1 = s.parser.current :: c1' := by
    cases c1 with
    | nil =>
      exfalso
      unfold parserAdvance at e2
      obtain ⟨errs, he⟩ := scanLoop_suffix tk tl htk _ _ (c2 ++ pre)
        (by rw [e2, List.append_assoc])
      simp only [] at he
      simp only [List.nil_append] at e1
      have hl := congrArg List.length e1
      rw [he] at hl
      simp at hl
      omega
    | cons d c1' =>
      simp only [List.cons_append, List.cons.injEq] at e1
      exact ⟨c1', by rw [e1.1]⟩
  obtain ⟨c1', rfl⟩ := hhead
  refine ⟨(s.parser.current :: c1') ++ c2, by rw [e1]; simp, fun hn => ?_⟩
  rw [k2 (by
    intro t ht
    rw [hp, parserAdvance_previous] at ht
    rcases List.mem_cons.mp ht with rfl | ht
    · exact hn _ (by simp)
    · exact hn t (by simp [ht])), hi]

theorem consumes_of_parserStep {tail : List Token} {x : String} {s r : Ctx}
    (hc : r.parser.current = s.parser.current) (hs : r.parser.scanner = s.parser.scanner)
    (h : parserStep s r) : consumes tail x s r :=
  consumes_of_eq hc hs h.2.2.1

theorem consumes_errorAt (tail : List Token) (x : String) (s : Ctx) (t : Token) (m : String) :
    consumes tail x s (errorAt s t m) :=
  consumes_of_parserStep (errorAt_tokens s t m).2.1 (errorAt_tokens s t m).2.2
    (errorAt_parserStep s t m)

theorem consumes_errorAtCurrent (tail : List Token) (x : String) (s : Ctx) (m : String) :
    consumes tail x s (errorAtCurrent s m) :=
  consumes_of_parserStep (errorAtCurrent_tokens s m).2.1 (errorAtCurrent_tokens s m).2.2
    (errorAtCurrent_parserStep s m)

theorem consumes_consume (tk : Token) (tl : List Token) (htk : tk.type ≠ .TOKEN_EOF)
    (x : String) (s : Ctx) (type : TokType) (m : String) :
    consumes (tk :: tl) x s (consume s type m) := by
  unfold consume
  split
  · exact consumes_parserAdvance tk tl htk x s
  · exact consumes_errorAtCurrent _ _ _ _

theorem consumes_matchTok (tk : Token) (tl : List Token) (htk : tk.type ≠ .TOKEN_EOF)
    (x : String) (s : Ctx) (type : TokType) :
    consumes (tk :: tl) x s (matchTok s type).2 := by
  unfold matchTok
  split
  · exact consumes_refl _ _ _
  · exact consumes_parserAdvance tk tl htk x s

theorem consumes_resolveLocal (tail : List Token) (x : String) (s : Ctx) (name : Token) :
    consumes tail x s (resolveLocal s name).2 :=
  consumes_of_parserStep (resolveLocal_position name s).2.1 (resolveLocal_position name s).2.2
    (resolveLocal_parserStep name s)

theorem string_parserSame (s : Ctx) : (string s).parser = s.parser := by
  obtain ⟨v, t, g, e, _⟩ := string_shape s
  rw [e]
  simp [emitConstant, emitInstructions, makeConstant_eq]

theorem getRule_prefix_string (k : TokType)
    (h : (getRule k).prefixRule = some .string) : k = .TOKEN_STRING := by
  cases k <;> first | rfl | (exfalso; revert h; decide)

theorem getRule_infix_not_string (k : TokType) :
    (getRule k).infixRule ≠ some .string := by
  cases k <;> decide

theorem engine_consumes (tk : Token) (tl : List Token) (htk : tk.type ≠ .TOKEN_EOF)
    (x : String) (fuel : Nat) :
    (∀ p s r, parsePrecedence fuel p s = .ok r → consumes (tk :: tl) x s r) ∧
    (∀ p s r, parsePrecedenceLoop fuel p s = .ok r → consumes (tk :: tl) x s r) ∧
    (∀ f s r, callParseFunc fuel f s = .ok r →
      (f = .string → s.parser.previous.type = .TOKEN_STRING) →
      consumesAt (tk :: tl) x s r) ∧
    (∀ s r, expression fuel s = .ok r → consumes (tk :: tl) x s r) ∧
    (∀ s r, grouping fuel s = .ok r → consumes (tk :: tl) x s r) ∧
    (∀ s r, unary fuel s = .ok r → consumes (tk :: tl) x s r) ∧
    (∀ s r, binary fuel s = .ok r → consumes (tk :: tl) x s r) ∧
    (∀ s r, namedVariable fuel s = .ok r → consumes (tk :: tl) x s r) ∧
    (∀ s r, identifier fuel s = .ok r → consumes (tk :: tl) x s r) := by
  induction fuel with
  | zero =>
    refine ⟨?_, ?_, ?_, ?_, ?_, ?_, ?_, ?_, ?_⟩ <;> intros <;> rename_i h
    · rw [parsePrecedence.eq_1] at h; cases h
    · rw [parsePrecedenceLoop.eq_1] at h; cases h
    · rename_i _ _ hh; rw [callParseFunc.eq_1] at hh; cases hh
    · rw [expression.eq_1] at h; cases h
    · rw [grouping.eq_1] at h; cases h
    · rw [unary.eq_1] at h; cases h
    · rw [binary.eq_1] at h; cases h
    · rw [namedVariable.eq_1] at h; cases h
    · rw [identifier.eq_1] at h; cases h
  | succ n ih =>
    obtain ⟨ihP, ihL, ihC, ihE, ihG, ihU, ihB, ihN, ihI⟩ := ih
    refine ⟨?_, ?_, ?_, ?_, ?_, ?_, ?_, ?_, ?_⟩
    · intro p s r h
      rw [parsePrecedence.eq_2] at h
      simp only at h
      have ha := consumes_parserAdvance tk tl htk x s
      split at h
      · injection h with h; subst h
        exact consumes_trans ha (consumes_errorAt _ _ _ _ _)
      · split at h
        · injection h with h; subst h
          exact consumes_trans ha (consumes_of_eq rfl rfl rfl)
        · rename_i f hf
          split at h
          · cases h
          · rename_i s2 hs2
            have hH := ihC _ _ _ hs2 (fun e => getRule_prefix_string _ (by rw [hf, e]))
            exact consumes_trans
              (consumes_advance_handler tk tl htk x s _ s2 rfl rfl rfl
                (parserAdvance_parserStep s).2.2.1 hH)
              (ihL _ _ _ h)
    · intro p s r h
      rw [parsePrecedenceLoop.eq_2] at h
      split at h
      · simp only at h
        split at h
        · cases h
        · rename_i f hf
          split at h
          · cases h
          · rename_i s2 hs2
            have hH := ihC _ _ _ hs2
              (fun e => absurd (by rw [hf, e]) (getRule_infix_not_string _))
            exact consumes_trans
              (consumes_advance_handler tk tl htk x s _ s2 rfl rfl rfl
                (parserAdvance_parserStep s).2.2.1 hH)
              (ihL _ _ _ h)
      · injection h with h; subst h; exact consumes_refl _ _ _
    · intro f s r h hstr
      cases f <;> rw [callParseFunc] at h
      · exact consumesAt_of_consumes (ihG _ _ h)
      · exact consumesAt_of_consumes (ihU _ _ h)
      · exact consumesAt_of_consumes (ihB _ _ h)
      · injection h with h; subst h; exact consumesAt_of_consumes (consumes_refl _ _ _)
      · exact consumesAt_of_consumes (ihI _ _ h)
      · injection h with h; subst h
        refine consumesAt_of_consumes (consumes_of_eq ?_ ?_ ?_) <;>
          simp [number, emitConstant, emitInstructions, makeConstant_eq]
      · injection h with h; subst h
        refine consumesAt_of_consumes (consumes_of_eq ?_ ?_ ?_) <;>
          (unfold literal; split <;> rfl)
      · injection h with h; subst h
        intro pre hpre
        rw [string_parserSame] at hpre
        refine ⟨[], hpre, fun hn => ?_⟩
        rw [string_hasKey]
        have := hn s.parser.previous (List.mem_cons_self _ _) (hstr rfl)
        have hx : (x == trimQuotes s.parser.previous.lexeme) = false := by
          simpa using fun e => this e.symm
        rw [hx, Bool.or_false]
    · intro s r h
      rw [expression.eq_2] at h
      exact ihP _ _ _ h
    · intro s r h
      rw [grouping.eq_2] at h
      split at h
      · cases h
      · rename_i s2 hs2
        injection h with h; subst h
        exact consumes_trans (ihE _ _ hs2) (consumes_consume tk tl htk x _ _ _)
    · intro s r h
      rw [unary.eq_2] at h
      split at h
      · cases h
      · rename_i s2 hs2
        have := ihP _ _ _ hs2
        split at h <;> (injection h with h; subst h) <;> exact this
    · intro s r h
      rw [binary.eq_2] at h
      split at h
      · cases h
      · rename_i s2 hs2
        have := ihP _ _ _ hs2
        split at h <;> (injection h with h; subst h) <;> exact this
    · intro s r h
      rw [namedVariable.eq_2] at h
      simp only at h
      have hr := consumes_resolveLocal (tk :: tl) x s s.parser.previous
      generalize (resolveLocal s s.parser.previous).2 = s1 at h hr
      generalize (resolveLocal s s.parser.previous).1 = arg at h
      have hm : ∀ b : Bool, consumes (tk :: tl) x s
          (if b = true then matchTok s1 .TOKEN_EQUAL else (false, s1)).2 := by
        intro b; cases b
        · simpa using hr
        · simpa using consumes_trans hr (consumes_matchTok tk tl htk x _ _)
      have hm := hm (decide (s1.parser.precedence ≤ PREC_ASSIGNMENT))
      simp only [decide_eq_true_eq] at hm h
      generalize (if s1.parser.precedence ≤ PREC_ASSIGNMENT then matchTok s1 .TOKEN_EQUAL
        else (false, s1)) = m at h hm
      split at h
      · split at h
        · split at h
          · cases h
          · split at h
            · injection h with h; subst h
              exact consumes_trans hm (consumes_errorAtCurrent _ _ _ _)
            · split at h
              · cases h
              · rename_i s2 hs2
                injection h with h; subst h
                exact consumes_trans hm (consumes_trans (ihE _ _ hs2)
                  (consumes_of_eq rfl rfl rfl))
        · injection h with h; subst h
          exact consumes_trans hr (consumes_of_eq rfl rfl rfl)
      · split at h
        · injection h with h; subst h
          exact consumes_trans hm (consumes_errorAtCurrent _ _ _ _)
        · injection h with h; subst h
          refine consumes_trans hr (consumes_of_eq ?_ ?_ ?_) <;>
          · simp only [ijoStringDelete, CStringCopy]
            split <;> simp [emitConstant, emitInstructions, makeConstant_eq]
    · intro s r h
      rw [identifier.eq_2] at h
      exact ihN _ _ h

theorem consume_parserStep (s : Ctx) (type : TokType) (message : String) :
    parserStep s (consume s type message) := by
  unfold consume
  split
  · exact parserAdvance_parserStep s
  · exact errorAtCurrent_parserStep s message

set_option maxHeartbeats 1000000 in
theorem declaration_line_state (eol w0 : Token) (rest : List Token)
    (he : eol.type = .TOKEN_EOL) (hw : w0.type = .TOKEN_PRINT ∨ w0.type = .TOKEN_PRINTLN)
    (n : Nat) (s : Ctx) (f : Nat)
    (hz : linePos eol w0 rest (n + 2) s)
    (hstart : s.parser.current.type ≠ .TOKEN_VAR ∧ s.parser.current.type ≠ .TOKEN_PRINTLN ∧
      s.parser.current.type ≠ .TOKEN_LEFT_BRACE)
    (hp : s.parser.panicMode = false) (hf : 4 * n + 10 ≤ f) :
    ∃ r' m r, expression f s = .ok r' ∧ linePosS eol w0 rest m r' ∧ errStep s r' ∧
      declaration (f + 2) s = .ok r ∧
      r.compiler = s.compiler ∧ r.interned = r'.interned ∧
      ((r'.parser.panicMode = true ∨ r'.parser.current.type ≠ .TOKEN_EOL) →
        r.parser.hadError = true) ∧
      (s.parser.hadError = false → r'.parser.panicMode = false →
        r'.parser.current.type = .TOKEN_EOL → r.parser.hadError = false) := by
  have hpl := plainToken_kind ((linePos_current hz).2.2 (by omega))
  have hsw := hpl.2.2.2
  have hk : s.parser.current.type ≠ .TOKEN_CONST ∧ s.parser.current.type ≠ .TOKEN_PRINT := by
    refine ⟨?_, ?_⟩ <;> (intro h; rw [h] at hsw; cases hsw)
  obtain ⟨r, hd, -, -, -⟩ := declaration_line_recovers eol w0 rest he hw n s (f + 2) hz hstart hp
    (by omega)
  obtain ⟨r1, m1, h1, hz1, -⟩ :=
    (expression_family_returns eol w0 rest he hw f).2.2.2.1 (n + 1) s hz (by omega)
  have e1 := (expression_family_errStep f).2.2.2.1 s r1 h1
  have c1 := (expression_family_compiler f).2.2.2.1 s r1 h1
  refine ⟨r1, m1, r, h1, hz1, e1, hd, ?_⟩
  generalize hcs : consume r1 .TOKEN_EOL "Only one expression per line accepted." = t
  have hts : parserStep r1 t := by rw [← hcs]; exact consume_parserStep _ _ _
  have hdecl : declaration (f + 2) s =
      (if (emitInstruction t (.op .OP_POP)).parser.panicMode = true then
        synchronize (f + 1) (emitInstruction t (.op .OP_POP))
      else .ok (emitInstruction t (.op .OP_POP))) := by
    rw [declaration.eq_2]
    simp [matchTok, check, hk.1, hk.2, hstart.1, hstart.2.1, hstart.2.2, hpl.1, statement.eq_2,
      expressionStatement, h1, hcs]
  rw [hdecl] at hd
  have hquiet : s.parser.hadError = false → r1.parser.panicMode = false →
      r1.parser.current.type = .TOKEN_EOL → r.parser.hadError = false := by
    intro hs0 hpm hce
    have hwe : w0.type ≠ .TOKEN_ERROR := by rcases hw with e | e <;> rw [e] <;> decide
    have hh1 : r1.parser.hadError = false := by
      rcases e1 with ⟨_, a2, _⟩ | ⟨_, b2, _, _⟩
      · rw [a2]; exact hs0
      · rw [hpm] at b2; cases b2
    have hsc : r1.parser.scanner = w0 :: rest := by
      have hc := linePos_current hz1.1
      match m1, hz1, hc with
      | 0, _, hc => rw [hc.1 rfl] at hce; rcases hw with e | e <;> rw [e] at hce <;> cases hce
      | 1, ⟨⟨pre, hl, _, hcs⟩, _⟩, _ =>
        have : pre = [] := List.length_eq_zero.mp hl
        subst this
        injection hcs
      | k + 2, _, hc =>
        exact absurd hce (plainToken_kind (hc.2.2 (by omega))).1
    have ht : t = parserAdvance r1 := by rw [← hcs]; unfold consume; rw [if_pos hce]
    have hflags : t.parser.panicMode = false ∧ t.parser.hadError = false := by
      rw [ht]
      simp [parserAdvance, hsc, scanLoop, ScannerScan, hwe, hpm, hh1]
    have hpe : (emitInstruction t (.op .OP_POP)).parser.panicMode = false := hflags.1
    rw [hpe] at hd
    simp only [Bool.false_eq_true, if_false] at hd
    injection hd with hd
    rw [← hd]
    exact hflags.2
  have hterr : (r1.parser.panicMode = true ∨ r1.parser.current.type ≠ .TOKEN_EOL) →
      t.parser.hadError = true := by
    intro hcond
    have hinv : r1.parser.panicMode = true → r1.parser.hadError = true := by
      intro hpm
      rcases e1 with ⟨a1, _, _⟩ | ⟨_, _, b3, _⟩
      · rw [hp] at a1; rw [a1] at hpm; cases hpm
      · exact b3
    rcases hcond with hpm | hne
    · exact hts.2.2.2.2.2.1 (hinv hpm)
    · rw [← hcs]
      unfold consume
      rw [if_neg hne]
      exact (errorAtCurrent_flags _ _ hinv).1
  have hu : ∀ r2, parserStep (emitInstruction t (.op .OP_POP)) r2 ∨
      parserStep { emitInstruction t (.op .OP_POP) with
        parser := { (emitInstruction t (.op .OP_POP)).parser with panicMode := false } } r2 →
      r2.compiler = s.compiler ∧ r2.interned = r1.interned ∧
      ((r1.parser.panicMode = true ∨ r1.parser.current.type ≠ .TOKEN_EOL) →
        r2.parser.hadError = true) ∧
      (s.parser.hadError = false → r1.parser.panicMode = false →
        r1.parser.current.type = .TOKEN_EOL → r.parser.hadError = false) := by
    intro r2 h2
    have base : (r2.compiler = t.compiler ∧ r2.interned = t.interned) ∧
        (t.parser.hadError = true → r2.parser.hadError = true) := by
      rcases h2 with h2 | h2
      · exact ⟨⟨h2.1, h2.2.2.1⟩, h2.2.2.2.2.2.1⟩
      · exact ⟨⟨h2.1, h2.2.2.1⟩, h2.2.2.2.2.2.1⟩
    refine ⟨?_, ?_, fun hcond => base.2 (hterr hcond), hquiet⟩
    · rw [base.1.1, hts.1, c1]
    · rw [base.1.2, hts.2.2.1]
  split at hd
  · unfold synchronize at hd
    exact hu r (Or.inr (synchronizeLoop_parserStep _ _ _ hd))
  · injection hd with hd
    subst hd
    exact hu _ (Or.inl (parserStep_refl _))

theorem line_keys (eol w0 : Token) (rest : List Token) (hw : w0.type ≠ .TOKEN_EOF)
    (x : String) (f m : Nat) (s r : Ctx) (L : List Token)
    (hexp : expression f s = .ok r) (hz : linePosS eol w0 rest m r)
    (hs : s.parser.current :: s.parser.scanner = L ++ w0 :: rest)
    (hno : ∀ t ∈ L, t.type = .TOKEN_STRING → trimQuotes t.lexeme ≠ x) :
    hasKey r.interned x = hasKey s.interned x := by
  have hcon := (engine_consumes w0 rest hw x f).2.2.2.1 s r hexp
  have htail : ∃ pre, r.parser.current :: r.parser.scanner = pre ++ w0 :: rest := by
    cases m with
    | zero =>
      obtain ⟨_, h2, h3⟩ := hz.1
      exact ⟨[], by rw [h2, h3]; rfl⟩
    | succ k =>
      obtain ⟨pre, _, _, h3⟩ := hz.1
      exact ⟨pre ++ [eol], by rw [h3]; simp⟩
  obtain ⟨pre, hpre⟩ := htail
  obtain ⟨c, hc, hk⟩ := hcon pre hpre
  apply hk
  intro t ht
  apply hno t
  rw [hs, ← List.append_assoc] at hc
  have := List.append_cancel_right hc
  rw [this]
  exact List.mem_append_left _ ht

theorem number_parserSame (s : Ctx) : (number s).parser = s.parser := by
  simp [number, emitConstant, emitInstructions, makeConstant_eq]

theorem literal_parserSame (s : Ctx) : (literal s).parser = s.parser := by
  unfold literal; split <;> rfl

/-- A top-level expression whose first two tokens form a malformed start is
left by the engine in panic mode or with a token other than the end-of-line
current. -/
theorem malformed_start_expression (f : Nat) (s r : Ctx) (t : Token) (sc : List Token)
    (hsc : s.parser.scanner = t :: sc) (ht : plainToken t = true)
    (hm : malformedStart s.parser.current.type t.type = true)
    (h : expression f s = .ok r) :
    r.parser.panicMode = true ∨ r.parser.current.type ≠ .TOKEN_EOL := by
  have htk := plainToken_kind ht
  have hadv : parserAdvance s = { s with parser := { s.parser with
      previous := s.parser.current, current := t, scanner := sc } } := by
    simp [parserAdvance, hsc, scanLoop, ScannerScan, htk.2.2.1]
  cases f with
  | zero => rw [expression.eq_1] at h; cases h
  | succ f1 =>
    rw [expression.eq_2] at h
    cases f1 with
    | zero => rw [parsePrecedence.eq_1] at h; cases h
    | succ f2 =>
      rw [parsePrecedence.eq_2] at h
      simp only [hadv] at h
      split at h
      · injection h with h; subst h
        exact Or.inl (errorAt_panicMode _ _ _)
      · rename_i hacc
        split at h
        · injection h with h; subst h
          exact Or.inr htk.1
        · rename_i fn hfn
          exfalso
          simp only [malformedStart, Bool.or_eq_true, beq_iff_eq, Bool.not_eq_true'] at hm
          simp only [Bool.not_eq_true, Bool.not_eq_false'] at hacc
          rcases hm with hm | hm
          · rw [hm] at hacc; cases hacc
          · rw [hm] at hfn; cases hfn

theorem compileLoop_previous (fuel : Nat) (s : Ctx) (p : Token)
    (hpk : s.parser.current.type = .TOKEN_PRINT ∨ s.parser.current.type = .TOKEN_PRINTLN) :
    compileLoop fuel { s with parser := { s.parser with previous := p } } =
      compileLoop fuel s := by
  have hadv : parserAdvance { s with parser := { s.parser with previous := p } } =
      parserAdvance s := rfl
  cases fuel with
  | zero => rfl
  | succ f1 =>
    cases f1 with
    | zero =>
      rcases hpk with h | h <;>
        simp [compileLoop.eq_2, declaration.eq_1, matchTok, check, h]
    | succ f2 =>
      cases f2 with
      | zero =>
        rcases hpk with h | h <;>
          simp [compileLoop.eq_2, declaration.eq_2, statement.eq_1, matchTok, check, h]
      | succ f3 =>
        rcases hpk with h | h <;>
          simp [compileLoop.eq_2, declaration.eq_2, statement.eq_2, matchTok, check, h, hadv]

theorem primed_eq (t : Token) (l : List Token) (env : Ctx) (ht : t.type ≠ .TOKEN_ERROR) :
    primed (t :: l) env =
      { env with
        compiler := CompilerInit env.compiler,
        parser := { env.parser with panicMode := false, hadError := false,
                                    previous := env.parser.current, current := t,
                                    scanner := l } } := by
  simp [primed, ParserInit, parserAdvance, scanLoop, ScannerScan, ht]

theorem Compile_eq (fuel : Nat) (source : List Token) (env : Ctx) :
    Compile fuel source env =
      match compileLoop fuel (primed source env) with
      | .fault e => .fault e
      | .ok s =>
        .ok (!(endCompiler (consume s .TOKEN_EOF "Expected end of expression")).parser.hadError,
          endCompiler (consume s .TOKEN_EOF "Expected end of expression")) := rfl

theorem operand_rule (k : TokType) (h : isOperand k = true) :
    (getRule k).acceptedTokens = TOKEN_ALL ∧
    ((getRule k).prefixRule = some .number ∨ (getRule k).prefixRule = some .string ∨
      (getRule k).prefixRule = some .literal ∨ (getRule k).prefixRule = some .identifier) := by
  cases k <;> first | (exfalso; revert h; decide) | exact ⟨rfl, by decide⟩

/-- An operand handler at top level leaves the position alone, or reports. -/
theorem operand_handler (fuel : Nat) (f : ParseFunc) (s s2 : Ctx)
    (hf : f = .number ∨ f = .string ∨ f = .literal ∨ f = .identifier)
    (hp : s.parser.panicMode = false) (hl : s.compiler.locals = [])
    (h : callParseFunc fuel f s = .ok s2) :
    s2.parser.panicMode = true ∨
      (s2.parser.panicMode = false ∧ s2.parser.current = s.parser.current ∧
        s2.parser.scanner = s.parser.scanner ∧ s2.compiler = s.compiler) := by
  cases fuel with
  | zero => rw [callParseFunc.eq_1] at h; cases h
  | succ f3 =>
    rcases hf with rfl | rfl | rfl | rfl <;> rw [callParseFunc] at h
    · injection h with h; subst h
      rw [number_parserSame]
      exact Or.inr ⟨hp, rfl, rfl, by simp [number, emitConstant, emitInstructions, makeConstant_eq]⟩
    · injection h with h; subst h
      rw [string_parserSame]
      exact Or.inr ⟨hp, rfl, rfl, string_compiler _⟩
    · injection h with h; subst h
      rw [literal_parserSame]
      exact Or.inr ⟨hp, rfl, rfl, literal_compiler _⟩
    · cases f3 with
      | zero => rw [identifier.eq_1] at h; cases h
      | succ f4 =>
        rw [identifier.eq_2] at h
        cases f4 with
        | zero => rw [namedVariable.eq_1] at h; cases h
        | succ f5 =>
          rw [namedVariable.eq_2] at h
          simp only [] at h
          rw [resolveLocal_not_found _ _ (by simp [hl])] at h
          simp only [ne_eq, not_true_eq_false, if_false] at h
          have hread : ∀ (u : Ctx), u.parser.panicMode = false →
              (ijoStringDelete
                (match TableFindInternalEntry
                    (CStringCopy u u.parser.previous.lexeme).2.interned
                    (CStringCopy u u.parser.previous.lexeme).1 with
                | some entry =>
                  emitConstant (CStringCopy u u.parser.previous.lexeme).2 entry.value
                | none => (CStringCopy u u.parser.previous.lexeme).2)
                (CStringCopy u u.parser.previous.lexeme).1).parser.panicMode = false ∧
              (ijoStringDelete
                (match TableFindInternalEntry
                    (CStringCopy u u.parser.previous.lexeme).2.interned
                    (CStringCopy u u.parser.previous.lexeme).1 with
                | some entry =>
                  emitConstant (CStringCopy u u.parser.previous.lexeme).2 entry.value
                | none => (CStringCopy u u.parser.previous.lexeme).2)
                (CStringCopy u u.parser.previous.lexeme).1).parser.current = u.parser.current ∧
              (ijoStringDelete
                (match TableFindInternalEntry
                    (CStringCopy u u.parser.previous.lexeme).2.interned
                    (CStringCopy u u.parser.previous.lexeme).1 with
                | some entry =>
                  emitConstant (CStringCopy u u.parser.previous.lexeme).2 entry.value
                | none => (CStringCopy u u.parser.previous.lexeme).2)
                (CStringCopy u u.parser.previous.lexeme).1).parser.scanner = u.parser.scanner ∧
              (ijoStringDelete
                (match TableFindInternalEntry
                    (CStringCopy u u.parser.previous.lexeme).2.interned
                    (CStringCopy u u.parser.previous.lexeme).1 with
                | some entry =>
                  emitConstant (CStringCopy u u.parser.previous.lexeme).2 entry.value
                | none => (CStringCopy u u.parser.previous.lexeme).2)
                (CStringCopy u u.parser.previous.lexeme).1).compiler = u.compiler := by
            intro u hu1
            simp only [ijoStringDelete, CStringCopy]
            split <;> simp [emitConstant, emitInstructions, makeConstant_eq, hu1]
          split at h
          · split at h
            · injection h with h; subst h
              exact Or.inl (errorAtCurrent_panicMode _ _)
            · injection h with h; subst h
              exact Or.inr (hread _ hp)
          · split at h
            · rename_i hc; simp at hc
            · injection h with h; subst h
              exact Or.inr (hread _ hp)

theorem errStep_panic {a b : Ctx} (h : errStep a b) (hp : a.parser.panicMode = true) :
    b.parser.panicMode = true := by
  rcases h with ⟨h1, _, _⟩ | ⟨h1, _, _, _⟩
  · rw [h1]; exact hp
  · rw [hp] at h1; cases h1

theorem binary_inv (f : Nat) (s s2 : Ctx) (h : binary (f + 1) s = .ok s2) :
    ∃ r2, parsePrecedence f ((getRule s.parser.previous.type).precedence + 1) s = .ok r2 ∧
      s2.parser = r2.parser ∧ s2.compiler = r2.compiler := by
  rw [binary.eq_2] at h
  split at h
  · cases h
  · rename_i r2 hr2
    refine ⟨r2, hr2, ?_⟩
    split at h <;> injection h with h <;> subst h <;> exact ⟨rfl, rfl⟩

theorem loop_exit (fuel p : Nat) (s r : Ctx) (hp : 1 ≤ p)
    (hc : (getRule s.parser.current.type).precedence = PREC_NONE)
    (h : parsePrecedenceLoop fuel p s = .ok r) : r = s := by
  cases fuel with
  | zero => rw [parsePrecedenceLoop.eq_1] at h; cases h
  | succ f =>
    rw [parsePrecedenceLoop.eq_2, hc] at h
    have : ¬ p ≤ PREC_NONE := by simp only [PREC_NONE]; omega
    simp only [this, if_false] at h
    injection h with h; exact h.symm

theorem print_precedence (w0 : Token)
    (hw : w0.type = .TOKEN_PRINT ∨ w0.type = .TOKEN_PRINTLN) :
    (getRule w0.type).precedence = PREC_NONE := by
  rcases hw with h | h <;> rw [h] <;> rfl

/-- An operator at the end of the line takes the end-of-line as its right
operand: the engine returns with the first token of the next line current. -/
theorem dangling_anchor (eol w0 : Token) (rest : List Token) (heol : eol.type = .TOKEN_EOL)
    (hw : w0.type = .TOKEN_PRINT ∨ w0.type = .TOKEN_PRINTLN)
    (fuel p : Nat) (s r : Ctx) (hp : 1 ≤ p) (hpm : s.parser.panicMode = false)
    (hcur : s.parser.current = eol) (hsc : s.parser.scanner = w0 :: rest)
    (h : parsePrecedence fuel p s = .ok r) :
    r.parser.panicMode = false ∧ r.parser.current = w0 := by
  have hwe : w0.type ≠ .TOKEN_ERROR := by rcases hw with e | e <;> rw [e] <;> decide
  have hadv : parserAdvance s = { s with parser := { s.parser with
      previous := s.parser.current, current := w0, scanner := rest } } := by
    simp [parserAdvance, hsc, scanLoop, ScannerScan, hwe]
  cases fuel with
  | zero => rw [parsePrecedence.eq_1] at h; cases h
  | succ f =>
    rw [parsePrecedence.eq_2] at h
    simp only [hadv, hcur, heol] at h
    have hacc : HAS_ENUM w0.type (getRule .TOKEN_EOL).acceptedTokens = true := rfl
    have hpre : (getRule .TOKEN_EOL).prefixRule = some .noop := rfl
    simp only [hacc, hpre, Bool.not_true, Bool.false_eq_true, if_false] at h
    cases f with
    | zero => rw [callParseFunc.eq_1] at h; cases h
    | succ f1 =>
      rw [callParseFunc] at h
      simp only [noop] at h
      have := loop_exit _ _ _ _ hp (print_precedence w0 hw) h
      subst this
      exact ⟨hpm, rfl⟩

theorem stoppedShort_mono {eol w0 : Token} {rest : List Token} {n m : Nat} {r : Ctx}
    (h : stoppedShort eol w0 rest n r) (hnm : n ≤ m) : stoppedShort eol w0 rest m r := by
  rcases h with h | ⟨l, hl, h⟩ | h
  · exact Or.inl h
  · exact Or.inr (Or.inl ⟨l, le_trans hl hnm, h⟩)
  · exact Or.inr (Or.inr h)

theorem atLine_transfer {eol w0 : Token} {rest l : List Token} {a b : Ctx}
    (h : atLine eol w0 rest l a) (hp : b.parser = a.parser) (hc : b.compiler = a.compiler) :
    atLine eol w0 rest l b := by
  unfold atLine at *
  rw [hp, hc]; exact h

/-- On a line that alternates operands and binary operators until an operand
is followed by something that is no binary operator, or until an operator
ends the line, the engine stops in panic mode, inside the line, or on the
first token of the next line. -/
theorem alternating_line (eol w0 : Token) (rest : List Token) (heol : eol.type = .TOKEN_EOL)
    (hw : w0.type = .TOKEN_PRINT ∨ w0.type = .TOKEN_PRINTLN) (n : Nat) :
    (∀ l fuel p s r, l.length ≤ n → 1 ≤ p → atLine eol w0 rest l s →
      parsePrecedenceLoop fuel p s = .ok r → stoppedShort eol w0 rest l.length r) ∧
    (∀ l fuel p s r, l.length ≤ n → 1 ≤ p → s.parser.panicMode = false →
      s.compiler.locals = [] → isOperand s.parser.current.type = true →
      s.parser.scanner = l ++ eol :: w0 :: rest → (∀ t ∈ l, plainToken t = true) →
      afterOperand l = true →
      parsePrecedence fuel p s = .ok r → stoppedShort eol w0 rest l.length r) := by
  induction n with
  | zero =>
    constructor
    · intro l fuel p s r hl _ hat _
      have : l = [] := List.length_eq_zero.mp (Nat.le_zero.mp hl)
      subst this
      have := hat.2.2.2.2
      simp [afterOperand] at this
    · intro l fuel p s r hl _ _ _ _ _ _ haft _
      have : l = [] := List.length_eq_zero.mp (Nat.le_zero.mp hl)
      subst this
      simp [afterOperand] at haft
  | succ n ih =>
    have hloop : ∀ l fuel p s r, l.length ≤ n + 1 → 1 ≤ p → atLine eol w0 rest l s →
        parsePrecedenceLoop fuel p s = .ok r → stoppedShort eol w0 rest l.length r := by
      intro l fuel p s r hl hp hat h
      obtain ⟨hpm, hloc, hstream, hplain, haft⟩ := hat
      cases l with
      | nil => simp [afterOperand] at haft
      | cons b l' =>
        have hcur : s.parser.current = b := by injection hstream
        have hscan : s.parser.scanner = l' ++ eol :: w0 :: rest := by injection hstream
        cases fuel with
        | zero => rw [parsePrecedenceLoop.eq_1] at h; cases h
        | succ f =>
          rw [parsePrecedenceLoop.eq_2] at h
          by_cases hcond : p ≤ (getRule s.parser.current.type).precedence
          · simp only [hcond, if_true] at h
            have hb1 : 1 ≤ (getRule b.type).precedence := by rw [← hcur]; omega
            have hbin : isBinaryOp b.type = true := by
              simp only [isBinaryOp, PREC_ASSIGNMENT, decide_eq_true_eq]; exact hb1
            cases l' with
            | nil =>
              have hadv : parserAdvance s = { s with parser := { s.parser with
                  previous := s.parser.current, current := eol, scanner := w0 :: rest } } := by
                simp [parserAdvance, hscan, scanLoop, ScannerScan, heol]
              simp only [hadv, hcur, getRule_infix_of_precedence _ hb1] at h
              split at h
              · cases h
              · rename_i s2 hs2
                cases f with
                | zero => rw [callParseFunc.eq_1] at hs2; cases hs2
                | succ f1 =>
                  rw [callParseFunc] at hs2
                  cases f1 with
                  | zero => rw [binary.eq_1] at hs2; cases hs2
                  | succ f2 =>
                    obtain ⟨r2, hr2, hp2, _⟩ := binary_inv _ _ _ hs2
                    have hd : r2.parser.panicMode = false ∧ r2.parser.current = w0 := by
                      refine dangling_anchor eol w0 rest heol hw _ _ _ _ ?_ ?_ ?_ ?_ hr2
                      · exact Nat.succ_le_succ (Nat.zero_le _)
                      · exact hpm
                      · rfl
                      · rfl
                    have hex := loop_exit _ _ _ _ hp
                      (by rw [hp2, hd.2]; exact print_precedence w0 hw) h
                    subst hex
                    exact Or.inr (Or.inr ⟨by rw [hp2]; exact hd.1, by rw [hp2]; exact hd.2⟩)
            | cons o l'' =>
              have ho := plainToken_kind (hplain o (by simp))
              have hadv : parserAdvance s = { s with parser := { s.parser with
                  previous := s.parser.current, current := o,
                  scanner := l'' ++ eol :: w0 :: rest } } := by
                simp [parserAdvance, hscan, scanLoop, ScannerScan, ho.2.2.1]
              have haft2 : isOperand o.type = true ∧ afterOperand l'' = true := by
                simpa [afterOperand, hbin] using haft
              simp only [hadv, hcur, getRule_infix_of_precedence _ hb1] at h
              split at h
              · cases h
              · rename_i s2 hs2
                cases f with
                | zero => rw [callParseFunc.eq_1] at hs2; cases hs2
                | succ f1 =>
                  rw [callParseFunc] at hs2
                  cases f1 with
                  | zero => rw [binary.eq_1] at hs2; cases hs2
                  | succ f2 =>
                    obtain ⟨r2, hr2, hp2, hc2⟩ := binary_inv _ _ _ hs2
                    have hlen : l''.length ≤ n := by
                      simp only [List.length_cons] at hl; omega
                    have hst : stoppedShort eol w0 rest l''.length r2 := by
                      refine ih.2 l'' _ _ _ _ hlen ?_ ?_ ?_ ?_ ?_
                        (fun t ht => hplain t (by simp [ht])) haft2.2 hr2
                      · exact Nat.succ_le_succ (Nat.zero_le _)
                      · exact hpm
                      · exact hloc
                      · exact haft2.1
                      · rfl
                    rcases hst with hpan | ⟨l2, hl2, hat2⟩ | hend
                    · exact Or.inl (errStep_panic
                        ((expression_family_errStep _).2.1 _ _ _ h) (by rw [hp2]; exact hpan))
                    · have hat3 := atLine_transfer hat2 hp2 hc2
                      have := ih.1 l2 _ _ _ _ (le_trans hl2 hlen) hp hat3 h
                      exact stoppedShort_mono this (by
                        simp only [List.length_cons]; omega)
                    · have hex := loop_exit _ _ _ _ hp
                        (by rw [hp2, hend.2]; exact print_precedence w0 hw) h
                      subst hex
                      exact Or.inr (Or.inr ⟨by rw [hp2]; exact hend.1, by rw [hp2]; exact hend.2⟩)
          · simp only [hcond, if_false] at h
            injection h with h; subst h
            exact Or.inr (Or.inl ⟨_, le_refl _, hpm, hloc, hstream, hplain, haft⟩)
    refine ⟨hloop, ?_⟩
    intro l fuel p s r hl hp hpm hloc hop hscan hplain haft h
    cases l with
    | nil => simp [afterOperand] at haft
    | cons t l' =>
      have ht := plainToken_kind (hplain t (by simp))
      have hadv : parserAdvance s = { s with parser := { s.parser with
          previous := s.parser.current, current := t,
          scanner := l' ++ eol :: w0 :: rest } } := by
        simp [parserAdvance, hscan, scanLoop, ScannerScan, ht.2.2.1]
      obtain ⟨hacc, hpre⟩ := operand_rule _ hop
      cases fuel with
      | zero => rw [parsePrecedence.eq_1] at h; cases h
      | succ f =>
        rw [parsePrecedence.eq_2] at h
        simp only [hadv, hacc, HAS_ENUM, TOKEN_ALL, Bool.not_true, Bool.false_eq_true,
          if_false] at h
        split at h
        · rename_i hnone
          rcases hpre with e | e | e | e <;> rw [e] at hnone <;> cases hnone
        · rename_i fn hfn
          split at h
          · cases h
          · rename_i s2 hs2
            have hfn' : fn = .number ∨ fn = .string ∨ fn = .literal ∨ fn = .identifier := by
              rcases hpre with e | e | e | e <;> rw [e] at hfn <;> injection hfn with hfn <;>
                simp [← hfn]
            have hoh := operand_handler _ _ _ _ hfn' (by exact hpm) (by exact hloc) hs2
            rcases hoh with hpan | ⟨h1, h2, h3, h4⟩
            · exact Or.inl (errStep_panic ((expression_family_errStep _).2.1 _ _ _ h) hpan)
            · exact hloop (t :: l') _ _ _ _ hl hp
                ⟨h1, by rw [h4]; exact hloc, by rw [h2, h3]; rfl, hplain, haft⟩ h

/-- The engine leaves a malformed line in panic mode or before its end-of-line. -/
theorem malformed_line_expression (eol w0 : Token) (rest : List Token)
    (heol : eol.type = .TOKEN_EOL) (hw : w0.type = .TOKEN_PRINT ∨ w0.type = .TOKEN_PRINTLN)
    (f : Nat) (s r : Ctx) (m0 : Token) (M : List Token)
    (hcur : s.parser.current = m0) (hsc : s.parser.scanner = M ++ eol :: w0 :: rest)
    (hM : ∀ t ∈ M, plainToken t = true)
    (hp : s.parser.panicMode = false) (hl : s.compiler.locals = [])
    (hm : malformedLine (m0 :: M) = true)
    (h : expression f s = .ok r) :
    r.parser.panicMode = true ∨ r.parser.current.type ≠ .TOKEN_EOL := by
  cases M with
  | nil => simp [malformedLine] at hm
  | cons t M' =>
    simp only [malformedLine, Bool.or_eq_true, Bool.and_eq_true] at hm
    rcases hm with hm | ⟨hop, haft⟩
    · exact malformed_start_expression f s r t (M' ++ eol :: w0 :: rest) hsc (hM t (by simp))
        (by rw [hcur]; exact hm) h
    · cases f with
      | zero => rw [expression.eq_1] at h; cases h
      | succ f1 =>
        rw [expression.eq_2] at h
        have hst := (alternating_line eol w0 rest heol hw (t :: M').length).2 (t :: M') _ _ _ _
          (le_refl _) (by simp [PREC_ASSIGNMENT]) hp hl (by rw [hcur]; exact hop) hsc hM haft h
        rcases hst with hpan | ⟨l, _, hat⟩ | hend
        · exact Or.inl hpan
        · right
          obtain ⟨_, _, hstream, hplain, haft2⟩ := hat
          cases l with
          | nil => simp [afterOperand] at haft2
          | cons c l' =>
            have hc : r.parser.current = c := by injection hstream
            rw [hc]
            exact (plainToken_kind (hplain c (by simp))).1
        · right
          rw [hend.2]
          rcases hw with e | e <;> rw [e] <;> decide

set_option maxHeartbeats 1000000 in
theorem malformed_then_rest (F : Nat) (m0 : Token) (M : List Token) (eol pk : Token)
    (rest : List Token) (env ra : Ctx)
    (hm0 : plainToken m0 = true)
    (hstart : m0.type ≠ .TOKEN_VAR ∧ m0.type ≠ .TOKEN_PRINTLN ∧ m0.type ≠ .TOKEN_LEFT_BRACE)
    (hM : ∀ t ∈ M, plainToken t = true) (heol : eol.type = .TOKEN_EOL)
    (hpk : pk.type = .TOKEN_PRINT ∨ pk.type = .TOKEN_PRINTLN)
    (hkinds : ∀ t ∈ rest, t.type ≠ .TOKEN_LEFT_BRACE ∧ t.type ≠ .TOKEN_VAR ∧
      t.type ≠ .TOKEN_CONST)
    (hnames : ∀ t ∈ rest, t.type = .TOKEN_IDENTIFIER →
      ∀ u ∈ m0 :: M, u.type = .TOKEN_STRING → trimQuotes u.lexeme ≠ t.lexeme)
    (hF : 4 * M.length + 12 ≤ F)
    (halone : Compile F (pk :: rest) env = .ok (true, ra)) :
    ∃ r' r1 rb, expression (F - 2) (primed (m0 :: M ++ eol :: pk :: rest) env) = .ok r' ∧
      declaration F (primed (m0 :: M ++ eol :: pk :: rest) env) = .ok r1 ∧
      Compile (F + 1) (m0 :: M ++ eol :: pk :: rest) env = .ok (!r1.parser.hadError, rb) ∧
      errorsRecorded rb.console = errorsRecorded r1.console ∧
      rb.chunk.code = r1.chunk.code ++
        (ra.chunk.code.drop env.chunk.code.length).map
          (shiftOperand env.chunk.constants.length r1.chunk.constants.length) ∧
      ((r1.parser.hadError = false ∧
          errorsRecorded r1.console = errorsRecorded env.console) ∨
        (r1.parser.hadError = true ∧
          errorsRecorded r1.console = errorsRecorded env.console + 1)) ∧
      (r1.parser.hadError = true ↔
        (r'.parser.panicMode = true ∨ r'.parser.current.type ≠ .TOKEN_EOL)) ∧
      (malformedLine (m0 :: M) = true → r1.parser.hadError = true) := by
  obtain ⟨f, rfl⟩ : ∃ f, F = f + 2 := ⟨F - 2, by omega⟩
  have hk0 := plainToken_kind hm0
  have hpke : pk.type ≠ .TOKEN_ERROR := by rcases hpk with h | h <;> rw [h] <;> decide
  have hpkf : pk.type ≠ .TOKEN_EOF := by rcases hpk with h | h <;> rw [h] <;> decide
  have hB : primed (m0 :: M ++ eol :: pk :: rest) env =
      { env with
        compiler := CompilerInit env.compiler,
        parser := { env.parser with panicMode := false, hadError := false,
                                    previous := env.parser.current, current := m0,
                                    scanner := M ++ eol :: pk :: rest } } :=
    primed_eq m0 (M ++ eol :: pk :: rest) env hk0.2.2.1
  have hA := primed_eq pk rest env hpke
  obtain ⟨hz, hcur0, hp0, he0, hc0⟩ := primed_line m0 M eol pk rest env hm0 hM
  -- the first line
  obtain ⟨r1, hd, hz1, hp1, herr⟩ := declaration_line_recovers eol pk rest heol hpk
    M.length (primed (m0 :: M ++ eol :: pk :: rest) env) (f + 2) hz
    (by rw [hcur0]; exact hstart) hp0 (by omega)
  obtain ⟨r', m, r1', hexp, hzr', -, hd', hcomp, hint, hrep, hquiet⟩ := declaration_line_state eol pk
    rest heol hpk M.length (primed (m0 :: M ++ eol :: pk :: rest) env) f hz
    (by rw [hcur0]; exact hstart) hp0 (by omega)
  rw [hd] at hd'
  injection hd' with hd'
  subst hd'
  obtain ⟨hprev1, hcur1, hsc1⟩ := hz1.1
  rw [he0, hc0] at herr
  -- the table after the first line
  have hkeys : ∀ t ∈ rest, t.type = .TOKEN_IDENTIFIER →
      hasKey r1.interned t.lexeme = hasKey env.interned t.lexeme := by
    intro t ht hti
    rw [hint]
    have := line_keys eol pk rest hpkf t.lexeme f m _ r' (m0 :: M ++ [eol]) hexp hzr'
      (by rw [hB]; simp) (by
        intro u hu hus
        simp only [List.cons_append, List.mem_cons, List.mem_append, List.mem_singleton,
          List.not_mem_nil, or_false] at hu
        rcases hu with hu | hu | hu
        · exact hnames t ht hti u (by rw [hu]; simp) hus
        · exact hnames t ht hti u (by simp [hu]) hus
        · rw [hu, heol] at hus; cases hus)
    rw [this, hB]
  -- the two runs of the rest of the program, side by side
  have hR : alongside env.chunk.code r1.chunk.code env.chunk.constants.length
      r1.chunk.constants.length (errorsRecorded r1.console) r1.parser.hadError
      { primed (pk :: rest) env with
        parser := { (primed (pk :: rest) env).parser with previous := eol } } r1 := by
    rw [hA]
    refine ⟨hcur1, hprev1, hsc1, hp1, by simp, ?_, rfl, ⟨[], by simp, by simp⟩,
      ⟨0, rfl, rfl⟩, fun _ => rfl, ?_, ?_⟩
    · rw [hcomp, hB]
    · intro t ht hti
      simp only [List.mem_cons] at ht
      rcases ht with ht | ht | ht
      · rw [ht, heol] at hti; cases hti
      · rw [ht] at hti; rcases hpk with h | h <;> rw [h] at hti <;> cases hti
      · exact hkeys t ht hti
    · intro t ht
      simp only [List.mem_cons] at ht
      rcases ht with ht | ht
      · rw [ht]; rcases hpk with h | h <;> rw [h] <;> exact ⟨by decide, by decide, by decide⟩
      · exact hkinds t ht
  have hsim := alongside_compileLoop (f + 2) _ _ hR
  rw [compileLoop_previous (f + 2) (primed (pk :: rest) env) eol
    (by rw [hA]; exact hpk)] at hsim
  -- the run of the rest alone
  rw [Compile_eq] at halone
  cases hla : compileLoop (f + 2) (primed (pk :: rest) env) with
  | fault e => rw [hla] at halone; cases halone
  | ok a2 =>
    rw [hla] at halone hsim
    simp only [] at halone
    injection halone with halone
    injection halone with hflag hra
    cases hlb : compileLoop (f + 2) r1 with
    | fault e => rw [hlb] at hsim; exact absurd hsim id
    | ok b2 =>
      rw [hlb] at hsim
      have hR2 : alongside env.chunk.code r1.chunk.code env.chunk.constants.length
          r1.chunk.constants.length (errorsRecorded r1.console) r1.parser.hadError a2 b2 := hsim
      have hR3 := alongside_emitInstruction
        (alongside_consume hR2 .TOKEN_EOF "Expected end of expression") .OP_RETURN
      have hR4 : alongside env.chunk.code r1.chunk.code env.chunk.constants.length
          r1.chunk.constants.length (errorsRecorded r1.console) r1.parser.hadError ra
          (endCompiler (consume b2 .TOKEN_EOF "Expected end of expression")) := by
        rw [← hra]; exact hR3
      have hraE : ra.parser.hadError = false := by
        rw [← hra]
        simpa using hflag
      obtain ⟨-, -, -, -, q5, -, -, ⟨w, hw1, hw2⟩, -, q10, -, -⟩ := hR4
      have hloop : compileLoop (f + 2 + 1) (primed (m0 :: M ++ eol :: pk :: rest) env) =
          .ok b2 :=
        compileLoop_declaration (f + 2) _ r1 b2 (by rw [hcur0]; exact hk0.2.1) hd hlb
      refine ⟨r', r1, endCompiler (consume b2 .TOKEN_EOF "Expected end of expression"),
        by simpa using hexp, hd, ?_, q10 hraE, ?_, herr, ?_, ?_⟩
      · rw [Compile_eq, hloop]
        simp only []
        rw [q5, hraE, Bool.false_or]
      · rw [hw2, hw1]
        simp
      · constructor
        · intro hE
          by_contra hcon
          have hcon' : r'.parser.panicMode = false ∧ r'.parser.current.type = .TOKEN_EOL := by
            constructor
            · cases hq : r'.parser.panicMode with
              | false => rfl
              | true => exact absurd (Or.inl hq) hcon
            · by_contra hq
              exact hcon (Or.inr hq)
          have := hquiet (by rw [hB]) hcon'.1 hcon'.2
          rw [hE] at this; cases this
        · exact hrep
      · intro hmal
        apply hrep
        exact malformed_line_expression eol pk rest heol hpk f _ r' m0 M hcur0
          (by rw [hB]) hM hp0 (by rw [hB]; rfl) hmal hexp

set_option maxHeartbeats 2000000 in
/-- C17, amended: let the first line M be an expression statement made of
tokens none of which is an end-of-line, the end of input, an error token or a
keyword at which recovery stops, and let the next line start with `print` or
`println`.  First: the first `declaration` returns with the parser out of
panic mode and standing on that keyword, nothing of the second line used up,
and it has recorded exactly one error when it set `hadError` and none
otherwise.  Second: when the second line is the keyword, a number literal and
an end-of-line, `Compile` returns the negation of that flag, no error is
recorded after the first line, and the code of the second line is its constant
load, indexed by the pool size the first line left, then the print opcode.
Third: let what follows the first line be any tokens W that start with `print`
or `println`, hold no `{`, `var` or `const`, read no name spelled like the
content of a string literal of M, and compile on their own with result `true`,
to the state `ra`.  Then `Compile` on M, end-of-line, W returns the negation
of the flag of the first line, no error is recorded after the first line, and
the code emitted for W is the code W emits on its own with every constant
operand shifted by the number of constants M left in the pool.  The first line
is reported exactly when `expression` stops on it in panic mode or before the
end-of-line; and it is reported, so that `Compile` returns `false` with
exactly one error recorded, for every M that `malformedLine` recognises. -/
theorem malformed_line_then_print :
    (∀ (fuel : Nat) (m0 : Token) (M : List Token) (eol pk : Token) (rest : List Token)
        (env : Ctx),
      plainToken m0 = true →
      (m0.type ≠ .TOKEN_VAR ∧ m0.type ≠ .TOKEN_PRINTLN ∧ m0.type ≠ .TOKEN_LEFT_BRACE) →
      (∀ t ∈ M, plainToken t = true) → eol.type = .TOKEN_EOL →
      (pk.type = .TOKEN_PRINT ∨ pk.type = .TOKEN_PRINTLN) →
      ∃ r1, declaration (fuel + 4 * M.length + 12) (primed (m0 :: M ++ eol :: pk :: rest) env)
          = .ok r1 ∧
        r1.parser.previous = eol ∧ r1.parser.current = pk ∧ r1.parser.scanner = rest ∧
        r1.parser.panicMode = false ∧
        ((r1.parser.hadError = false ∧
            errorsRecorded r1.console = errorsRecorded env.console) ∨
          (r1.parser.hadError = true ∧
            errorsRecorded r1.console = errorsRecorded env.console + 1))) ∧
    (∀ (fuel : Nat) (m0 : Token) (M : List Token) (eol pk num eol2 : Token) (env : Ctx),
      plainToken m0 = true →
      (m0.type ≠ .TOKEN_VAR ∧ m0.type ≠ .TOKEN_PRINTLN ∧ m0.type ≠ .TOKEN_LEFT_BRACE) →
      (∀ t ∈ M, plainToken t = true) → eol.type = .TOKEN_EOL →
      (pk.type = .TOKEN_PRINT ∨ pk.type = .TOKEN_PRINTLN) →
      num.type = .TOKEN_NUMBER → eol2.type = .TOKEN_EOL →
      ∃ r1 final,
        declaration (fuel + 4 * M.length + 12) (primed (m0 :: M ++ [eol, pk, num, eol2]) env)
          = .ok r1 ∧
        Compile (fuel + 4 * M.length + 13) (m0 :: M ++ [eol, pk, num, eol2]) env
          = .ok (!r1.parser.hadError, final) ∧
        errorsRecorded final.console = errorsRecorded r1.console ∧
        final.chunk.code = r1.chunk.code ++ loadWords r1.chunk.constants.length ++
          [.op (printOpcode pk.type), .op .OP_RETURN]) ∧
    (∀ (F : Nat) (m0 : Token) (M : List Token) (eol pk : Token) (rest : List Token)
        (env ra : Ctx),
      plainToken m0 = true →
      (m0.type ≠ .TOKEN_VAR ∧ m0.type ≠ .TOKEN_PRINTLN ∧ m0.type ≠ .TOKEN_LEFT_BRACE) →
      (∀ t ∈ M, plainToken t = true) → eol.type = .TOKEN_EOL →
      (pk.type = .TOKEN_PRINT ∨ pk.type = .TOKEN_PRINTLN) →
      (∀ t ∈ rest, t.type ≠ .TOKEN_LEFT_BRACE ∧ t.type ≠ .TOKEN_VAR ∧ t.type ≠ .TOKEN_CONST) →
      (∀ t ∈ rest, t.type = .TOKEN_IDENTIFIER →
        ∀ u ∈ m0 :: M, u.type = .TOKEN_STRING → trimQuotes u.lexeme ≠ t.lexeme) →
      4 * M.length + 12 ≤ F →
      Compile F (pk :: rest) env = .ok (true, ra) →
      ∃ r' r1 rb,
        expression (F - 2) (primed (m0 :: M ++ eol :: pk :: rest) env) = .ok r' ∧
        declaration F (primed (m0 :: M ++ eol :: pk :: rest) env) = .ok r1 ∧
        Compile (F + 1) (m0 :: M ++ eol :: pk :: rest) env = .ok (!r1.parser.hadError, rb) ∧
        errorsRecorded rb.console = errorsRecorded r1.console ∧
        rb.chunk.code = r1.chunk.code ++
          (ra.chunk.code.drop env.chunk.code.length).map
            (shiftOperand env.chunk.constants.length r1.chunk.constants.length) ∧
        ((r1.parser.hadError = false ∧
            errorsRecorded r1.console = errorsRecorded env.console) ∨
          (r1.parser.hadError = true ∧
            errorsRecorded r1.console = errorsRecorded env.console + 1)) ∧
        (r1.parser.hadError = true ↔
          (r'.parser.panicMode = true ∨ r'.parser.current.type ≠ .TOKEN_EOL)) ∧
        (malformedLine (m0 :: M) = true →
          r1.parser.hadError = true ∧
          Compile (F + 1) (m0 :: M ++ eol :: pk :: rest) env = .ok (false, rb) ∧
          errorsRecorded rb.console = errorsRecorded env.console + 1)) := by
  refine ⟨?_, ?_, ?_⟩
  · intro fuel m0 M eol pk rest env hm0 hstart hM heol hpk
    obtain ⟨hz, hcur0, hp0, he0, hc0⟩ := primed_line m0 M eol pk rest env hm0 hM
    obtain ⟨r1, hd, hz1, hp1, herr⟩ := declaration_line_recovers eol pk rest heol hpk
      M.length (primed (m0 :: M ++ eol :: pk :: rest) env) (fuel + 4 * M.length + 12) hz
      (by rw [hcur0]; exact hstart) hp0 (by omega)
    refine ⟨r1, hd, hz1.1.1, hz1.1.2.1, hz1.1.2.2, hp1, ?_⟩
    rw [he0, hc0] at herr
    exact herr
  · intro fuel m0 M eol pk num eol2 env hm0 hstart hM heol hpk hnum heol2
    obtain ⟨hz, hcur0, hp0, he0, hc0⟩ := primed_line m0 M eol pk [num, eol2] env hm0 hM
    obtain ⟨r1, hd, hz1, hp1, -⟩ := declaration_line_recovers eol pk [num, eol2] heol hpk
      M.length (primed (m0 :: M ++ [eol, pk, num, eol2]) env) (fuel + 4 * M.length + 12) hz
      (by rw [hcur0]; exact hstart) hp0 (by omega)
    obtain ⟨-, hcur1, hsc1⟩ := hz1.1
    obtain ⟨r2, hl, hcode, hhe, hcon, hceof, hsc2⟩ := compileLoop_print_number
      (fuel + 4 * M.length + 3) r1 pk num eol2 hcur1 hsc1 hpk hnum heol2 hp1
    have hloop : compileLoop (fuel + 4 * M.length + 13)
        (primed (m0 :: M ++ [eol, pk, num, eol2]) env) = .ok r2 :=
      compileLoop_declaration (fuel + 4 * M.length + 12) _ r1 r2
        (by rw [hcur0]; exact (plainToken_kind hm0).2.1) hd hl
    have hfin : Compile (fuel + 4 * M.length + 13) (m0 :: M ++ [eol, pk, num, eol2]) env =
        .ok (!r2.parser.hadError, endCompiler (parserAdvance r2)) := by
      have : Compile (fuel + 4 * M.length + 13) (m0 :: M ++ [eol, pk, num, eol2]) env =
          match compileLoop (fuel + 4 * M.length + 13)
              (primed (m0 :: M ++ [eol, pk, num, eol2]) env) with
          | .fault e => .fault e
          | .ok s => .ok (!(endCompiler (consume s .TOKEN_EOF "Expected end of expression")).parser.hadError,
              endCompiler (consume s .TOKEN_EOF "Expected end of expression")) := rfl
      rw [this, hloop]
      simp [consume, hceof, endCompiler, emitReturn, parserAdvance, hsc2, scanLoop, ScannerScan]
    refine ⟨r1, endCompiler (parserAdvance r2), hd, ?_, ?_, ?_⟩
    · rw [hfin, hhe]
    · simp [endCompiler, emitReturn, parserAdvance, hsc2, scanLoop, ScannerScan, hcon]
    · simp [endCompiler, emitReturn, parserAdvance, hsc2, scanLoop, ScannerScan, ChunkWriteCode,
        hcode]
  · intro F m0 M eol pk rest env ra hm0 hstart hM heol hpk hkinds hnames hF halone
    obtain ⟨r', r1, rb, h1, h2, h3, h4, h5, h6, h7, h8⟩ :=
      malformed_then_rest F m0 M eol pk rest env ra hm0 hstart hM heol hpk hkinds hnames hF
        halone
    refine ⟨r', r1, rb, h1, h2, h3, h4, h5, h6, h7, fun hm => ?_⟩
    have hE := h8 hm
    refine ⟨hE, ?_, ?_⟩
    · rw [h3, hE]; rfl
    · rcases h6 with ⟨a, _⟩ | ⟨_, b⟩
      · rw [hE] at a; cases a
      · rw [h4, b]

set_option maxHeartbeats 4000000 in
set_option maxRecDepth 100000 in
/-- The lines `1 2` and `print 5`: the first line is recognised as malformed,
one error is recorded, `Compile` returns `false`, and the print is compiled
with its load moved to pool index 1. -/
theorem malformed_line_then_print_witness :
    (returned (Compile 17 oneErrorLines emptyCtx) = some false ∧
    (finalState (Compile 17 oneErrorLines emptyCtx)).map
      (fun s => (errorsRecorded s.console, s.chunk.code)) =
      some (1, [.op .OP_CONSTANT, .operand 0, .op .OP_POP,
        .op .OP_CONSTANT, .operand 1, .op .OP_PRINT, .op .OP_RETURN]) ∧
    ∃ r1 final,
      declaration 16 (primed oneErrorLines emptyCtx) = .ok r1 ∧
      Compile 17 oneErrorLines emptyCtx = .ok (!r1.parser.hadError, final) ∧
      errorsRecorded final.console = errorsRecorded r1.console ∧
      final.chunk.code = r1.chunk.code ++ loadWords r1.chunk.constants.length ++
        [.op (printOpcode TokType.TOKEN_PRINT), .op .OP_RETURN]) ∧
    (malformedLine [mkToken .TOKEN_NUMBER "1", mkToken .TOKEN_NUMBER "2"] = true ∧
      Compile 16 printFive emptyCtx =
        .ok (true, (finalState (Compile 16 printFive emptyCtx)).getD emptyCtx)) ∧
    ∃ r' r1 rb,
      expression (16 - 2) (primed oneErrorLines emptyCtx) = .ok r' ∧
      declaration 16 (primed oneErrorLines emptyCtx) = .ok r1 ∧
      Compile (16 + 1) oneErrorLines emptyCtx = .ok (!r1.parser.hadError, rb) ∧
      errorsRecorded rb.console = errorsRecorded r1.console ∧
      rb.chunk.code = r1.chunk.code ++
        (((finalState (Compile 16 printFive emptyCtx)).getD emptyCtx).chunk.code.drop
            emptyCtx.chunk.code.length).map
          (shiftOperand emptyCtx.chunk.constants.length r1.chunk.constants.length) ∧
      ((r1.parser.hadError = false ∧
          errorsRecorded r1.console = errorsRecorded emptyCtx.console) ∨
        (r1.parser.hadError = true ∧
          errorsRecorded r1.console = errorsRecorded emptyCtx.console + 1)) ∧
      (r1.parser.hadError = true ↔
        (r'.parser.panicMode = true ∨ r'.parser.current.type ≠ .TOKEN_EOL)) ∧
      (malformedLine [mkToken .TOKEN_NUMBER "1", mkToken .TOKEN_NUMBER "2"] = true →
        r1.parser.hadError = true ∧
        Compile (16 + 1) oneErrorLines emptyCtx = .ok (false, rb) ∧
        errorsRecorded rb.console = errorsRecorded emptyCtx.console + 1) :=
  ⟨⟨by decide, by decide,
    malformed_line_then_print.2.1 0 (mkToken .TOKEN_NUMBER "1") [mkToken .TOKEN_NUMBER "2"]
    (mkToken .TOKEN_EOL "\n") (mkToken .TOKEN_PRINT "print") (mkToken .TOKEN_NUMBER "5")
    (mkToken .TOKEN_EOL "\n") emptyCtx (by decide) (by decide) (by decide) rfl (Or.inl rfl)
    rfl rfl⟩,
   ⟨by decide, by decide⟩,
   malformed_line_then_print.2.2 16 (mkToken .TOKEN_NUMBER "1") [mkToken .TOKEN_NUMBER "2"]
    (mkToken .TOKEN_EOL "\n") (mkToken .TOKEN_PRINT "print")
    [mkToken .TOKEN_NUMBER "5", mkToken .TOKEN_EOL "\n"] emptyCtx
    ((finalState (Compile 16 printFive emptyCtx)).getD emptyCtx)
    (by decide) (by decide) (by decide) rfl (Or.inl rfl) (by decide) (by decide) (by decide)
    (by decide)⟩

end BLox
